import Mathlib

/-!
# Krojanty: the search engine (`ia.c`) and the rule layer (`jeu_logique.c`) as a shallow embedding

The C functions of `src/src/ia.c` and the capture functions of `src/src/jeu_logique.c`
are translated one by one.  A `Board` is the
`int pion[SIZE][SIZE]` matrix read as a function of two `int` indices; the C code
only reads or writes a cell after `in_bounds` succeeded, so cells outside the
9x9 square are never touched.  C `int` values are `Int` (no value in the engine
comes near the 32-bit limits), `uint64_t` keys are `Nat` reduced modulo `2^64`.
Global variables (`TT`, `Zobrist`, `Z_SIDE`, the two remembered moves) are passed
explicitly.  A pointer argument that the C code writes through (`Board *b`,
`Move *outBest`) is an input and an output of the translated function.

The file has two parts: the definitions (translation of the code, followed by the
vocabulary in which the specification is phrased), then the theorems.
-/

namespace Krojanty

/-! ## plateau.h / ia.h : constants and types -/

abbrev SIZE : Int := 9
abbrev EMPTY : Int := 0
abbrev SOLDAT_ROUGE : Int := 1
abbrev SOLDAT_BLEU : Int := 2
abbrev ROI_ROUGE : Int := 3
abbrev ROI_BLEU : Int := 4

abbrev MAX_DEPTH : Nat := 4
abbrev MAX_MOVES : Nat := 512
abbrev INF_SCORE : Int := 1000000
abbrev TT_SIZE_POW2 : Nat := 17
abbrev TT_SIZE : Nat := 2 ^ TT_SIZE_POW2
abbrev TT_MASK : Nat := TT_SIZE - 1

/-- Values of `enum TTFlag`, stored in the `uint8_t flag` field. -/
abbrev TT_EMPTY : Nat := 0
abbrev TT_EXACT : Nat := 1
abbrev TT_LOWER : Nat := 2
abbrev TT_UPPER : Nat := 3

/-- Macro `EVAL_CLAMP(x)`. -/
def EVAL_CLAMP (x : Int) : Int :=
  if x > 30000 then 30000 else if x < -30000 then -30000 else x

/-- Board of the engine: `typedef struct { int pion[SIZE][SIZE]; } Board;`. -/
structure Board where
  pion : Int → Int → Int

/-- Move of the engine: `typedef struct { int r1, c1; int r2, c2; } Move;`. -/
structure Move where
  r1 : Int
  c1 : Int
  r2 : Int
  c2 : Int
deriving DecidableEq, Repr

instance : Inhabited Move := ⟨⟨0, 0, 0, 0⟩⟩

/-- Assignment `b->pion[r][c] = v`. -/
def Board.set (b : Board) (r c v : Int) : Board :=
  ⟨fun r' c' => if r' = r ∧ c' = c then v else b.pion r' c'⟩

/-- Row (or column) indices visited by `for (int r=0; r<SIZE; r++)`. -/
def indices : List Int := (List.range 9).map Int.ofNat

/-! ## ia.c : internal helpers -/

def in_bounds (r c : Int) : Bool :=
  decide (r ≥ 0) && decide (r < SIZE) && decide (c ≥ 0) && decide (c < SIZE)

def is_empty (p : Int) : Bool := decide (p = EMPTY)

def is_blue (p : Int) : Bool := decide (p = SOLDAT_BLEU) || decide (p = ROI_BLEU)

def is_red (p : Int) : Bool := decide (p = SOLDAT_ROUGE) || decide (p = ROI_ROUGE)

def ally (p : Int) (blueSide : Bool) : Bool := if blueSide then is_blue p else is_red p

def enemy (p : Int) (blueSide : Bool) : Bool := if blueSide then is_red p else is_blue p

def piece_index (p : Int) : Nat :=
  if p = EMPTY then 0
  else if p = SOLDAT_ROUGE then 1
  else if p = SOLDAT_BLEU then 2
  else if p = ROI_ROUGE then 3
  else if p = ROI_BLEU then 4
  else 0

/-! ## ia.c : move generation and simulation -/

/-- Table `DR4[4] = {-1, 1, 0, 0}`. -/
def DR4 : Nat → Int
  | 0 => -1
  | 1 => 1
  | _ => 0

/-- Table `DC4[4] = {0, 0, -1, 1}`. -/
def DC4 : Nat → Int
  | 2 => -1
  | 3 => 1
  | _ => 0

/-- Body of `if (n < maxOut) { out[n] = m; n++; }`: the array `out[0..n-1]` is the list. -/
def push_move (out : List Move) (maxOut : Nat) (m : Move) : List Move :=
  if out.length < maxOut then out ++ [m] else out

/-- The `while (in_bounds(nr,nc) && is_empty(b->pion[nr][nc]))` loop of `generate_moves`.
The first argument bounds the number of iterations; `generate_moves` gives it `SIZE`
iterations, which a slide on a 9x9 board never uses up. -/
def slide_loop (b : Board) (maxOut : Nat) (r c dr dc : Int) :
    Nat → Int → Int → List Move → List Move
  | 0, _, _, out => out
  | fuel + 1, nr, nc, out =>
    if in_bounds nr nc && is_empty (b.pion nr nc) then
      slide_loop b maxOut r c dr dc fuel (nr + dr) (nc + dc)
        (push_move out maxOut ⟨r, c, nr, nc⟩)
    else out

/-- Body of the `for (int c ...)` loop of `generate_moves` for the square `(r,c)`. -/
def generate_moves_cell (b : Board) (blueSide : Bool) (maxOut : Nat) (r c : Int)
    (out : List Move) : List Move :=
  if !ally (b.pion r c) blueSide then out
  else
    (List.range 4).foldl
      (fun out d => slide_loop b maxOut r c (DR4 d) (DC4 d) 9 (r + DR4 d) (c + DC4 d) out) out

/-- Translation of `generate_moves`: the result is the filled part `out[0..n-1]`; the C
return value `n` is its length. -/
def generate_moves (b : Board) (blueSide : Bool) (maxOut : Nat) : List Move :=
  indices.foldl
    (fun out r => indices.foldl (fun out c => generate_moves_cell b blueSide maxOut r c out) out)
    []

/-- Translation of `unit_dir`: the pair `(*dr, *dc)`. -/
def unit_dir (r1 c1 r2 c2 : Int) : Int × Int :=
  let rr := r2 - r1
  let cc := c2 - c1
  (if rr > 0 then 1 else if rr < 0 then -1 else 0,
   if cc > 0 then 1 else if cc < 0 then -1 else 0)

/-- Translation of `simulate_push_capture` (Seultou). -/
def simulate_push_capture (b : Board) (r c dr dc : Int) : Board :=
  if dr = 0 ∧ dc = 0 then b
  else
    let me := b.pion r c
    let blueSide := is_blue me
    let vr := r + dr
    let vc := c + dc
    if !in_bounds vr vc then b
    else
      let victim := b.pion vr vc
      if !enemy victim blueSide then b
      else
        let gr := r + 2 * dr
        let gc := c + 2 * dc
        if in_bounds gr gc then
          let guard := b.pion gr gc
          if enemy guard blueSide then b
          else b.set vr vc EMPTY
        else b.set vr vc EMPTY

/-- Body of the `for (int d=0; d<4; d++)` loop of `simulate_sandwich`. -/
def simulate_sandwich_step (blueSide : Bool) (r c : Int) (b : Board) (d : Nat) : Board :=
  let nr := r + DR4 d
  let nc := c + DC4 d
  let fr := r + 2 * DR4 d
  let fc := c + 2 * DC4 d
  if !in_bounds nr nc || !in_bounds fr fc then b
  else
    let nearP := b.pion nr nc
    let farP := b.pion fr fc
    if enemy nearP blueSide && ally farP blueSide then b.set nr nc EMPTY else b

/-- Translation of `simulate_sandwich` (Linca). -/
def simulate_sandwich (b : Board) (r c : Int) : Board :=
  let me := b.pion r c
  let blueSide := is_blue me
  (List.range 4).foldl (simulate_sandwich_step blueSide r c) b

/-- Translation of `apply_move`. -/
def apply_move (b : Board) (m : Move) : Board :=
  let p := b.pion m.r1 m.c1
  let b1 := b.set m.r2 m.c2 p
  let b2 := b1.set m.r1 m.c1 EMPTY
  let d := unit_dir m.r1 m.c1 m.r2 m.c2
  let b3 := simulate_push_capture b2 m.r2 m.c2 d.1 d.2
  simulate_sandwich b3 m.r2 m.c2

/-! ## ia.c : victory conditions -/

/-- Local variables of `check_winner`. -/
structure WinScan where
  blueKingAlive : Bool
  redKingAlive : Bool
  rb : Int
  cb : Int
  rr : Int
  cr : Int
  blueSoldiers : Int
  redSoldiers : Int

/-- Body of the double loop of `check_winner` for the square `(r,c)`. -/
def check_winner_cell (b : Board) (r c : Int) (s : WinScan) : WinScan :=
  let p := b.pion r c
  let s := if p = ROI_BLEU then { s with blueKingAlive := true, rb := r, cb := c } else s
  let s := if p = ROI_ROUGE then { s with redKingAlive := true, rr := r, cr := c } else s
  let s := if p = SOLDAT_BLEU then { s with blueSoldiers := s.blueSoldiers + 1 } else s
  if p = SOLDAT_ROUGE then { s with redSoldiers := s.redSoldiers + 1 } else s

/-- The double loop of `check_winner`. -/
def check_winner_scan (b : Board) : WinScan :=
  indices.foldl
    (fun s r => indices.foldl (fun s c => check_winner_cell b r c s) s)
    ⟨false, false, -1, -1, -1, -1, 0, 0⟩

/-- Translation of `check_winner`. -/
def check_winner (b : Board) : Int :=
  let s := check_winner_scan b
  if !s.redKingAlive then 1
  else if !s.blueKingAlive then -1
  else if s.rb = SIZE - 1 ∧ s.cb = SIZE - 1 then 1
  else if s.rr = 0 ∧ s.cr = 0 then -1
  else if s.redSoldiers = 0 then 1
  else if s.blueSoldiers = 0 then -1
  else 0


/-! ## ia.c : evaluation -/

/-- Translation of `mobility`. -/
def mobility (b : Board) (blueSide : Bool) : Int :=
  ((generate_moves b blueSide MAX_MOVES).length : Int)

/-- The C library function `abs` on `int`. -/
def c_abs (x : Int) : Int := if x < 0 then -x else x

/-- The `switch` of the first loop of `evaluate`. -/
def evaluate_material (p : Int) (score : Int) : Int :=
  if p = SOLDAT_BLEU then score + 12
  else if p = ROI_BLEU then score + 300
  else if p = SOLDAT_ROUGE then score - 12
  else if p = ROI_ROUGE then score - 300
  else score

/-- Body of the second loop of `evaluate`; the state is
`(bestBlueKingDist, bestRedKingDist)`. -/
def evaluate_king_dist (b : Board) (r c : Int) (best : Int × Int) : Int × Int :=
  if b.pion r c = ROI_BLEU then
    let d := (SIZE - 1 - r) + (SIZE - 1 - c)
    if d < best.1 then (d, best.2) else best
  else if b.pion r c = ROI_ROUGE then
    let d := r + c
    if d < best.2 then (best.1, d) else best
  else best

/-- Body of the last loop of `evaluate`. -/
def evaluate_centrality (b : Board) (r c : Int) (score : Int) : Int :=
  if b.pion r c = ROI_BLEU then score + ((4 - c_abs (r - 4)) + (4 - c_abs (c - 4)))
  else if b.pion r c = ROI_ROUGE then score - ((4 - c_abs (r - 4)) + (4 - c_abs (c - 4)))
  else score

/-- Translation of `evaluate`. -/
def evaluate (b : Board) : Int :=
  let score : Int := 0
  let score :=
    indices.foldl
      (fun s r => indices.foldl (fun s c => evaluate_material (b.pion r c) s) s) score
  let best :=
    indices.foldl
      (fun s r => indices.foldl (fun s c => evaluate_king_dist b r c s) s) ((100 : Int), (100 : Int))
  let score := if best.1 < 100 then score + (30 - best.1) else score
  let score := if best.2 < 100 then score - (30 - best.2) else score
  let score := score + (mobility b true - mobility b false)
  indices.foldl
    (fun s r => indices.foldl (fun s c => evaluate_centrality b r c s) s) score

/-! ## ia.c : Zobrist hashing -/

/-- Translation of `splitmix64`: `(returned value, new value of *x)`. -/
def splitmix64 (x : Nat) : Nat × Nat :=
  let x1 := (x + 0x9E3779B97F4A7C15) % 2 ^ 64
  let z := x1
  let z := ((z ^^^ (z >>> 30)) * 0xBF58476D1CE4E5B9) % 2 ^ 64
  let z := ((z ^^^ (z >>> 27)) * 0x94D049BB133111EB) % 2 ^ 64
  (z ^^^ (z >>> 31), x1)

/-- The globals `Zobrist[5][SIZE][SIZE]` (row-major, as laid out in memory) and `Z_SIDE`. -/
structure ZobristKeys where
  table : List Nat
  Z_SIDE : Nat

/-- Array access `Zobrist[p][r][c]`. -/
def ZobristKeys.Zobrist (z : ZobristKeys) (p : Nat) (r c : Int) : Nat :=
  z.table.getD (p * 81 + r.toNat * 9 + c.toNat) 0

/-- The triple loop of `zobrist_init`: `n` successive draws written to successive cells. -/
def zobrist_fill : Nat → Nat → List Nat × Nat
  | 0, seed => ([], seed)
  | n + 1, seed =>
    let d := splitmix64 seed
    let rest := zobrist_fill n d.2
    (d.1 :: rest.1, rest.2)

/-- Translation of `zobrist_init`. -/
def zobrist_init : ZobristKeys :=
  let seed : Nat := 0xC0FFEE ^^^ 0x123456789
  let filled := zobrist_fill (5 * 9 * 9) seed
  ⟨filled.1, (splitmix64 filled.2).1⟩

/-- Body of the double loop of `zobrist_hash`. -/
def zobrist_hash_cell (z : ZobristKeys) (b : Board) (r c : Int) (h : Nat) : Nat :=
  let pi := piece_index (b.pion r c)
  if pi ≠ 0 then h ^^^ z.Zobrist pi r c else h

/-- Translation of `zobrist_hash`. -/
def zobrist_hash (z : ZobristKeys) (b : Board) (blueToPlay : Bool) : Nat :=
  let h := indices.foldl (fun h r => indices.foldl (fun h c => zobrist_hash_cell z b r c h) h) 0
  if blueToPlay then h ^^^ z.Z_SIDE else h

/-! ## ia.c : transposition table -/

/-- Entry of the table: `typedef struct { uint64_t key; int16_t value; int8_t depth;
uint8_t flag; Move best; } TTEntry;`. -/
structure TTEntry where
  key : Nat
  value : Int
  depth : Int
  flag : Nat
  best : Move
deriving DecidableEq

/-- The array `TT[0 .. TT_SIZE-1]`. -/
abbrev Table := Nat → TTEntry

/-- Conversion `(int8_t)x`. -/
def to_int8 (x : Int) : Int := (x + 128) % 256 - 128

/-- Conversion `(int16_t)x`. -/
def to_int16 (x : Int) : Int := (x + 32768) % 65536 - 32768

/-- Conversion `(uint8_t)x`. -/
def to_uint8 (x : Nat) : Nat := x % 256

/-- Translation of `tt_probe`: the entry `TT[key & TT_MASK]`. -/
def tt_probe (tt : Table) (key : Nat) : TTEntry := tt (key &&& TT_MASK)

/-- Translation of `tt_store`. -/
def tt_store (tt : Table) (key : Nat) (depth : Int) (value : Int) (flag : Nat) (best : Move) :
    Table :=
  let e := tt (key &&& TT_MASK)
  if e.key = 0 ∨ depth ≥ e.depth then
    fun i =>
      if i = key &&& TT_MASK then
        ⟨key, to_int16 (EVAL_CLAMP value), to_int8 depth, to_uint8 flag, best⟩
      else tt i
  else tt

/-! ## ia.c : move ordering -/

/-- Translation of `move_score`; `ttMove = none` is the null pointer. -/
def move_score (b : Board) (_blueToPlay : Bool) (m : Move) (ttMove : Option Move) : Int :=
  let score : Int := 0
  let score :=
    match ttMove with
    | some t => if m.r1 = t.r1 ∧ m.c1 = t.c1 ∧ m.r2 = t.r2 ∧ m.c2 = t.c2 then score + 100000 else score
    | none => score
  let p := b.pion m.r1 m.c1
  let d := unit_dir m.r1 m.c1 m.r2 m.c2
  let vr := m.r2 + d.1
  let vc := m.c2 + d.2
  let score := if in_bounds vr vc && enemy (b.pion vr vc) (is_blue p) then score + 5000 else score
  let score :=
    if p = ROI_BLEU then
      let before := (SIZE - 1 - m.r1) + (SIZE - 1 - m.c1)
      let after := (SIZE - 1 - m.r2) + (SIZE - 1 - m.c2)
      score + (before - after) * 50
    else if p = ROI_ROUGE then
      let before := m.r1 + m.c1
      let after := m.r2 + m.c2
      score + (before - after) * 50
    else score
  score - (c_abs (m.r2 - m.r1) + c_abs (m.c2 - m.c1))

/-- The `while (j>=0)` loop of `sort_moves` followed by `moves[j+1] = key`.  The counter is
`j + 1`, so that `0` stands for `j = -1`. -/
def sort_inner (score : Move → Int) (key : Move) (keyScore : Int) : Nat → List Move → List Move
  | 0, moves => moves.set 0 key
  | j + 1, moves =>
    let s := score (moves.getD j default)
    if s ≥ keyScore then moves.set (j + 1) key
    else sort_inner score key keyScore j (moves.set (j + 1) (moves.getD j default))

/-- Translation of `sort_moves` (in-place insertion sort of `moves[0..n-1]`). -/
def sort_moves (b : Board) (blueToPlay : Bool) (moves : List Move) (n : Nat)
    (ttMove : Option Move) : List Move :=
  (List.range' 1 (n - 1)).foldl
    (fun moves i =>
      let key := moves.getD i default
      let keyScore := move_score b blueToPlay key ttMove
      sort_inner (fun m => move_score b blueToPlay m ttMove) key keyScore i moves)
    moves

/-! ## ia.c : minimax with alpha-beta -/

/-- What `minimax` reads and writes besides the board: the table `TT` and the cell behind
`outBest` (`none` when the pointer is null). -/
structure SearchState where
  TT : Table
  outBest : Option Move

/-- Outcome of the table lookup at the head of `minimax`: an early `return`, or the
window and table move with which the node goes on. -/
inductive Lookup where
  | ret (value : Int)
  | cont (alpha beta : Int) (ttMove : Move)

/-- The block `if (e->key == key) { ... }` of `minimax`. -/
def tt_lookup (e : TTEntry) (key : Nat) (depth : Int) (alpha beta : Int) : Lookup :=
  if e.key = key then
    if e.depth ≥ depth then
      if e.flag = TT_EXACT then Lookup.ret e.value
      else
        let ab : Int × Int :=
          if e.flag = TT_LOWER ∧ e.value > alpha then (e.value, beta)
          else if e.flag = TT_UPPER ∧ e.value < beta then (alpha, e.value)
          else (alpha, beta)
        if ab.1 ≥ ab.2 then Lookup.ret e.value else Lookup.cont ab.1 ab.2 e.best
    else Lookup.cont alpha beta e.best
  else Lookup.cont alpha beta ⟨-1, -1, -1, -1⟩

/-- Local variables of the move loop of `minimax`. -/
structure LoopState where
  alpha : Int
  beta : Int
  bestVal : Int
  bestMove : Move
  s : SearchState

/-- The update of `bestVal`, `bestMove`, `alpha`, `beta` after the value `val` of move `m`. -/
def loop_update (blueToPlay : Bool) (m : Move) (val : Int) (st : LoopState) (s : SearchState) :
    LoopState :=
  if blueToPlay then
    let bv := if val > st.bestVal then val else st.bestVal
    let bm := if val > st.bestVal then m else st.bestMove
    ⟨if bv > st.alpha then bv else st.alpha, st.beta, bv, bm, s⟩
  else
    let bv := if val < st.bestVal then val else st.bestVal
    let bm := if val < st.bestVal then m else st.bestMove
    ⟨st.alpha, if bv < st.beta then bv else st.beta, bv, bm, s⟩

/-- Body of the loop `for (int i=0;i<n;i++)` of `minimax` for the move `m`, up to the update
of the window; `child` is the recursive call at `depth-1` for the other side.  The board is
saved, changed by `apply_move`, handed to the recursive call and restored from the copy. -/
def minimax_loop_body (child : Board → Int → Int → Nat → SearchState → Int × Board × SearchState)
    (z : ZobristKeys) (blueToPlay : Bool) (m : Move) (b : Board) (st : LoopState) :
    Board × LoopState :=
  let save := b
  let b1 := apply_move b m
  let childKey := zobrist_hash z b1 (!blueToPlay)
  let r := child b1 st.alpha st.beta childKey st.s
  let b2 := save
  (b2, loop_update blueToPlay m r.1 st r.2.2)

/-- The loop `for (int i=0;i<n;i++)` of `minimax` over the sorted moves, with its
`if (alpha >= beta) break;`. -/
def minimax_loop (child : Board → Int → Int → Nat → SearchState → Int × Board × SearchState)
    (z : ZobristKeys) (blueToPlay : Bool) : List Move → Board → LoopState → Board × LoopState
  | [], b, st => (b, st)
  | m :: rest, b, st =>
    let r := minimax_loop_body child z blueToPlay m b st
    if r.2.alpha ≥ r.2.beta then r else minimax_loop child z blueToPlay rest r.1 r.2

/-- The end of `minimax`: classification of the value, `tt_store`, write to `*outBest`. -/
def minimax_finish (key : Nat) (depth : Int) (st : LoopState) : Int × SearchState :=
  let flag :=
    if st.bestVal ≤ st.alpha then TT_UPPER
    else if st.bestVal ≥ st.beta then TT_LOWER
    else TT_EXACT
  let tt := tt_store st.s.TT key depth st.bestVal flag st.bestMove
  (st.bestVal, ⟨tt, st.s.outBest.map (fun _ => st.bestMove)⟩)

/-- The part of `minimax` after the terminal and depth-zero tests, for `depth = d + 1`;
`child` is `minimax` at depth `d`. -/
def minimax_node (child : Board → Int → Int → Bool → Nat → SearchState → Int × Board × SearchState)
    (z : ZobristKeys) (depth : Int) (b : Board) (alpha beta : Int) (blueToPlay : Bool) (key : Nat)
    (s : SearchState) : Int × Board × SearchState :=
  let e := tt_probe s.TT key
  match tt_lookup e key depth alpha beta with
  | Lookup.ret v => (v, b, s)
  | Lookup.cont alpha beta ttMove =>
    let moves := generate_moves b blueToPlay MAX_MOVES
    let n := moves.length
    if n = 0 then (evaluate b, b, s)
    else
      let moves := sort_moves b blueToPlay moves n (some ttMove)
      let bestVal := if blueToPlay then -INF_SCORE else INF_SCORE
      let bestMove := moves.getD 0 default
      let r :=
        minimax_loop (fun b a bt k s => child b a bt (!blueToPlay) k s) z blueToPlay moves b
          ⟨alpha, beta, bestVal, bestMove, s⟩
      let f := minimax_finish key depth r.2
      (f.1, r.1, f.2)

/-- Translation of `minimax`; the result is `(returned value, *b, table and *outBest)`.
The recursion is on `depth`, which `search_best_move` takes from `1` to `MAX_DEPTH` and
each recursive call decreases by one down to `0`. -/
def minimax (z : ZobristKeys) : Nat → Board → Int → Int → Bool → Nat → SearchState →
    Int × Board × SearchState
  | 0, b, _, _, _, _, s =>
    let winner := check_winner b
    if winner = 1 then (100000, b, s)
    else if winner = -1 then (-100000, b, s)
    else (evaluate b, b, s)
  | d + 1, b, alpha, beta, blueToPlay, key, s =>
    let winner := check_winner b
    if winner = 1 then (100000, b, s)
    else if winner = -1 then (-100000, b, s)
    else minimax_node (minimax z d) z ((d + 1 : Nat) : Int) b alpha beta blueToPlay key s

/-! ## ia.c : iterative deepening and public interface -/

/-- The globals of `ia.c` once `ia_init_once` has run (`TT` is then not null). -/
structure Engine where
  TT : Table
  keys : ZobristKeys
  g_last_best_move_blue : Move
  g_last_best_move_red : Move

/-- The table returned by `calloc(TT_SIZE, sizeof(TTEntry))`. -/
def tt_zero : Table := fun _ => ⟨0, 0, 0, 0, ⟨0, 0, 0, 0⟩⟩

/-- Translation of `ia_init_once`; `none` is the state of a process in which `TT` is still
null (the remembered moves are then still `{0}`), and an initialised engine is left as it
is. -/
def ia_init_once : Option Engine → Engine
  | none => ⟨tt_zero, zobrist_init, ⟨0, 0, 0, 0⟩, ⟨0, 0, 0, 0⟩⟩
  | some g => g

/-- Body of the loop `for (int d=1; d<=MAX_DEPTH; d++)` of `search_best_move`; the state is
`(best, TT, b)`. -/
def search_iteration (z : ZobristKeys) (blueToPlay : Bool) (key : Nat)
    (st : Move × Table × Board) (d : Nat) : Move × Table × Board :=
  let best := st.1
  let iterBest := best
  let r := minimax z d st.2.2 (-INF_SCORE) INF_SCORE blueToPlay key ⟨st.2.1, some iterBest⟩
  let iterBest := r.2.2.outBest.getD iterBest
  (if iterBest.r1 ≥ 0 then iterBest else best, r.2.2.TT, r.2.1)

/-- Translation of `search_best_move`: the returned move and the globals afterwards. -/
def search_best_move (g : Engine) (start : Board) (blueToPlay : Bool) : Move × Engine :=
  let b := start
  let key := zobrist_hash g.keys b blueToPlay
  let best : Move := ⟨-1, -1, -1, -1⟩
  let hint := if blueToPlay then g.g_last_best_move_blue else g.g_last_best_move_red
  let tt := if hint.r1 ≥ 0 then tt_store g.TT key 0 0 TT_EXACT hint else g.TT
  let r := (List.range' 1 MAX_DEPTH).foldl (search_iteration g.keys blueToPlay key) (best, tt, b)
  let best := r.1
  (best,
    if blueToPlay then { g with TT := r.2.1, g_last_best_move_blue := best }
    else { g with TT := r.2.1, g_last_best_move_red := best })

/-! ## Vocabulary of the specification -/

/-- The squares of the board in the order in which the double loops visit them. -/
def cells : List (Int × Int) := indices.flatMap (fun r => indices.map (fun c => (r, c)))

/-- Spec wording: the code `p` is a piece (soldier or king of either side). -/
def is_piece (p : Int) : Prop := is_blue p = true ∨ is_red p = true

/-- Spec wording: `p` is an enemy of the piece `me` (pieces of opposite colours). -/
def enemy_of (me p : Int) : Prop :=
  (is_blue me = true ∧ is_red p = true) ∨ (is_red me = true ∧ is_blue p = true)

/-- Spec wording: `p` is an ally of the piece `me` (pieces of the same colour). -/
def ally_of (me p : Int) : Prop :=
  (is_blue me = true ∧ is_blue p = true) ∨ (is_red me = true ∧ is_red p = true)

/-- Spec wording: `(dr,dc)` is one of the four unit orthogonal directions. -/
def unit_orthogonal (dr dc : Int) : Prop :=
  (dr = -1 ∧ dc = 0) ∨ (dr = 1 ∧ dc = 0) ∨ (dr = 0 ∧ dc = -1) ∨ (dr = 0 ∧ dc = 1)

/-- The test of one direction of `simulate_sandwich`, read on the board `b`. -/
def sandwich_fires (b : Board) (blueSide : Bool) (r c : Int) (d : Nat) : Bool :=
  in_bounds (r + DR4 d) (c + DC4 d) && in_bounds (r + 2 * DR4 d) (c + 2 * DC4 d) &&
    enemy (b.pion (r + DR4 d) (c + DC4 d)) blueSide &&
    ally (b.pion (r + 2 * DR4 d) (c + 2 * DC4 d)) blueSide

/-- Spec wording: some square of the board holds the piece code `p`. -/
def has_piece (b : Board) (p : Int) : Prop := ∃ rc ∈ cells, b.pion rc.1 rc.2 = p

instance (b : Board) (p : Int) : Decidable (has_piece b p) := by
  unfold has_piece; infer_instance

/-- Spec wording: at most one square of the board holds the piece code `p`. -/
def at_most_one (b : Board) (p : Int) : Prop :=
  ∀ x ∈ cells, ∀ y ∈ cells, b.pion x.1 x.2 = p → b.pion y.1 y.2 = p → x = y

instance (b : Board) (p : Int) : Decidable (at_most_one b p) := by
  unfold at_most_one; infer_instance

/-- Spec wording of the result of `check_winner`: the first applicable value. -/
def winner_spec (b : Board) : Int :=
  if ¬ has_piece b ROI_ROUGE then 1
  else if ¬ has_piece b ROI_BLEU then -1
  else if b.pion 8 8 = ROI_BLEU then 1
  else if b.pion 0 0 = ROI_ROUGE then -1
  else if ¬ has_piece b SOLDAT_ROUGE then 1
  else if ¬ has_piece b SOLDAT_BLEU then -1
  else 0

/-- The moves that one `while` loop of `generate_moves` offers to `push_move`, in order. -/
def slide_list (b : Board) (r c dr dc : Int) : Nat → Int → Int → List Move
  | 0, _, _ => []
  | fuel + 1, nr, nc =>
    if in_bounds nr nc && is_empty (b.pion nr nc) then
      ⟨r, c, nr, nc⟩ :: slide_list b r c dr dc fuel (nr + dr) (nc + dc)
    else []

/-- The moves that `generate_moves` offers to `push_move` for the square `(r,c)`. -/
def cell_moves (b : Board) (blueSide : Bool) (r c : Int) : List Move :=
  if ally (b.pion r c) blueSide then
    (List.range 4).flatMap (fun d => slide_list b r c (DR4 d) (DC4 d) 9 (r + DR4 d) (c + DC4 d))
  else []

/-- Every move that `generate_moves` offers to `push_move`, in order (no capacity). -/
def all_moves (b : Board) (blueSide : Bool) : List Move :=
  cells.flatMap (fun rc => cell_moves b blueSide rc.1 rc.2)

/-- Insertion of `key` into the sorted prefix `moves[0..i-1]`, given from its last element
to its first: what the inner loop of `sort_moves` does. -/
def insert_rev (score : Move → Int) (key : Move) (keyScore : Int) : List Move → List Move
  | [] => [key]
  | x :: rest =>
    if score x ≥ keyScore then key :: x :: rest else x :: insert_rev score key keyScore rest

/-- Insertion of `key` into the sorted prefix, given in array order. -/
def insert_desc (score : Move → Int) (key : Move) (pre : List Move) : List Move :=
  (insert_rev score key (score key) pre.reverse).reverse

/-- The list that `sort_moves` leaves in `moves[0..n-1]`. -/
def sort_desc (score : Move → Int) (l : List Move) : List Move :=
  l.foldl (fun pre x => insert_desc score x pre) []

/-- Every entry of the table has a stored depth of at most `D` and a stored value within
the clamp range. -/
def TTok (D : Int) (tt : Table) : Prop :=
  ∀ i, (tt i).depth ≤ D ∧ -30000 ≤ (tt i).value ∧ (tt i).value ≤ 30000

/-- State of the root loop before the winning move is reached: the window is still open and
the best value is not yet the winning value. -/
def RootOpen (blueToPlay : Bool) (st : LoopState) : Prop :=
  (blueToPlay = true → st.beta = INF_SCORE ∧ st.alpha < 100000 ∧ st.bestVal < 100000) ∧
  (blueToPlay = false → st.alpha = -INF_SCORE ∧ st.beta > -100000 ∧ st.bestVal > -100000)

/-- State of the table before the iteration of depth `d+1`: no entry is deeper than `d`, and
from the second iteration on the root slot holds the root position with best move `w`, and
the entries of depth `d` all carry the key of the root position. -/
def RootReady (key : Nat) (w : Move) (d : Nat) (tt : Table) : Prop :=
  TTok (d : Int) tt ∧
  (1 ≤ d → (tt_probe tt key).key = key ∧ (tt_probe tt key).best = w) ∧
  (1 ≤ d → ∀ i, (tt i).depth ≥ (d : Int) → (tt i).key = key)

/-- State of the loop of a node that was entered with an open bound on its own side:
the side's bound follows its best value. -/
def Tracking (side : Bool) (bound : Int) (st : LoopState) : Prop :=
  (side = true → st.beta = bound ∧ st.alpha = st.bestVal ∧ st.bestVal ≤ 100000) ∧
  (side = false → st.alpha = bound ∧ st.beta = st.bestVal ∧ st.bestVal ≥ -100000)

/-- The value is at least as good for `side` as the bound of the other side, or is a win. -/
def Refutes (side : Bool) (bound : Int) (v : Int) : Prop :=
  (side = true → v ≥ bound ∨ v = 100000) ∧ (side = false → v ≤ bound ∨ v = -100000)

/-- The table does not answer a node of depth `k` for the position `key`. -/
def NoHit (k : Nat) (tt : Table) (key : Nat) : Prop :=
  ¬ ((tt_probe tt key).key = key ∧ (tt_probe tt key).depth ≥ (k : Int))

/-- State of the root loop before the blocking move is reached: every move so far lost. -/
def BeforeBlock (blueToPlay : Bool) (st : LoopState) : Prop :=
  (blueToPlay = false → st.alpha = -INF_SCORE ∧ st.beta = st.bestVal ∧
    (st.bestVal = INF_SCORE ∨ st.bestVal = 100000)) ∧
  (blueToPlay = true → st.beta = INF_SCORE ∧ st.alpha = st.bestVal ∧
    (st.bestVal = -INF_SCORE ∨ st.bestVal = -100000))

/-- State of the root loop once the blocking move `m` holds the best value. -/
def AfterBlock (blueToPlay : Bool) (m : Move) (st : LoopState) : Prop :=
  (blueToPlay = false → st.alpha = -INF_SCORE ∧ st.beta = st.bestVal) ∧
  (blueToPlay = true → st.beta = INF_SCORE ∧ st.alpha = st.bestVal) ∧
  (-100000 ≤ st.bestVal ∧ st.bestVal ≤ 100000) ∧ st.bestMove = m

/-- Destination square and travel direction of a move. -/
def move_slot (m : Move) : (Int × Int) × (Int × Int) :=
  ((m.r2, m.c2), unit_dir m.r1 m.c1 m.r2 m.c2)

/-- Every destination square with every travel direction. -/
def slots : List ((Int × Int) × (Int × Int)) :=
  List.product cells [((-1 : Int), (0 : Int)), (1, 0), (0, -1), (0, 1)]

/-- Spec wording: `(r,c)` lies strictly between source and destination of the move. -/
def strictly_between (m : Move) (r c : Int) : Prop :=
  (r = m.r1 ∧ r = m.r2 ∧ ((m.c1 < c ∧ c < m.c2) ∨ (m.c2 < c ∧ c < m.c1))) ∨
  (c = m.c1 ∧ c = m.c2 ∧ ((m.r1 < r ∧ r < m.r2) ∨ (m.r2 < r ∧ r < m.r1)))

/-- Spec wording of a legal move of side `blueSide` on board `b`. -/
def legal_move (b : Board) (blueSide : Bool) (m : Move) : Prop :=
  in_bounds m.r1 m.c1 = true ∧ in_bounds m.r2 m.c2 = true ∧
  ally (b.pion m.r1 m.c1) blueSide = true ∧
  (m.r1 ≠ m.r2 ∨ m.c1 ≠ m.c2) ∧ (m.r1 = m.r2 ∨ m.c1 = m.c2) ∧
  b.pion m.r2 m.c2 = EMPTY ∧
  ∀ r c : Int, strictly_between m r c → b.pion r c = EMPTY

/-! ## Boards of the test suite (`tests/test_ia.c`) -/

/-- The board `Board b = {0};`. -/
def board_zero : Board := ⟨fun _ _ => 0⟩

/-- Board of `test_ia_choisit_coup_gagnant_direct`. -/
def board_direct_win : Board :=
  (((board_zero.set 8 7 ROI_BLEU).set 0 1 ROI_ROUGE).set 0 0 SOLDAT_BLEU).set 1 0 SOLDAT_ROUGE

/-- Board of `test_ia_bloque_menace_de_victoire_imminente`. -/
def board_block : Board :=
  (((((board_zero.set 8 7 ROI_BLEU).set 7 8 SOLDAT_ROUGE).set 7 7 ROI_ROUGE).set 2 2
    SOLDAT_BLEU).set 6 7 SOLDAT_BLEU).set 7 6 SOLDAT_BLEU

/-- Board of `test_ia_choisit_capture_avantageuse`. -/
def board_capture : Board :=
  ((((((((((board_zero.set 5 1 SOLDAT_ROUGE).set 5 3 SOLDAT_BLEU).set 7 7 ROI_ROUGE).set 1 1
    ROI_BLEU).set 6 7 SOLDAT_BLEU).set 8 7 SOLDAT_BLEU).set 7 6 SOLDAT_BLEU).set 7 8
    SOLDAT_BLEU).set 4 1 SOLDAT_BLEU).set 6 1 SOLDAT_BLEU).set 5 0 SOLDAT_BLEU

/-- Board of `test_ia_genere_tt_exact_flag`. -/
def board_exact_flag : Board :=
  (((board_zero.set 4 4 ROI_BLEU).set 0 0 SOLDAT_BLEU).set 8 8 ROI_ROUGE).set 7 7 SOLDAT_ROUGE

/-- A board on which blue cannot move: its only piece, a soldier on `(0,0)`, is shut in by
the red king on `(0,1)` and a red soldier on `(1,0)`. -/
def board_shut_in : Board :=
  ((board_zero.set 0 1 ROI_ROUGE).set 0 0 SOLDAT_BLEU).set 1 0 SOLDAT_ROUGE

/-- A board on which red, to move, can win at once with its king (`(0,1)` to `(0,0)`) while
blue threatens to win with its king (`(8,7)` to `(8,8)`), a threat that only the red soldier
(`(7,8)` to `(8,8)`) can block. -/
def board_win_or_block : Board :=
  ((((board_zero.set 8 7 ROI_BLEU).set 7 8 SOLDAT_ROUGE).set 0 1 ROI_ROUGE).set 0 2
    SOLDAT_BLEU).set 1 1 SOLDAT_BLEU


/-! ## ia.c : the node after its table lookup -/

/-- The part of `minimax` from `generate_moves` to the end, for the window `alpha`, `beta`
and the table move `ttMove` with which the lookup leaves the node; `child` is `minimax` one
ply deeper.  It is the `Lookup.cont` branch of `minimax_node`, written as a function of
what the lookup hands over. -/
def minimax_moves
    (child : Board → Int → Int → Bool → Nat → SearchState → Int × Board × SearchState)
    (z : ZobristKeys) (depth : Int) (b : Board) (alpha beta : Int) (blueToPlay : Bool) (key : Nat)
    (s : SearchState) (ttMove : Move) : Int × Board × SearchState :=
  let moves := generate_moves b blueToPlay MAX_MOVES
  let n := moves.length
  if n = 0 then (evaluate b, b, s)
  else
    let moves := sort_moves b blueToPlay moves n (some ttMove)
    let bestVal := if blueToPlay then -INF_SCORE else INF_SCORE
    let bestMove := moves.getD 0 default
    let r :=
      minimax_loop (fun b a bt k s => child b a bt (!blueToPlay) k s) z blueToPlay moves b
        ⟨alpha, beta, bestVal, bestMove, s⟩
    let f := minimax_finish key depth r.2
    (f.1, r.1, f.2)

/-- The value `minimax` gives a position at depth `0`: the two terminal scores, else the
static evaluation. -/
def leaf_value (b : Board) : Int :=
  if check_winner b = 1 then 100000
  else if check_winner b = -1 then -100000
  else evaluate b

/-- The local copy `b` of `search_best_move` after the loop over the depths. -/
def search_best_move_board (g : Engine) (start : Board) (blueToPlay : Bool) : Board :=
  let b := start
  let key := zobrist_hash g.keys b blueToPlay
  let best : Move := ⟨-1, -1, -1, -1⟩
  let hint := if blueToPlay then g.g_last_best_move_blue else g.g_last_best_move_red
  let tt := if hint.r1 ≥ 0 then tt_store g.TT key 0 0 TT_EXACT hint else g.TT
  ((List.range' 1 MAX_DEPTH).foldl (search_iteration g.keys blueToPlay key) (best, tt, b)).2.2

/-! ## jeu_logique.h / jeu_logique.c : the rule layer

`in_bounds`, `is_blue` and `is_red` of `jeu_logique.c` are the functions of the same names
of `ia.c`, word for word; the definitions above serve for both files.  The counters of a
`GameState` are C `int`s that count captured soldiers; they are `Int` here, and the increment
`++` wraps from `INT_MAX` to `INT_MIN` (`to_int32`), as the compiled code does. -/

/-- State of a game: `typedef struct { int pion[SIZE][SIZE]; int couleur[SIZE][SIZE];
int dead_red_count; int dead_blue_count; int tour; int game_over_status; } GameState;`. -/
structure GameState where
  pion : Int → Int → Int
  couleur : Int → Int → Int
  dead_red_count : Int
  dead_blue_count : Int
  tour : Int
  game_over_status : Int

/-- Assignment `state->pion[r][c] = v`. -/
def GameState.set_pion (state : GameState) (r c v : Int) : GameState :=
  { state with pion := fun r' c' => if r' = r ∧ c' = c then v else state.pion r' c' }

/-- The value that an `int` holds when the result of an operation on `int`s is `x`: the
32-bit two's complement wrap. -/
def to_int32 (x : Int) : Int := (x + 2147483648) % 4294967296 - 2147483648

/-- Translation of `logique_capture`; `mouvement` is the C string compared by `strcmp`. -/
def logique_capture (state : GameState) (r c : Int) (mouvement : String) : GameState :=
  if state.game_over_status ≠ 0 then state
  else
    let d : Int × Int :=
      if mouvement = "haut" then (-1, 0)
      else if mouvement = "bas" then (1, 0)
      else if mouvement = "gauche" then (0, -1)
      else if mouvement = "droite" then (0, 1)
      else (0, 0)
    let dr := d.1
    let dc := d.2
    let r_victim := r + dr
    let c_victim := c + dc
    if !in_bounds r_victim c_victim then state
    else
      let attaquant := state.pion r c
      let victime := state.pion r_victim c_victim
      if victime = EMPTY ∨ is_blue attaquant = is_blue victime then state
      else
        let r_guard := r + 2 * dr
        let c_guard := c + 2 * dc
        let est_garde : Bool :=
          if in_bounds r_guard c_guard then
            let garde := state.pion r_guard c_guard
            if garde ≠ EMPTY ∧ is_blue attaquant ≠ is_blue garde then true else false
          else false
        if !est_garde then
          let state := state.set_pion r_victim c_victim EMPTY
          if is_red victime then
            if victime = ROI_ROUGE then { state with game_over_status := 2 }
            else { state with dead_red_count := to_int32 (state.dead_red_count + 1) }
          else
            if victime = ROI_BLEU then { state with game_over_status := 1 }
            else { state with dead_blue_count := to_int32 (state.dead_blue_count + 1) }
        else state

/-- Translation of `logique_internal_prise_check`. -/
def logique_internal_prise_check (state : GameState) (attaquant : Int)
    (r_near c_near r_far c_far : Int) : GameState :=
  if !in_bounds r_near c_near || !in_bounds r_far c_far then state
  else
    let victime := state.pion r_near c_near
    let allie := state.pion r_far c_far
    if victime ≠ EMPTY ∧ allie ≠ EMPTY ∧ is_blue attaquant = is_blue allie ∧
        is_blue attaquant ≠ is_blue victime then
      let state := state.set_pion r_near c_near EMPTY
      if is_red victime then
        if victime = ROI_ROUGE then { state with game_over_status := 2 }
        else { state with dead_red_count := to_int32 (state.dead_red_count + 1) }
      else
        if victime = ROI_BLEU then { state with game_over_status := 1 }
        else { state with dead_blue_count := to_int32 (state.dead_blue_count + 1) }
    else state

/-- Translation of `logique_prise`. -/
def logique_prise (state : GameState) (r c : Int) : GameState :=
  if state.game_over_status ≠ 0 then state
  else
    let attaquant := state.pion r c
    if attaquant = EMPTY then state
    else
      let state := logique_internal_prise_check state attaquant (r - 1) c (r - 2) c
      let state := logique_internal_prise_check state attaquant (r + 1) c (r + 2) c
      let state := logique_internal_prise_check state attaquant r (c - 1) r (c - 2)
      logique_internal_prise_check state attaquant r (c + 1) r (c + 2)

/-- The grid `pion` after `memcpy(state->pion, board_init, sizeof(board_init))`. -/
def board_init : Int → Int → Int := fun r c =>
  (([[0, 0, 2, 2, 0, 0, 0, 0, 0],
     [0, 4, 2, 2, 0, 0, 0, 0, 0],
     [2, 2, 2, 0, 0, 0, 0, 0, 0],
     [2, 2, 0, 0, 0, 0, 0, 0, 0],
     [0, 0, 0, 0, 0, 0, 0, 0, 0],
     [0, 0, 0, 0, 0, 0, 0, 1, 1],
     [0, 0, 0, 0, 0, 0, 1, 1, 1],
     [0, 0, 0, 0, 0, 1, 1, 3, 0],
     [0, 0, 0, 0, 0, 1, 1, 0, 0]] : List (List Int)).getD r.toNat []).getD c.toNat 0

/-- Translation of `logique_init_game`. -/
def logique_init_game : GameState :=
  { pion := board_init
    couleur := fun i j =>
      if is_blue (board_init i j) then 2 else if is_red (board_init i j) then 1 else 0
    dead_red_count := 0
    dead_blue_count := 0
    tour := 1
    game_over_status := 0 }

/-! ## Vocabulary of the specification: table and rule layer -/

/-- Spec wording: the value `x` clamped to the range `[-30000, 30000]`. -/
def clamp_spec (x : Int) : Int := max (-30000) (min 30000 x)

/-- Spec wording: `mouvement` is one of the four directions and `(dr,dc)` is its step. -/
def mouvement_dir (mouvement : String) (dr dc : Int) : Prop :=
  (mouvement = "haut" ∧ dr = -1 ∧ dc = 0) ∨ (mouvement = "bas" ∧ dr = 1 ∧ dc = 0) ∨
  (mouvement = "gauche" ∧ dr = 0 ∧ dc = -1) ∨ (mouvement = "droite" ∧ dr = 0 ∧ dc = 1)

/-- The squares of the grid hold the five piece codes of `plateau.h`. -/
def valid_grid (pion : Int → Int → Int) : Prop :=
  ∀ r c : Int, in_bounds r c = true → 0 ≤ pion r c ∧ pion r c ≤ 4

/-- Number of squares of the board that hold the piece code `p`. -/
def count_code (pion : Int → Int → Int) (p : Int) : Int :=
  ((cells.filter (fun rc => decide (pion rc.1 rc.2 = p))).length : Int)

/-- The move loop of a node of depth `1` (its children are leaves) that is entered with the
full window and examines the moves in the order `l`: the local variables after the loop. -/
def leaf_node_loop (z : ZobristKeys) (b : Board) (blueToPlay : Bool) (s : SearchState)
    (l : List Move) : LoopState :=
  (minimax_loop (fun b a bt k s => minimax z 0 b a bt (!blueToPlay) k s) z blueToPlay l b
    ⟨-INF_SCORE, INF_SCORE, if blueToPlay then -INF_SCORE else INF_SCORE, l.getD 0 default,
      s⟩).2

/-- The capture block shared by `logique_capture` and `logique_internal_prise_check`: the
piece on `(r,c)` leaves the grid, a king ends the game, a soldier is counted dead. -/
def capture_piece (state : GameState) (r c : Int) : GameState :=
  let victime := state.pion r c
  let state := state.set_pion r c EMPTY
  if is_red victime then
    if victime = ROI_ROUGE then { state with game_over_status := 2 }
    else { state with dead_red_count := to_int32 (state.dead_red_count + 1) }
  else
    if victime = ROI_BLEU then { state with game_over_status := 1 }
    else { state with dead_blue_count := to_int32 (state.dead_blue_count + 1) }

/-- The board of the engine that carries the grid of a game state. -/
def GameState.board (state : GameState) : Board := ⟨state.pion⟩

/-- The step of `logique_prise` in direction `d` of the tables `DR4`, `DC4`, for the
attacker code `a`. -/
def logique_prise_step (a r c : Int) (state : GameState) (d : Nat) : GameState :=
  logique_internal_prise_check state a (r + DR4 d) (c + DC4 d) (r + 2 * DR4 d) (c + 2 * DC4 d)

/-- A board that is not decided and on which blue, to move, has no move: its king on `(0,0)`
and its soldier on `(8,0)` are shut in by red pieces. -/
def board_stalemate : Board :=
  (((((board_zero.set 0 0 ROI_BLEU).set 0 1 SOLDAT_ROUGE).set 1 0 SOLDAT_ROUGE).set 8 0
    SOLDAT_BLEU).set 7 0 SOLDAT_ROUGE).set 8 1 ROI_ROUGE

/-- A board that is its own mirror image in the main diagonal: blue, to move, has the four
king moves `(0,0)` to `(1,0)`, `(2,0)`, `(0,1)`, `(0,2)`, and a move and its mirror image
lead to positions of the same value. -/
def board_mirror : Board :=
  ((((((board_zero.set 0 0 ROI_BLEU).set 0 3 SOLDAT_ROUGE).set 3 0 SOLDAT_ROUGE).set 8 8
    SOLDAT_BLEU).set 7 8 SOLDAT_ROUGE).set 8 7 SOLDAT_ROUGE).set 5 5 ROI_ROUGE

/-- A table with one entry: key `5`, depth `3`, in slot `5`. -/
def tt_one : Table := tt_store tt_zero 5 3 12 TT_EXACT ⟨0, 1, 0, 0⟩

/-- State of `test_capture_poussee_reussit` before the call of `logique_capture`. -/
def state_push : GameState :=
  (logique_init_game.set_pion 5 2 SOLDAT_BLEU).set_pion 5 3 SOLDAT_ROUGE

/-- State of `test_prise_sandwich_reussit_horizontal` before the call of `logique_prise`. -/
def state_sandwich : GameState :=
  ((logique_init_game.set_pion 4 1 SOLDAT_ROUGE).set_pion 4 2 SOLDAT_BLEU).set_pion 4 3
    SOLDAT_ROUGE


/-! ## jeu_logique.c : the end of the game -/

/-- Body of the double loop of `logique_calculer_scores`; the state is
`(score_rouge, score_bleu)`. -/
def calculer_scores_cell (state : GameState) (i j : Int) (sc : Int × Int) : Int × Int :=
  let sc : Int × Int :=
    if state.couleur i j = 1 then (sc.1 + 1, sc.2)
    else if state.couleur i j = 2 then (sc.1, sc.2 + 1)
    else sc
  if state.pion i j = SOLDAT_ROUGE then (sc.1 + 1, sc.2)
  else if state.pion i j = SOLDAT_BLEU then (sc.1, sc.2 + 1)
  else sc

/-- Translation of `logique_calculer_scores`. -/
def logique_calculer_scores (state : GameState) : GameState :=
  let sc : Int × Int :=
    indices.foldl
      (fun sc i => indices.foldl (fun sc j => calculer_scores_cell state i j sc) sc)
      ((0 : Int), (0 : Int))
  if sc.1 > sc.2 then { state with game_over_status := 1 }
  else if sc.2 > sc.1 then { state with game_over_status := 2 }
  else { state with game_over_status := 3 }

/-- Translation of `logique_verifier_conditions_fin`. -/
def logique_verifier_conditions_fin (state : GameState) : GameState :=
  if state.game_over_status ≠ 0 then state
  else if state.pion 0 0 = ROI_ROUGE then { state with game_over_status := 1 }
  else if state.pion 8 8 = ROI_BLEU then { state with game_over_status := 2 }
  else if state.dead_red_count ≥ 8 then { state with game_over_status := 2 }
  else if state.dead_blue_count ≥ 8 then { state with game_over_status := 1 }
  else if state.tour > 64 then logique_calculer_scores state
  else state

/-- Assignment `state->couleur[r][c] = v`. -/
def GameState.set_couleur (state : GameState) (r c v : Int) : GameState :=
  { state with couleur := fun r' c' => if r' = r ∧ c' = c then v else state.couleur r' c' }

/-! ## Vocabulary of the specification: scores, ordering, hashing, evaluation -/

/-- Spec wording: red's total, the number of squares coloured red (`couleur` 1) plus the
number of red soldiers on the grid. -/
def total_rouge (st : GameState) : Int :=
  count_code st.couleur 1 + count_code st.pion SOLDAT_ROUGE

/-- Spec wording: blue's total, the number of squares coloured blue (`couleur` 2) plus the
number of blue soldiers on the grid. -/
def total_bleu (st : GameState) : Int :=
  count_code st.couleur 2 + count_code st.pion SOLDAT_BLEU

/-- Spec wording of the verdict of the scores: `1` red wins, `2` blue wins, `3` draw. -/
def score_verdict (st : GameState) : Int :=
  if total_rouge st > total_bleu st then 1
  else if total_bleu st > total_rouge st then 2
  else 3

/-- Spec wording of the status after the end-of-game test of a game in progress: the first
applicable condition decides. -/
def fin_verdict (st : GameState) : Int :=
  if st.pion 0 0 = ROI_ROUGE then 1
  else if st.pion 8 8 = ROI_BLEU then 2
  else if st.dead_red_count ≥ 8 then 2
  else if st.dead_blue_count ≥ 8 then 1
  else if st.tour > 64 then score_verdict st
  else 0

/-- Spec wording of stability: the moves of every score stand in `output` in the order in
which they stand in `input`. -/
def ties_keep_order (score : Move → Int) (input output : List Move) : Prop :=
  ∀ v : Int, output.filter (fun m => decide (score m = v)) =
    input.filter (fun m => decide (score m = v))

/-- Spec wording: the move is a push threat, its destination is immediately followed in the
direction of travel by a square of the board that holds an enemy of the moving piece. -/
def push_threat (b : Board) (m : Move) : Prop :=
  in_bounds (m.r2 + (unit_dir m.r1 m.c1 m.r2 m.c2).1)
      (m.c2 + (unit_dir m.r1 m.c1 m.r2 m.c2).2) = true ∧
    enemy_of (b.pion m.r1 m.c1)
      (b.pion (m.r2 + (unit_dir m.r1 m.c1 m.r2 m.c2).1)
        (m.c2 + (unit_dir m.r1 m.c1 m.r2 m.c2).2))

/-- Spec wording: the constant `K(x,r,c)` of the fingerprint, `Zobrist[x][r][c]` for a piece
code `x` in `1..4` and `0` for the empty code. -/
def zobrist_K (z : ZobristKeys) (x r c : Int) : Nat :=
  if 1 ≤ x ∧ x ≤ 4 then z.Zobrist x.toNat r c else 0

/-- Spec wording: distance `(8 - r) + (8 - c)` of a blue king on `(r,c)` to its goal. -/
def dist_blue (r c : Int) : Int := (8 - r) + (8 - c)

/-- Spec wording: distance `r + c` of a red king on `(r,c)` to its goal. -/
def dist_red (r c : Int) : Int := r + c

/-- Spec wording: centrality `(4 - |r - 4|) + (4 - |c - 4|)` of the square `(r,c)`. -/
def centrality (r c : Int) : Int := (4 - |r - 4|) + (4 - |c - 4|)

/-! ## Boards and game states of the examples: end of game, ordering, evaluation -/

/-- State of `test_actions_impossibles_si_partie_finie` before the calls. -/
def state_over : GameState :=
  { ((logique_init_game.set_pion 4 1 SOLDAT_ROUGE).set_pion 4 2 SOLDAT_BLEU).set_pion 4 3
      SOLDAT_ROUGE with game_over_status := 1 }

/-- State of `test_fin_par_score_egalite` before the call: the initial state at turn 65. -/
def state_tour65 : GameState := { logique_init_game with tour := 65 }

/-- The board of `test_ia_avance_roi_vers_objectif`. -/
def board_progress : Board :=
  ((((board_zero.set 1 1 ROI_BLEU).set 7 7 ROI_ROUGE).set 0 5 SOLDAT_BLEU).set 6 7
    SOLDAT_ROUGE).set 7 6 SOLDAT_ROUGE


/-! ## ia.c : the table with which the search starts -/

/-- The table with which `search_best_move` enters its loop over the depths: the lines from
`Move hint = ...` to the `tt_store` of the hint. -/
def search_seed_table (g : Engine) (start : Board) (blueToPlay : Bool) : Table :=
  let b := start
  let key := zobrist_hash g.keys b blueToPlay
  let hint := if blueToPlay then g.g_last_best_move_blue else g.g_last_best_move_red
  if hint.r1 ≥ 0 then tt_store g.TT key 0 0 TT_EXACT hint else g.TT

/-! ## Vocabulary of the specification: centrality, table entries, footprint -/

/-- The term of the last loop of `evaluate` for a king on `(r,c)`, added for a blue king and
subtracted for a red king. -/
def king_bonus (r c : Int) : Int := (4 - c_abs (r - 4)) + (4 - c_abs (c - 4))

/-- Spec wording: Chebyshev distance of `(r,c)` from the centre square `(4,4)`. -/
def chebyshev (r c : Int) : Int := max |r - 4| |c - 4|

/-- Spec wording: Manhattan distance of `(r,c)` from the centre square `(4,4)`. -/
def manhattan (r c : Int) : Int := |r - 4| + |c - 4|

/-- Spec wording: every exact entry of the table `tt'` is an entry that the table `tt` holds
in the same slot; going from `tt` to `tt'` wrote no exact entry. -/
def no_new_exact (tt tt' : Table) : Prop :=
  ∀ i : Nat, (tt' i).flag = TT_EXACT → tt' i = tt i

/-- Spec wording: a value the search can return, a value of the clamp range or one of the two
terminal scores. -/
def search_value (v : Int) : Prop :=
  (-30000 ≤ v ∧ v ≤ 30000) ∨ v = 100000 ∨ v = -100000

/-- Spec wording: the squares of the board on which an enemy of side `blueSide` stood on `b`
and that `b'` does not hold unchanged. -/
def removed_enemies (b b' : Board) (blueSide : Bool) : List (Int × Int) :=
  cells.filter (fun rc =>
    enemy (b.pion rc.1 rc.2) blueSide && decide (b'.pion rc.1 rc.2 ≠ b.pion rc.1 rc.2))

/-! ## Vocabulary of the specification: colour symmetry -/

/-- Spec wording: the piece of the other colour (red soldier with blue soldier, red king
with blue king); every other code is kept. -/
def flip_piece (p : Int) : Int :=
  if p = SOLDAT_ROUGE then SOLDAT_BLEU
  else if p = SOLDAT_BLEU then SOLDAT_ROUGE
  else if p = ROI_ROUGE then ROI_BLEU
  else if p = ROI_BLEU then ROI_ROUGE
  else p

/-- Spec wording: `flip(b)`, the board rotated by 180 degrees (square `(r,c)` goes to
`(8-r,8-c)`) with the colour of every piece swapped. -/
def Board.flip (b : Board) : Board :=
  ⟨fun r c => flip_piece (b.pion (8 - r) (8 - c))⟩

/-- The move seen on the rotated board. -/
def Move.flip (m : Move) : Move := ⟨8 - m.r1, 8 - m.c1, 8 - m.r2, 8 - m.c2⟩

/-! ## Boards and tables of the examples: decided position, captures, footprint, ordering -/

/-- A board that is decided (the blue king stands on `(8,8)`) and on which both sides still
have moves. -/
def board_decided : Board :=
  (((board_zero.set 8 8 ROI_BLEU).set 0 4 ROI_ROUGE).set 4 4 SOLDAT_BLEU).set 5 5 SOLDAT_ROUGE

/-- A board on which the blue soldier on `(4,4)` takes the red soldier on `(4,5)` by a push
to the right and the red soldier on `(3,4)`, held against the blue soldier on `(2,4)`, by a
sandwich. -/
def board_two_captures : Board :=
  (((board_zero.set 4 4 SOLDAT_BLEU).set 4 5 SOLDAT_ROUGE).set 3 4 SOLDAT_ROUGE).set 2 4
    SOLDAT_BLEU

/-- The board `board_two_captures` before the blue soldier came from `(4,2)` to `(4,4)`. -/
def board_footprint : Board :=
  (((board_zero.set 4 2 SOLDAT_BLEU).set 4 5 SOLDAT_ROUGE).set 3 4 SOLDAT_ROUGE).set 2 4
    SOLDAT_BLEU

theorem is_blue_iff (p : Int) : is_blue p = true ↔ (p = 2 ∨ p = 4) := by
  simp [is_blue]

theorem is_red_iff (p : Int) : is_red p = true ↔ (p = 1 ∨ p = 3) := by
  simp [is_red]

theorem is_empty_iff (p : Int) : is_empty p = true ↔ p = 0 := by
  simp [is_empty]

theorem in_bounds_iff (r c : Int) :
    in_bounds r c = true ↔ (0 ≤ r ∧ r < 9 ∧ 0 ≤ c ∧ c < 9) := by
  simp [in_bounds, and_assoc]

theorem mem_indices (x : Int) : x ∈ indices ↔ 0 ≤ x ∧ x < 9 := by
  unfold indices
  simp only [List.mem_map, List.mem_range]
  constructor
  · rintro ⟨n, hn, rfl⟩
    simp only [Int.ofNat_eq_coe]
    omega
  · rintro ⟨h0, h9⟩
    refine ⟨x.toNat, ?_, by simp only [Int.ofNat_eq_coe]; omega⟩
    omega

theorem mem_cells (r c : Int) : (r, c) ∈ cells ↔ (0 ≤ r ∧ r < 9) ∧ (0 ≤ c ∧ c < 9) := by
  unfold cells
  simp only [List.mem_flatMap, List.mem_map, Prod.mk.injEq]
  constructor
  · rintro ⟨r', hr', c', hc', rfl, rfl⟩
    exact ⟨(mem_indices _).1 hr', (mem_indices _).1 hc'⟩
  · rintro ⟨hr, hc⟩
    exact ⟨r, (mem_indices _).2 hr, c, (mem_indices _).2 hc, rfl, rfl⟩

theorem nested_foldl_eq {σ : Type} (f : Int → Int → σ → σ) (l1 l2 : List Int) (s : σ) :
    l1.foldl (fun s r => l2.foldl (fun s c => f r c s) s) s =
      (l1.flatMap (fun r => l2.map (fun c => (r, c)))).foldl (fun s rc => f rc.1 rc.2 s) s := by
  induction l1 generalizing s with
  | nil => rfl
  | cons r l1 ih =>
    simp only [List.foldl_cons, List.flatMap_cons, List.foldl_append, List.foldl_map]
    exact ih _

/-- A double loop over the board is a single pass over `cells`. -/
theorem scan_eq_foldl_cells {σ : Type} (f : Int → Int → σ → σ) (s : σ) :
    indices.foldl (fun s r => indices.foldl (fun s c => f r c s) s) s =
      cells.foldl (fun s rc => f rc.1 rc.2 s) s :=
  nested_foldl_eq f indices indices s


/-! ## The two capture rules -/


/-! spec-side vocabulary -/

theorem Board.set_pion (b : Board) (r c v r' c' : Int) :
    (b.set r c v).pion r' c' = if r' = r ∧ c' = c then v else b.pion r' c' := rfl





theorem enemy_iff_enemy_of (me p : Int) (hp : is_piece me) :
    enemy p (is_blue me) = true ↔ enemy_of me p := by
  unfold is_piece at hp
  unfold enemy enemy_of
  by_cases hb : is_blue me = true
  · have hr : ¬ is_red me = true := by
      rw [is_blue_iff] at hb; rw [is_red_iff]; omega
    simp [hb, hr]
  · have hr : is_red me = true := by tauto
    simp [hb, hr]

theorem ally_iff_ally_of (me p : Int) (hp : is_piece me) :
    ally p (is_blue me) = true ↔ ally_of me p := by
  unfold is_piece at hp
  unfold ally ally_of
  by_cases hb : is_blue me = true
  · have hr : ¬ is_red me = true := by
      rw [is_blue_iff] at hb; rw [is_red_iff]; omega
    simp [hb, hr]
  · have hr : is_red me = true := by tauto
    simp [hb, hr]

theorem enemy_ne_empty (p : Int) (bs : Bool) (h : enemy p bs = true) : p ≠ EMPTY := by
  unfold enemy at h
  cases bs
  · simp only [Bool.false_eq_true, if_false, is_blue_iff] at h; simp only [EMPTY]; omega
  · simp only [if_true, is_red_iff] at h; simp only [EMPTY]; omega

/-- What `simulate_push_capture` does, in terms of the code's own tests. -/
theorem simulate_push_capture_eq (b : Board) (r c dr dc : Int) :
    simulate_push_capture b r c dr dc =
      if (dr ≠ 0 ∨ dc ≠ 0) ∧ in_bounds (r + dr) (c + dc) = true ∧
          enemy (b.pion (r + dr) (c + dc)) (is_blue (b.pion r c)) = true ∧
          ¬ (in_bounds (r + 2 * dr) (c + 2 * dc) = true ∧
              enemy (b.pion (r + 2 * dr) (c + 2 * dc)) (is_blue (b.pion r c)) = true)
      then b.set (r + dr) (c + dc) EMPTY else b := by
  unfold simulate_push_capture
  by_cases h0 : dr = 0 ∧ dc = 0
  · have : ¬ (dr ≠ 0 ∨ dc ≠ 0) := by tauto
    rw [if_pos h0, if_neg (fun h => this h.1)]
  · have h0' : dr ≠ 0 ∨ dc ≠ 0 := by tauto
    simp only [h0, if_false]
    by_cases h1 : in_bounds (r + dr) (c + dc) = true
    · by_cases h2 : enemy (b.pion (r + dr) (c + dc)) (is_blue (b.pion r c)) = true
      · by_cases h3 : in_bounds (r + 2 * dr) (c + 2 * dc) = true
        · by_cases h4 : enemy (b.pion (r + 2 * dr) (c + 2 * dc)) (is_blue (b.pion r c)) = true
          · simp [h0', h1, h2, h3, h4]
          · simp [h0', h1, h2, h3, h4]
        · simp [h0', h1, h2, h3]
      · simp [h0', h1, h2]
    · simp [h0', h1]

/-- C7: on a board square holding a piece and for a unit orthogonal direction,
`simulate_push_capture` empties the victim square exactly when the victim square is on the
board, holds an enemy of the piece, and the guard square is off the board or holds no enemy
of the piece; the victim square is otherwise kept and every other square is unchanged. -/
theorem simulate_push_capture_spec (b : Board) (r c dr dc : Int)
    (_hin : in_bounds r c = true) (hp : is_piece (b.pion r c)) (hd : unit_orthogonal dr dc) :
    ((( simulate_push_capture b r c dr dc).pion (r + dr) (c + dc) = EMPTY ∧
        b.pion (r + dr) (c + dc) ≠ EMPTY) ↔
      (in_bounds (r + dr) (c + dc) = true ∧
        enemy_of (b.pion r c) (b.pion (r + dr) (c + dc)) ∧
        (in_bounds (r + 2 * dr) (c + 2 * dc) = false ∨
          ¬ enemy_of (b.pion r c) (b.pion (r + 2 * dr) (c + 2 * dc))))) ∧
    ((simulate_push_capture b r c dr dc).pion (r + dr) (c + dc) = EMPTY ∨
      (simulate_push_capture b r c dr dc).pion (r + dr) (c + dc) = b.pion (r + dr) (c + dc)) ∧
    (∀ r' c' : Int, (r' ≠ r + dr ∨ c' ≠ c + dc) →
      (simulate_push_capture b r c dr dc).pion r' c' = b.pion r' c') := by
  have hnz : dr ≠ 0 ∨ dc ≠ 0 := by
    rcases hd with h | h | h | h <;> omega
  rw [simulate_push_capture_eq]
  have he1 := enemy_iff_enemy_of (b.pion r c) (b.pion (r + dr) (c + dc)) hp
  have he2 := enemy_iff_enemy_of (b.pion r c) (b.pion (r + 2 * dr) (c + 2 * dc)) hp
  by_cases hc : (dr ≠ 0 ∨ dc ≠ 0) ∧ in_bounds (r + dr) (c + dc) = true ∧
      enemy (b.pion (r + dr) (c + dc)) (is_blue (b.pion r c)) = true ∧
      ¬ (in_bounds (r + 2 * dr) (c + 2 * dc) = true ∧
          enemy (b.pion (r + 2 * dr) (c + 2 * dc)) (is_blue (b.pion r c)) = true)
  · rw [if_pos hc]
    obtain ⟨_, h1, h2, h3⟩ := hc
    have hne : b.pion (r + dr) (c + dc) ≠ EMPTY := enemy_ne_empty _ _ h2
    refine ⟨?_, ?_, ?_⟩
    · simp only [Board.set_pion, and_self, if_true]
      constructor
      · intro _
        refine ⟨h1, he1.1 h2, ?_⟩
        by_cases hg : in_bounds (r + 2 * dr) (c + 2 * dc) = true
        · right; intro hh; exact h3 ⟨hg, he2.2 hh⟩
        · left; simpa using hg
      · intro _; exact ⟨trivial, hne⟩
    · left; simp [Board.set_pion]
    · intro r' c' hne'
      have : ¬ (r' = r + dr ∧ c' = c + dc) := by tauto
      simp [Board.set_pion, this]
  · rw [if_neg hc]
    refine ⟨?_, Or.inr rfl, fun _ _ _ => rfl⟩
    constructor
    · rintro ⟨h1, h2⟩; exact absurd h1 h2
    · rintro ⟨h1, h2, h3⟩
      exfalso; apply hc
      refine ⟨hnz, h1, he1.2 h2, ?_⟩
      rintro ⟨hg, hh⟩
      rcases h3 with h3 | h3
      · rw [hg] at h3; exact Bool.noConfusion h3
      · exact h3 (he2.1 hh)


theorem simulate_sandwich_step_eq (bs : Bool) (r c : Int) (b : Board) (d : Nat) :
    simulate_sandwich_step bs r c b d =
      if sandwich_fires b bs r c d = true then b.set (r + DR4 d) (c + DC4 d) EMPTY else b := by
  unfold simulate_sandwich_step sandwich_fires
  by_cases h1 : in_bounds (r + DR4 d) (c + DC4 d) = true <;>
  by_cases h2 : in_bounds (r + 2 * DR4 d) (c + 2 * DC4 d) = true <;>
  simp [h1, h2]

theorem simulate_sandwich_step_pion (bs : Bool) (r c : Int) (b : Board) (d : Nat) (r' c' : Int) :
    (simulate_sandwich_step bs r c b d).pion r' c' =
      if (r' = r + DR4 d ∧ c' = c + DC4 d) ∧ sandwich_fires b bs r c d = true then EMPTY
      else b.pion r' c' := by
  rw [simulate_sandwich_step_eq]
  by_cases h : sandwich_fires b bs r c d = true
  · simp only [h, if_true, Board.set_pion, and_true]
  · rw [if_neg h, if_neg (fun hh => h hh.2)]

theorem sandwich_fires_step (bs : Bool) (r c : Int) (b : Board) (d d' : Nat)
    (hd : d < 4) (hd' : d' < 4) (hne : d ≠ d') :
    sandwich_fires (simulate_sandwich_step bs r c b d') bs r c d = sandwich_fires b bs r c d := by
  have hn : (simulate_sandwich_step bs r c b d').pion (r + DR4 d) (c + DC4 d) =
      b.pion (r + DR4 d) (c + DC4 d) := by
    rw [simulate_sandwich_step_pion, if_neg]
    rintro ⟨⟨h1, h2⟩, _⟩
    interval_cases d <;> interval_cases d' <;> simp only [DR4, DC4] at h1 h2 <;> omega
  have hf : (simulate_sandwich_step bs r c b d').pion (r + 2 * DR4 d) (c + 2 * DC4 d) =
      b.pion (r + 2 * DR4 d) (c + 2 * DC4 d) := by
    rw [simulate_sandwich_step_pion, if_neg]
    rintro ⟨⟨h1, h2⟩, _⟩
    interval_cases d <;> interval_cases d' <;> simp only [DR4, DC4] at h1 h2 <;> omega
  unfold sandwich_fires
  rw [hn, hf]

/-- Cell by cell, the four steps of `simulate_sandwich` empty exactly the adjacent squares
whose test fires on the board the loop started from. -/
theorem sandwich_fold_pion (bs : Bool) (b : Board) (r c r' c' : Int) :
    ((∃ d, d < 4 ∧ (r' = r + DR4 d ∧ c' = c + DC4 d) ∧ sandwich_fires b bs r c d = true) →
      ((List.range 4).foldl (simulate_sandwich_step bs r c) b).pion r' c' = EMPTY) ∧
    ((¬ ∃ d, d < 4 ∧ (r' = r + DR4 d ∧ c' = c + DC4 d) ∧ sandwich_fires b bs r c d = true) →
      ((List.range 4).foldl (simulate_sandwich_step bs r c) b).pion r' c' = b.pion r' c') := by
  have hr : List.range 4 = [0, 1, 2, 3] := by decide
  simp only [hr, List.foldl]
  have f10 := sandwich_fires_step bs r c b 1 0 (by omega) (by omega) (by omega)
  have f20 := sandwich_fires_step bs r c b 2 0 (by omega) (by omega) (by omega)
  have f30 := sandwich_fires_step bs r c b 3 0 (by omega) (by omega) (by omega)
  set b1 := simulate_sandwich_step bs r c b 0 with hb1
  have f21 := sandwich_fires_step bs r c b1 2 1 (by omega) (by omega) (by omega)
  have f31 := sandwich_fires_step bs r c b1 3 1 (by omega) (by omega) (by omega)
  set b2 := simulate_sandwich_step bs r c b1 1 with hb2
  have f32 := sandwich_fires_step bs r c b2 3 2 (by omega) (by omega) (by omega)
  set b3 := simulate_sandwich_step bs r c b2 2 with hb3
  rw [simulate_sandwich_step_pion, f32, f31, f30]
  rw [hb3, simulate_sandwich_step_pion, f21, f20]
  rw [hb2, simulate_sandwich_step_pion, f10]
  rw [hb1, simulate_sandwich_step_pion]
  by_cases h3 : (r' = r + DR4 3 ∧ c' = c + DC4 3) ∧ sandwich_fires b bs r c 3 = true
  · rw [if_pos h3]
    exact ⟨fun _ => rfl, fun hn => absurd ⟨3, by omega, h3⟩ hn⟩
  · rw [if_neg h3]
    by_cases h2 : (r' = r + DR4 2 ∧ c' = c + DC4 2) ∧ sandwich_fires b bs r c 2 = true
    · rw [if_pos h2]
      exact ⟨fun _ => rfl, fun hn => absurd ⟨2, by omega, h2⟩ hn⟩
    · rw [if_neg h2]
      by_cases h1 : (r' = r + DR4 1 ∧ c' = c + DC4 1) ∧ sandwich_fires b bs r c 1 = true
      · rw [if_pos h1]
        exact ⟨fun _ => rfl, fun hn => absurd ⟨1, by omega, h1⟩ hn⟩
      · rw [if_neg h1]
        by_cases h0 : (r' = r + DR4 0 ∧ c' = c + DC4 0) ∧ sandwich_fires b bs r c 0 = true
        · rw [if_pos h0]
          exact ⟨fun _ => rfl, fun hn => absurd ⟨0, by omega, h0⟩ hn⟩
        · rw [if_neg h0]
          refine ⟨?_, fun _ => rfl⟩
          rintro ⟨d, hd, hh⟩
          exfalso
          interval_cases d
          · exact h0 hh
          · exact h1 hh
          · exact h2 hh
          · exact h3 hh

theorem simulate_sandwich_pion (b : Board) (r c r' c' : Int) :
    ((∃ d, d < 4 ∧ (r' = r + DR4 d ∧ c' = c + DC4 d) ∧
        sandwich_fires b (is_blue (b.pion r c)) r c d = true) →
      (simulate_sandwich b r c).pion r' c' = EMPTY) ∧
    ((¬ ∃ d, d < 4 ∧ (r' = r + DR4 d ∧ c' = c + DC4 d) ∧
        sandwich_fires b (is_blue (b.pion r c)) r c d = true) →
      (simulate_sandwich b r c).pion r' c' = b.pion r' c') :=
  sandwich_fold_pion (is_blue (b.pion r c)) b r c r' c'

/-- Index of a unit orthogonal direction in the tables `DR4`, `DC4`. -/
theorem unit_orthogonal_iff (dr dc : Int) :
    unit_orthogonal dr dc ↔ ∃ d, d < 4 ∧ dr = DR4 d ∧ dc = DC4 d := by
  unfold unit_orthogonal
  constructor
  · rintro (⟨h1, h2⟩ | ⟨h1, h2⟩ | ⟨h1, h2⟩ | ⟨h1, h2⟩)
    · exact ⟨0, by omega, by simp [h1, DR4], by simp [h2, DC4]⟩
    · exact ⟨1, by omega, by simp [h1, DR4], by simp [h2, DC4]⟩
    · exact ⟨2, by omega, by simp [h1, DR4], by simp [h2, DC4]⟩
    · exact ⟨3, by omega, by simp [h1, DR4], by simp [h2, DC4]⟩
  · rintro ⟨d, hd, h1, h2⟩
    interval_cases d <;> simp [DR4, DC4] at h1 h2 <;> simp [h1, h2]

/-- C8: on a board square holding a piece, `simulate_sandwich` empties, for each of the four
orthogonal directions independently, the adjacent square exactly when the adjacent square and
the square two steps away are on the board, the adjacent one holds an enemy and the far one
an ally of the piece; an adjacent square is otherwise kept and every other square is
unchanged. -/
theorem simulate_sandwich_spec (b : Board) (r c : Int)
    (_hin : in_bounds r c = true) (hp : is_piece (b.pion r c)) :
    (∀ dr dc : Int, unit_orthogonal dr dc →
      (((simulate_sandwich b r c).pion (r + dr) (c + dc) = EMPTY ∧
          b.pion (r + dr) (c + dc) ≠ EMPTY) ↔
        (in_bounds (r + dr) (c + dc) = true ∧ in_bounds (r + 2 * dr) (c + 2 * dc) = true ∧
          enemy_of (b.pion r c) (b.pion (r + dr) (c + dc)) ∧
          ally_of (b.pion r c) (b.pion (r + 2 * dr) (c + 2 * dc)))) ∧
      ((simulate_sandwich b r c).pion (r + dr) (c + dc) = EMPTY ∨
        (simulate_sandwich b r c).pion (r + dr) (c + dc) = b.pion (r + dr) (c + dc))) ∧
    (∀ r' c' : Int, (∀ dr dc : Int, unit_orthogonal dr dc → (r' ≠ r + dr ∨ c' ≠ c + dc)) →
      (simulate_sandwich b r c).pion r' c' = b.pion r' c') := by
  constructor
  · intro dr dc hd
    obtain ⟨d, hd4, rfl, rfl⟩ := (unit_orthogonal_iff dr dc).1 hd
    have hf : sandwich_fires b (is_blue (b.pion r c)) r c d = true ↔
        (in_bounds (r + DR4 d) (c + DC4 d) = true ∧
          in_bounds (r + 2 * DR4 d) (c + 2 * DC4 d) = true ∧
          enemy_of (b.pion r c) (b.pion (r + DR4 d) (c + DC4 d)) ∧
          ally_of (b.pion r c) (b.pion (r + 2 * DR4 d) (c + 2 * DC4 d))) := by
      unfold sandwich_fires
      simp only [Bool.and_eq_true, enemy_iff_enemy_of _ _ hp, ally_iff_ally_of _ _ hp, and_assoc]
    have hex : (∃ d', d' < 4 ∧ (r + DR4 d = r + DR4 d' ∧ c + DC4 d = c + DC4 d') ∧
        sandwich_fires b (is_blue (b.pion r c)) r c d' = true) ↔
        sandwich_fires b (is_blue (b.pion r c)) r c d = true := by
      constructor
      · rintro ⟨d', hd', ⟨h1, h2⟩, h3⟩
        have : d' = d := by
          interval_cases d <;> interval_cases d' <;> simp [DR4, DC4] at h1 h2 ⊢
        rw [← this]; exact h3
      · intro h; exact ⟨d, hd4, ⟨rfl, rfl⟩, h⟩
    have hpt := simulate_sandwich_pion b r c (r + DR4 d) (c + DC4 d)
    by_cases hfire : sandwich_fires b (is_blue (b.pion r c)) r c d = true
    · rw [hpt.1 (hex.2 hfire)]
      have hcond := hf.1 hfire
      have hne : b.pion (r + DR4 d) (c + DC4 d) ≠ EMPTY := by
        unfold sandwich_fires at hfire
        simp only [Bool.and_eq_true] at hfire
        exact enemy_ne_empty _ _ hfire.1.2
      exact ⟨⟨fun _ => hcond, fun _ => ⟨rfl, hne⟩⟩, Or.inl rfl⟩
    · rw [hpt.2 (fun h => hfire (hex.1 h))]
      refine ⟨⟨?_, ?_⟩, Or.inr rfl⟩
      · rintro ⟨h1, h2⟩; exact absurd h1 h2
      · intro h; exact absurd (hf.2 h) hfire
  · intro r' c' hfar
    apply (simulate_sandwich_pion b r c r' c').2
    rintro ⟨d, hd, ⟨h1, h2⟩, _⟩
    have := hfar (DR4 d) (DC4 d) ((unit_orthogonal_iff _ _).2 ⟨d, hd, rfl, rfl⟩)
    omega


/-! ## Victory conditions -/






theorem check_winner_cell_blueKingAlive (b : Board) (r c : Int) (s : WinScan) :
    (check_winner_cell b r c s).blueKingAlive =
      (s.blueKingAlive || decide (b.pion r c = ROI_BLEU)) := by
  unfold check_winner_cell
  by_cases h1 : b.pion r c = ROI_BLEU <;> by_cases h2 : b.pion r c = ROI_ROUGE <;>
  by_cases h3 : b.pion r c = SOLDAT_BLEU <;> by_cases h4 : b.pion r c = SOLDAT_ROUGE <;>
  simp [h1, h2, h3, h4]

theorem check_winner_cell_redKingAlive (b : Board) (r c : Int) (s : WinScan) :
    (check_winner_cell b r c s).redKingAlive =
      (s.redKingAlive || decide (b.pion r c = ROI_ROUGE)) := by
  unfold check_winner_cell
  by_cases h1 : b.pion r c = ROI_BLEU <;> by_cases h2 : b.pion r c = ROI_ROUGE <;>
  by_cases h3 : b.pion r c = SOLDAT_BLEU <;> by_cases h4 : b.pion r c = SOLDAT_ROUGE <;>
  simp [h1, h2, h3, h4]

theorem check_winner_cell_blue_pos (b : Board) (r c : Int) (s : WinScan) :
    ((check_winner_cell b r c s).rb, (check_winner_cell b r c s).cb) =
      if b.pion r c = ROI_BLEU then (r, c) else (s.rb, s.cb) := by
  unfold check_winner_cell
  by_cases h1 : b.pion r c = ROI_BLEU <;> by_cases h2 : b.pion r c = ROI_ROUGE <;>
  by_cases h3 : b.pion r c = SOLDAT_BLEU <;> by_cases h4 : b.pion r c = SOLDAT_ROUGE <;>
  simp [h1, h2, h3, h4]

theorem check_winner_cell_red_pos (b : Board) (r c : Int) (s : WinScan) :
    ((check_winner_cell b r c s).rr, (check_winner_cell b r c s).cr) =
      if b.pion r c = ROI_ROUGE then (r, c) else (s.rr, s.cr) := by
  unfold check_winner_cell
  by_cases h1 : b.pion r c = ROI_BLEU <;> by_cases h2 : b.pion r c = ROI_ROUGE <;>
  by_cases h3 : b.pion r c = SOLDAT_BLEU <;> by_cases h4 : b.pion r c = SOLDAT_ROUGE <;>
  simp [h1, h2, h3, h4]

theorem check_winner_cell_blueSoldiers (b : Board) (r c : Int) (s : WinScan) :
    (check_winner_cell b r c s).blueSoldiers =
      s.blueSoldiers + (if b.pion r c = SOLDAT_BLEU then 1 else 0) := by
  unfold check_winner_cell
  by_cases h1 : b.pion r c = ROI_BLEU <;> by_cases h2 : b.pion r c = ROI_ROUGE <;>
  by_cases h3 : b.pion r c = SOLDAT_BLEU <;> by_cases h4 : b.pion r c = SOLDAT_ROUGE <;>
  simp [h1, h2, h3, h4]

theorem check_winner_cell_redSoldiers (b : Board) (r c : Int) (s : WinScan) :
    (check_winner_cell b r c s).redSoldiers =
      s.redSoldiers + (if b.pion r c = SOLDAT_ROUGE then 1 else 0) := by
  unfold check_winner_cell
  by_cases h1 : b.pion r c = ROI_BLEU <;> by_cases h2 : b.pion r c = ROI_ROUGE <;>
  by_cases h3 : b.pion r c = SOLDAT_BLEU <;> by_cases h4 : b.pion r c = SOLDAT_ROUGE <;>
  simp [h1, h2, h3, h4]


/-- The loop body of `check_winner` as a step over `cells`. -/
theorem check_winner_scan_eq (b : Board) :
    check_winner_scan b =
      cells.foldl (fun s rc => check_winner_cell b rc.1 rc.2 s)
        ⟨false, false, -1, -1, -1, -1, 0, 0⟩ :=
  scan_eq_foldl_cells (check_winner_cell b) _

theorem scan_blueKingAlive (b : Board) (l : List (Int × Int)) (s : WinScan) :
    (l.foldl (fun s rc => check_winner_cell b rc.1 rc.2 s) s).blueKingAlive = true ↔
      (s.blueKingAlive = true ∨ ∃ rc ∈ l, b.pion rc.1 rc.2 = ROI_BLEU) := by
  induction l generalizing s with
  | nil => simp
  | cons x l ih =>
    rw [List.foldl_cons, ih, check_winner_cell_blueKingAlive]
    simp only [Bool.or_eq_true, decide_eq_true_eq, List.mem_cons, exists_eq_or_imp, or_assoc]

theorem scan_redKingAlive (b : Board) (l : List (Int × Int)) (s : WinScan) :
    (l.foldl (fun s rc => check_winner_cell b rc.1 rc.2 s) s).redKingAlive = true ↔
      (s.redKingAlive = true ∨ ∃ rc ∈ l, b.pion rc.1 rc.2 = ROI_ROUGE) := by
  induction l generalizing s with
  | nil => simp
  | cons x l ih =>
    rw [List.foldl_cons, ih, check_winner_cell_redKingAlive]
    simp only [Bool.or_eq_true, decide_eq_true_eq, List.mem_cons, exists_eq_or_imp, or_assoc]

theorem scan_blue_pos (b : Board) (l : List (Int × Int)) (s : WinScan)
    (h : ∃ rc ∈ l, b.pion rc.1 rc.2 = ROI_BLEU) :
    ∃ rc ∈ l, b.pion rc.1 rc.2 = ROI_BLEU ∧
      ((l.foldl (fun s rc => check_winner_cell b rc.1 rc.2 s) s).rb,
        (l.foldl (fun s rc => check_winner_cell b rc.1 rc.2 s) s).cb) = rc := by
  induction l generalizing s with
  | nil => simp at h
  | cons x l ih =>
    rw [List.foldl_cons]
    by_cases hl : ∃ rc ∈ l, b.pion rc.1 rc.2 = ROI_BLEU
    · obtain ⟨rc, hrc, hk, hpos⟩ := ih (check_winner_cell b x.1 x.2 s) hl
      exact ⟨rc, List.mem_cons_of_mem _ hrc, hk, hpos⟩
    · have hx : b.pion x.1 x.2 = ROI_BLEU := by
        obtain ⟨rc, hrc, hk⟩ := h
        rcases List.mem_cons.1 hrc with rfl | hrc
        · exact hk
        · exact absurd ⟨rc, hrc, hk⟩ hl
      refine ⟨x, List.mem_cons_self _ _, hx, ?_⟩
      have hkeep : ∀ (l' : List (Int × Int)) (s' : WinScan),
          (∀ rc ∈ l', b.pion rc.1 rc.2 ≠ ROI_BLEU) →
          ((l'.foldl (fun s rc => check_winner_cell b rc.1 rc.2 s) s').rb,
            (l'.foldl (fun s rc => check_winner_cell b rc.1 rc.2 s) s').cb) = (s'.rb, s'.cb) := by
        intro l'
        induction l' with
        | nil => intro s' _; rfl
        | cons y l' ih' =>
          intro s' hno
          rw [List.foldl_cons, ih' _ (fun rc hrc => hno rc (List.mem_cons_of_mem _ hrc)),
            check_winner_cell_blue_pos, if_neg (hno y (List.mem_cons_self _ _))]
      rw [hkeep l _ (fun rc hrc hk => hl ⟨rc, hrc, hk⟩), check_winner_cell_blue_pos, if_pos hx]

theorem scan_red_pos (b : Board) (l : List (Int × Int)) (s : WinScan)
    (h : ∃ rc ∈ l, b.pion rc.1 rc.2 = ROI_ROUGE) :
    ∃ rc ∈ l, b.pion rc.1 rc.2 = ROI_ROUGE ∧
      ((l.foldl (fun s rc => check_winner_cell b rc.1 rc.2 s) s).rr,
        (l.foldl (fun s rc => check_winner_cell b rc.1 rc.2 s) s).cr) = rc := by
  induction l generalizing s with
  | nil => simp at h
  | cons x l ih =>
    rw [List.foldl_cons]
    by_cases hl : ∃ rc ∈ l, b.pion rc.1 rc.2 = ROI_ROUGE
    · obtain ⟨rc, hrc, hk, hpos⟩ := ih (check_winner_cell b x.1 x.2 s) hl
      exact ⟨rc, List.mem_cons_of_mem _ hrc, hk, hpos⟩
    · have hx : b.pion x.1 x.2 = ROI_ROUGE := by
        obtain ⟨rc, hrc, hk⟩ := h
        rcases List.mem_cons.1 hrc with rfl | hrc
        · exact hk
        · exact absurd ⟨rc, hrc, hk⟩ hl
      refine ⟨x, List.mem_cons_self _ _, hx, ?_⟩
      have hkeep : ∀ (l' : List (Int × Int)) (s' : WinScan),
          (∀ rc ∈ l', b.pion rc.1 rc.2 ≠ ROI_ROUGE) →
          ((l'.foldl (fun s rc => check_winner_cell b rc.1 rc.2 s) s').rr,
            (l'.foldl (fun s rc => check_winner_cell b rc.1 rc.2 s) s').cr) = (s'.rr, s'.cr) := by
        intro l'
        induction l' with
        | nil => intro s' _; rfl
        | cons y l' ih' =>
          intro s' hno
          rw [List.foldl_cons, ih' _ (fun rc hrc => hno rc (List.mem_cons_of_mem _ hrc)),
            check_winner_cell_red_pos, if_neg (hno y (List.mem_cons_self _ _))]
      rw [hkeep l _ (fun rc hrc hk => hl ⟨rc, hrc, hk⟩), check_winner_cell_red_pos, if_pos hx]

theorem scan_blueSoldiers (b : Board) (l : List (Int × Int)) (s : WinScan) :
    (l.foldl (fun s rc => check_winner_cell b rc.1 rc.2 s) s).blueSoldiers =
      s.blueSoldiers + (l.countP (fun rc => decide (b.pion rc.1 rc.2 = SOLDAT_BLEU)) : Nat) := by
  induction l generalizing s with
  | nil => simp
  | cons x l ih =>
    rw [List.foldl_cons, ih, check_winner_cell_blueSoldiers, List.countP_cons]
    by_cases hx : b.pion x.1 x.2 = SOLDAT_BLEU
    · simp only [hx, if_true, decide_True]; push_cast; omega
    · simp only [hx, if_false, decide_False]; push_cast; omega

theorem scan_redSoldiers (b : Board) (l : List (Int × Int)) (s : WinScan) :
    (l.foldl (fun s rc => check_winner_cell b rc.1 rc.2 s) s).redSoldiers =
      s.redSoldiers + (l.countP (fun rc => decide (b.pion rc.1 rc.2 = SOLDAT_ROUGE)) : Nat) := by
  induction l generalizing s with
  | nil => simp
  | cons x l ih =>
    rw [List.foldl_cons, ih, check_winner_cell_redSoldiers, List.countP_cons]
    by_cases hx : b.pion x.1 x.2 = SOLDAT_ROUGE
    · simp only [hx, if_true, decide_True]; push_cast; omega
    · simp only [hx, if_false, decide_False]; push_cast; omega

theorem check_winner_blueSoldiers_zero (b : Board) :
    (check_winner_scan b).blueSoldiers = 0 ↔ ¬ has_piece b SOLDAT_BLEU := by
  rw [check_winner_scan_eq, scan_blueSoldiers]
  simp only [zero_add, Int.natCast_eq_zero, List.countP_eq_zero, decide_eq_true_eq, has_piece,
    not_exists, not_and]

theorem check_winner_redSoldiers_zero (b : Board) :
    (check_winner_scan b).redSoldiers = 0 ↔ ¬ has_piece b SOLDAT_ROUGE := by
  rw [check_winner_scan_eq, scan_redSoldiers]
  simp only [zero_add, Int.natCast_eq_zero, List.countP_eq_zero, decide_eq_true_eq, has_piece,
    not_exists, not_and]

theorem check_winner_blueKingAlive (b : Board) :
    (check_winner_scan b).blueKingAlive = true ↔ has_piece b ROI_BLEU := by
  rw [check_winner_scan_eq, scan_blueKingAlive]
  simp [has_piece]

theorem check_winner_redKingAlive (b : Board) :
    (check_winner_scan b).redKingAlive = true ↔ has_piece b ROI_ROUGE := by
  rw [check_winner_scan_eq, scan_redKingAlive]
  simp [has_piece]

theorem check_winner_blue_pos (b : Board) (h : has_piece b ROI_BLEU) :
    ((check_winner_scan b).rb, (check_winner_scan b).cb) ∈ cells ∧
      b.pion (check_winner_scan b).rb (check_winner_scan b).cb = ROI_BLEU := by
  rw [check_winner_scan_eq]
  obtain ⟨rc, hrc, hk, hpos⟩ := scan_blue_pos b cells ⟨false, false, -1, -1, -1, -1, 0, 0⟩ h
  rw [hpos]
  have h1 := congrArg Prod.fst hpos
  have h2 := congrArg Prod.snd hpos
  simp only at h1 h2
  rw [h1, h2]
  exact ⟨hrc, hk⟩

theorem check_winner_red_pos (b : Board) (h : has_piece b ROI_ROUGE) :
    ((check_winner_scan b).rr, (check_winner_scan b).cr) ∈ cells ∧
      b.pion (check_winner_scan b).rr (check_winner_scan b).cr = ROI_ROUGE := by
  rw [check_winner_scan_eq]
  obtain ⟨rc, hrc, hk, hpos⟩ := scan_red_pos b cells ⟨false, false, -1, -1, -1, -1, 0, 0⟩ h
  rw [hpos]
  have h1 := congrArg Prod.fst hpos
  have h2 := congrArg Prod.snd hpos
  simp only at h1 h2
  rw [h1, h2]
  exact ⟨hrc, hk⟩

/-- C10: on a board with at most one king per side `check_winner` returns the first
applicable value of the list (+1 no red king, -1 no blue king, +1 blue king on (8,8), -1 red
king on (0,0), +1 no red soldier, -1 no blue soldier, 0 otherwise); it returns 0 exactly when
both kings are present, neither is on its goal corner and both sides have a soldier. -/
theorem check_winner_spec (b : Board) (hb : at_most_one b ROI_BLEU) (hr : at_most_one b ROI_ROUGE) :
    check_winner b = winner_spec b ∧
    (check_winner b = 0 ↔
      (has_piece b ROI_BLEU ∧ has_piece b ROI_ROUGE ∧ b.pion 8 8 ≠ ROI_BLEU ∧
        b.pion 0 0 ≠ ROI_ROUGE ∧ has_piece b SOLDAT_BLEU ∧ has_piece b SOLDAT_ROUGE)) := by
  have hmain : check_winner b = winner_spec b := by
    unfold check_winner winner_spec
    have hRK := check_winner_redKingAlive b
    have hBK := check_winner_blueKingAlive b
    have hRS := check_winner_redSoldiers_zero b
    have hBS := check_winner_blueSoldiers_zero b
    by_cases h1 : has_piece b ROI_ROUGE
    swap
    · have : (check_winner_scan b).redKingAlive = false := by
        simpa using (not_congr hRK).2 h1
      simp [this, h1]
    have h1' : (check_winner_scan b).redKingAlive = true := hRK.2 h1
    by_cases h2 : has_piece b ROI_BLEU
    swap
    · have : (check_winner_scan b).blueKingAlive = false := by
        simpa using (not_congr hBK).2 h2
      simp [this, h1, h1', h2]
    have h2' : (check_winner_scan b).blueKingAlive = true := hBK.2 h2
    obtain ⟨hbm, hbk⟩ := check_winner_blue_pos b h2
    obtain ⟨hrm, hrk⟩ := check_winner_red_pos b h1
    have e3 : ((check_winner_scan b).rb = SIZE - 1 ∧ (check_winner_scan b).cb = SIZE - 1) ↔
        b.pion 8 8 = ROI_BLEU := by
      constructor
      · rintro ⟨ha, hb'⟩
        rw [ha, hb'] at hbk
        exact hbk
      · intro h88
        have := hb _ hbm (8, 8) ((mem_cells 8 8).2 (by omega)) hbk h88
        have h1 := congrArg Prod.fst this
        have h2 := congrArg Prod.snd this
        simp only at h1 h2
        exact ⟨by rw [h1]; rfl, by rw [h2]; rfl⟩
    have e4 : ((check_winner_scan b).rr = 0 ∧ (check_winner_scan b).cr = 0) ↔
        b.pion 0 0 = ROI_ROUGE := by
      constructor
      · rintro ⟨ha, hb'⟩
        rw [ha, hb'] at hrk
        exact hrk
      · intro h00
        have := hr _ hrm (0, 0) ((mem_cells 0 0).2 (by omega)) hrk h00
        have h1 := congrArg Prod.fst this
        have h2 := congrArg Prod.snd this
        simp only at h1 h2
        exact ⟨h1, h2⟩
    simp only [h1', h2', Bool.not_true, Bool.false_eq_true, if_false, h1, h2, not_true_eq_false]
    simp only [e3, e4, hRS, hBS]
  refine ⟨hmain, ?_⟩
  rw [hmain]
  unfold winner_spec
  by_cases h1 : has_piece b ROI_ROUGE <;> by_cases h2 : has_piece b ROI_BLEU <;>
  by_cases h3 : b.pion 8 8 = ROI_BLEU <;> by_cases h4 : b.pion 0 0 = ROI_ROUGE <;>
  by_cases h5 : has_piece b SOLDAT_ROUGE <;> by_cases h6 : has_piece b SOLDAT_BLEU <;>
  simp [h1, h2, h3, h4, h5, h6]


/-! ## Move generation -/

/-! ### The output buffer -/

theorem push_all_eq (maxOut : Nat) (l out : List Move) :
    l.foldl (fun o m => push_move o maxOut m) out = out ++ l.take (maxOut - out.length) := by
  induction l generalizing out with
  | nil => simp
  | cons m l ih =>
    rw [List.foldl_cons, ih]
    unfold push_move
    by_cases h : out.length < maxOut
    · rw [if_pos h]
      have : maxOut - out.length = (maxOut - (out ++ [m]).length) + 1 := by
        simp only [List.length_append, List.length_singleton]; omega
      rw [this, List.take_succ_cons, List.append_assoc, List.singleton_append]
    · rw [if_neg h]
      have : maxOut - out.length = 0 := by omega
      rw [this]; simp

theorem slide_loop_eq (b : Board) (maxOut : Nat) (r c dr dc : Int) (fuel : Nat) (nr nc : Int)
    (out : List Move) :
    slide_loop b maxOut r c dr dc fuel nr nc out =
      (slide_list b r c dr dc fuel nr nc).foldl (fun o m => push_move o maxOut m) out := by
  induction fuel generalizing nr nc out with
  | zero => rfl
  | succ fuel ih =>
    unfold slide_loop slide_list
    by_cases h : (in_bounds nr nc && is_empty (b.pion nr nc)) = true
    · rw [if_pos h, if_pos h, List.foldl_cons, ih]
    · rw [if_neg h, if_neg h]; rfl

theorem generate_moves_cell_eq (b : Board) (blueSide : Bool) (maxOut : Nat) (r c : Int)
    (out : List Move) :
    generate_moves_cell b blueSide maxOut r c out =
      (cell_moves b blueSide r c).foldl (fun o m => push_move o maxOut m) out := by
  unfold generate_moves_cell cell_moves
  by_cases h : ally (b.pion r c) blueSide = true
  · simp only [h, Bool.not_true, Bool.false_eq_true, if_false, if_true]
    generalize List.range 4 = ds
    induction ds generalizing out with
    | nil => rfl
    | cons d ds ih =>
      rw [List.foldl_cons, List.flatMap_cons, List.foldl_append, ih, slide_loop_eq]
  · simp only [h, Bool.not_eq_true] at *
    simp [h]

theorem generate_moves_eq_take (b : Board) (blueSide : Bool) (maxOut : Nat) :
    generate_moves b blueSide maxOut = (all_moves b blueSide).take maxOut := by
  unfold generate_moves
  rw [scan_eq_foldl_cells (fun r c out => generate_moves_cell b blueSide maxOut r c out)]
  have key : ∀ (l : List (Int × Int)) (out : List Move),
      l.foldl (fun s rc => generate_moves_cell b blueSide maxOut rc.1 rc.2 s) out =
        (l.flatMap (fun rc => cell_moves b blueSide rc.1 rc.2)).foldl
          (fun o m => push_move o maxOut m) out := by
    intro l
    induction l with
    | nil => intro out; rfl
    | cons x l ih =>
      intro out
      rw [List.foldl_cons, List.flatMap_cons, List.foldl_append, ih, generate_moves_cell_eq]
  rw [key, push_all_eq]
  simp [all_moves]


/-! ### Which moves are offered -/

theorem zero_step (x y : Int) : x + ((0 : Nat) : Int) * y = x := by omega

theorem succ_step (x y : Int) (j : Nat) :
    x + ((j + 1 : Nat) : Int) * y = x + y + (j : Int) * y := by
  rw [Int.ofNat_succ, Int.add_mul, Int.one_mul]; omega

theorem succ_step_cast (x y : Int) (j : Nat) :
    x + y + (j : Int) * y = x + ((j : Int) + 1) * y := by
  rw [Int.add_mul, Int.one_mul]; omega

theorem mem_slide_list (b : Board) (r c dr dc : Int) (fuel : Nat) (nr nc : Int) (m : Move) :
    m ∈ slide_list b r c dr dc fuel nr nc ↔
      ∃ k : Nat, k < fuel ∧ m = ⟨r, c, nr + k * dr, nc + k * dc⟩ ∧
        ∀ j : Nat, j ≤ k →
          in_bounds (nr + j * dr) (nc + j * dc) = true ∧ b.pion (nr + j * dr) (nc + j * dc) = 0 := by
  induction fuel generalizing nr nc with
  | zero => simp [slide_list]
  | succ fuel ih =>
    unfold slide_list
    by_cases h : (in_bounds nr nc && is_empty (b.pion nr nc)) = true
    · rw [if_pos h, List.mem_cons, ih]
      simp only [Bool.and_eq_true, is_empty_iff] at h
      constructor
      · rintro (rfl | ⟨k, hk, rfl, hall⟩)
        · refine ⟨0, by omega, by rw [zero_step, zero_step], ?_⟩
          intro j hj
          have : j = 0 := by omega
          subst this
          rw [zero_step, zero_step]; exact h
        · refine ⟨k + 1, by omega, ?_, ?_⟩
          · rw [succ_step, succ_step]
          · intro j hj
            rcases Nat.eq_zero_or_pos j with rfl | hpos
            · rw [zero_step, zero_step]; exact h
            · obtain ⟨j', rfl⟩ : ∃ j', j = j' + 1 := ⟨j - 1, by omega⟩
              have := hall j' (by omega)
              rw [succ_step, succ_step]; exact this
      · rintro ⟨k, hk, rfl, hall⟩
        rcases Nat.eq_zero_or_pos k with rfl | hpos
        · left; rw [zero_step, zero_step]
        · right
          obtain ⟨k', rfl⟩ : ∃ k', k = k' + 1 := ⟨k - 1, by omega⟩
          refine ⟨k', by omega, ?_, ?_⟩
          · rw [succ_step, succ_step]
          · intro j hj
            have := hall (j + 1) (by omega)
            rw [succ_step, succ_step] at this; exact this
    · rw [if_neg h]
      simp only [List.not_mem_nil, false_iff, not_exists, not_and]
      intro k _ _ hall
      apply h
      have := hall 0 (by omega)
      rw [zero_step, zero_step] at this
      rw [Bool.and_eq_true, is_empty_iff]; exact this

/-- Moves offered for the square `(r,c)`: a direction `d` and a number of steps `k+1`. -/
theorem mem_cell_moves (b : Board) (blueSide : Bool) (r c : Int) (m : Move) :
    m ∈ cell_moves b blueSide r c ↔
      ally (b.pion r c) blueSide = true ∧
      ∃ d : Nat, d < 4 ∧ ∃ k : Nat, k < 9 ∧
        m = ⟨r, c, r + (k + 1) * DR4 d, c + (k + 1) * DC4 d⟩ ∧
        ∀ j : Nat, j ≤ k →
          in_bounds (r + (j + 1) * DR4 d) (c + (j + 1) * DC4 d) = true ∧
          b.pion (r + (j + 1) * DR4 d) (c + (j + 1) * DC4 d) = 0 := by
  unfold cell_moves
  by_cases h : ally (b.pion r c) blueSide = true
  · rw [if_pos h]
    simp only [List.mem_flatMap, List.mem_range, mem_slide_list, h, true_and]
    simp only [succ_step_cast]
  · rw [if_neg h]
    simp [h]

theorem mem_all_moves (b : Board) (blueSide : Bool) (m : Move) :
    m ∈ all_moves b blueSide ↔
      in_bounds m.r1 m.c1 = true ∧ m ∈ cell_moves b blueSide m.r1 m.c1 := by
  unfold all_moves
  simp only [List.mem_flatMap]
  constructor
  · rintro ⟨⟨r, c⟩, hrc, hm⟩
    have hsrc : m.r1 = r ∧ m.c1 = c := by
      obtain ⟨_, d, _, k, _, rfl, _⟩ := (mem_cell_moves b blueSide r c m).1 hm
      exact ⟨rfl, rfl⟩
    obtain ⟨h1, h2⟩ := hsrc
    subst h1 h2
    refine ⟨?_, hm⟩
    rw [in_bounds_iff]
    have := (mem_cells _ _).1 hrc
    omega
  · rintro ⟨hin, hm⟩
    refine ⟨(m.r1, m.c1), ?_, hm⟩
    rw [in_bounds_iff] at hin
    exact (mem_cells _ _).2 (by omega)


theorem ally_ne_empty (p : Int) (bs : Bool) (h : ally p bs = true) : p ≠ 0 := by
  unfold ally at h
  cases bs
  · simp only [Bool.false_eq_true, if_false, is_red_iff] at h; omega
  · simp only [if_true, is_blue_iff] at h; omega

theorem legal_of_mem_all_moves (b : Board) (blueSide : Bool) (m : Move)
    (h : m ∈ all_moves b blueSide) : legal_move b blueSide m := by
  obtain ⟨hin, hm⟩ := (mem_all_moves b blueSide m).1 h
  obtain ⟨hally, d, hd, k, hk, hmeq, hall⟩ := (mem_cell_moves b blueSide _ _ m).1 hm
  obtain ⟨r1, c1, r2, c2⟩ := m
  simp only [Move.mk.injEq, true_and] at hmeq
  obtain ⟨hr2, hc2⟩ := hmeq
  simp only at hin hally hall hr2 hc2
  have hdest := hall k (le_refl k)
  unfold legal_move strictly_between
  simp only
  interval_cases d <;> simp only [DR4, DC4] at hr2 hc2 hall hdest <;>
    simp only [Int.mul_zero, Int.add_zero, Int.mul_neg, Int.mul_one] at hr2 hc2 hall hdest <;>
    subst hr2 hc2 <;>
    refine ⟨hin, hdest.1, hally, by omega, by omega, hdest.2, ?_⟩ <;>
    intro r c hb <;>
    rcases hb with ⟨h1, h2, h3⟩ | ⟨h1, h2, h3⟩
  -- d = 0 : up
  · omega
  · have := (hall (r1 - r - 1).toNat (by omega)).2
    have e : r1 + -(((r1 - r - 1).toNat : Int) + 1) = r := by omega
    rw [e] at this; rw [h1]; exact this
  -- d = 1 : down
  · omega
  · have := (hall (r - r1 - 1).toNat (by omega)).2
    have e : r1 + (((r - r1 - 1).toNat : Int) + 1) = r := by omega
    rw [e] at this; rw [h1]; exact this
  -- d = 2 : left
  · have := (hall (c1 - c - 1).toNat (by omega)).2
    have e : c1 + -(((c1 - c - 1).toNat : Int) + 1) = c := by omega
    rw [e] at this; rw [h1]; exact this
  · omega
  -- d = 3 : right
  · have := (hall (c - c1 - 1).toNat (by omega)).2
    have e : c1 + (((c - c1 - 1).toNat : Int) + 1) = c := by omega
    rw [e] at this; rw [h1]; exact this
  · omega

theorem mem_all_moves_of_legal (b : Board) (blueSide : Bool) (m : Move)
    (h : legal_move b blueSide m) : m ∈ all_moves b blueSide := by
  obtain ⟨r1, c1, r2, c2⟩ := m
  obtain ⟨hin1, hin2, hally, hne, hline, hdst, hbetween⟩ := h
  simp only at hin1 hin2 hally hne hline hdst
  rw [mem_all_moves]
  refine ⟨hin1, ?_⟩
  rw [mem_cell_moves]
  refine ⟨hally, ?_⟩
  rw [in_bounds_iff] at hin1 hin2
  simp only [Move.mk.injEq, true_and]
  unfold strictly_between at hbetween
  simp only at hbetween
  by_cases hrow : r1 = r2
  · subst hrow
    have hc : c1 ≠ c2 := by tauto
    rcases lt_or_gt_of_ne hc with hlt | hgt
    · refine ⟨3, by omega, (c2 - c1 - 1).toNat, by omega, ?_, ?_⟩
      · simp only [DR4, DC4]; constructor <;> omega
      · intro j hj
        simp only [DR4, DC4, Int.mul_zero, Int.add_zero, Int.mul_one]
        constructor
        · rw [in_bounds_iff]; omega
        · by_cases hjk : c1 + ((j : Int) + 1) = c2
          · rw [hjk]; exact hdst
          · exact hbetween _ _ (Or.inl ⟨rfl, rfl, Or.inl ⟨by omega, by omega⟩⟩)
    · refine ⟨2, by omega, (c1 - c2 - 1).toNat, by omega, ?_, ?_⟩
      · simp only [DR4, DC4]; constructor <;> omega
      · intro j hj
        simp only [DR4, DC4, Int.mul_zero, Int.add_zero, Int.mul_neg, Int.mul_one]
        constructor
        · rw [in_bounds_iff]; omega
        · by_cases hjk : c1 + -((j : Int) + 1) = c2
          · rw [hjk]; exact hdst
          · exact hbetween _ _ (Or.inl ⟨rfl, rfl, Or.inr ⟨by omega, by omega⟩⟩)
  · have hcol : c1 = c2 := by tauto
    subst hcol
    rcases lt_or_gt_of_ne hrow with hlt | hgt
    · refine ⟨1, by omega, (r2 - r1 - 1).toNat, by omega, ?_, ?_⟩
      · simp only [DR4, DC4]; constructor <;> omega
      · intro j hj
        simp only [DR4, DC4, Int.mul_zero, Int.add_zero, Int.mul_one]
        constructor
        · rw [in_bounds_iff]; omega
        · by_cases hjk : r1 + ((j : Int) + 1) = r2
          · rw [hjk]; exact hdst
          · exact hbetween _ _ (Or.inr ⟨rfl, rfl, Or.inl ⟨by omega, by omega⟩⟩)
    · refine ⟨0, by omega, (r1 - r2 - 1).toNat, by omega, ?_, ?_⟩
      · simp only [DR4, DC4]; constructor <;> omega
      · intro j hj
        simp only [DR4, DC4, Int.mul_zero, Int.add_zero, Int.mul_neg, Int.mul_one]
        constructor
        · rw [in_bounds_iff]; omega
        · by_cases hjk : r1 + -((j : Int) + 1) = r2
          · rw [hjk]; exact hdst
          · exact hbetween _ _ (Or.inr ⟨rfl, rfl, Or.inr ⟨by omega, by omega⟩⟩)

theorem mem_all_moves_iff_legal (b : Board) (blueSide : Bool) (m : Move) :
    m ∈ all_moves b blueSide ↔ legal_move b blueSide m :=
  ⟨legal_of_mem_all_moves b blueSide m, mem_all_moves_of_legal b blueSide m⟩


/-! ### No move is offered twice -/

theorem indices_nodup : indices.Nodup := by
  unfold indices
  refine List.Nodup.map_on ?_ (List.nodup_range 9)
  intro x _ y _ h
  exact Int.ofNat.inj h

theorem cells_nodup : cells.Nodup := by
  unfold cells
  rw [List.nodup_flatMap]
  constructor
  · intro r _
    refine List.Nodup.map_on ?_ indices_nodup
    intro x _ y _ h
    exact (Prod.mk.inj h).2
  · refine List.Nodup.pairwise_of_forall_ne indices_nodup ?_
    intro r _ r' _ hne
    simp only [Function.onFun, List.disjoint_left, List.mem_map, not_exists, not_and]
    rintro rc ⟨c, _, rfl⟩ c' _ h
    exact hne (Prod.mk.inj h).1.symm

theorem cells_length : cells.length = 81 := by decide

theorem slide_list_nodup (b : Board) (r c dr dc : Int) (hd : dr ≠ 0 ∨ dc ≠ 0) (fuel : Nat)
    (nr nc : Int) : (slide_list b r c dr dc fuel nr nc).Nodup := by
  induction fuel generalizing nr nc with
  | zero => unfold slide_list; exact List.nodup_nil
  | succ fuel ih =>
    unfold slide_list
    split
    · rw [List.nodup_cons]
      refine ⟨?_, ih _ _⟩
      rw [mem_slide_list]
      rintro ⟨k, _, hk, _⟩
      simp only [Move.mk.injEq, true_and] at hk
      obtain ⟨h1, h2⟩ := hk
      have e1 : ((k : Int) + 1) * dr = 0 := by rw [Int.add_mul, Int.one_mul]; omega
      have e2 : ((k : Int) + 1) * dc = 0 := by rw [Int.add_mul, Int.one_mul]; omega
      have hk1 : ((k : Int) + 1) ≠ 0 := by omega
      rcases hd with hd | hd
      · exact hd ((Int.mul_eq_zero.1 e1).resolve_left hk1)
      · exact hd ((Int.mul_eq_zero.1 e2).resolve_left hk1)
    · exact List.nodup_nil


theorem cell_moves_nodup (b : Board) (blueSide : Bool) (r c : Int) :
    (cell_moves b blueSide r c).Nodup := by
  unfold cell_moves
  split
  · rw [List.nodup_flatMap]
    constructor
    · intro d hd
      apply slide_list_nodup
      have hd4 := List.mem_range.1 hd
      interval_cases d <;> simp [DR4, DC4]
    · refine List.Nodup.pairwise_of_forall_ne (List.nodup_range 4) ?_
      intro d hd d' hd' hne
      have hd4 := List.mem_range.1 hd
      have hd4' := List.mem_range.1 hd'
      simp only [Function.onFun, List.disjoint_left]
      intro m hm hm'
      rw [mem_slide_list] at hm hm'
      obtain ⟨k, _, rfl, _⟩ := hm
      obtain ⟨k', _, hk', _⟩ := hm'
      simp only [Move.mk.injEq, true_and] at hk'
      obtain ⟨h1, h2⟩ := hk'
      interval_cases d <;> interval_cases d' <;> simp only [DR4, DC4] at h1 h2 <;>
        first
          | exact hne rfl
          | omega
  · exact List.nodup_nil

theorem all_moves_nodup (b : Board) (blueSide : Bool) : (all_moves b blueSide).Nodup := by
  unfold all_moves
  rw [List.nodup_flatMap]
  constructor
  · intro rc _
    exact cell_moves_nodup b blueSide rc.1 rc.2
  · refine List.Nodup.pairwise_of_forall_ne cells_nodup ?_
    rintro ⟨r, c⟩ _ ⟨r', c'⟩ _ hne
    simp only [Function.onFun, List.disjoint_left]
    intro m hm hm'
    obtain ⟨_, d, _, k, _, rfl, _⟩ := (mem_cell_moves b blueSide r c m).1 hm
    obtain ⟨_, d', _, k', _, h', _⟩ := (mem_cell_moves b blueSide r' c' _).1 hm'
    simp only [Move.mk.injEq] at h'
    exact hne (by rw [h'.1, h'.2.1])

/-! ### The buffer of `MAX_MOVES` entries is large enough -/

theorem unit_dir_eq (r1 c1 r1' c1' r2 c2 : Int)
    (h : unit_dir r1 c1 r2 c2 = unit_dir r1' c1' r2 c2) :
    ((r1 < r2 ↔ r1' < r2) ∧ (r2 < r1 ↔ r2 < r1')) ∧
      ((c1 < c2 ↔ c1' < c2) ∧ (c2 < c1 ↔ c2 < c1')) := by
  unfold unit_dir at h
  simp only [Prod.mk.injEq] at h
  obtain ⟨h1, h2⟩ := h
  constructor
  · split_ifs at h1 <;> omega
  · split_ifs at h2 <;> omega

theorem move_slot_inj (b : Board) (blueSide : Bool) (m m' : Move)
    (hm : legal_move b blueSide m) (hm' : legal_move b blueSide m')
    (h : move_slot m = move_slot m') : m = m' := by
  obtain ⟨r1, c1, r2, c2⟩ := m
  obtain ⟨r1', c1', r2', c2'⟩ := m'
  unfold move_slot at h
  simp only [Prod.mk.injEq] at h
  obtain ⟨⟨hr, hc⟩, hdir⟩ := h
  subst hr hc
  obtain ⟨⟨hd1, hd2⟩, ⟨hd3, hd4⟩⟩ := unit_dir_eq _ _ _ _ _ _ hdir
  obtain ⟨_, _, hally, hne, hline, _, hbetween⟩ := hm
  obtain ⟨_, _, hally', hne', hline', _, hbetween'⟩ := hm'
  simp only at hally hne hline hally' hne' hline'
  unfold strictly_between at hbetween hbetween'
  simp only at hbetween hbetween'
  have ha := ally_ne_empty _ _ hally
  have ha' := ally_ne_empty _ _ hally'
  have hrow : r1 = r1' := by
    by_contra hcon
    rcases lt_or_gt_of_ne hcon with hlt | hgt
    · by_cases hside : r1' < r2
      · exact ha' (hbetween r1' c1' (Or.inr ⟨by omega, by omega, Or.inl ⟨by omega, hside⟩⟩))
      · exact ha (hbetween' r1 c1 (Or.inr ⟨by omega, by omega, Or.inr ⟨by omega, by omega⟩⟩))
    · by_cases hside : r1 < r2
      · exact ha (hbetween' r1 c1 (Or.inr ⟨by omega, by omega, Or.inl ⟨by omega, hside⟩⟩))
      · exact ha' (hbetween r1' c1' (Or.inr ⟨by omega, by omega, Or.inr ⟨by omega, by omega⟩⟩))
  have hcol : c1 = c1' := by
    by_contra hcon
    rcases lt_or_gt_of_ne hcon with hlt | hgt
    · by_cases hside : c1' < c2
      · exact ha' (hbetween r1' c1' (Or.inl ⟨by omega, by omega, Or.inl ⟨by omega, hside⟩⟩))
      · exact ha (hbetween' r1 c1 (Or.inl ⟨by omega, by omega, Or.inr ⟨by omega, by omega⟩⟩))
    · by_cases hside : c1 < c2
      · exact ha (hbetween' r1 c1 (Or.inl ⟨by omega, by omega, Or.inl ⟨by omega, hside⟩⟩))
      · exact ha' (hbetween r1' c1' (Or.inl ⟨by omega, by omega, Or.inr ⟨by omega, by omega⟩⟩))
  rw [hrow, hcol]

theorem move_slot_mem (b : Board) (blueSide : Bool) (m : Move)
    (hm : legal_move b blueSide m) : move_slot m ∈ slots := by
  obtain ⟨r1, c1, r2, c2⟩ := m
  obtain ⟨_, hin2, _, hne, hline, _, _⟩ := hm
  simp only at hin2 hne hline
  rw [in_bounds_iff] at hin2
  unfold move_slot slots
  simp only
  rw [List.pair_mem_product]
  refine ⟨(mem_cells _ _).2 (by omega), ?_⟩
  unfold unit_dir
  simp only [List.mem_cons, Prod.mk.injEq, List.mem_singleton, List.not_mem_nil, or_false]
  split_ifs <;> omega

theorem all_moves_length_le (b : Board) (blueSide : Bool) : (all_moves b blueSide).length ≤ 324 := by
  have hnd : ((all_moves b blueSide).map move_slot).Nodup := by
    refine List.Nodup.map_on ?_ (all_moves_nodup b blueSide)
    intro x hx y hy h
    exact move_slot_inj b blueSide x y (legal_of_mem_all_moves _ _ _ hx)
      (legal_of_mem_all_moves _ _ _ hy) h
  have hsub : (all_moves b blueSide).map move_slot ⊆ slots := by
    intro s hs
    obtain ⟨m, hm, rfl⟩ := List.mem_map.1 hs
    exact move_slot_mem b blueSide m (legal_of_mem_all_moves _ _ _ hm)
  have := (List.subperm_of_subset hnd hsub).length_le
  rw [List.length_map] at this
  have hs : slots.length = 324 := by
    unfold slots
    have := List.length_product cells [((-1 : Int), (0 : Int)), (1, 0), (0, -1), (0, 1)]
    rw [cells_length] at this
    exact this
  omega

/-- With room for `MAX_MOVES` moves nothing is dropped. -/
theorem generate_moves_eq_all (b : Board) (blueSide : Bool) :
    generate_moves b blueSide MAX_MOVES = all_moves b blueSide := by
  rw [generate_moves_eq_take]
  apply List.take_of_length_le
  have := all_moves_length_le b blueSide
  simp only [MAX_MOVES]
  omega

/-- C1: with capacity `MAX_MOVES` the list of `generate_moves` contains a move exactly when
the move is legal (allied piece on the source, destination another square of the same row or
column, destination and every square strictly between empty), and no move occurs twice. -/
theorem generate_moves_spec (b : Board) (blueSide : Bool) :
    (∀ m : Move, m ∈ generate_moves b blueSide MAX_MOVES ↔ legal_move b blueSide m) ∧
    (generate_moves b blueSide MAX_MOVES).Nodup := by
  rw [generate_moves_eq_all]
  exact ⟨mem_all_moves_iff_legal b blueSide, all_moves_nodup b blueSide⟩


/-! ## Applying a move -/

theorem simulate_push_capture_pion (b : Board) (r c dr dc r' c' : Int) :
    (simulate_push_capture b r c dr dc).pion r' c' = b.pion r' c' ∨
      ((dr ≠ 0 ∨ dc ≠ 0) ∧ (r' = r + dr ∧ c' = c + dc) ∧
        (simulate_push_capture b r c dr dc).pion r' c' = EMPTY) := by
  rw [simulate_push_capture_eq]
  split
  · rename_i h
    by_cases hrc : r' = r + dr ∧ c' = c + dc
    · right
      refine ⟨h.1, hrc, ?_⟩
      rw [Board.set_pion, if_pos hrc]
    · left
      rw [Board.set_pion, if_neg hrc]
  · left; rfl

theorem simulate_sandwich_pion_cases (b : Board) (r c r' c' : Int) :
    (simulate_sandwich b r c).pion r' c' = b.pion r' c' ∨
      ((∃ d, d < 4 ∧ r' = r + DR4 d ∧ c' = c + DC4 d) ∧
        (simulate_sandwich b r c).pion r' c' = EMPTY) := by
  by_cases h : ∃ d, d < 4 ∧ (r' = r + DR4 d ∧ c' = c + DC4 d) ∧
      sandwich_fires b (is_blue (b.pion r c)) r c d = true
  · right
    obtain ⟨d, hd, hrc, _⟩ := h
    exact ⟨⟨d, hd, hrc⟩, (simulate_sandwich_pion b r c r' c').1 ⟨d, hd, hrc, by assumption⟩⟩
  · left
    exact (simulate_sandwich_pion b r c r' c').2 h

/-- The square of the attacker is not touched by the push capture. -/
theorem simulate_push_capture_self (b : Board) (r c dr dc : Int) :
    (simulate_push_capture b r c dr dc).pion r c = b.pion r c := by
  rcases simulate_push_capture_pion b r c dr dc r c with h | ⟨hnz, ⟨h1, h2⟩, _⟩
  · exact h
  · exfalso; omega

/-- The square of the attacker is not touched by the sandwich capture. -/
theorem simulate_sandwich_self (b : Board) (r c : Int) :
    (simulate_sandwich b r c).pion r c = b.pion r c := by
  rcases simulate_sandwich_pion_cases b r c r c with h | ⟨⟨d, hd, h1, h2⟩, _⟩
  · exact h
  · exfalso
    interval_cases d <;> simp [DR4, DC4] at h1 h2

/-- Both capture rules only ever write `EMPTY`. -/
theorem captures_keep_empty (b : Board) (r c dr dc r' c' : Int) (h : b.pion r' c' = EMPTY) :
    (simulate_sandwich (simulate_push_capture b r c dr dc) r c).pion r' c' = EMPTY := by
  rcases simulate_sandwich_pion_cases (simulate_push_capture b r c dr dc) r c r' c' with
    h1 | ⟨_, h1⟩
  · rw [h1]
    rcases simulate_push_capture_pion b r c dr dc r' c' with h2 | ⟨_, _, h2⟩
    · rw [h2]; exact h
    · exact h2
  · exact h1

theorem apply_move_source (b : Board) (m : Move) :
    (apply_move b m).pion m.r1 m.c1 = EMPTY := by
  unfold apply_move
  apply captures_keep_empty
  simp [Board.set_pion]

theorem apply_move_dest (b : Board) (m : Move) (hne : m.r1 ≠ m.r2 ∨ m.c1 ≠ m.c2) :
    (apply_move b m).pion m.r2 m.c2 = b.pion m.r1 m.c1 := by
  unfold apply_move
  simp only
  rw [simulate_sandwich_self, simulate_push_capture_self]
  have : ¬ (m.r2 = m.r1 ∧ m.c2 = m.c1) := by
    rintro ⟨h1, h2⟩
    rcases hne with h | h
    · exact h h1.symm
    · exact h h2.symm
  simp [Board.set_pion, this]

/-- C9: for a move produced by `generate_moves`, after `apply_move` the source square is
empty and the destination square holds the piece that stood on the source square; neither
capture rule, applied to the board after the displacement, changes the square of the moved
piece. -/
theorem apply_move_spec (b : Board) (blueSide : Bool) (m : Move)
    (hm : m ∈ generate_moves b blueSide MAX_MOVES) :
    (apply_move b m).pion m.r1 m.c1 = EMPTY ∧
    (apply_move b m).pion m.r2 m.c2 = b.pion m.r1 m.c1 ∧
    (∀ (b' : Board) (dr dc : Int),
      (simulate_push_capture b' m.r2 m.c2 dr dc).pion m.r2 m.c2 = b'.pion m.r2 m.c2 ∧
      (simulate_sandwich b' m.r2 m.c2).pion m.r2 m.c2 = b'.pion m.r2 m.c2) := by
  rw [generate_moves_eq_all] at hm
  have hl := legal_of_mem_all_moves b blueSide m hm
  exact ⟨apply_move_source b m, apply_move_dest b m hl.2.2.2.1,
    fun b' dr dc => ⟨simulate_push_capture_self b' _ _ dr dc, simulate_sandwich_self b' _ _⟩⟩


/-! ## Move ordering -/

theorem insert_rev_perm (score : Move → Int) (key : Move) (ks : Int) (l : List Move) :
    (insert_rev score key ks l).Perm (key :: l) := by
  induction l with
  | nil => exact List.Perm.refl _
  | cons x l ih =>
    unfold insert_rev
    split
    · exact List.Perm.refl _
    · exact (List.Perm.cons x ih).trans (List.Perm.swap key x l)

theorem insert_desc_perm (score : Move → Int) (key : Move) (pre : List Move) :
    (insert_desc score key pre).Perm (key :: pre) := by
  unfold insert_desc
  refine (List.reverse_perm _).trans ((insert_rev_perm score key _ _).trans ?_)
  exact List.Perm.cons key (List.reverse_perm pre)

theorem insert_desc_length (score : Move → Int) (key : Move) (pre : List Move) :
    (insert_desc score key pre).length = pre.length + 1 := by
  rw [(insert_desc_perm score key pre).length_eq, List.length_cons]

theorem sort_desc_fold_perm (score : Move → Int) (l pre : List Move) :
    (l.foldl (fun pre x => insert_desc score x pre) pre).Perm (pre ++ l) := by
  induction l generalizing pre with
  | nil => simp
  | cons x l ih =>
    rw [List.foldl_cons]
    refine (ih _).trans ?_
    refine ((insert_desc_perm score x pre).append_right l).trans ?_
    simp only [List.cons_append]
    exact List.perm_middle.symm

theorem sort_desc_perm (score : Move → Int) (l : List Move) : (sort_desc score l).Perm l := by
  have := sort_desc_fold_perm score l []
  simpa [sort_desc] using this

theorem insert_rev_sorted (score : Move → Int) (key : Move) (l : List Move)
    (h : l.Pairwise (fun a b => score a ≤ score b)) :
    (insert_rev score key (score key) l).Pairwise (fun a b => score a ≤ score b) := by
  induction l with
  | nil => simp [insert_rev]
  | cons x l ih =>
    unfold insert_rev
    rw [List.pairwise_cons] at h
    split
    · rename_i hx
      rw [List.pairwise_cons]
      refine ⟨?_, List.pairwise_cons.2 h⟩
      intro y hy
      rcases List.mem_cons.1 hy with rfl | hy
      · exact hx
      · exact le_trans hx (h.1 y hy)
    · rename_i hx
      rw [List.pairwise_cons]
      refine ⟨?_, ih h.2⟩
      intro y hy
      rcases List.mem_cons.1 ((insert_rev_perm score key _ l).subset hy) with rfl | hy
      · omega
      · exact h.1 y hy

theorem insert_desc_sorted (score : Move → Int) (key : Move) (pre : List Move)
    (h : pre.Pairwise (fun a b => score a ≥ score b)) :
    (insert_desc score key pre).Pairwise (fun a b => score a ≥ score b) := by
  unfold insert_desc
  rw [List.pairwise_reverse]
  apply insert_rev_sorted
  rw [List.pairwise_reverse]
  exact h

theorem sort_desc_sorted (score : Move → Int) (l : List Move) :
    (sort_desc score l).Pairwise (fun a b => score a ≥ score b) := by
  unfold sort_desc
  have key : ∀ (l pre : List Move), pre.Pairwise (fun a b => score a ≥ score b) →
      (l.foldl (fun pre x => insert_desc score x pre) pre).Pairwise
        (fun a b => score a ≥ score b) := by
    intro l
    induction l with
    | nil => intro pre h; exact h
    | cons x l ih =>
      intro pre h
      rw [List.foldl_cons]
      exact ih _ (insert_desc_sorted score x pre h)
  exact key l [] List.Pairwise.nil

theorem getD_append_cons (pre : List Move) (y : Move) (rest : List Move) (d : Move) :
    (pre ++ y :: rest).getD pre.length d = y := by
  induction pre with
  | nil => rfl
  | cons x pre ih => simpa using ih

/-- The inner loop of `sort_moves` on the array `pre ++ y :: rest` with `i = pre.length`
(whatever `moves[i]` holds, since it is overwritten) inserts `key` into `pre`. -/
theorem sort_inner_eq (score : Move → Int) (key : Move) (ks : Int) (pre : List Move) :
    ∀ (y : Move) (rest : List Move),
      sort_inner score key ks pre.length (pre ++ y :: rest) =
        (insert_rev score key ks pre.reverse).reverse ++ rest := by
  induction pre using List.reverseRecOn with
  | nil =>
    intro y rest
    simp [sort_inner, insert_rev]
  | append_singleton pre x ih =>
    intro y rest
    have hlen : (pre ++ [x]).length = pre.length + 1 := by simp
    rw [hlen]
    unfold sort_inner
    have hget : (pre ++ [x] ++ y :: rest).getD pre.length default = x := by
      have := getD_append_cons pre x (y :: rest) default
      simpa using this
    have hset : ∀ v : Move, (pre ++ [x] ++ y :: rest).set (pre.length + 1) v =
        pre ++ x :: v :: rest := by
      intro v
      have : pre ++ [x] ++ y :: rest = (pre ++ [x]) ++ y :: rest := rfl
      rw [this, List.set_append_right _ _ (by simp)]
      simp
    simp only [hget, hset, List.reverse_append, List.reverse_singleton, List.singleton_append]
    unfold insert_rev
    by_cases hx : score x ≥ ks
    · simp [hx]
    · simp only [hx, if_false]
      have := ih x (x :: rest)
      rw [this]
      simp

theorem sort_moves_eq (b : Board) (blueToPlay : Bool) (moves : List Move) (ttMove : Option Move) :
    sort_moves b blueToPlay moves moves.length ttMove =
      sort_desc (fun m => move_score b blueToPlay m ttMove) moves := by
  unfold sort_moves sort_desc
  have key : ∀ (rest pre : List Move),
      (List.range' pre.length rest.length).foldl
        (fun moves i =>
          let key := moves.getD i default
          let keyScore := move_score b blueToPlay key ttMove
          sort_inner (fun m => move_score b blueToPlay m ttMove) key keyScore i moves)
        (pre ++ rest) =
      rest.foldl (fun pre x => insert_desc (fun m => move_score b blueToPlay m ttMove) x pre)
        pre := by
    intro rest
    induction rest with
    | nil => intro pre; simp
    | cons y rest ih =>
      intro pre
      rw [List.length_cons, List.range'_succ, List.foldl_cons, List.foldl_cons]
      have hget : (pre ++ y :: rest).getD pre.length default = y :=
        getD_append_cons pre y rest default
      simp only [hget]
      rw [sort_inner_eq]
      have := ih (insert_desc (fun m => move_score b blueToPlay m ttMove) y pre)
      rw [insert_desc_length] at this
      exact this
  cases moves with
  | nil => rfl
  | cons x rest =>
    have := key rest [x]
    simp only [List.length_cons, List.length_nil, zero_add, List.singleton_append] at this
    simp only [List.length_cons, Nat.add_sub_cancel, List.foldl_cons]
    rw [this]
    rfl

theorem sort_moves_perm (b : Board) (blueToPlay : Bool) (moves : List Move)
    (ttMove : Option Move) :
    (sort_moves b blueToPlay moves moves.length ttMove).Perm moves := by
  rw [sort_moves_eq]; exact sort_desc_perm _ _

theorem sort_moves_sorted (b : Board) (blueToPlay : Bool) (moves : List Move)
    (ttMove : Option Move) :
    (sort_moves b blueToPlay moves moves.length ttMove).Pairwise
      (fun x y => move_score b blueToPlay x ttMove ≥ move_score b blueToPlay y ttMove) := by
  rw [sort_moves_eq]; exact sort_desc_sorted _ _

/-- A move whose score is strictly above the score of every other move of the list is put
at index 0. -/
theorem sort_moves_head (b : Board) (blueToPlay : Bool) (moves : List Move)
    (ttMove : Option Move) (w : Move) (hw : w ∈ moves)
    (hbest : ∀ m ∈ moves, m ≠ w →
      move_score b blueToPlay m ttMove < move_score b blueToPlay w ttMove) :
    ∃ rest, sort_moves b blueToPlay moves moves.length ttMove = w :: rest := by
  have hp := sort_moves_perm b blueToPlay moves ttMove
  have hs := sort_moves_sorted b blueToPlay moves ttMove
  cases hL : sort_moves b blueToPlay moves moves.length ttMove with
  | nil =>
    rw [hL] at hp
    exact absurd (hp.symm.subset hw) (List.not_mem_nil _)
  | cons h rest =>
    rw [hL] at hp hs
    refine ⟨rest, ?_⟩
    by_cases hh : h = w
    · rw [hh]
    · exfalso
      have hwin : w ∈ h :: rest := hp.symm.subset hw
      rcases List.mem_cons.1 hwin with heq | hwr
      · exact hh heq.symm
      · have h1 := (List.pairwise_cons.1 hs).1 w hwr
        have h2 := hbest h (hp.subset (List.mem_cons_self _ _)) hh
        omega


/-! ## Bounds on the static evaluation -/

theorem foldl_int_bound {α : Type} (f : Int → α → Int) (B : Int) (l : List α)
    (h : ∀ x ∈ l, ∀ s, s - B ≤ f s x ∧ f s x ≤ s + B) (s0 : Int) :
    s0 - B * l.length ≤ l.foldl f s0 ∧ l.foldl f s0 ≤ s0 + B * l.length := by
  induction l generalizing s0 with
  | nil =>
    simp only [List.length_nil, List.foldl_nil]
    constructor <;> omega
  | cons x l ih =>
    rw [List.foldl_cons]
    have h1 := h x (List.mem_cons_self _ _) s0
    have h2 := ih (fun y hy => h y (List.mem_cons_of_mem _ hy)) (f s0 x)
    simp only [List.length_cons]
    rw [Int.ofNat_succ, Int.mul_add, Int.mul_one]
    constructor <;> omega

theorem evaluate_material_bound (p s : Int) :
    s - 300 ≤ evaluate_material p s ∧ evaluate_material p s ≤ s + 300 := by
  unfold evaluate_material
  split_ifs <;> constructor <;> omega

theorem c_abs_bound (x : Int) (h0 : 0 ≤ x) (h9 : x < 9) :
    0 ≤ 4 - c_abs (x - 4) ∧ 4 - c_abs (x - 4) ≤ 4 := by
  unfold c_abs
  split_ifs <;> constructor <;> omega

theorem evaluate_centrality_bound (b : Board) (r c s : Int) (h : (r, c) ∈ cells) :
    s - 8 ≤ evaluate_centrality b r c s ∧ evaluate_centrality b r c s ≤ s + 8 := by
  have hrc := (mem_cells r c).1 h
  have hr := c_abs_bound r hrc.1.1 hrc.1.2
  have hc := c_abs_bound c hrc.2.1 hrc.2.2
  unfold evaluate_centrality
  split_ifs <;> constructor <;> omega

theorem evaluate_king_dist_bound (b : Board) (l : List (Int × Int)) (hl : ∀ x ∈ l, x ∈ cells)
    (best : Int × Int) (h1 : 0 ≤ best.1) (h2 : 0 ≤ best.2) :
    0 ≤ (l.foldl (fun s rc => evaluate_king_dist b rc.1 rc.2 s) best).1 ∧
      0 ≤ (l.foldl (fun s rc => evaluate_king_dist b rc.1 rc.2 s) best).2 := by
  induction l generalizing best with
  | nil => exact ⟨h1, h2⟩
  | cons x l ih =>
    rw [List.foldl_cons]
    have hx := hl x (List.mem_cons_self _ _)
    obtain ⟨r, c⟩ := x
    have hrc := (mem_cells r c).1 hx
    apply ih (fun y hy => hl y (List.mem_cons_of_mem _ hy))
    · unfold evaluate_king_dist
      simp only [SIZE]
      split_ifs <;> (try simp only) <;> omega
    · unfold evaluate_king_dist
      simp only [SIZE]
      split_ifs <;> (try simp only) <;> omega

theorem mobility_bound (b : Board) (blueSide : Bool) :
    0 ≤ mobility b blueSide ∧ mobility b blueSide ≤ 324 := by
  unfold mobility
  rw [generate_moves_eq_all]
  have := all_moves_length_le b blueSide
  constructor
  · exact Int.natCast_nonneg _
  · exact_mod_cast this

/-- The static evaluation of any board stays far inside the clamp range of the table. -/
theorem evaluate_bound (b : Board) : -25371 ≤ evaluate b ∧ evaluate b ≤ 25371 := by
  unfold evaluate
  simp only
  rw [scan_eq_foldl_cells (fun r c s => evaluate_material (b.pion r c) s),
    scan_eq_foldl_cells (fun r c s => evaluate_king_dist b r c s),
    scan_eq_foldl_cells (fun r c s => evaluate_centrality b r c s)]
  have hm := foldl_int_bound (fun s (rc : Int × Int) => evaluate_material (b.pion rc.1 rc.2) s)
    300 cells (fun x _ s => evaluate_material_bound _ s) 0
  have hk := evaluate_king_dist_bound b cells (fun x hx => hx) ((100 : Int), (100 : Int))
    (by simp) (by simp)
  have hb1 := mobility_bound b true
  have hb2 := mobility_bound b false
  rw [cells_length] at hm
  set M := cells.foldl (fun s (rc : Int × Int) => evaluate_material (b.pion rc.1 rc.2) s) 0
  set K := cells.foldl (fun s (rc : Int × Int) => evaluate_king_dist b rc.1 rc.2 s)
    ((100 : Int), (100 : Int))
  have hc := fun s0 => foldl_int_bound
    (fun s (rc : Int × Int) => evaluate_centrality b rc.1 rc.2 s)
    8 cells (fun x hx s => evaluate_centrality_bound b x.1 x.2 s hx) s0
  rw [cells_length] at hc
  simp only [Nat.cast_ofNat] at hm hc
  split_ifs <;>
    refine ⟨le_trans ?_ (hc _).1, le_trans (hc _).2 ?_⟩ <;> omega


/-! ## The search: structure of a node -/

theorem minimax_zero (z : ZobristKeys) (b : Board) (alpha beta : Int) (blueToPlay : Bool)
    (key : Nat) (s : SearchState) :
    minimax z 0 b alpha beta blueToPlay key s =
      if check_winner b = 1 then (100000, b, s)
      else if check_winner b = -1 then (-100000, b, s)
      else (evaluate b, b, s) := rfl

theorem minimax_succ (z : ZobristKeys) (d : Nat) (b : Board) (alpha beta : Int)
    (blueToPlay : Bool) (key : Nat) (s : SearchState) :
    minimax z (d + 1) b alpha beta blueToPlay key s =
      if check_winner b = 1 then (100000, b, s)
      else if check_winner b = -1 then (-100000, b, s)
      else minimax_node (minimax z d) z ((d + 1 : Nat) : Int) b alpha beta blueToPlay key s := rfl

/-- A terminal position is scored at once, whatever the depth, the window and the table. -/
theorem minimax_terminal (z : ZobristKeys) (d : Nat) (b : Board) (alpha beta : Int)
    (blueToPlay : Bool) (key : Nat) (s : SearchState) :
    (check_winner b = 1 → minimax z d b alpha beta blueToPlay key s = (100000, b, s)) ∧
    (check_winner b = -1 → minimax z d b alpha beta blueToPlay key s = (-100000, b, s)) := by
  cases d with
  | zero =>
    rw [minimax_zero]
    constructor
    · intro h; rw [if_pos h]
    · intro h; rw [if_neg (by omega), if_pos h]
  | succ d =>
    rw [minimax_succ]
    constructor
    · intro h; rw [if_pos h]
    · intro h; rw [if_neg (by omega), if_pos h]

theorem tt_lookup_ret (e : TTEntry) (key : Nat) (depth alpha beta v : Int)
    (h : tt_lookup e key depth alpha beta = Lookup.ret v) :
    v = e.value ∧ e.key = key ∧ e.depth ≥ depth := by
  unfold tt_lookup at h
  by_cases h1 : e.key = key
  · by_cases h2 : e.depth ≥ depth
    · refine ⟨?_, h1, h2⟩
      rw [if_pos h1, if_pos h2] at h
      by_cases h3 : e.flag = TT_EXACT
      · rw [if_pos h3] at h; injection h with h; exact h.symm
      · rw [if_neg h3] at h
        simp only at h
        split_ifs at h <;> (injection h with h; exact h.symm)
    · rw [if_pos h1, if_neg h2] at h; exact Lookup.noConfusion h
  · rw [if_neg h1] at h; exact Lookup.noConfusion h

theorem tt_lookup_miss (e : TTEntry) (key : Nat) (depth alpha beta : Int)
    (h : ¬ (e.key = key ∧ e.depth ≥ depth)) :
    tt_lookup e key depth alpha beta =
      Lookup.cont alpha beta (if e.key = key then e.best else ⟨-1, -1, -1, -1⟩) := by
  unfold tt_lookup
  by_cases h1 : e.key = key
  · have h2 : ¬ e.depth ≥ depth := fun h2 => h ⟨h1, h2⟩
    rw [if_pos h1, if_neg h2, if_pos h1]
  · rw [if_neg h1, if_neg h1]

/-- The node as the code runs it when the lookup does not return and a move exists. -/
theorem minimax_node_expand
    (child : Board → Int → Int → Bool → Nat → SearchState → Int × Board × SearchState)
    (z : ZobristKeys) (depth : Int) (b : Board) (alpha beta : Int) (blueToPlay : Bool) (key : Nat)
    (s : SearchState) (a' b' : Int) (t : Move)
    (hl : tt_lookup (tt_probe s.TT key) key depth alpha beta = Lookup.cont a' b' t)
    (hm : generate_moves b blueToPlay MAX_MOVES ≠ []) :
    minimax_node child z depth b alpha beta blueToPlay key s =
      ((minimax_finish key depth
          (minimax_loop (fun b a bt k s => child b a bt (!blueToPlay) k s) z blueToPlay
            (sort_moves b blueToPlay (generate_moves b blueToPlay MAX_MOVES)
              (generate_moves b blueToPlay MAX_MOVES).length (some t)) b
            ⟨a', b', if blueToPlay then -INF_SCORE else INF_SCORE,
              (sort_moves b blueToPlay (generate_moves b blueToPlay MAX_MOVES)
                (generate_moves b blueToPlay MAX_MOVES).length (some t)).getD 0 default, s⟩).2).1,
        (minimax_loop (fun b a bt k s => child b a bt (!blueToPlay) k s) z blueToPlay
            (sort_moves b blueToPlay (generate_moves b blueToPlay MAX_MOVES)
              (generate_moves b blueToPlay MAX_MOVES).length (some t)) b
            ⟨a', b', if blueToPlay then -INF_SCORE else INF_SCORE,
              (sort_moves b blueToPlay (generate_moves b blueToPlay MAX_MOVES)
                (generate_moves b blueToPlay MAX_MOVES).length (some t)).getD 0 default, s⟩).1,
        (minimax_finish key depth
          (minimax_loop (fun b a bt k s => child b a bt (!blueToPlay) k s) z blueToPlay
            (sort_moves b blueToPlay (generate_moves b blueToPlay MAX_MOVES)
              (generate_moves b blueToPlay MAX_MOVES).length (some t)) b
            ⟨a', b', if blueToPlay then -INF_SCORE else INF_SCORE,
              (sort_moves b blueToPlay (generate_moves b blueToPlay MAX_MOVES)
                (generate_moves b blueToPlay MAX_MOVES).length (some t)).getD 0 default, s⟩).2).2) := by
  unfold minimax_node
  simp only [hl]
  have hn : (generate_moves b blueToPlay MAX_MOVES).length ≠ 0 := by
    rw [Ne, List.length_eq_zero]; exact hm
  rw [if_neg hn]

theorem minimax_node_ret
    (child : Board → Int → Int → Bool → Nat → SearchState → Int × Board × SearchState)
    (z : ZobristKeys) (depth : Int) (b : Board) (alpha beta : Int) (blueToPlay : Bool) (key : Nat)
    (s : SearchState) (v : Int)
    (hl : tt_lookup (tt_probe s.TT key) key depth alpha beta = Lookup.ret v) :
    minimax_node child z depth b alpha beta blueToPlay key s = (v, b, s) := by
  unfold minimax_node
  simp only [hl]

theorem minimax_node_nomove
    (child : Board → Int → Int → Bool → Nat → SearchState → Int × Board × SearchState)
    (z : ZobristKeys) (depth : Int) (b : Board) (alpha beta : Int) (blueToPlay : Bool) (key : Nat)
    (s : SearchState) (a' b' : Int) (t : Move)
    (hl : tt_lookup (tt_probe s.TT key) key depth alpha beta = Lookup.cont a' b' t)
    (hm : generate_moves b blueToPlay MAX_MOVES = []) :
    minimax_node child z depth b alpha beta blueToPlay key s = (evaluate b, b, s) := by
  unfold minimax_node
  simp only [hl, hm, List.length_nil, if_true]

/-- The loop keeps the board and every property that each pass of its body keeps. -/
theorem minimax_loop_inv
    (child : Board → Int → Int → Nat → SearchState → Int × Board × SearchState)
    (z : ZobristKeys) (blueToPlay : Bool) (b : Board) (Inv : LoopState → Prop) (l : List Move)
    (hstep : ∀ m ∈ l, ∀ st, Inv st → Inv (minimax_loop_body child z blueToPlay m b st).2) :
    ∀ st, Inv st →
      Inv (minimax_loop child z blueToPlay l b st).2 ∧
        (minimax_loop child z blueToPlay l b st).1 = b := by
  induction l with
  | nil => intro st h; exact ⟨h, rfl⟩
  | cons m rest ih =>
    intro st h
    have h1 := hstep m (List.mem_cons_self _ _) st h
    have hb : (minimax_loop_body child z blueToPlay m b st).1 = b := rfl
    unfold minimax_loop
    simp only
    split
    · exact ⟨h1, hb⟩
    · rw [hb]
      exact ih (fun m' hm' => hstep m' (List.mem_cons_of_mem _ hm')) _ h1


theorem minimax_loop_cons
    (child : Board → Int → Int → Nat → SearchState → Int × Board × SearchState)
    (z : ZobristKeys) (blueToPlay : Bool) (m : Move) (rest : List Move) (b : Board)
    (st : LoopState) :
    minimax_loop child z blueToPlay (m :: rest) b st =
      if (minimax_loop_body child z blueToPlay m b st).2.alpha ≥
          (minimax_loop_body child z blueToPlay m b st).2.beta then
        minimax_loop_body child z blueToPlay m b st
      else minimax_loop child z blueToPlay rest (minimax_loop_body child z blueToPlay m b st).1
        (minimax_loop_body child z blueToPlay m b st).2 := rfl

/-- The loop over a list with at least one move: a property that the first pass
establishes and every later pass keeps holds at the end. -/
theorem minimax_loop_inv_first
    (child : Board → Int → Int → Nat → SearchState → Int × Board × SearchState)
    (z : ZobristKeys) (blueToPlay : Bool) (b : Board) (Inv0 Inv1 : LoopState → Prop)
    (m : Move) (rest : List Move)
    (h0 : ∀ st, Inv0 st → Inv1 (minimax_loop_body child z blueToPlay m b st).2)
    (h1 : ∀ m' ∈ rest, ∀ st, Inv1 st → Inv1 (minimax_loop_body child z blueToPlay m' b st).2)
    (st : LoopState) (hst : Inv0 st) :
    Inv1 (minimax_loop child z blueToPlay (m :: rest) b st).2 ∧
      (minimax_loop child z blueToPlay (m :: rest) b st).1 = b := by
  rw [minimax_loop_cons]
  have hb : (minimax_loop_body child z blueToPlay m b st).1 = b := rfl
  split
  · exact ⟨h0 st hst, hb⟩
  · rw [hb]
    exact minimax_loop_inv child z blueToPlay b Inv1 rest h1 _ (h0 st hst)

theorem loop_update_s (blueToPlay : Bool) (m : Move) (val : Int) (st : LoopState)
    (s : SearchState) : (loop_update blueToPlay m val st s).s = s := by
  unfold loop_update; split <;> rfl

theorem minimax_finish_outBest (key : Nat) (depth : Int) (st : LoopState) :
    (minimax_finish key depth st).2.outBest = st.s.outBest.map (fun _ => st.bestMove) := rfl

theorem minimax_finish_value (key : Nat) (depth : Int) (st : LoopState) :
    (minimax_finish key depth st).1 = st.bestVal := rfl

/-- Mandatory backtrack and output cell: `minimax` returns with the board it was given, and
the cell behind `outBest` stays a cell. -/
theorem minimax_frame (z : ZobristKeys) (d : Nat) :
    ∀ (b : Board) (alpha beta : Int) (blueToPlay : Bool) (key : Nat) (s : SearchState),
      (minimax z d b alpha beta blueToPlay key s).2.1 = b ∧
      (minimax z d b alpha beta blueToPlay key s).2.2.outBest.isSome = s.outBest.isSome := by
  induction d with
  | zero =>
    intro b alpha beta blueToPlay key s
    rw [minimax_zero]
    split_ifs <;> exact ⟨rfl, rfl⟩
  | succ d ih =>
    intro b alpha beta blueToPlay key s
    rw [minimax_succ]
    split_ifs
    · exact ⟨rfl, rfl⟩
    · exact ⟨rfl, rfl⟩
    · cases hl : tt_lookup (tt_probe s.TT key) key ((d + 1 : Nat) : Int) alpha beta with
      | ret v =>
        rw [minimax_node_ret _ _ _ _ _ _ _ _ _ _ hl]
        exact ⟨rfl, rfl⟩
      | cont a' b' t =>
        by_cases hm : generate_moves b blueToPlay MAX_MOVES = []
        · rw [minimax_node_nomove _ _ _ _ _ _ _ _ _ _ _ _ hl hm]
          exact ⟨rfl, rfl⟩
        · rw [minimax_node_expand _ _ _ _ _ _ _ _ _ _ _ _ hl hm]
          have hloop := minimax_loop_inv
            (fun b a bt k s => minimax z d b a bt (!blueToPlay) k s) z blueToPlay b
            (fun st => st.s.outBest.isSome = s.outBest.isSome)
            (sort_moves b blueToPlay (generate_moves b blueToPlay MAX_MOVES)
              (generate_moves b blueToPlay MAX_MOVES).length (some t))
            (by
              intro m _ st hst
              unfold minimax_loop_body
              simp only [loop_update_s]
              rw [(ih _ _ _ _ _ _).2]
              exact hst)
            ⟨a', b', if blueToPlay then -INF_SCORE else INF_SCORE,
              (sort_moves b blueToPlay (generate_moves b blueToPlay MAX_MOVES)
                (generate_moves b blueToPlay MAX_MOVES).length (some t)).getD 0 default, s⟩ rfl
          refine ⟨hloop.2, ?_⟩
          simp only [minimax_finish_outBest, Option.isSome_map']
          exact hloop.1

/-! ## The search: values and table entries stay in range -/

theorem EVAL_CLAMP_bound (x : Int) : -30000 ≤ EVAL_CLAMP x ∧ EVAL_CLAMP x ≤ 30000 := by
  unfold EVAL_CLAMP
  split_ifs <;> constructor <;> omega

theorem tt_store_eq (tt : Table) (key : Nat) (depth value : Int) (flag : Nat) (best : Move) :
    tt_store tt key depth value flag best =
      if (tt (key &&& TT_MASK)).key = 0 ∨ depth ≥ (tt (key &&& TT_MASK)).depth then
        fun i =>
          if i = key &&& TT_MASK then
            ⟨key, to_int16 (EVAL_CLAMP value), to_int8 depth, to_uint8 flag, best⟩
          else tt i
      else tt := rfl

theorem tt_store_probe (tt : Table) (key : Nat) (depth value : Int) (flag : Nat) (best : Move)
    (h : (tt_probe tt key).key = 0 ∨ depth ≥ (tt_probe tt key).depth) :
    tt_probe (tt_store tt key depth value flag best) key =
      ⟨key, to_int16 (EVAL_CLAMP value), to_int8 depth, to_uint8 flag, best⟩ := by
  unfold tt_probe at h ⊢
  rw [tt_store_eq, if_pos h]
  simp only [if_true]

theorem tt_store_TTok (D : Int) (tt : Table) (key : Nat) (depth value : Int) (flag : Nat)
    (best : Move) (h : TTok D tt) (h0 : 0 ≤ depth) (hD : depth ≤ D) :
    TTok D (tt_store tt key depth value flag best) := by
  rw [tt_store_eq]
  split
  · intro i
    by_cases hi : i = key &&& TT_MASK
    · simp only [hi, if_true]
      have hc := EVAL_CLAMP_bound value
      unfold to_int8 to_int16
      refine ⟨?_, ?_, ?_⟩ <;> omega
    · simp only [hi, if_false]
      exact h i
  · exact h

theorem TTok_mono (D D' : Int) (tt : Table) (h : TTok D tt) (hD : D ≤ D') : TTok D' tt := by
  intro i
  have := h i
  exact ⟨by omega, this.2.1, this.2.2⟩

/-- One pass of the loop body keeps a value already in range in range, and puts the first
value in range. -/
theorem loop_update_bestVal (blueToPlay : Bool) (m : Move) (val : Int) (st : LoopState)
    (s : SearchState) (hv : -100000 ≤ val ∧ val ≤ 100000)
    (hst : (-100000 ≤ st.bestVal ∧ st.bestVal ≤ 100000) ∨
      st.bestVal = if blueToPlay then -INF_SCORE else INF_SCORE) :
    -100000 ≤ (loop_update blueToPlay m val st s).bestVal ∧
      (loop_update blueToPlay m val st s).bestVal ≤ 100000 := by
  unfold loop_update
  cases blueToPlay
  · simp only [Bool.false_eq_true, if_false, INF_SCORE] at hst ⊢
    split_ifs <;> constructor <;> omega
  · simp only [if_true, INF_SCORE] at hst ⊢
    split_ifs <;> constructor <;> omega

/-- Inside a search of depth at most `D`, table entries keep a depth of at most `D` and a
clamped value, and every returned value lies between `-100000` and `100000`. -/
theorem minimax_ok (z : ZobristKeys) (D : Int) (d : Nat) :
    (d : Int) ≤ D →
    ∀ (b : Board) (alpha beta : Int) (blueToPlay : Bool) (key : Nat) (s : SearchState),
      TTok D s.TT →
      TTok D (minimax z d b alpha beta blueToPlay key s).2.2.TT ∧
      -100000 ≤ (minimax z d b alpha beta blueToPlay key s).1 ∧
      (minimax z d b alpha beta blueToPlay key s).1 ≤ 100000 := by
  induction d with
  | zero =>
    intro _ b alpha beta blueToPlay key s hs
    rw [minimax_zero]
    have he := evaluate_bound b
    split_ifs <;> refine ⟨hs, ?_, ?_⟩ <;> simp only <;> omega
  | succ d ih =>
    intro hd b alpha beta blueToPlay key s hs
    have hd' : (d : Int) ≤ D := by push_cast at hd; omega
    rw [minimax_succ]
    have he := evaluate_bound b
    split_ifs
    · refine ⟨hs, ?_, ?_⟩ <;> simp only <;> omega
    · refine ⟨hs, ?_, ?_⟩ <;> simp only <;> omega
    · cases hl : tt_lookup (tt_probe s.TT key) key ((d + 1 : Nat) : Int) alpha beta with
      | ret v =>
        rw [minimax_node_ret _ _ _ _ _ _ _ _ _ _ hl]
        obtain ⟨hv, _, _⟩ := tt_lookup_ret _ _ _ _ _ _ hl
        have := hs (key &&& TT_MASK)
        unfold tt_probe at hv
        refine ⟨hs, ?_, ?_⟩ <;> simp only <;> omega
      | cont a' b' t =>
        by_cases hm : generate_moves b blueToPlay MAX_MOVES = []
        · rw [minimax_node_nomove _ _ _ _ _ _ _ _ _ _ _ _ hl hm]
          refine ⟨hs, ?_, ?_⟩ <;> simp only <;> omega
        · rw [minimax_node_expand _ _ _ _ _ _ _ _ _ _ _ _ hl hm]
          set L := sort_moves b blueToPlay (generate_moves b blueToPlay MAX_MOVES)
              (generate_moves b blueToPlay MAX_MOVES).length (some t) with hL
          have hLne : L ≠ [] := by
            intro h0
            have hp := sort_moves_perm b blueToPlay (generate_moves b blueToPlay MAX_MOVES)
              (some t)
            rw [← hL, h0] at hp
            exact hm (List.Perm.nil_eq hp).symm
          have hbody : ∀ (m : Move) (st : LoopState),
              (TTok D st.s.TT ∧ ((-100000 ≤ st.bestVal ∧ st.bestVal ≤ 100000) ∨
                st.bestVal = if blueToPlay then -INF_SCORE else INF_SCORE)) →
              (TTok D (minimax_loop_body (fun b a bt k s => minimax z d b a bt (!blueToPlay) k s)
                  z blueToPlay m b st).2.s.TT ∧
                (-100000 ≤ (minimax_loop_body
                    (fun b a bt k s => minimax z d b a bt (!blueToPlay) k s)
                    z blueToPlay m b st).2.bestVal ∧
                  (minimax_loop_body (fun b a bt k s => minimax z d b a bt (!blueToPlay) k s)
                    z blueToPlay m b st).2.bestVal ≤ 100000)) := by
            intro m st hst
            unfold minimax_loop_body
            simp only [loop_update_s]
            have hc := ih hd' (apply_move b m) st.alpha st.beta (!blueToPlay)
              (zobrist_hash z (apply_move b m) (!blueToPlay)) st.s hst.1
            exact ⟨hc.1, loop_update_bestVal _ _ _ _ _ hc.2 hst.2⟩
          have hfin : ∀ st : LoopState,
              (TTok D st.s.TT ∧ (-100000 ≤ st.bestVal ∧ st.bestVal ≤ 100000)) →
              TTok D (minimax_finish key ((d + 1 : Nat) : Int) st).2.TT ∧
                -100000 ≤ (minimax_finish key ((d + 1 : Nat) : Int) st).1 ∧
                (minimax_finish key ((d + 1 : Nat) : Int) st).1 ≤ 100000 := by
            intro st hst
            refine ⟨?_, hst.2.1, hst.2.2⟩
            unfold minimax_finish
            simp only
            exact tt_store_TTok D _ _ _ _ _ _ hst.1 (by push_cast; omega) hd
          cases hLc : L with
          | nil => exact absurd hLc hLne
          | cons m rest =>
            apply hfin
            exact (minimax_loop_inv_first
              (fun b a bt k s => minimax z d b a bt (!blueToPlay) k s) z blueToPlay b
              (fun st => TTok D st.s.TT ∧ ((-100000 ≤ st.bestVal ∧ st.bestVal ≤ 100000) ∨
                st.bestVal = if blueToPlay then -INF_SCORE else INF_SCORE))
              (fun st => TTok D st.s.TT ∧ (-100000 ≤ st.bestVal ∧ st.bestVal ≤ 100000))
              m rest (fun st hst => hbody m st hst)
              (fun m' _ st hst => hbody m' st ⟨hst.1, Or.inl hst.2⟩) _ ⟨hs, Or.inr rfl⟩).1


/-! ## The iterative-deepening driver -/

theorem range_depths : List.range' 1 MAX_DEPTH = [1, 2, 3, 4] := by decide

/-- Without a legal move the node returns before any write to the table or to `*outBest`. -/
theorem minimax_nomove (z : ZobristKeys) (d : Nat) (b : Board) (alpha beta : Int)
    (blueToPlay : Bool) (key : Nat) (s : SearchState)
    (hm : generate_moves b blueToPlay MAX_MOVES = []) :
    (minimax z d b alpha beta blueToPlay key s).2 = (b, s) := by
  cases d with
  | zero =>
    rw [minimax_zero]
    split_ifs <;> rfl
  | succ d =>
    rw [minimax_succ]
    split_ifs
    · rfl
    · rfl
    · cases hl : tt_lookup (tt_probe s.TT key) key ((d + 1 : Nat) : Int) alpha beta with
      | ret v => rw [minimax_node_ret _ _ _ _ _ _ _ _ _ _ hl]
      | cont a' b' t => rw [minimax_node_nomove _ _ _ _ _ _ _ _ _ _ _ _ hl hm]

theorem search_nomove_fold (z : ZobristKeys) (b : Board) (blueToPlay : Bool) (key : Nat)
    (hm : generate_moves b blueToPlay MAX_MOVES = []) (l : List Nat) :
    ∀ (best : Move) (tt : Table),
      (l.foldl (search_iteration z blueToPlay key) (best, tt, b)).1 = best := by
  induction l with
  | nil => intro best tt; rfl
  | cons d l ih =>
    intro best tt
    rw [List.foldl_cons]
    have h := minimax_nomove z d b (-INF_SCORE) INF_SCORE blueToPlay key ⟨tt, some best⟩ hm
    have hstep : search_iteration z blueToPlay key (best, tt, b) d = (best, tt, b) := by
      unfold search_iteration
      simp only
      have h1 := congrArg Prod.fst h
      have h2 := congrArg Prod.snd h
      simp only at h1 h2
      rw [h1, h2]
      simp
    rw [hstep]
    exact ih best tt

theorem loop_update_bestMove (blueToPlay : Bool) (m : Move) (val : Int) (st : LoopState)
    (s : SearchState) :
    (loop_update blueToPlay m val st s).bestMove = m ∨
      (loop_update blueToPlay m val st s).bestMove = st.bestMove := by
  unfold loop_update
  split <;> simp only <;> split_ifs <;> simp

theorem getD_zero_mem (l : List Move) (h : l ≠ []) : l.getD 0 default ∈ l := by
  cases l with
  | nil => exact absurd rfl h
  | cons x l => simp

/-- When the node is expanded, the move written to `*outBest` is one of the generated moves. -/
theorem minimax_node_out (z : ZobristKeys) (d : Nat) (b : Board) (alpha beta : Int)
    (blueToPlay : Bool) (key : Nat) (s : SearchState) (a' b' : Int) (t : Move)
    (hl : tt_lookup (tt_probe s.TT key) key ((d + 1 : Nat) : Int) alpha beta = Lookup.cont a' b' t)
    (hm : generate_moves b blueToPlay MAX_MOVES ≠ []) (hs : s.outBest.isSome = true) :
    ∃ m ∈ generate_moves b blueToPlay MAX_MOVES,
      (minimax_node (minimax z d) z ((d + 1 : Nat) : Int) b alpha beta blueToPlay key s).2.2.outBest
        = some m := by
  rw [minimax_node_expand _ _ _ _ _ _ _ _ _ _ _ _ hl hm]
  set L := sort_moves b blueToPlay (generate_moves b blueToPlay MAX_MOVES)
    (generate_moves b blueToPlay MAX_MOVES).length (some t) with hL
  have hp : L.Perm (generate_moves b blueToPlay MAX_MOVES) := sort_moves_perm _ _ _ _
  have hLne : L ≠ [] := by
    intro h0
    rw [h0] at hp
    exact hm (List.Perm.nil_eq hp).symm
  have hloop := minimax_loop_inv
    (fun b a bt k s => minimax z d b a bt (!blueToPlay) k s) z blueToPlay b
    (fun st => st.s.outBest.isSome = true ∧ st.bestMove ∈ L) L
    (by
      intro m hmL st hst
      unfold minimax_loop_body
      simp only [loop_update_s]
      refine ⟨?_, ?_⟩
      · rw [(minimax_frame z d _ _ _ _ _ _).2]; exact hst.1
      · rcases loop_update_bestMove blueToPlay m
          (minimax z d (apply_move b m) st.alpha st.beta (!blueToPlay)
            (zobrist_hash z (apply_move b m) (!blueToPlay)) st.s).1 st
          (minimax z d (apply_move b m) st.alpha st.beta (!blueToPlay)
            (zobrist_hash z (apply_move b m) (!blueToPlay)) st.s).2.2 with h | h
        · rw [h]; exact hmL
        · rw [h]; exact hst.2)
    ⟨a', b', if blueToPlay then -INF_SCORE else INF_SCORE, L.getD 0 default, s⟩
    ⟨hs, getD_zero_mem L hLne⟩
  obtain ⟨⟨h1, h2⟩, _⟩ := hloop
  refine ⟨_, hp.subset h2, ?_⟩
  simp only [minimax_finish_outBest]
  obtain ⟨x, hx⟩ := Option.isSome_iff_exists.1 h1
  rw [hx]
  rfl

/-- Whatever the table holds, `minimax` leaves `*outBest` as it was or writes a generated
move. -/
theorem minimax_out_cases (z : ZobristKeys) (d : Nat) (b : Board) (alpha beta : Int)
    (blueToPlay : Bool) (key : Nat) (tt : Table) (m0 : Move) :
    (minimax z d b alpha beta blueToPlay key ⟨tt, some m0⟩).2.2.outBest = some m0 ∨
      ∃ m ∈ generate_moves b blueToPlay MAX_MOVES,
        (minimax z d b alpha beta blueToPlay key ⟨tt, some m0⟩).2.2.outBest = some m := by
  cases d with
  | zero =>
    left
    rw [minimax_zero]
    split_ifs <;> rfl
  | succ d =>
    rw [minimax_succ]
    split_ifs
    · left; rfl
    · left; rfl
    · cases hl : tt_lookup (tt_probe (⟨tt, some m0⟩ : SearchState).TT key) key
          ((d + 1 : Nat) : Int) alpha beta with
      | ret v => left; rw [minimax_node_ret _ _ _ _ _ _ _ _ _ _ hl]
      | cont a' b' t =>
        by_cases hm : generate_moves b blueToPlay MAX_MOVES = []
        · left; rw [minimax_node_nomove _ _ _ _ _ _ _ _ _ _ _ _ hl hm]
        · right
          exact minimax_node_out z d b alpha beta blueToPlay key ⟨tt, some m0⟩ a' b' t hl hm rfl

theorem mem_generate_moves_r1 (b : Board) (blueSide : Bool) (m : Move)
    (h : m ∈ generate_moves b blueSide MAX_MOVES) : m.r1 ≥ 0 := by
  rw [generate_moves_eq_all] at h
  have := (legal_of_mem_all_moves b blueSide m h).1
  rw [in_bounds_iff] at this
  omega

/-- Once the remembered best move is a generated move, every further iteration keeps it a
generated move. -/
theorem search_iteration_legal (z : ZobristKeys) (b : Board) (blueToPlay : Bool) (key : Nat)
    (best : Move) (tt : Table) (d : Nat) (hbest : best ∈ generate_moves b blueToPlay MAX_MOVES) :
    (search_iteration z blueToPlay key (best, tt, b) d).1 ∈ generate_moves b blueToPlay MAX_MOVES ∧
      (search_iteration z blueToPlay key (best, tt, b) d).2.2 = b := by
  unfold search_iteration
  simp only
  refine ⟨?_, (minimax_frame z d _ _ _ _ _ _).1⟩
  rcases minimax_out_cases z d b (-INF_SCORE) INF_SCORE blueToPlay key tt best with h | ⟨m, hm, h⟩
  · rw [h]
    simp only [Option.getD_some]
    split_ifs <;> exact hbest
  · rw [h]
    simp only [Option.getD_some]
    split_ifs
    · exact hm
    · exact hbest

theorem search_legal_fold (z : ZobristKeys) (b : Board) (blueToPlay : Bool) (key : Nat)
    (l : List Nat) :
    ∀ (best : Move) (tt : Table), best ∈ generate_moves b blueToPlay MAX_MOVES →
      (l.foldl (search_iteration z blueToPlay key) (best, tt, b)).1 ∈
        generate_moves b blueToPlay MAX_MOVES := by
  induction l with
  | nil => intro best tt h; exact h
  | cons d l ih =>
    intro best tt h
    rw [List.foldl_cons]
    have hs := search_iteration_legal z b blueToPlay key best tt d h
    have e : search_iteration z blueToPlay key (best, tt, b) d =
        ((search_iteration z blueToPlay key (best, tt, b) d).1,
          (search_iteration z blueToPlay key (best, tt, b) d).2.1, b) :=
      Prod.ext rfl (Prod.ext rfl hs.2)
    rw [e]
    exact ih _ _ hs.1

/-- The table handed to the first iteration when the search starts from a fresh table: no
entry has a depth above 0. -/
theorem search_start_TTok (key : Nat) (hint : Move) :
    TTok 0 (if hint.r1 ≥ 0 then tt_store tt_zero key 0 0 TT_EXACT hint else tt_zero) := by
  have h0 : TTok 0 tt_zero := by
    intro i; simp [tt_zero]
  split
  · exact tt_store_TTok 0 _ _ _ _ _ _ h0 (le_refl _) (le_refl _)
  · exact h0

/-- With no entry deeper than `d` in the table, the node at depth `d+1` is not answered by
the table. -/
theorem tt_lookup_shallow (D : Int) (tt : Table) (key : Nat) (depth alpha beta : Int)
    (h : TTok D tt) (hd : D < depth) :
    tt_lookup (tt_probe tt key) key depth alpha beta =
      Lookup.cont alpha beta
        (if (tt_probe tt key).key = key then (tt_probe tt key).best else ⟨-1, -1, -1, -1⟩) := by
  apply tt_lookup_miss
  rintro ⟨_, h2⟩
  have := (h (key &&& TT_MASK)).1
  unfold tt_probe at h2
  omega

/-- First iteration on a table without deep entries: the move found is a generated move. -/
theorem search_first_iteration (z : ZobristKeys) (b : Board) (blueToPlay : Bool) (key : Nat)
    (best : Move) (tt : Table) (h0 : check_winner b = 0)
    (hm : generate_moves b blueToPlay MAX_MOVES ≠ []) (htt : TTok 0 tt) :
    (search_iteration z blueToPlay key (best, tt, b) 1).1 ∈ generate_moves b blueToPlay MAX_MOVES ∧
      (search_iteration z blueToPlay key (best, tt, b) 1).2.2 = b := by
  unfold search_iteration
  simp only
  refine ⟨?_, (minimax_frame z 1 _ _ _ _ _ _).1⟩
  have hl := tt_lookup_shallow 0 tt key ((0 + 1 : Nat) : Int) (-INF_SCORE) INF_SCORE htt
    (by norm_num)
  obtain ⟨m, hmem, hout⟩ := minimax_node_out z 0 b (-INF_SCORE) INF_SCORE blueToPlay key
    ⟨tt, some best⟩ _ _ _ hl hm rfl
  have e : minimax z 1 b (-INF_SCORE) INF_SCORE blueToPlay key ⟨tt, some best⟩ =
      minimax_node (minimax z 0) z ((0 + 1 : Nat) : Int) b (-INF_SCORE) INF_SCORE blueToPlay key
        ⟨tt, some best⟩ := by
    rw [minimax_succ, if_neg (by omega), if_neg (by omega)]
  rw [e, hout]
  simp only [Option.getD_some]
  rw [if_pos (mem_generate_moves_r1 b blueToPlay m hmem)]
  exact hmem

theorem search_best_move_fst (g : Engine) (b : Board) (blueToPlay : Bool) :
    (search_best_move g b blueToPlay).1 =
      ((List.range' 1 MAX_DEPTH).foldl
        (search_iteration g.keys blueToPlay (zobrist_hash g.keys b blueToPlay))
        (⟨-1, -1, -1, -1⟩,
          (if (if blueToPlay then g.g_last_best_move_blue else g.g_last_best_move_red).r1 ≥ 0 then
            tt_store g.TT (zobrist_hash g.keys b blueToPlay) 0 0 TT_EXACT
              (if blueToPlay then g.g_last_best_move_blue else g.g_last_best_move_red)
          else g.TT), b)).1 := rfl

/-- On a fresh table and a board that is not decided, the search returns a generated move
as soon as one exists. -/
theorem search_returns_generated (g : Engine) (b : Board) (blueToPlay : Bool)
    (hfresh : g.TT = tt_zero) (h0 : check_winner b = 0)
    (hm : generate_moves b blueToPlay MAX_MOVES ≠ []) :
    (search_best_move g b blueToPlay).1 ∈ generate_moves b blueToPlay MAX_MOVES := by
  rw [search_best_move_fst, hfresh, range_depths, List.foldl_cons]
  have h1 := search_first_iteration g.keys b blueToPlay (zobrist_hash g.keys b blueToPlay)
    ⟨-1, -1, -1, -1⟩ _ h0 hm (search_start_TTok (zobrist_hash g.keys b blueToPlay)
      (if blueToPlay then g.g_last_best_move_blue else g.g_last_best_move_red))
  set st1 := search_iteration g.keys blueToPlay (zobrist_hash g.keys b blueToPlay)
    (⟨-1, -1, -1, -1⟩,
      (if (if blueToPlay then g.g_last_best_move_blue else g.g_last_best_move_red).r1 ≥ 0 then
        tt_store tt_zero (zobrist_hash g.keys b blueToPlay) 0 0 TT_EXACT
          (if blueToPlay then g.g_last_best_move_blue else g.g_last_best_move_red)
      else tt_zero), b) 1 with hst1
  have e : st1 = (st1.1, st1.2.1, b) := Prod.ext rfl (Prod.ext rfl h1.2)
  rw [e]
  exact search_legal_fold _ _ _ _ _ _ _ h1.1

/-- C5: when the side to move has no legal move, `search_best_move` returns the sentinel
move `(-1,-1,-1,-1)`, whatever the table and the remembered moves contain. -/
theorem search_best_move_no_move (g : Engine) (b : Board) (blueToPlay : Bool)
    (hm : generate_moves b blueToPlay MAX_MOVES = []) :
    (search_best_move g b blueToPlay).1 = ⟨-1, -1, -1, -1⟩ := by
  rw [search_best_move_fst]
  exact search_nomove_fold g.keys b blueToPlay _ hm _ _ _

/-- C4: on a fresh table, for a board with `check_winner = 0` on which the side to move has
at least one legal move, `search_best_move` returns a move whose source row is not `-1` and
which is one of the moves produced by `generate_moves`. -/
theorem search_best_move_generated (g : Engine) (b : Board) (blueToPlay : Bool)
    (hfresh : g.TT = tt_zero) (h0 : check_winner b = 0)
    (hm : generate_moves b blueToPlay MAX_MOVES ≠ []) :
    (search_best_move g b blueToPlay).1.r1 ≠ -1 ∧
      (search_best_move g b blueToPlay).1 ∈ generate_moves b blueToPlay MAX_MOVES := by
  have h := search_returns_generated g b blueToPlay hfresh h0 hm
  refine ⟨?_, h⟩
  have := mem_generate_moves_r1 b blueToPlay _ h
  omega

/-- C3: on a fresh table, for a board with `check_winner = 0` on which the side to move has
exactly one legal move, `search_best_move` returns that move. -/
theorem search_best_move_only_move (g : Engine) (b : Board) (blueToPlay : Bool) (m : Move)
    (hfresh : g.TT = tt_zero) (h0 : check_winner b = 0)
    (hm : generate_moves b blueToPlay MAX_MOVES = [m]) :
    (search_best_move g b blueToPlay).1 = m := by
  have h := search_returns_generated g b blueToPlay hfresh h0 (by rw [hm]; simp)
  rw [hm] at h
  exact List.mem_singleton.1 h


/-! ## The table move is searched first -/

theorem move_score_some (b : Board) (blueToPlay : Bool) (m t : Move) :
    move_score b blueToPlay m (some t) =
      move_score b blueToPlay m none + (if m = t then 100000 else 0) := by
  have hmt : (m.r1 = t.r1 ∧ m.c1 = t.c1 ∧ m.r2 = t.r2 ∧ m.c2 = t.c2) ↔ m = t := by
    constructor
    · rintro ⟨h1, h2, h3, h4⟩
      cases m; cases t; simp only at h1 h2 h3 h4; subst h1 h2 h3 h4; rfl
    · rintro rfl; exact ⟨rfl, rfl, rfl, rfl⟩
  unfold move_score
  simp only [hmt]
  by_cases h : m = t
  · simp only [h, if_true]
    split_ifs <;> ring
  · simp only [h, if_false]
    split_ifs <;> ring

theorem move_score_none_bound (b : Board) (blueToPlay : Bool) (m : Move)
    (h1 : in_bounds m.r1 m.c1 = true) (h2 : in_bounds m.r2 m.c2 = true) :
    -816 ≤ move_score b blueToPlay m none ∧ move_score b blueToPlay m none ≤ 5800 := by
  rw [in_bounds_iff] at h1 h2
  unfold move_score c_abs
  simp only [SIZE]
  split_ifs <;> constructor <;> omega

/-- Among legal moves the table move has the strictly largest score. -/
theorem move_score_tt_lt (b : Board) (blueToPlay : Bool) (m w : Move)
    (hm : legal_move b blueToPlay m) (hw : legal_move b blueToPlay w) (hne : m ≠ w) :
    move_score b blueToPlay m (some w) < move_score b blueToPlay w (some w) := by
  rw [move_score_some, move_score_some, if_neg hne, if_pos rfl]
  have h1 := move_score_none_bound b blueToPlay m hm.1 hm.2.1
  have h2 := move_score_none_bound b blueToPlay w hw.1 hw.2.1
  omega

theorem sort_moves_tt_first (b : Board) (blueToPlay : Bool) (w : Move)
    (hw : w ∈ generate_moves b blueToPlay MAX_MOVES) :
    ∃ rest, sort_moves b blueToPlay (generate_moves b blueToPlay MAX_MOVES)
      (generate_moves b blueToPlay MAX_MOVES).length (some w) = w :: rest := by
  apply sort_moves_head _ _ _ _ w hw
  intro m hm hne
  rw [generate_moves_eq_all] at hm hw
  exact move_score_tt_lt b blueToPlay m w (legal_of_mem_all_moves _ _ _ hm)
    (legal_of_mem_all_moves _ _ _ hw) hne


/-! ## Forced win at the root -/

theorem minimax_loop_body_snd
    (child : Board → Int → Int → Nat → SearchState → Int × Board × SearchState)
    (z : ZobristKeys) (blueToPlay : Bool) (m : Move) (b : Board) (st : LoopState) :
    (minimax_loop_body child z blueToPlay m b st).2 =
      loop_update blueToPlay m
        (child (apply_move b m) st.alpha st.beta (zobrist_hash z (apply_move b m) (!blueToPlay))
          st.s).1 st
        (child (apply_move b m) st.alpha st.beta (zobrist_hash z (apply_move b m) (!blueToPlay))
          st.s).2.2 := rfl

/-- Once the winning move holds the best value, no later move takes its place. -/
theorem loop_update_keep_win (blueToPlay : Bool) (m w : Move) (val : Int) (st : LoopState)
    (s : SearchState) (hv : -100000 ≤ val ∧ val ≤ 100000)
    (hst : st.bestVal = (if blueToPlay then 100000 else -100000) ∧ st.bestMove = w) :
    (loop_update blueToPlay m val st s).bestVal = (if blueToPlay then 100000 else -100000) ∧
      (loop_update blueToPlay m val st s).bestMove = w := by
  obtain ⟨h1, h2⟩ := hst
  unfold loop_update
  cases blueToPlay
  · simp only [Bool.false_eq_true, if_false] at h1 ⊢
    have : ¬ val < st.bestVal := by omega
    simp only [this, if_false]
    exact ⟨h1, h2⟩
  · simp only [if_true] at h1 ⊢
    have : ¬ val > st.bestVal := by omega
    simp only [this, if_false]
    exact ⟨h1, h2⟩

/-- The winning value replaces whatever was best before it. -/
theorem loop_update_take_win (blueToPlay : Bool) (w : Move) (st : LoopState) (s : SearchState)
    (hst : (blueToPlay = true → st.bestVal < 100000) ∧
      (blueToPlay = false → st.bestVal > -100000)) :
    (loop_update blueToPlay w (if blueToPlay then 100000 else -100000) st s).bestVal =
        (if blueToPlay then 100000 else -100000) ∧
      (loop_update blueToPlay w (if blueToPlay then 100000 else -100000) st s).bestMove = w := by
  unfold loop_update
  cases blueToPlay
  · have := hst.2 rfl
    simp only [Bool.false_eq_true, if_false]
    have h : (-100000 : Int) < st.bestVal := by omega
    simp only [h, if_true, and_self]
  · have := hst.1 rfl
    simp only [if_true]
    have h : (100000 : Int) > st.bestVal := by omega
    simp only [h, if_true, and_self]

theorem loop_update_open (blueToPlay : Bool) (m : Move) (val : Int) (st : LoopState)
    (s : SearchState) (hv : -100000 ≤ val ∧ val ≤ 100000)
    (hne : val ≠ if blueToPlay then 100000 else -100000) (hst : RootOpen blueToPlay st) :
    RootOpen blueToPlay (loop_update blueToPlay m val st s) ∧
      ¬ (loop_update blueToPlay m val st s).alpha ≥ (loop_update blueToPlay m val st s).beta := by
  unfold RootOpen at hst ⊢
  unfold loop_update
  cases blueToPlay
  · have := hst.2 rfl
    simp only [Bool.false_eq_true, if_false, INF_SCORE] at hne this ⊢
    simp only [false_implies, true_implies, true_and]
    split_ifs <;> refine ⟨⟨?_, ?_, ?_⟩, ?_⟩ <;> omega
  · have := hst.1 rfl
    simp only [if_true, INF_SCORE] at hne this ⊢
    simp only [Bool.true_eq_false, false_implies, true_implies, and_true]
    split_ifs <;> refine ⟨⟨?_, ?_, ?_⟩, ?_⟩ <;> omega

/-- The loop of the root node when one move `w` is scored as a win at once, every move
examined before it is not, and no value exceeds a win: the loop ends with `w` as best
move. -/
theorem root_loop_win
    (child : Board → Int → Int → Nat → SearchState → Int × Board × SearchState)
    (z : ZobristKeys) (blueToPlay : Bool) (b : Board) (D : Int) (w : Move) (s0 : SearchState)
    (hW : ∀ a bt k s, child (apply_move b w) a bt k s =
      (if blueToPlay then 100000 else -100000, apply_move b w, s))
    (hc : ∀ b' a bt k s, TTok D s.TT →
      TTok D (child b' a bt k s).2.2.TT ∧ -100000 ≤ (child b' a bt k s).1 ∧
        (child b' a bt k s).1 ≤ 100000)
    (hsome : ∀ b' a bt k s, (child b' a bt k s).2.2.outBest.isSome = s.outBest.isSome)
    (post : List Move) (pre : List Move)
    (hpre : ∀ m ∈ pre, ∀ a bt k s,
      (child (apply_move b m) a bt k s).1 ≠ if blueToPlay then 100000 else -100000) :
    ∀ st : LoopState, RootOpen blueToPlay st → TTok D st.s.TT →
      st.s.outBest.isSome = s0.outBest.isSome →
      (minimax_loop child z blueToPlay (pre ++ w :: post) b st).2.bestMove = w ∧
      (minimax_loop child z blueToPlay (pre ++ w :: post) b st).2.bestVal =
        (if blueToPlay then 100000 else -100000) ∧
      TTok D (minimax_loop child z blueToPlay (pre ++ w :: post) b st).2.s.TT ∧
      (minimax_loop child z blueToPlay (pre ++ w :: post) b st).2.s.outBest.isSome =
        s0.outBest.isSome := by
  induction pre with
  | nil =>
    intro st hopen htt hso
    rw [List.nil_append]
    have hkeep := minimax_loop_inv_first child z blueToPlay b
      (fun st => RootOpen blueToPlay st ∧ TTok D st.s.TT ∧
        st.s.outBest.isSome = s0.outBest.isSome)
      (fun st => (st.bestVal = (if blueToPlay then 100000 else -100000) ∧ st.bestMove = w) ∧
        TTok D st.s.TT ∧ st.s.outBest.isSome = s0.outBest.isSome)
      w post
      (by
        intro st hst
        rw [minimax_loop_body_snd, hW]
        simp only [loop_update_s]
        refine ⟨?_, hst.2.1, hst.2.2⟩
        exact loop_update_take_win blueToPlay w st st.s
          ⟨fun h => (hst.1.1 h).2.2, fun h => (hst.1.2 h).2.2⟩)
      (by
        intro m' _ st hst
        rw [minimax_loop_body_snd]
        simp only [loop_update_s]
        have hcm := hc (apply_move b m') st.alpha st.beta
          (zobrist_hash z (apply_move b m') (!blueToPlay)) st.s hst.2.1
        refine ⟨loop_update_keep_win blueToPlay m' w _ st _ hcm.2 hst.1, hcm.1, ?_⟩
        rw [hsome]; exact hst.2.2)
      st ⟨hopen, htt, hso⟩
    obtain ⟨⟨⟨h1, h2⟩, h3, h4⟩, _⟩ := hkeep
    exact ⟨h2, h1, h3, h4⟩
  | cons x pre ih =>
    intro st hopen htt hso
    rw [List.cons_append, minimax_loop_cons]
    have hcx := hc (apply_move b x) st.alpha st.beta
      (zobrist_hash z (apply_move b x) (!blueToPlay)) st.s htt
    have hnx := hpre x (List.mem_cons_self _ _) st.alpha st.beta
      (zobrist_hash z (apply_move b x) (!blueToPlay)) st.s
    have hup := loop_update_open blueToPlay x _ st
      (child (apply_move b x) st.alpha st.beta
        (zobrist_hash z (apply_move b x) (!blueToPlay)) st.s).2.2 hcx.2 hnx hopen
    rw [minimax_loop_body_snd, if_neg hup.2]
    have hb : (minimax_loop_body child z blueToPlay x b st).1 = b := rfl
    rw [hb]
    apply ih (fun m hm => hpre m (List.mem_cons_of_mem _ hm)) _ hup.1
    · rw [loop_update_s]; exact hcx.1
    · rw [loop_update_s, hsome]; exact hso


theorem minimax_zero_not_win (z : ZobristKeys) (b : Board) (alpha beta : Int) (side : Bool)
    (blueToPlay : Bool) (key : Nat) (s : SearchState)
    (h : check_winner b ≠ if blueToPlay then 1 else -1) :
    (minimax z 0 b alpha beta side key s).1 ≠ if blueToPlay then 100000 else -100000 := by
  rw [minimax_zero]
  have he := evaluate_bound b
  cases blueToPlay
  · simp only [Bool.false_eq_true, if_false] at h ⊢
    split_ifs <;> simp only <;> omega
  · simp only [if_true] at h ⊢
    split_ifs <;> simp only <;> omega

theorem to_int8_small (d : Nat) (hd : d ≤ 127) : to_int8 (d : Int) = d := by
  unfold to_int8; omega

/-- After the store that ends the root node of the iteration of depth `d+1`, the table is
ready for the next iteration. -/
theorem minimax_finish_ready (key : Nat) (d : Nat) (st : LoopState)
    (hok : TTok (d : Int) st.s.TT) (hd : d ≤ 126) :
    RootReady key st.bestMove (d + 1) (minimax_finish key ((d + 1 : Nat) : Int) st).2.TT := by
  have hslot : (st.s.TT (key &&& TT_MASK)).key = 0 ∨
      ((d + 1 : Nat) : Int) ≥ (st.s.TT (key &&& TT_MASK)).depth := by
    right
    have := (hok (key &&& TT_MASK)).1
    push_cast
    omega
  refine ⟨?_, ?_, ?_⟩
  · unfold minimax_finish
    simp only
    apply tt_store_TTok _ _ _ _ _ _ _ (TTok_mono _ _ _ hok (by push_cast; omega))
    · push_cast; omega
    · exact le_refl _
  · intro _
    unfold minimax_finish
    simp only
    rw [tt_store_probe _ _ _ _ _ _ hslot]
    exact ⟨rfl, rfl⟩
  · intro _ i hi
    unfold minimax_finish at hi ⊢
    simp only at hi ⊢
    rw [tt_store_eq, if_pos hslot] at hi ⊢
    by_cases hslot' : i = key &&& TT_MASK
    · simp only [hslot', if_true]
    · simp only [hslot', if_false] at hi
      have := (hok i).1
      push_cast at hi
      omega

/-- The root node of one iteration when `w` is the move that wins at once. -/
theorem root_node_win (z : ZobristKeys) (d : Nat) (b : Board) (blueToPlay : Bool) (key : Nat)
    (tt : Table) (m0 w : Move) (h0 : check_winner b = 0)
    (hw : w ∈ generate_moves b blueToPlay MAX_MOVES)
    (hwin : check_winner (apply_move b w) = if blueToPlay then 1 else -1)
    (hready : RootReady key w d tt)
    (hfirst : d = 0 → ∀ m ∈ generate_moves b blueToPlay MAX_MOVES,
      check_winner (apply_move b m) = (if blueToPlay then 1 else -1) → m = w)
    (hd : d ≤ 126) :
    (minimax z (d + 1) b (-INF_SCORE) INF_SCORE blueToPlay key ⟨tt, some m0⟩).2.2.outBest =
        some w ∧
      RootReady key w (d + 1)
        (minimax z (d + 1) b (-INF_SCORE) INF_SCORE blueToPlay key ⟨tt, some m0⟩).2.2.TT := by
  obtain ⟨htt, hroot, _⟩ := hready
  have hm : generate_moves b blueToPlay MAX_MOVES ≠ [] := List.ne_nil_of_mem hw
  have hl := tt_lookup_shallow (d : Int) tt key ((d + 1 : Nat) : Int) (-INF_SCORE) INF_SCORE htt
    (by push_cast; omega)
  rw [minimax_succ, if_neg (by omega), if_neg (by omega),
    minimax_node_expand _ _ _ _ _ _ _ _ ⟨tt, some m0⟩ _ _ _ hl hm]
  set t : Move := if (tt_probe tt key).key = key then (tt_probe tt key).best else ⟨-1, -1, -1, -1⟩
    with ht
  set L := sort_moves b blueToPlay (generate_moves b blueToPlay MAX_MOVES)
    (generate_moves b blueToPlay MAX_MOVES).length (some t) with hL
  have hp : L.Perm (generate_moves b blueToPlay MAX_MOVES) := sort_moves_perm _ _ _ _
  have hnd : L.Nodup := by
    rw [hp.nodup_iff, generate_moves_eq_all]
    exact all_moves_nodup b blueToPlay
  -- the list splits around `w`, and nothing before `w` wins at once
  have hsplit : ∃ pre post, L = pre ++ w :: post ∧
      ∀ m ∈ pre, ∀ a bt k s,
        (minimax z d (apply_move b m) a bt (!blueToPlay) k s).1 ≠
          if blueToPlay then 100000 else -100000 := by
    rcases Nat.eq_zero_or_pos d with hd0 | hdpos
    · obtain ⟨pre, post, hpp⟩ := List.append_of_mem (hp.symm.subset hw)
      refine ⟨pre, post, hpp, ?_⟩
      intro m hmpre a bt k s
      subst hd0
      apply minimax_zero_not_win
      intro hcw
      have hmL : m ∈ L := by rw [hpp]; exact List.mem_append_left _ hmpre
      have hmw := hfirst rfl m (hp.subset hmL) hcw
      rw [hpp] at hnd
      have := (List.nodup_append.1 hnd).2.2
      exact this hmpre (by rw [hmw]; exact List.mem_cons_self _ _)
    · have hr := hroot hdpos
      have htw : t = w := by rw [ht, if_pos hr.1, hr.2]
      obtain ⟨rest, hrest⟩ := sort_moves_tt_first b blueToPlay w hw
      refine ⟨[], rest, ?_, ?_⟩
      · rw [hL, htw, hrest]; rfl
      · intro m hmem; exact absurd hmem (List.not_mem_nil _)
  obtain ⟨pre, post, hpp, hpre⟩ := hsplit
  have hloop := root_loop_win (fun b a bt k s => minimax z d b a bt (!blueToPlay) k s) z
    blueToPlay b (d : Int) w ⟨tt, some m0⟩
    (by
      intro a bt k s
      have hterm := minimax_terminal z d (apply_move b w) a bt (!blueToPlay) k s
      cases blueToPlay
      · simp only [Bool.false_eq_true, if_false] at hwin ⊢
        exact hterm.2 hwin
      · simp only [if_true] at hwin ⊢
        exact hterm.1 hwin)
    (fun b' a bt k s hs => minimax_ok z (d : Int) d (le_refl _) b' a bt (!blueToPlay) k s hs)
    (fun b' a bt k s => (minimax_frame z d b' a bt (!blueToPlay) k s).2)
    post pre hpre
    ⟨-INF_SCORE, INF_SCORE, if blueToPlay then -INF_SCORE else INF_SCORE, L.getD 0 default,
      ⟨tt, some m0⟩⟩
    (by
      unfold RootOpen
      cases blueToPlay <;> simp [INF_SCORE])
    htt rfl
  rw [← hpp] at hloop
  obtain ⟨hbm, hbv, hok, hso⟩ := hloop
  set st := (minimax_loop (fun b a bt k s => minimax z d b a bt (!blueToPlay) k s) z blueToPlay L b
    ⟨-INF_SCORE, INF_SCORE, if blueToPlay then -INF_SCORE else INF_SCORE, L.getD 0 default,
      ⟨tt, some m0⟩⟩).2 with hst
  refine ⟨?_, ?_⟩
  · simp only [minimax_finish_outBest]
    obtain ⟨x, hx⟩ := Option.isSome_iff_exists.1 (hso.trans rfl)
    rw [hx, hbm]
    rfl
  · have := minimax_finish_ready key d st hok hd
    rw [hbm] at this
    exact this

theorem search_iteration_win (z : ZobristKeys) (d : Nat) (b : Board) (blueToPlay : Bool)
    (key : Nat) (tt : Table) (best w : Move) (h0 : check_winner b = 0)
    (hw : w ∈ generate_moves b blueToPlay MAX_MOVES)
    (hwin : check_winner (apply_move b w) = if blueToPlay then 1 else -1)
    (hready : RootReady key w d tt)
    (hfirst : d = 0 → ∀ m ∈ generate_moves b blueToPlay MAX_MOVES,
      check_winner (apply_move b m) = (if blueToPlay then 1 else -1) → m = w)
    (hd : d ≤ 126) :
    ∃ tt', search_iteration z blueToPlay key (best, tt, b) (d + 1) = (w, tt', b) ∧
      RootReady key w (d + 1) tt' := by
  obtain ⟨hout, hr⟩ := root_node_win z d b blueToPlay key tt best w h0 hw hwin hready hfirst hd
  refine ⟨_, ?_, hr⟩
  unfold search_iteration
  simp only
  rw [hout]
  simp only [Option.getD_some]
  rw [if_pos (mem_generate_moves_r1 b blueToPlay w hw),
    (minimax_frame z (d + 1) b _ _ _ _ _).1]

/-- The move that alone wins at once is the move returned, on a fresh table. -/
theorem search_forced_win_core (g : Engine) (b : Board) (blueToPlay : Bool) (w : Move)
    (hfresh : g.TT = tt_zero) (h0 : check_winner b = 0)
    (hw : w ∈ generate_moves b blueToPlay MAX_MOVES)
    (hwin : check_winner (apply_move b w) = if blueToPlay then 1 else -1)
    (huniq : ∀ m ∈ generate_moves b blueToPlay MAX_MOVES,
      check_winner (apply_move b m) = (if blueToPlay then 1 else -1) → m = w) :
    (search_best_move g b blueToPlay).1 = w := by
  rw [search_best_move_fst, hfresh, range_depths]
  have hstart : RootReady (zobrist_hash g.keys b blueToPlay) w 0
      (if (if blueToPlay then g.g_last_best_move_blue else g.g_last_best_move_red).r1 ≥ 0 then
        tt_store tt_zero (zobrist_hash g.keys b blueToPlay) 0 0 TT_EXACT
          (if blueToPlay then g.g_last_best_move_blue else g.g_last_best_move_red)
      else tt_zero) :=
    ⟨search_start_TTok _ _, fun h => absurd h (by omega), fun h => absurd h (by omega)⟩
  obtain ⟨tt1, e1, r1⟩ := search_iteration_win g.keys 0 b blueToPlay _ _ ⟨-1, -1, -1, -1⟩ w h0 hw
    hwin hstart (fun _ => huniq) (by omega)
  obtain ⟨tt2, e2, r2⟩ := search_iteration_win g.keys 1 b blueToPlay _ tt1 w w h0 hw
    hwin r1 (fun h => absurd h (by omega)) (by omega)
  obtain ⟨tt3, e3, r3⟩ := search_iteration_win g.keys 2 b blueToPlay _ tt2 w w h0 hw
    hwin r2 (fun h => absurd h (by omega)) (by omega)
  obtain ⟨tt4, e4, _⟩ := search_iteration_win g.keys 3 b blueToPlay _ tt3 w w h0 hw
    hwin r3 (fun h => absurd h (by omega)) (by omega)
  simp only [List.foldl_cons, List.foldl_nil]
  rw [e1, e2, e3, e4]


/-- C2: forced win.  On a fresh table, for a board with `check_winner = 0` on which exactly
one legal move of the side to move leads to a position that `check_winner` scores as a win
for that side (`+1` for blue, `-1` for red), `search_best_move` returns that move. -/
theorem search_best_move_forced_win (g : Engine) (b : Board) (blueToPlay : Bool) (w : Move)
    (hfresh : g.TT = tt_zero) (h0 : check_winner b = 0)
    (hw : w ∈ generate_moves b blueToPlay MAX_MOVES)
    (hwin : check_winner (apply_move b w) = if blueToPlay then 1 else -1)
    (huniq : ∀ m ∈ generate_moves b blueToPlay MAX_MOVES,
      check_winner (apply_move b m) = (if blueToPlay then 1 else -1) → m = w) :
    (search_best_move g b blueToPlay).1 = w :=
  search_forced_win_core g b blueToPlay w hfresh h0 hw hwin huniq

/-! ## What a search writes into the table -/

/-- The store that ends a node leaves a slot as it was or writes the node's entry. -/
theorem minimax_finish_touch (key : Nat) (d : Nat) (st : LoopState) (i : Nat) (hd : d ≤ 127) :
    (minimax_finish key (d : Int) st).2.TT i = st.s.TT i ∨
      (((minimax_finish key (d : Int) st).2.TT i).depth = (d : Int) ∧
        ((minimax_finish key (d : Int) st).2.TT i).key = key) := by
  unfold minimax_finish
  simp only
  rw [tt_store_eq]
  split
  · by_cases hi : i = key &&& TT_MASK
    · right
      simp only [hi, if_true]
      exact ⟨to_int8_small d hd, trivial⟩
    · left
      simp only [hi, if_false]
  · left; rfl

/-- A search of depth `d` for the position `key` leaves a slot as it was, or leaves in it an
entry of depth at most `d` which is shallower than `d` unless it carries `key`. -/
theorem minimax_touch (z : ZobristKeys) (d : Nat) (hd : d ≤ 127) :
    ∀ (b : Board) (alpha beta : Int) (blueToPlay : Bool) (key : Nat) (s : SearchState) (i : Nat),
      (minimax z d b alpha beta blueToPlay key s).2.2.TT i = s.TT i ∨
      (((minimax z d b alpha beta blueToPlay key s).2.2.TT i).depth ≤ (d : Int) ∧
        (((minimax z d b alpha beta blueToPlay key s).2.2.TT i).depth < (d : Int) ∨
          ((minimax z d b alpha beta blueToPlay key s).2.2.TT i).key = key)) := by
  induction d with
  | zero =>
    intro b alpha beta blueToPlay key s i
    left
    rw [minimax_zero]
    split_ifs <;> rfl
  | succ d ih =>
    intro b alpha beta blueToPlay key s i
    rw [minimax_succ]
    split_ifs
    · left; rfl
    · left; rfl
    · cases hl : tt_lookup (tt_probe s.TT key) key ((d + 1 : Nat) : Int) alpha beta with
      | ret v => left; rw [minimax_node_ret _ _ _ _ _ _ _ _ _ _ hl]
      | cont a' b' t =>
        by_cases hm : generate_moves b blueToPlay MAX_MOVES = []
        · left; rw [minimax_node_nomove _ _ _ _ _ _ _ _ _ _ _ _ hl hm]
        · rw [minimax_node_expand _ _ _ _ _ _ _ _ _ _ _ _ hl hm]
          have hloop := minimax_loop_inv
            (fun b a bt k s => minimax z d b a bt (!blueToPlay) k s) z blueToPlay b
            (fun st => st.s.TT i = s.TT i ∨ (st.s.TT i).depth < ((d + 1 : Nat) : Int))
            (sort_moves b blueToPlay (generate_moves b blueToPlay MAX_MOVES)
              (generate_moves b blueToPlay MAX_MOVES).length (some t))
            (by
              intro m _ st hst
              rw [minimax_loop_body_snd, loop_update_s]
              rcases ih (by omega) (apply_move b m) st.alpha st.beta (!blueToPlay)
                (zobrist_hash z (apply_move b m) (!blueToPlay)) st.s i with h | h
              · rw [h]; exact hst
              · right; push_cast; omega)
            ⟨a', b', if blueToPlay then -INF_SCORE else INF_SCORE,
              (sort_moves b blueToPlay (generate_moves b blueToPlay MAX_MOVES)
                (generate_moves b blueToPlay MAX_MOVES).length (some t)).getD 0 default, s⟩
            (Or.inl rfl)
          have hinv := hloop.1
          dsimp only
          rcases minimax_finish_touch key (d + 1) _ i hd with h | h
          · rw [h]
            rcases hinv with h' | h'
            · left; exact h'
            · right; exact ⟨by omega, Or.inl h'⟩
          · right
            exact ⟨by omega, Or.inr h.2⟩

/-! ## A node from which the side to move can win at once -/

theorem loop_update_tracking (side : Bool) (bound : Int) (m : Move) (val : Int) (st : LoopState)
    (s : SearchState) (hv : -100000 ≤ val ∧ val ≤ 100000) (hst : Tracking side bound st) :
    Tracking side bound (loop_update side m val st s) ∧
    ((loop_update side m val st s).alpha ≥ (loop_update side m val st s).beta →
      Refutes side bound (loop_update side m val st s).bestVal) ∧
    (val = (if side then 100000 else -100000) →
      (loop_update side m val st s).bestVal = if side then 100000 else -100000) ∧
    (st.bestVal = (if side then 100000 else -100000) →
      (loop_update side m val st s).bestVal = if side then 100000 else -100000) := by
  unfold Tracking Refutes at *
  unfold loop_update
  cases side
  · have h := hst.2 rfl
    simp only [Bool.false_eq_true, if_false, false_implies, true_implies, true_and]
    split_ifs <;> refine ⟨⟨?_, ?_, ?_⟩, ?_, ?_, ?_⟩ <;> omega
  · have h := hst.1 rfl
    simp only [if_true, Bool.true_eq_false, false_implies, true_implies, and_true]
    split_ifs <;> refine ⟨⟨?_, ?_, ?_⟩, ?_, ?_, ?_⟩ <;> omega

/-- The loop of a node whose list holds a move `y` that wins at once for `side`: the value
of the node is a win or lies beyond the bound of the other side. -/
theorem loop_reaches_win
    (child : Board → Int → Int → Nat → SearchState → Int × Board × SearchState)
    (z : ZobristKeys) (side : Bool) (b : Board) (D : Int) (bound : Int) (y : Move)
    (hY : ∀ a bt k s, (child (apply_move b y) a bt k s).1 = if side then 100000 else -100000)
    (hc : ∀ b' a bt k s, TTok D s.TT →
      TTok D (child b' a bt k s).2.2.TT ∧ -100000 ≤ (child b' a bt k s).1 ∧
        (child b' a bt k s).1 ≤ 100000)
    (l : List Move) :
    ∀ st : LoopState, Tracking side bound st → TTok D st.s.TT →
      (y ∈ l → Refutes side bound (minimax_loop child z side l b st).2.bestVal) ∧
      (st.bestVal = (if side then 100000 else -100000) →
        (minimax_loop child z side l b st).2.bestVal = if side then 100000 else -100000) := by
  induction l with
  | nil =>
    intro st _ _
    exact ⟨fun h => absurd h (List.not_mem_nil _), fun h => h⟩
  | cons x rest ih =>
    intro st htr htt
    rw [minimax_loop_cons]
    have hcx := hc (apply_move b x) st.alpha st.beta
      (zobrist_hash z (apply_move b x) (!side)) st.s htt
    have hup := loop_update_tracking side bound x _ st
      (child (apply_move b x) st.alpha st.beta
        (zobrist_hash z (apply_move b x) (!side)) st.s).2.2 hcx.2 htr
    rw [minimax_loop_body_snd]
    have hb : (minimax_loop_body child z side x b st).1 = b := rfl
    rw [hb]
    have hih := ih _ hup.1 (by rw [loop_update_s]; exact hcx.1)
    have hwinref : ∀ v : Int, v = (if side then 100000 else -100000) → Refutes side bound v := by
      intro v hv
      unfold Refutes
      cases side
      · simp only [Bool.false_eq_true, if_false] at hv
        exact ⟨fun h => absurd h (by decide), fun _ => Or.inr hv⟩
      · simp only [if_true] at hv
        exact ⟨fun _ => Or.inr hv, fun h => absurd h (by decide)⟩
    split
    · rename_i hcut
      refine ⟨fun _ => hup.2.1 hcut, hup.2.2.2⟩
    · refine ⟨?_, fun h => hih.2 (hup.2.2.2 h)⟩
      intro hy
      rcases List.mem_cons.1 hy with rfl | hy
      · exact hwinref _ (hih.2 (hup.2.2.1 (hY _ _ _ _)))
      · exact hih.1 hy


/-- A node that is not answered by the table, entered with an open bound on its own side,
at which the side to move has a move that wins at once: the value returned is a win for
that side or lies beyond the bound of the other side. -/
theorem node_threat (z : ZobristKeys) (k : Nat) (bX : Board) (side : Bool) (keyX : Nat)
    (s : SearchState) (alpha beta : Int) (D : Int)
    (hnw : check_winner bX ≠ if side then -1 else 1)
    (hy : ∃ y ∈ generate_moves bX side MAX_MOVES,
      check_winner (apply_move bX y) = if side then 1 else -1)
    (hmiss : ¬ ((tt_probe s.TT keyX).key = keyX ∧
      (tt_probe s.TT keyX).depth ≥ ((k + 1 : Nat) : Int)))
    (hwin : (side = true → alpha = -INF_SCORE) ∧ (side = false → beta = INF_SCORE))
    (hTT : TTok D s.TT) (hk : (k : Int) ≤ D) :
    Refutes side (if side then beta else alpha)
      (minimax z (k + 1) bX alpha beta side keyX s).1 := by
  rw [minimax_succ]
  by_cases h1 : check_winner bX = 1
  · rw [if_pos h1]
    unfold Refutes
    cases side
    · simp only [Bool.false_eq_true, if_false] at hnw
      exact absurd h1 hnw
    · exact ⟨fun _ => Or.inr rfl, fun h => absurd h (by decide)⟩
  · rw [if_neg h1]
    by_cases h2 : check_winner bX = -1
    · rw [if_pos h2]
      unfold Refutes
      cases side
      · exact ⟨fun h => absurd h (by decide), fun _ => Or.inr rfl⟩
      · simp only [if_true] at hnw
        exact absurd h2 hnw
    · rw [if_neg h2]
      obtain ⟨y, hyL, hyw⟩ := hy
      have hm : generate_moves bX side MAX_MOVES ≠ [] := List.ne_nil_of_mem hyL
      have hl := tt_lookup_miss (tt_probe s.TT keyX) keyX ((k + 1 : Nat) : Int) alpha beta hmiss
      rw [minimax_node_expand _ _ _ _ _ _ _ _ _ _ _ _ hl hm]
      dsimp only
      rw [minimax_finish_value]
      apply (loop_reaches_win (fun b a bt k' s => minimax z k b a bt (!side) k' s) z side bX D
        (if side then beta else alpha) y ?_ ?_ _ _ ?_ hTT).1
      · exact (sort_moves_perm _ _ _ _).symm.subset hyL
      · intro a bt k' s'
        have hterm := minimax_terminal z k (apply_move bX y) a bt (!side) k' s'
        cases side
        · simp only [Bool.false_eq_true, if_false] at hyw ⊢
          rw [hterm.2 hyw]
        · simp only [if_true] at hyw ⊢
          rw [hterm.1 hyw]
      · intro b' a bt k' s' hs'
        exact minimax_ok z D k hk b' a bt (!side) k' s' hs'
      · unfold Tracking
        cases side
        · have hb := hwin.2 rfl
          subst hb
          simp [INF_SCORE]
        · have ha := hwin.1 rfl
          subst ha
          simp [INF_SCORE]

/-! ## A node from which the side to move cannot win at once -/

theorem loop_update_not_win (side : Bool) (m : Move) (val : Int) (st : LoopState)
    (s : SearchState) (hv : -100000 ≤ val ∧ val ≤ 100000)
    (hne : val ≠ if side then 100000 else -100000)
    (hst : st.bestVal = (if side then -INF_SCORE else INF_SCORE) ∨
      ((-100000 ≤ st.bestVal ∧ st.bestVal ≤ 100000) ∧
        st.bestVal ≠ if side then 100000 else -100000)) :
    (-100000 ≤ (loop_update side m val st s).bestVal ∧
        (loop_update side m val st s).bestVal ≤ 100000) ∧
      (loop_update side m val st s).bestVal ≠ if side then 100000 else -100000 := by
  unfold loop_update
  cases side
  · simp only [Bool.false_eq_true, if_false, INF_SCORE] at hne hst ⊢
    split_ifs <;> refine ⟨⟨?_, ?_⟩, ?_⟩ <;> omega
  · simp only [if_true, INF_SCORE] at hne hst ⊢
    split_ifs <;> refine ⟨⟨?_, ?_⟩, ?_⟩ <;> omega

/-- A node of depth 1 whose position is not won by the side to move and from which no
move of that side wins at once does not return that side's winning value. -/
theorem node_safe (z : ZobristKeys) (bM : Board) (side : Bool) (key : Nat) (s : SearchState)
    (alpha beta : Int) (D : Int) (hTT : TTok D s.TT)
    (h1 : check_winner bM ≠ if side then 1 else -1)
    (h2 : ∀ y ∈ generate_moves bM side MAX_MOVES,
      check_winner (apply_move bM y) ≠ if side then 1 else -1) :
    (minimax z 1 bM alpha beta side key s).1 ≠ if side then 100000 else -100000 := by
  rw [minimax_succ]
  have he := evaluate_bound bM
  by_cases c1 : check_winner bM = 1
  · rw [if_pos c1]
    cases side
    · simp
    · simp only [if_true] at h1; exact absurd c1 h1
  · rw [if_neg c1]
    by_cases c2 : check_winner bM = -1
    · rw [if_pos c2]
      cases side
      · simp only [Bool.false_eq_true, if_false] at h1; exact absurd c2 h1
      · simp
    · rw [if_neg c2]
      cases hl : tt_lookup (tt_probe s.TT key) key ((0 + 1 : Nat) : Int) alpha beta with
      | ret v =>
        rw [minimax_node_ret _ _ _ _ _ _ _ _ _ _ hl]
        obtain ⟨hv, _, _⟩ := tt_lookup_ret _ _ _ _ _ _ hl
        have := hTT (key &&& TT_MASK)
        unfold tt_probe at hv
        dsimp only
        cases side <;> simp only [Bool.false_eq_true, if_false, if_true] <;> omega
      | cont a' b' t =>
        by_cases hm : generate_moves bM side MAX_MOVES = []
        · rw [minimax_node_nomove _ _ _ _ _ _ _ _ _ _ _ _ hl hm]
          dsimp only
          cases side <;> simp only [Bool.false_eq_true, if_false, if_true] <;> omega
        · rw [minimax_node_expand _ _ _ _ _ _ _ _ _ _ _ _ hl hm]
          dsimp only
          rw [minimax_finish_value]
          set L := sort_moves bM side (generate_moves bM side MAX_MOVES)
            (generate_moves bM side MAX_MOVES).length (some t) with hL
          have hp : L.Perm (generate_moves bM side MAX_MOVES) := sort_moves_perm _ _ _ _
          have hbody : ∀ m ∈ L, ∀ st : LoopState,
              (st.bestVal = (if side then -INF_SCORE else INF_SCORE) ∨
                ((-100000 ≤ st.bestVal ∧ st.bestVal ≤ 100000) ∧
                  st.bestVal ≠ if side then 100000 else -100000)) →
              ((-100000 ≤ (minimax_loop_body (fun b a bt k' s => minimax z 0 b a bt (!side) k' s)
                    z side m bM st).2.bestVal ∧
                  (minimax_loop_body (fun b a bt k' s => minimax z 0 b a bt (!side) k' s)
                    z side m bM st).2.bestVal ≤ 100000) ∧
                (minimax_loop_body (fun b a bt k' s => minimax z 0 b a bt (!side) k' s)
                    z side m bM st).2.bestVal ≠ if side then 100000 else -100000) := by
            intro m hmL st hst
            rw [minimax_loop_body_snd]
            apply loop_update_not_win side m _ st _ _ _ hst
            · rw [minimax_zero]
              have := evaluate_bound (apply_move bM m)
              split_ifs <;> dsimp only <;> omega
            · exact minimax_zero_not_win z _ _ _ _ side _ _ (h2 m (hp.subset hmL))
          cases hLc : L with
          | nil =>
            rw [hLc] at hp
            exact absurd (List.Perm.nil_eq hp).symm hm
          | cons m rest =>
            have hmem : ∀ x ∈ m :: rest, x ∈ L := by rw [hLc]; exact fun x hx => hx
            exact ((minimax_loop_inv_first
              (fun b a bt k' s => minimax z 0 b a bt (!side) k' s) z side bM
              (fun st => st.bestVal = (if side then -INF_SCORE else INF_SCORE) ∨
                ((-100000 ≤ st.bestVal ∧ st.bestVal ≤ 100000) ∧
                  st.bestVal ≠ if side then 100000 else -100000))
              (fun st => (-100000 ≤ st.bestVal ∧ st.bestVal ≤ 100000) ∧
                  st.bestVal ≠ if side then 100000 else -100000)
              m rest
              (fun st hst => hbody m (hmem m (List.mem_cons_self _ _)) st hst)
              (fun m' hm' st hst =>
                hbody m' (hmem m' (List.mem_cons_of_mem _ hm')) st (Or.inr hst))
              _ (Or.inl rfl)).1).2


/-! ## Forced block at the root -/

/-- A move that loses at once leaves the root loop as it was before the blocking move. -/
theorem loop_update_before (blueToPlay : Bool) (x : Move) (val : Int) (st : LoopState)
    (s : SearchState) (hv : -100000 ≤ val ∧ val ≤ 100000)
    (href : Refutes (!blueToPlay) (if (!blueToPlay) = true then st.beta else st.alpha) val)
    (hst : BeforeBlock blueToPlay st) :
    BeforeBlock blueToPlay (loop_update blueToPlay x val st s) ∧
      ¬ (loop_update blueToPlay x val st s).alpha ≥ (loop_update blueToPlay x val st s).beta := by
  unfold BeforeBlock Refutes at *
  unfold loop_update
  cases blueToPlay
  · have h := hst.1 rfl
    have hr := href.1 rfl
    simp only [Bool.not_false, if_true, INF_SCORE] at h hr
    simp only [Bool.false_eq_true, if_false, false_implies, true_implies, and_true, INF_SCORE]
    split_ifs <;> refine ⟨⟨?_, ?_, ?_⟩, ?_⟩ <;> omega
  · have h := hst.2 rfl
    have hr := href.2 rfl
    simp only [Bool.not_true, Bool.false_eq_true, if_false, INF_SCORE] at h hr
    simp only [if_true, Bool.true_eq_false, false_implies, true_implies, true_and, INF_SCORE]
    split_ifs <;> refine ⟨⟨?_, ?_, ?_⟩, ?_⟩ <;> omega

/-- The blocking move takes the best value when it is examined first or does not lose at
once. -/
theorem loop_update_block (blueToPlay : Bool) (m : Move) (val : Int) (st : LoopState)
    (s : SearchState) (hv : -100000 ≤ val ∧ val ≤ 100000)
    (hok : st.bestVal = (if blueToPlay then -INF_SCORE else INF_SCORE) ∨
      val ≠ if blueToPlay then -100000 else 100000)
    (hst : BeforeBlock blueToPlay st) :
    AfterBlock blueToPlay m (loop_update blueToPlay m val st s) := by
  unfold BeforeBlock AfterBlock at *
  unfold loop_update
  cases blueToPlay
  · have h := hst.1 rfl
    simp only [Bool.false_eq_true, if_false, INF_SCORE] at h hok
    simp only [Bool.false_eq_true, if_false, false_implies, true_implies, true_and, INF_SCORE]
    have hlt : val < st.bestVal := by omega
    simp only [hlt, if_true]
    refine ⟨⟨h.1, ?_⟩, ⟨hv.1, hv.2⟩, trivial⟩
    split_ifs <;> omega
  · have h := hst.2 rfl
    simp only [if_true, INF_SCORE] at h hok
    simp only [if_true, Bool.true_eq_false, false_implies, true_implies, true_and, INF_SCORE]
    have hlt : val > st.bestVal := by omega
    simp only [hlt, if_true]
    refine ⟨⟨h.1, ?_⟩, ⟨hv.1, hv.2⟩, trivial⟩
    split_ifs <;> omega

/-- After the blocking move, a move that loses at once does not take its place. -/
theorem loop_update_after (blueToPlay : Bool) (m x : Move) (val : Int) (st : LoopState)
    (s : SearchState)
    (href : Refutes (!blueToPlay) (if (!blueToPlay) = true then st.beta else st.alpha) val)
    (hst : AfterBlock blueToPlay m st) :
    AfterBlock blueToPlay m (loop_update blueToPlay x val st s) := by
  unfold AfterBlock Refutes at *
  unfold loop_update
  obtain ⟨h1, h2, h3, h4⟩ := hst
  cases blueToPlay
  · have h := h1 rfl
    have hr := href.1 rfl
    simp only [Bool.not_false, if_true, INF_SCORE] at h hr
    simp only [Bool.false_eq_true, if_false, false_implies, true_implies, true_and, INF_SCORE]
    have hlt : ¬ val < st.bestVal := by omega
    simp only [hlt, if_false]
    refine ⟨⟨h.1, ?_⟩, h3, h4⟩
    split_ifs <;> omega
  · have h := h2 rfl
    have hr := href.2 rfl
    simp only [Bool.not_true, Bool.false_eq_true, if_false, INF_SCORE] at h hr
    simp only [if_true, Bool.true_eq_false, false_implies, true_implies, true_and, INF_SCORE]
    have hlt : ¬ val > st.bestVal := by omega
    simp only [hlt, if_false]
    refine ⟨⟨h.1, ?_⟩, h3, h4⟩
    split_ifs <;> omega


/-- The loop on a list with a first move, in terms of the state after that move. -/
theorem minimax_loop_cons_snd
    (child : Board → Int → Int → Nat → SearchState → Int × Board × SearchState)
    (z : ZobristKeys) (blueToPlay : Bool) (m : Move) (rest : List Move) (b : Board)
    (st : LoopState) :
    (minimax_loop child z blueToPlay (m :: rest) b st).2 =
      if (loop_update blueToPlay m
            (child (apply_move b m) st.alpha st.beta (zobrist_hash z (apply_move b m) (!blueToPlay))
              st.s).1 st
            (child (apply_move b m) st.alpha st.beta (zobrist_hash z (apply_move b m) (!blueToPlay))
              st.s).2.2).alpha ≥
          (loop_update blueToPlay m
            (child (apply_move b m) st.alpha st.beta (zobrist_hash z (apply_move b m) (!blueToPlay))
              st.s).1 st
            (child (apply_move b m) st.alpha st.beta (zobrist_hash z (apply_move b m) (!blueToPlay))
              st.s).2.2).beta then
        loop_update blueToPlay m
          (child (apply_move b m) st.alpha st.beta (zobrist_hash z (apply_move b m) (!blueToPlay))
            st.s).1 st
          (child (apply_move b m) st.alpha st.beta (zobrist_hash z (apply_move b m) (!blueToPlay))
            st.s).2.2
      else
        (minimax_loop child z blueToPlay rest b
          (loop_update blueToPlay m
            (child (apply_move b m) st.alpha st.beta (zobrist_hash z (apply_move b m) (!blueToPlay))
              st.s).1 st
            (child (apply_move b m) st.alpha st.beta (zobrist_hash z (apply_move b m) (!blueToPlay))
              st.s).2.2)).2 := by
  rw [minimax_loop_cons]
  by_cases h : (minimax_loop_body child z blueToPlay m b st).2.alpha ≥
      (minimax_loop_body child z blueToPlay m b st).2.beta
  · rw [if_pos h]; exact (if_pos h).symm
  · rw [if_neg h]; exact (if_neg h).symm

theorem bool_not_true (b : Bool) (h : (!b) = true) : b = false := by
  cases b
  · rfl
  · exact absurd h (by decide)

theorem bool_not_false (b : Bool) (h : (!b) = false) : b = true := by
  cases b
  · exact absurd h (by decide)
  · rfl

/-- A search of depth `k` for a position with another key keeps the table silent about the
position `key'`. -/
theorem minimax_keeps_NoHit (z : ZobristKeys) (k : Nat) (hk : k ≤ 127) (b : Board)
    (alpha beta : Int) (side : Bool) (key key' : Nat) (s : SearchState) (hne : key ≠ key')
    (h : NoHit k s.TT key') :
    NoHit k (minimax z k b alpha beta side key s).2.2.TT key' := by
  unfold NoHit tt_probe at *
  rcases minimax_touch z k hk b alpha beta side key s (key' &&& TT_MASK) with h1 | ⟨h1, h2⟩
  · rw [h1]; exact h
  · rintro ⟨hk1, hk2⟩
    rcases h2 with h2 | h2
    · omega
    · exact hne (h2.symm.trans hk1)

/-- The loop of the root node when every move but `m` lets the opponent win at once: the
loop ends with `m` as best move, provided `m` is examined first or does not itself lose at
once, and provided no position after a move is answered by the table. -/
theorem root_loop_block (z : ZobristKeys) (k : Nat) (hk : k + 1 ≤ 127) (blueToPlay : Bool)
    (b : Board) (m : Move) (s0 : SearchState) (all : List Move)
    (hthreat : ∀ x ∈ all, x ≠ m →
      check_winner (apply_move b x) ≠ (if (!blueToPlay) = true then -1 else 1) ∧
      ∃ y ∈ generate_moves (apply_move b x) (!blueToPlay) MAX_MOVES,
        check_winner (apply_move (apply_move b x) y) = if (!blueToPlay) = true then 1 else -1)
    (hinj : ∀ x ∈ all, ∀ x' ∈ all,
      zobrist_hash z (apply_move b x) (!blueToPlay) =
        zobrist_hash z (apply_move b x') (!blueToPlay) → x = x')
    (rest : List Move) :
    ∀ st : LoopState, (∀ x ∈ rest, x ∈ all) → rest.Nodup →
      TTok ((k + 1 : Nat) : Int) st.s.TT →
      (∀ x ∈ rest, NoHit (k + 1) st.s.TT (zobrist_hash z (apply_move b x) (!blueToPlay))) →
      st.s.outBest.isSome = s0.outBest.isSome →
      ((BeforeBlock blueToPlay st ∧ m ∈ rest ∧
          ((∀ a bt k' s, TTok ((k + 1 : Nat) : Int) s.TT →
              (minimax z (k + 1) (apply_move b m) a bt (!blueToPlay) k' s).1 ≠
                if blueToPlay then -100000 else 100000) ∨
            ((∃ rest', rest = m :: rest') ∧
              st.bestVal = if blueToPlay then -INF_SCORE else INF_SCORE))) ∨
        (AfterBlock blueToPlay m st ∧ m ∉ rest)) →
      (minimax_loop (fun b' a bt k' s => minimax z (k + 1) b' a bt (!blueToPlay) k' s) z
          blueToPlay rest b st).2.bestMove = m ∧
      TTok ((k + 1 : Nat) : Int)
        (minimax_loop (fun b' a bt k' s => minimax z (k + 1) b' a bt (!blueToPlay) k' s) z
          blueToPlay rest b st).2.s.TT ∧
      (minimax_loop (fun b' a bt k' s => minimax z (k + 1) b' a bt (!blueToPlay) k' s) z
          blueToPlay rest b st).2.s.outBest.isSome = s0.outBest.isSome := by
  induction rest with
  | nil =>
    intro st _ _ htt _ hso hphase
    rcases hphase with ⟨_, hm, _⟩ | ⟨hafter, _⟩
    · exact absurd hm (List.not_mem_nil _)
    · exact ⟨hafter.2.2.2, htt, hso⟩
  | cons x rest ih =>
    intro st hall hnd htt hnohit hso hphase
    rw [minimax_loop_cons_snd]
    have hxall := hall x (List.mem_cons_self _ _)
    have hxrest : x ∉ rest := (List.nodup_cons.1 hnd).1
    have hndrest : rest.Nodup := (List.nodup_cons.1 hnd).2
    -- the child of `x`
    have hcx := minimax_ok z ((k + 1 : Nat) : Int) (k + 1) (le_refl _) (apply_move b x) st.alpha
      st.beta (!blueToPlay) (zobrist_hash z (apply_move b x) (!blueToPlay)) st.s htt
    have hsome := (minimax_frame z (k + 1) (apply_move b x) st.alpha st.beta (!blueToPlay)
      (zobrist_hash z (apply_move b x) (!blueToPlay)) st.s).2
    obtain ⟨r, hr⟩ : ∃ r, r = minimax z (k + 1) (apply_move b x) st.alpha st.beta (!blueToPlay)
      (zobrist_hash z (apply_move b x) (!blueToPlay)) st.s := ⟨_, rfl⟩
    rw [← hr] at hcx hsome ⊢
    have hnohit' : ∀ x' ∈ rest,
        NoHit (k + 1) r.2.2.TT (zobrist_hash z (apply_move b x') (!blueToPlay)) := by
      intro x' hx'
      rw [hr]
      apply minimax_keeps_NoHit z (k + 1) hk
      · intro heq
        have := hinj x hxall x' (hall x' (List.mem_cons_of_mem _ hx')) heq
        rw [this] at hxrest
        exact hxrest hx'
      · exact hnohit x' (List.mem_cons_of_mem _ hx')
    have hrest_all : ∀ x' ∈ rest, x' ∈ all := fun x' hx' => hall x' (List.mem_cons_of_mem _ hx')
    -- value of a move that is not the blocking move
    have hrefutes : x ≠ m → BeforeBlock blueToPlay st ∨ AfterBlock blueToPlay m st →
        Refutes (!blueToPlay) (if (!blueToPlay) = true then st.beta else st.alpha) r.1 := by
      intro hxm hwind
      obtain ⟨hnw, hy⟩ := hthreat x hxall hxm
      rw [hr]
      apply node_threat z k (apply_move b x) (!blueToPlay) _ st.s st.alpha st.beta
        ((k + 1 : Nat) : Int) hnw hy (hnohit x (List.mem_cons_self _ _)) ?_ htt
        (by push_cast; omega)
      constructor
      · intro hside
        have hbf : blueToPlay = false := bool_not_true _ hside
        rcases hwind with h | h
        · exact (h.1 hbf).1
        · exact (h.1 hbf).1
      · intro hside
        have hbt : blueToPlay = true := bool_not_false _ hside
        rcases hwind with h | h
        · exact (h.2 hbt).1
        · exact (h.2.1 hbt).1
    rcases hphase with ⟨hbefore, hm, hsafe⟩ | ⟨hafter, hmnot⟩
    · by_cases hxm : x = m
      · -- the blocking move itself
        subst hxm
        have hval : st.bestVal = (if blueToPlay then -INF_SCORE else INF_SCORE) ∨
            r.1 ≠ if blueToPlay then -100000 else 100000 := by
          rcases hsafe with hs | ⟨_, hs⟩
          · right; rw [hr]; exact hs _ _ _ _ htt
          · left; exact hs
        have hab := loop_update_block blueToPlay x r.1 st r.2.2 hcx.2 hval hbefore
        have hgoal := ih (loop_update blueToPlay x r.1 st r.2.2) hrest_all hndrest
          (by rw [loop_update_s]; exact hcx.1) (by rw [loop_update_s]; exact hnohit')
          (by rw [loop_update_s, hsome]; exact hso) (Or.inr ⟨hab, hxrest⟩)
        split
        · exact ⟨hab.2.2.2, by rw [loop_update_s]; exact hcx.1,
            by rw [loop_update_s, hsome]; exact hso⟩
        · exact hgoal
      · have hup := loop_update_before blueToPlay x r.1 st r.2.2 hcx.2
          (hrefutes hxm (Or.inl hbefore)) hbefore
        rw [if_neg hup.2]
        have hmrest : m ∈ rest := by
          rcases List.mem_cons.1 hm with h | h
          · exact absurd h.symm hxm
          · exact h
        apply ih (loop_update blueToPlay x r.1 st r.2.2) hrest_all hndrest
          (by rw [loop_update_s]; exact hcx.1) (by rw [loop_update_s]; exact hnohit')
          (by rw [loop_update_s, hsome]; exact hso)
        left
        refine ⟨hup.1, hmrest, Or.inl ?_⟩
        rcases hsafe with hs | ⟨⟨rest', hr'⟩, _⟩
        · exact hs
        · exact absurd (List.cons.inj hr').1 hxm
    · have hxm : x ≠ m := by
        rintro rfl
        exact hmnot (List.mem_cons_self _ _)
      have hab := loop_update_after blueToPlay m x r.1 st r.2.2
        (hrefutes hxm (Or.inr hafter)) hafter
      have hgoal := ih (loop_update blueToPlay x r.1 st r.2.2) hrest_all hndrest
        (by rw [loop_update_s]; exact hcx.1) (by rw [loop_update_s]; exact hnohit')
        (by rw [loop_update_s, hsome]; exact hso)
        (Or.inr ⟨hab, fun h => hmnot (List.mem_cons_of_mem _ h)⟩)
      split
      · exact ⟨hab.2.2.2, by rw [loop_update_s]; exact hcx.1,
          by rw [loop_update_s, hsome]; exact hso⟩
      · exact hgoal


/-- The root node of an iteration on a table without entries deeper than `d`: a generated
move is written to `*outBest`, and the table is ready for the next iteration. -/
theorem root_node_any (z : ZobristKeys) (d : Nat) (b : Board) (blueToPlay : Bool) (key : Nat)
    (tt : Table) (m0 : Move) (h0 : check_winner b = 0)
    (hm : generate_moves b blueToPlay MAX_MOVES ≠ []) (htt : TTok (d : Int) tt) (hd : d ≤ 126) :
    ∃ w ∈ generate_moves b blueToPlay MAX_MOVES,
      (minimax z (d + 1) b (-INF_SCORE) INF_SCORE blueToPlay key ⟨tt, some m0⟩).2.2.outBest =
        some w ∧
      RootReady key w (d + 1)
        (minimax z (d + 1) b (-INF_SCORE) INF_SCORE blueToPlay key ⟨tt, some m0⟩).2.2.TT := by
  have hl := tt_lookup_shallow (d : Int) tt key ((d + 1 : Nat) : Int) (-INF_SCORE) INF_SCORE htt
    (by push_cast; omega)
  rw [minimax_succ, if_neg (by omega), if_neg (by omega),
    minimax_node_expand _ _ _ _ _ _ _ _ ⟨tt, some m0⟩ _ _ _ hl hm]
  dsimp only
  set t : Move := if (tt_probe tt key).key = key then (tt_probe tt key).best else ⟨-1, -1, -1, -1⟩
  set L := sort_moves b blueToPlay (generate_moves b blueToPlay MAX_MOVES)
    (generate_moves b blueToPlay MAX_MOVES).length (some t) with hL
  have hp : L.Perm (generate_moves b blueToPlay MAX_MOVES) := sort_moves_perm _ _ _ _
  have hLne : L ≠ [] := by
    intro h
    rw [h] at hp
    exact hm (List.Perm.nil_eq hp).symm
  have hloop := minimax_loop_inv
    (fun b a bt k s => minimax z d b a bt (!blueToPlay) k s) z blueToPlay b
    (fun st => st.s.outBest.isSome = true ∧ st.bestMove ∈ L ∧ TTok (d : Int) st.s.TT) L
    (by
      intro m hmL st hst
      rw [minimax_loop_body_snd, loop_update_s]
      refine ⟨?_, ?_, ?_⟩
      · rw [(minimax_frame z d _ _ _ _ _ _).2]; exact hst.1
      · rcases loop_update_bestMove blueToPlay m
          (minimax z d (apply_move b m) st.alpha st.beta (!blueToPlay)
            (zobrist_hash z (apply_move b m) (!blueToPlay)) st.s).1 st
          (minimax z d (apply_move b m) st.alpha st.beta (!blueToPlay)
            (zobrist_hash z (apply_move b m) (!blueToPlay)) st.s).2.2 with h | h
        · rw [h]; exact hmL
        · rw [h]; exact hst.2.1
      · exact (minimax_ok z (d : Int) d (le_refl _) _ _ _ _ _ _ hst.2.2).1)
    ⟨-INF_SCORE, INF_SCORE, if blueToPlay then -INF_SCORE else INF_SCORE, L.getD 0 default,
      ⟨tt, some m0⟩⟩
    ⟨rfl, getD_zero_mem L hLne, htt⟩
  obtain ⟨⟨h1, h2, h3⟩, _⟩ := hloop
  refine ⟨_, hp.subset h2, ?_, minimax_finish_ready key d _ h3 hd⟩
  rw [minimax_finish_outBest]
  obtain ⟨x, hx⟩ := Option.isSome_iff_exists.1 h1
  rw [hx]
  rfl

/-- The root node of an iteration of depth at least 2 when every move but `m` lets the
opponent win at once. -/
theorem root_node_block (z : ZobristKeys) (k : Nat) (hk : k + 1 ≤ 126) (b : Board)
    (blueToPlay : Bool) (key : Nat) (tt : Table) (m0 w m : Move) (h0 : check_winner b = 0)
    (hm : m ∈ generate_moves b blueToPlay MAX_MOVES)
    (hready : RootReady key w (k + 1) tt)
    (hcase : (k = 0 ∧
        check_winner (apply_move b m) ≠ (if (!blueToPlay) = true then 1 else -1) ∧
        ∀ y ∈ generate_moves (apply_move b m) (!blueToPlay) MAX_MOVES,
          check_winner (apply_move (apply_move b m) y) ≠
            if (!blueToPlay) = true then 1 else -1) ∨ w = m)
    (hthreat : ∀ x ∈ generate_moves b blueToPlay MAX_MOVES, x ≠ m →
      check_winner (apply_move b x) ≠ (if (!blueToPlay) = true then -1 else 1) ∧
      ∃ y ∈ generate_moves (apply_move b x) (!blueToPlay) MAX_MOVES,
        check_winner (apply_move (apply_move b x) y) = if (!blueToPlay) = true then 1 else -1)
    (hkey0 : ∀ x ∈ generate_moves b blueToPlay MAX_MOVES,
      zobrist_hash z (apply_move b x) (!blueToPlay) ≠ key)
    (hinj : ∀ x ∈ generate_moves b blueToPlay MAX_MOVES,
      ∀ x' ∈ generate_moves b blueToPlay MAX_MOVES,
        zobrist_hash z (apply_move b x) (!blueToPlay) =
          zobrist_hash z (apply_move b x') (!blueToPlay) → x = x') :
    (minimax z (k + 1 + 1) b (-INF_SCORE) INF_SCORE blueToPlay key ⟨tt, some m0⟩).2.2.outBest =
        some m ∧
      RootReady key m (k + 1 + 1)
        (minimax z (k + 1 + 1) b (-INF_SCORE) INF_SCORE blueToPlay key ⟨tt, some m0⟩).2.2.TT := by
  obtain ⟨htt, hroot, hdeep⟩ := hready
  have hmne : generate_moves b blueToPlay MAX_MOVES ≠ [] := List.ne_nil_of_mem hm
  have hl := tt_lookup_shallow ((k + 1 : Nat) : Int) tt key ((k + 1 + 1 : Nat) : Int)
    (-INF_SCORE) INF_SCORE htt (by push_cast; omega)
  rw [minimax_succ, if_neg (by omega), if_neg (by omega),
    minimax_node_expand _ _ _ _ _ _ _ _ ⟨tt, some m0⟩ _ _ _ hl hmne]
  dsimp only
  have hr := hroot (by omega)
  have htw : (if (tt_probe tt key).key = key then (tt_probe tt key).best
      else (⟨-1, -1, -1, -1⟩ : Move)) = w := by rw [if_pos hr.1, hr.2]
  rw [htw]
  set L := sort_moves b blueToPlay (generate_moves b blueToPlay MAX_MOVES)
    (generate_moves b blueToPlay MAX_MOVES).length (some w) with hL
  have hp : L.Perm (generate_moves b blueToPlay MAX_MOVES) := sort_moves_perm _ _ _ _
  have hnd : L.Nodup := by
    rw [hp.nodup_iff, generate_moves_eq_all]
    exact all_moves_nodup b blueToPlay
  have hnohit : ∀ x ∈ L, NoHit (k + 1) tt (zobrist_hash z (apply_move b x) (!blueToPlay)) := by
    intro x hx
    unfold NoHit
    rintro ⟨h1, h2⟩
    have := hdeep (by omega) _ h2
    unfold tt_probe at h1
    exact hkey0 x (hp.subset hx) (h1.symm.trans this)
  have hloop := root_loop_block z k (by omega) blueToPlay b m ⟨tt, some m0⟩
    (generate_moves b blueToPlay MAX_MOVES) hthreat hinj L
    ⟨-INF_SCORE, INF_SCORE, if blueToPlay then -INF_SCORE else INF_SCORE, L.getD 0 default,
      ⟨tt, some m0⟩⟩
    (fun x hx => hp.subset hx) hnd htt hnohit rfl
    (Or.inl ⟨by
        unfold BeforeBlock
        cases blueToPlay
        · exact ⟨fun _ => ⟨rfl, rfl, Or.inl rfl⟩, fun h => absurd h (by decide)⟩
        · exact ⟨fun h => absurd h (by decide), fun _ => ⟨rfl, rfl, Or.inl rfl⟩⟩,
      hp.symm.subset hm, by
        rcases hcase with ⟨hk0, hs1, hs2⟩ | hwm
        · left
          subst hk0
          intro a bt k' s hs
          have := node_safe z (apply_move b m) (!blueToPlay) k' s a bt _ hs hs1 hs2
          cases blueToPlay
          · simpa only [Bool.not_false, Bool.not_true, if_true, Bool.false_eq_true, if_false]
              using this
          · simpa only [Bool.not_false, Bool.not_true, if_true, Bool.false_eq_true, if_false]
              using this
        · right
          refine ⟨?_, rfl⟩
          obtain ⟨rest, hrest⟩ := sort_moves_tt_first b blueToPlay m hm
          exact ⟨rest, by rw [hL, hwm, hrest]⟩⟩)
  obtain ⟨hbm, hok, hso⟩ := hloop
  constructor
  · rw [minimax_finish_outBest]
    obtain ⟨x, hx⟩ := Option.isSome_iff_exists.1 (hso.trans rfl)
    rw [hx, hbm]
    rfl
  · have := minimax_finish_ready key (k + 1) _ hok hk
    rw [hbm] at this
    exact this


theorem search_iteration_any (z : ZobristKeys) (d : Nat) (b : Board) (blueToPlay : Bool)
    (key : Nat) (tt : Table) (best : Move) (h0 : check_winner b = 0)
    (hm : generate_moves b blueToPlay MAX_MOVES ≠ []) (htt : TTok (d : Int) tt) (hd : d ≤ 126) :
    ∃ w tt', search_iteration z blueToPlay key (best, tt, b) (d + 1) = (w, tt', b) ∧
      RootReady key w (d + 1) tt' := by
  obtain ⟨w, hw, hout, hr⟩ := root_node_any z d b blueToPlay key tt best h0 hm htt hd
  refine ⟨w, _, ?_, hr⟩
  unfold search_iteration
  simp only
  rw [hout]
  simp only [Option.getD_some]
  rw [if_pos (mem_generate_moves_r1 b blueToPlay w hw),
    (minimax_frame z (d + 1) b _ _ _ _ _).1]

theorem search_iteration_block (z : ZobristKeys) (k : Nat) (hk : k + 1 ≤ 126) (b : Board)
    (blueToPlay : Bool) (key : Nat) (tt : Table) (best w m : Move) (h0 : check_winner b = 0)
    (hm : m ∈ generate_moves b blueToPlay MAX_MOVES)
    (hready : RootReady key w (k + 1) tt)
    (hcase : (k = 0 ∧
        check_winner (apply_move b m) ≠ (if (!blueToPlay) = true then 1 else -1) ∧
        ∀ y ∈ generate_moves (apply_move b m) (!blueToPlay) MAX_MOVES,
          check_winner (apply_move (apply_move b m) y) ≠
            if (!blueToPlay) = true then 1 else -1) ∨ w = m)
    (hthreat : ∀ x ∈ generate_moves b blueToPlay MAX_MOVES, x ≠ m →
      check_winner (apply_move b x) ≠ (if (!blueToPlay) = true then -1 else 1) ∧
      ∃ y ∈ generate_moves (apply_move b x) (!blueToPlay) MAX_MOVES,
        check_winner (apply_move (apply_move b x) y) = if (!blueToPlay) = true then 1 else -1)
    (hkey0 : ∀ x ∈ generate_moves b blueToPlay MAX_MOVES,
      zobrist_hash z (apply_move b x) (!blueToPlay) ≠ key)
    (hinj : ∀ x ∈ generate_moves b blueToPlay MAX_MOVES,
      ∀ x' ∈ generate_moves b blueToPlay MAX_MOVES,
        zobrist_hash z (apply_move b x) (!blueToPlay) =
          zobrist_hash z (apply_move b x') (!blueToPlay) → x = x') :
    ∃ tt', search_iteration z blueToPlay key (best, tt, b) (k + 1 + 1) = (m, tt', b) ∧
      RootReady key m (k + 1 + 1) tt' := by
  obtain ⟨hout, hr⟩ := root_node_block z k hk b blueToPlay key tt best w m h0 hm hready hcase
    hthreat hkey0 hinj
  refine ⟨_, ?_, hr⟩
  unfold search_iteration
  simp only
  rw [hout]
  simp only [Option.getD_some]
  rw [if_pos (mem_generate_moves_r1 b blueToPlay m hm),
    (minimax_frame z (k + 1 + 1) b _ _ _ _ _).1]

theorem ite_not_side (blueToPlay : Bool) (x y : Int) :
    (if (!blueToPlay) = true then x else y) = if blueToPlay then y else x := by
  cases blueToPlay <;> rfl

/-- C6, as amended: forced block.  On a fresh table, for a board with `check_winner = 0`
and a legal move `m` of the side to move such that (i) no other legal move wins at once for
the side to move, (ii) after every other legal move the opponent has a legal reply scored
as an immediate win for the opponent, (iii) after `m` the position is not won by the
opponent and the opponent has no such reply, and (iv) the Zobrist keys of the positions
after the legal moves differ from one another and from the key of the root position,
`search_best_move` returns `m`. -/
theorem search_best_move_forced_block (g : Engine) (b : Board) (blueToPlay : Bool) (m : Move)
    (hfresh : g.TT = tt_zero) (h0 : check_winner b = 0)
    (hm : m ∈ generate_moves b blueToPlay MAX_MOVES)
    (hnowin : ∀ x ∈ generate_moves b blueToPlay MAX_MOVES, x ≠ m →
      check_winner (apply_move b x) ≠ if blueToPlay then 1 else -1)
    (hthreat : ∀ x ∈ generate_moves b blueToPlay MAX_MOVES, x ≠ m →
      ∃ y ∈ generate_moves (apply_move b x) (!blueToPlay) MAX_MOVES,
        check_winner (apply_move (apply_move b x) y) = if blueToPlay then -1 else 1)
    (hsafe0 : check_winner (apply_move b m) ≠ if blueToPlay then -1 else 1)
    (hsafe : ∀ y ∈ generate_moves (apply_move b m) (!blueToPlay) MAX_MOVES,
      check_winner (apply_move (apply_move b m) y) ≠ if blueToPlay then -1 else 1)
    (hkey0 : ∀ x ∈ generate_moves b blueToPlay MAX_MOVES,
      zobrist_hash g.keys (apply_move b x) (!blueToPlay) ≠ zobrist_hash g.keys b blueToPlay)
    (hinj : ∀ x ∈ generate_moves b blueToPlay MAX_MOVES,
      ∀ x' ∈ generate_moves b blueToPlay MAX_MOVES,
        zobrist_hash g.keys (apply_move b x) (!blueToPlay) =
          zobrist_hash g.keys (apply_move b x') (!blueToPlay) → x = x') :
    (search_best_move g b blueToPlay).1 = m := by
  rw [search_best_move_fst, hfresh, range_depths]
  have hmne : generate_moves b blueToPlay MAX_MOVES ≠ [] := List.ne_nil_of_mem hm
  have hthreat' : ∀ x ∈ generate_moves b blueToPlay MAX_MOVES, x ≠ m →
      check_winner (apply_move b x) ≠ (if (!blueToPlay) = true then -1 else 1) ∧
      ∃ y ∈ generate_moves (apply_move b x) (!blueToPlay) MAX_MOVES,
        check_winner (apply_move (apply_move b x) y) =
          if (!blueToPlay) = true then 1 else -1 := by
    intro x hx hxm
    rw [ite_not_side, ite_not_side]
    exact ⟨hnowin x hx hxm, hthreat x hx hxm⟩
  have hsafe' : check_winner (apply_move b m) ≠ (if (!blueToPlay) = true then 1 else -1) ∧
      ∀ y ∈ generate_moves (apply_move b m) (!blueToPlay) MAX_MOVES,
        check_winner (apply_move (apply_move b m) y) ≠
          if (!blueToPlay) = true then 1 else -1 := by
    rw [ite_not_side]
    exact ⟨hsafe0, hsafe⟩
  obtain ⟨w1, tt1, e1, r1⟩ := search_iteration_any g.keys 0 b blueToPlay
    (zobrist_hash g.keys b blueToPlay) _ ⟨-1, -1, -1, -1⟩ h0 hmne
    (search_start_TTok (zobrist_hash g.keys b blueToPlay)
      (if blueToPlay then g.g_last_best_move_blue else g.g_last_best_move_red)) (by omega)
  obtain ⟨tt2, e2, r2⟩ := search_iteration_block g.keys 0 (by omega) b blueToPlay _ tt1 w1 w1 m
    h0 hm r1 (Or.inl ⟨rfl, hsafe'⟩) hthreat' hkey0 hinj
  obtain ⟨tt3, e3, r3⟩ := search_iteration_block g.keys 1 (by omega) b blueToPlay _ tt2 m m m
    h0 hm r2 (Or.inr rfl) hthreat' hkey0 hinj
  obtain ⟨tt4, e4, _⟩ := search_iteration_block g.keys 2 (by omega) b blueToPlay _ tt3 m m m
    h0 hm r3 (Or.inr rfl) hthreat' hkey0 hinj
  simp only [List.foldl_cons, List.foldl_nil]
  rw [e1, e2, e3, e4]


/-! ## The transposition table: depth-preferred replacement -/

theorem EVAL_CLAMP_eq_clamp_spec (x : Int) : EVAL_CLAMP x = clamp_spec x := by
  unfold EVAL_CLAMP clamp_spec
  split_ifs <;> omega

theorem to_int16_clamp (x : Int) : to_int16 (EVAL_CLAMP x) = EVAL_CLAMP x := by
  have h := EVAL_CLAMP_bound x
  unfold to_int16
  omega

theorem to_int8_depth (d : Int) (h0 : 0 ≤ d) (h127 : d ≤ 127) : to_int8 d = d := by
  unfold to_int8
  omega

theorem to_uint8_flag (f : Nat) (h : f ≤ 3) : to_uint8 f = f := by
  unfold to_uint8
  omega

/-- C11, amended: when the slot `key & TT_MASK` (`TT_MASK` is `TT_SIZE-1`) is occupied by an
entry with a stored key different from `0` (the value by which `tt_store` recognises a free
slot) whose stored depth is strictly greater than the incoming depth, `tt_store` leaves the
whole table unchanged, whatever position the stored entry belongs to. -/
theorem tt_store_keeps_deeper (tt : Table) (key : Nat) (depth value : Int) (flag : Nat)
    (best : Move) (hocc : (tt (key &&& TT_MASK)).key ≠ 0)
    (hdeep : (tt (key &&& TT_MASK)).depth > depth) :
    tt_store tt key depth value flag best = tt := by
  rw [tt_store_eq, if_neg]
  rintro (h | h)
  · exact hocc h
  · exact absurd hdeep (by omega)

/-- C12: for a depth in `0..127` and a flag of `enum TTFlag`, when the slot of `key` is free
(stored key `0`) or holds an entry of depth at most the incoming depth, after `tt_store` the
entry that `tt_probe key` returns has the incoming key, depth, flag and best move, its value
is the incoming value clamped to `[-30000, 30000]`, and every other slot is unchanged. -/
theorem tt_store_replaces (tt : Table) (key : Nat) (depth value : Int) (flag : Nat) (best : Move)
    (hd : 0 ≤ depth ∧ depth ≤ 127) (hf : flag ≤ 3)
    (hslot : (tt (key &&& TT_MASK)).key = 0 ∨ (tt (key &&& TT_MASK)).depth ≤ depth) :
    tt_probe (tt_store tt key depth value flag best) key =
        ⟨key, clamp_spec value, depth, flag, best⟩ ∧
      (-30000 ≤ clamp_spec value ∧ clamp_spec value ≤ 30000 ∧
        (-30000 ≤ value → value ≤ 30000 → clamp_spec value = value)) ∧
      ∀ i : Nat, i ≠ key &&& TT_MASK → tt_store tt key depth value flag best i = tt i := by
  have hc : (tt (key &&& TT_MASK)).key = 0 ∨ depth ≥ (tt (key &&& TT_MASK)).depth := by
    rcases hslot with h | h
    · exact Or.inl h
    · exact Or.inr h
  refine ⟨?_, ?_, ?_⟩
  · rw [tt_store_probe tt key depth value flag best hc, to_int16_clamp,
      to_int8_depth depth hd.1 hd.2, to_uint8_flag flag hf, EVAL_CLAMP_eq_clamp_spec]
  · unfold clamp_spec
    omega
  · intro i hi
    rw [tt_store_eq, if_pos hc]
    exact if_neg hi

/-! ## The search: lookup, terminal positions, stalemate, backtrack -/

theorem minimax_node_eq
    (child : Board → Int → Int → Bool → Nat → SearchState → Int × Board × SearchState)
    (z : ZobristKeys) (depth : Int) (b : Board) (alpha beta : Int) (blueToPlay : Bool) (key : Nat)
    (s : SearchState) :
    minimax_node child z depth b alpha beta blueToPlay key s =
      match tt_lookup (tt_probe s.TT key) key depth alpha beta with
      | Lookup.ret v => (v, b, s)
      | Lookup.cont a' b' t => minimax_moves child z depth b a' b' blueToPlay key s t := rfl

theorem minimax_node_cont
    (child : Board → Int → Int → Bool → Nat → SearchState → Int × Board × SearchState)
    (z : ZobristKeys) (depth : Int) (b : Board) (alpha beta : Int) (blueToPlay : Bool) (key : Nat)
    (s : SearchState) (a' b' : Int) (t : Move)
    (hl : tt_lookup (tt_probe s.TT key) key depth alpha beta = Lookup.cont a' b' t) :
    minimax_node child z depth b alpha beta blueToPlay key s =
      minimax_moves child z depth b a' b' blueToPlay key s t := by
  rw [minimax_node_eq, hl]

/-- Two score functions that agree on the moves of a list sort it the same way. -/
theorem insert_rev_congr (f g : Move → Int) (key : Move) (ks : Int) (l : List Move)
    (h : ∀ m ∈ l, f m = g m) : insert_rev f key ks l = insert_rev g key ks l := by
  induction l with
  | nil => rfl
  | cons x rest ih =>
    unfold insert_rev
    rw [h x (List.mem_cons_self _ _), ih (fun m hm => h m (List.mem_cons_of_mem _ hm))]

theorem sort_desc_fold_congr (f g : Move → Int) (l : List Move) :
    ∀ pre : List Move, (∀ m ∈ pre, f m = g m) → (∀ m ∈ l, f m = g m) →
      l.foldl (fun pre x => insert_desc f x pre) pre =
        l.foldl (fun pre x => insert_desc g x pre) pre := by
  induction l with
  | nil => intro pre _ _; rfl
  | cons x rest ih =>
    intro pre hpre hl
    have hx : f x = g x := hl x (List.mem_cons_self _ _)
    have he : insert_desc f x pre = insert_desc g x pre := by
      unfold insert_desc
      rw [hx, insert_rev_congr f g x (g x) pre.reverse
        (fun m hm => hpre m (List.mem_reverse.1 hm))]
    rw [List.foldl_cons, List.foldl_cons, he]
    apply ih
    · intro m hm
      have := (insert_desc_perm g x pre).subset hm
      rcases List.mem_cons.1 this with rfl | h'
      · exact hx
      · exact hpre m h'
    · exact fun m hm => hl m (List.mem_cons_of_mem _ hm)

theorem sort_moves_congr (b : Board) (blueToPlay : Bool) (moves : List Move) (t t' : Option Move)
    (h : ∀ m ∈ moves, move_score b blueToPlay m t = move_score b blueToPlay m t') :
    sort_moves b blueToPlay moves moves.length t =
      sort_moves b blueToPlay moves moves.length t' := by
  rw [sort_moves_eq, sort_moves_eq]
  unfold sort_desc
  exact sort_desc_fold_congr _ _ moves [] (fun m hm => absurd hm (List.not_mem_nil m)) h

/-- No generated move is the move `{0,0,0,0}` of a zeroed table entry or the sentinel
`{-1,-1,-1,-1}`: both give every generated move the score it has without a table move. -/
theorem move_score_zero_entry (b : Board) (blueToPlay : Bool) (m : Move)
    (hm : m ∈ generate_moves b blueToPlay MAX_MOVES) :
    move_score b blueToPlay m (some ⟨0, 0, 0, 0⟩) =
      move_score b blueToPlay m (some ⟨-1, -1, -1, -1⟩) := by
  rw [generate_moves_eq_all] at hm
  obtain ⟨h1, _, _, hne, _⟩ := legal_of_mem_all_moves b blueToPlay m hm
  rw [in_bounds_iff] at h1
  rw [move_score_some, move_score_some, if_neg, if_neg]
  · intro h
    rw [h] at h1
    simp only at h1
    omega
  · intro h
    rw [h] at hne
    simp only at hne
    omega

theorem minimax_moves_zero_entry
    (child : Board → Int → Int → Bool → Nat → SearchState → Int × Board × SearchState)
    (z : ZobristKeys) (depth : Int) (b : Board) (alpha beta : Int) (blueToPlay : Bool) (key : Nat)
    (s : SearchState) :
    minimax_moves child z depth b alpha beta blueToPlay key s ⟨0, 0, 0, 0⟩ =
      minimax_moves child z depth b alpha beta blueToPlay key s ⟨-1, -1, -1, -1⟩ := by
  unfold minimax_moves
  simp only
  rw [sort_moves_congr b blueToPlay (generate_moves b blueToPlay MAX_MOVES) (some ⟨0, 0, 0, 0⟩)
    (some ⟨-1, -1, -1, -1⟩) (fun m hm => move_score_zero_entry b blueToPlay m hm)]

/-- C13: at a node of depth `d+1` whose position is not decided and whose probed slot holds
an entry with another key, the lookup leaves `alpha` and `beta` as they are, does not make
`minimax` return, and hands the sentinel `{-1,-1,-1,-1}` to the move ordering: `minimax`
goes on to the moves with exactly these; a free slot (a zeroed entry) leaves the node the
same window and a table move with which the node runs identically. -/
theorem minimax_collision_is_miss (z : ZobristKeys) (d : Nat) (b : Board) (alpha beta : Int)
    (blueToPlay : Bool) (key : Nat) (s : SearchState) (h0 : check_winner b = 0)
    (hk : (tt_probe s.TT key).key ≠ key) :
    tt_lookup (tt_probe s.TT key) key ((d + 1 : Nat) : Int) alpha beta =
        Lookup.cont alpha beta ⟨-1, -1, -1, -1⟩ ∧
      minimax z (d + 1) b alpha beta blueToPlay key s =
        minimax_moves (minimax z d) z ((d + 1 : Nat) : Int) b alpha beta blueToPlay key s
          ⟨-1, -1, -1, -1⟩ ∧
      ∃ t : Move,
        tt_lookup ⟨0, 0, 0, 0, ⟨0, 0, 0, 0⟩⟩ key ((d + 1 : Nat) : Int) alpha beta =
          Lookup.cont alpha beta t ∧
        minimax_moves (minimax z d) z ((d + 1 : Nat) : Int) b alpha beta blueToPlay key s t =
          minimax_moves (minimax z d) z ((d + 1 : Nat) : Int) b alpha beta blueToPlay key s
            ⟨-1, -1, -1, -1⟩ := by
  have hl : tt_lookup (tt_probe s.TT key) key ((d + 1 : Nat) : Int) alpha beta =
      Lookup.cont alpha beta ⟨-1, -1, -1, -1⟩ := by
    rw [tt_lookup_miss _ _ _ _ _ (fun h => hk h.1), if_neg hk]
  refine ⟨hl, ?_, ?_⟩
  · rw [minimax_succ, if_neg (by omega), if_neg (by omega), minimax_node_cont _ _ _ _ _ _ _ _ _ _ _ _ hl]
  · have hz : tt_lookup ⟨0, 0, 0, 0, ⟨0, 0, 0, 0⟩⟩ key ((d + 1 : Nat) : Int) alpha beta =
        Lookup.cont alpha beta (if (0 : Nat) = key then ⟨0, 0, 0, 0⟩ else ⟨-1, -1, -1, -1⟩) := by
      rw [tt_lookup_miss _ _ _ _ _ (fun h => absurd h.2 (by simp only; omega))]
    by_cases hkey : (0 : Nat) = key
    · refine ⟨⟨0, 0, 0, 0⟩, ?_, minimax_moves_zero_entry _ _ _ _ _ _ _ _ _⟩
      rw [hz, if_pos hkey]
    · refine ⟨⟨-1, -1, -1, -1⟩, ?_, rfl⟩
      rw [hz, if_neg hkey]

/-- C14: a decided position is scored at once: at every depth (`0` included), for every
window, side, key and table, `minimax` returns `100000` when `check_winner` is `+1` and
`-100000` when it is `-1`, and hands back the board, the table and the cell behind `outBest`
as it received them. -/
theorem minimax_terminal_override (z : ZobristKeys) (depth : Nat) (b : Board) (alpha beta : Int)
    (blueToPlay : Bool) (key : Nat) (s : SearchState)
    (hw : check_winner b = 1 ∨ check_winner b = -1) :
    minimax z depth b alpha beta blueToPlay key s =
      (if check_winner b = 1 then 100000 else -100000, b, s) := by
  rcases hw with h | h
  · rw [(minimax_terminal z depth b alpha beta blueToPlay key s).1 h, if_pos h]
  · rw [(minimax_terminal z depth b alpha beta blueToPlay key s).2 h, if_neg (by omega)]

/-- C15, amended: at a node of depth `d+1` whose position is not decided, where the side to
move has no legal move and the table lookup does not end the node, `minimax` returns the
static evaluation of the board (and leaves board, table and output cell alone). -/
theorem minimax_stalemate (z : ZobristKeys) (d : Nat) (b : Board) (alpha beta : Int)
    (blueToPlay : Bool) (key : Nat) (s : SearchState) (h0 : check_winner b = 0)
    (hm : generate_moves b blueToPlay MAX_MOVES = [])
    (hl : ∀ v : Int,
      tt_lookup (tt_probe s.TT key) key ((d + 1 : Nat) : Int) alpha beta ≠ Lookup.ret v) :
    minimax z (d + 1) b alpha beta blueToPlay key s = (evaluate b, b, s) := by
  rw [minimax_succ, if_neg (by omega), if_neg (by omega)]
  cases hc : tt_lookup (tt_probe s.TT key) key ((d + 1 : Nat) : Int) alpha beta with
  | ret v => exact absurd hc (hl v)
  | cont a' b' t => exact minimax_node_nomove _ _ _ _ _ _ _ _ _ _ _ _ hc hm

theorem search_iteration_board (z : ZobristKeys) (blueToPlay : Bool) (key : Nat)
    (st : Move × Table × Board) (d : Nat) :
    (search_iteration z blueToPlay key st d).2.2 = st.2.2 := by
  unfold search_iteration
  exact (minimax_frame z d _ _ _ _ _ _).1

theorem search_fold_board (z : ZobristKeys) (blueToPlay : Bool) (key : Nat) (l : List Nat) :
    ∀ st : Move × Table × Board,
      (l.foldl (search_iteration z blueToPlay key) st).2.2 = st.2.2 := by
  induction l with
  | nil => intro st; rfl
  | cons d rest ih =>
    intro st
    rw [List.foldl_cons, ih, search_iteration_board]

/-- C16: `minimax` hands back the board it was given, for every board, depth, window, side,
key and table; and in `search_best_move`, which works on a copy of the caller's board, the
copy is again the caller's board when the search ends. -/
theorem minimax_backtrack (z : ZobristKeys) (depth : Nat) (b : Board) (alpha beta : Int)
    (blueToPlay : Bool) (key : Nat) (s : SearchState) (g : Engine) (start : Board) (side : Bool) :
    (minimax z depth b alpha beta blueToPlay key s).2.1 = b ∧
      search_best_move_board g start side = start := by
  refine ⟨(minimax_frame z depth b alpha beta blueToPlay key s).1, ?_⟩
  unfold search_best_move_board
  exact search_fold_board _ _ _ _ _

/-! ## The search: order of the moves at a node whose children are leaves -/

theorem minimax_zero_leaf (z : ZobristKeys) (b : Board) (alpha beta : Int) (blueToPlay : Bool)
    (key : Nat) (s : SearchState) :
    minimax z 0 b alpha beta blueToPlay key s = (leaf_value b, b, s) := by
  rw [minimax_zero]
  unfold leaf_value
  split_ifs <;> rfl

theorem leaf_value_bound (b : Board) : -100000 ≤ leaf_value b ∧ leaf_value b ≤ 100000 := by
  have h := evaluate_bound b
  unfold leaf_value
  split_ifs <;> constructor <;> omega

theorem leaf_loop_body (z : ZobristKeys) (blueToPlay : Bool) (m : Move) (b : Board)
    (st : LoopState) :
    minimax_loop_body (fun b a bt k s => minimax z 0 b a bt (!blueToPlay) k s) z blueToPlay m b
        st =
      (b, loop_update blueToPlay m (leaf_value (apply_move b m)) st st.s) := by
  unfold minimax_loop_body
  simp only [minimax_zero_leaf]

/-- The loop of a blue node over leaves, entered with an open window whose lower end is the
best value so far: it runs to the end of the list and keeps the largest value. -/
theorem leaf_loop_blue (z : ZobristKeys) (b : Board) (l : List Move) :
    ∀ st : LoopState, st.beta = INF_SCORE → st.alpha = st.bestVal → st.bestVal ≤ 100000 →
      (minimax_loop (fun b a bt k s => minimax z 0 b a bt (!true) k s) z true l b st).1 = b ∧
      (minimax_loop (fun b a bt k s => minimax z 0 b a bt (!true) k s) z true l b st).2.beta =
        INF_SCORE ∧
      (minimax_loop (fun b a bt k s => minimax z 0 b a bt (!true) k s) z true l b st).2.alpha =
        (minimax_loop (fun b a bt k s => minimax z 0 b a bt (!true) k s) z true l b
          st).2.bestVal ∧
      (minimax_loop (fun b a bt k s => minimax z 0 b a bt (!true) k s) z true l b st).2.s =
        st.s ∧
      st.bestVal ≤
        (minimax_loop (fun b a bt k s => minimax z 0 b a bt (!true) k s) z true l b
          st).2.bestVal ∧
      (∀ m ∈ l, leaf_value (apply_move b m) ≤
        (minimax_loop (fun b a bt k s => minimax z 0 b a bt (!true) k s) z true l b
          st).2.bestVal) ∧
      (((minimax_loop (fun b a bt k s => minimax z 0 b a bt (!true) k s) z true l b
            st).2.bestVal = st.bestVal ∧
          (minimax_loop (fun b a bt k s => minimax z 0 b a bt (!true) k s) z true l b
            st).2.bestMove = st.bestMove) ∨
        ((minimax_loop (fun b a bt k s => minimax z 0 b a bt (!true) k s) z true l b
            st).2.bestMove ∈ l ∧
          leaf_value (apply_move b
            (minimax_loop (fun b a bt k s => minimax z 0 b a bt (!true) k s) z true l b
              st).2.bestMove) =
            (minimax_loop (fun b a bt k s => minimax z 0 b a bt (!true) k s) z true l b
              st).2.bestVal)) := by
  induction l with
  | nil =>
    intro st hb ha _
    exact ⟨rfl, hb, ha, rfl, le_refl _, fun m hm => absurd hm (List.not_mem_nil m),
      Or.inl ⟨rfl, rfl⟩⟩
  | cons x rest ih =>
    intro st hb ha hv
    have hx := leaf_value_bound (apply_move b x)
    rw [minimax_loop_cons, leaf_loop_body]
    have hu : loop_update true x (leaf_value (apply_move b x)) st st.s =
        ⟨if (if leaf_value (apply_move b x) > st.bestVal then leaf_value (apply_move b x)
              else st.bestVal) > st.alpha
            then (if leaf_value (apply_move b x) > st.bestVal then leaf_value (apply_move b x)
              else st.bestVal)
            else st.alpha, st.beta,
          if leaf_value (apply_move b x) > st.bestVal then leaf_value (apply_move b x)
            else st.bestVal,
          if leaf_value (apply_move b x) > st.bestVal then x else st.bestMove, st.s⟩ := rfl
    obtain ⟨st1, hst1⟩ : ∃ st1, st1 = loop_update true x (leaf_value (apply_move b x)) st st.s :=
      ⟨_, rfl⟩
    rw [← hst1]
    have h1b : st1.beta = INF_SCORE := by rw [hst1, hu]; exact hb
    have h1s : st1.s = st.s := by rw [hst1, hu]
    have h1v : st1.bestVal = if leaf_value (apply_move b x) > st.bestVal
        then leaf_value (apply_move b x) else st.bestVal := by rw [hst1, hu]
    have h1m : st1.bestMove = if leaf_value (apply_move b x) > st.bestVal
        then x else st.bestMove := by rw [hst1, hu]
    have h1a : st1.alpha = st1.bestVal := by
      rw [h1v, hst1, hu]
      simp only
      rw [ha]
      split_ifs <;> omega
    have h1le : st1.bestVal ≤ 100000 := by rw [h1v]; split_ifs <;> omega
    have h1ge : st.bestVal ≤ st1.bestVal := by rw [h1v]; split_ifs <;> omega
    have h1x : leaf_value (apply_move b x) ≤ st1.bestVal := by rw [h1v]; split_ifs <;> omega
    have hnb : ¬ st1.alpha ≥ st1.beta := by
      rw [h1a, h1b]
      simp only [INF_SCORE]
      omega
    rw [if_neg hnb]
    obtain ⟨i1, i2, i3, i4, i5, i6, i7⟩ := ih st1 h1b h1a h1le
    refine ⟨i1, i2, i3, i4.trans h1s, le_trans h1ge i5, ?_, ?_⟩
    · intro m hm
      rcases List.mem_cons.1 hm with rfl | hm'
      · exact le_trans h1x i5
      · exact i6 m hm'
    · rcases i7 with ⟨e1, e2⟩ | ⟨e1, e2⟩
      · by_cases hgt : leaf_value (apply_move b x) > st.bestVal
        · right
          rw [e2, e1, h1m, h1v, if_pos hgt, if_pos hgt]
          exact ⟨List.mem_cons_self _ _, rfl⟩
        · left
          rw [e2, e1, h1m, h1v, if_neg hgt, if_neg hgt]
          exact ⟨rfl, rfl⟩
      · right
        exact ⟨List.mem_cons_of_mem _ e1, e2⟩

/-- The loop of a red node over leaves: the mirror image of `leaf_loop_blue`. -/
theorem leaf_loop_red (z : ZobristKeys) (b : Board) (l : List Move) :
    ∀ st : LoopState, st.alpha = -INF_SCORE → st.beta = st.bestVal → -100000 ≤ st.bestVal →
      (minimax_loop (fun b a bt k s => minimax z 0 b a bt (!false) k s) z false l b st).1 = b ∧
      (minimax_loop (fun b a bt k s => minimax z 0 b a bt (!false) k s) z false l b st).2.alpha =
        -INF_SCORE ∧
      (minimax_loop (fun b a bt k s => minimax z 0 b a bt (!false) k s) z false l b st).2.beta =
        (minimax_loop (fun b a bt k s => minimax z 0 b a bt (!false) k s) z false l b
          st).2.bestVal ∧
      (minimax_loop (fun b a bt k s => minimax z 0 b a bt (!false) k s) z false l b st).2.s =
        st.s ∧
      (minimax_loop (fun b a bt k s => minimax z 0 b a bt (!false) k s) z false l b
          st).2.bestVal ≤ st.bestVal ∧
      (∀ m ∈ l,
        (minimax_loop (fun b a bt k s => minimax z 0 b a bt (!false) k s) z false l b
          st).2.bestVal ≤ leaf_value (apply_move b m)) ∧
      (((minimax_loop (fun b a bt k s => minimax z 0 b a bt (!false) k s) z false l b
            st).2.bestVal = st.bestVal ∧
          (minimax_loop (fun b a bt k s => minimax z 0 b a bt (!false) k s) z false l b
            st).2.bestMove = st.bestMove) ∨
        ((minimax_loop (fun b a bt k s => minimax z 0 b a bt (!false) k s) z false l b
            st).2.bestMove ∈ l ∧
          leaf_value (apply_move b
            (minimax_loop (fun b a bt k s => minimax z 0 b a bt (!false) k s) z false l b
              st).2.bestMove) =
            (minimax_loop (fun b a bt k s => minimax z 0 b a bt (!false) k s) z false l b
              st).2.bestVal)) := by
  induction l with
  | nil =>
    intro st ha hb _
    exact ⟨rfl, ha, hb, rfl, le_refl _, fun m hm => absurd hm (List.not_mem_nil m),
      Or.inl ⟨rfl, rfl⟩⟩
  | cons x rest ih =>
    intro st ha hb hv
    have hx := leaf_value_bound (apply_move b x)
    rw [minimax_loop_cons, leaf_loop_body]
    have hu : loop_update false x (leaf_value (apply_move b x)) st st.s =
        ⟨st.alpha,
          if (if leaf_value (apply_move b x) < st.bestVal then leaf_value (apply_move b x)
              else st.bestVal) < st.beta
            then (if leaf_value (apply_move b x) < st.bestVal then leaf_value (apply_move b x)
              else st.bestVal)
            else st.beta,
          if leaf_value (apply_move b x) < st.bestVal then leaf_value (apply_move b x)
            else st.bestVal,
          if leaf_value (apply_move b x) < st.bestVal then x else st.bestMove, st.s⟩ := rfl
    obtain ⟨st1, hst1⟩ : ∃ st1, st1 = loop_update false x (leaf_value (apply_move b x)) st st.s :=
      ⟨_, rfl⟩
    rw [← hst1]
    have h1a : st1.alpha = -INF_SCORE := by rw [hst1, hu]; exact ha
    have h1s : st1.s = st.s := by rw [hst1, hu]
    have h1v : st1.bestVal = if leaf_value (apply_move b x) < st.bestVal
        then leaf_value (apply_move b x) else st.bestVal := by rw [hst1, hu]
    have h1m : st1.bestMove = if leaf_value (apply_move b x) < st.bestVal
        then x else st.bestMove := by rw [hst1, hu]
    have h1b : st1.beta = st1.bestVal := by
      rw [h1v, hst1, hu]
      simp only
      rw [hb]
      split_ifs <;> omega
    have h1ge : -100000 ≤ st1.bestVal := by rw [h1v]; split_ifs <;> omega
    have h1le : st1.bestVal ≤ st.bestVal := by rw [h1v]; split_ifs <;> omega
    have h1x : st1.bestVal ≤ leaf_value (apply_move b x) := by rw [h1v]; split_ifs <;> omega
    have hnb : ¬ st1.alpha ≥ st1.beta := by
      rw [h1a, h1b]
      simp only [INF_SCORE]
      omega
    rw [if_neg hnb]
    obtain ⟨i1, i2, i3, i4, i5, i6, i7⟩ := ih st1 h1a h1b h1ge
    refine ⟨i1, i2, i3, i4.trans h1s, le_trans i5 h1le, ?_, ?_⟩
    · intro m hm
      rcases List.mem_cons.1 hm with rfl | hm'
      · exact le_trans i5 h1x
      · exact i6 m hm'
    · rcases i7 with ⟨e1, e2⟩ | ⟨e1, e2⟩
      · by_cases hlt : leaf_value (apply_move b x) < st.bestVal
        · right
          rw [e2, e1, h1m, h1v, if_pos hlt, if_pos hlt]
          exact ⟨List.mem_cons_self _ _, rfl⟩
        · left
          rw [e2, e1, h1m, h1v, if_neg hlt, if_neg hlt]
          exact ⟨rfl, rfl⟩
      · right
        exact ⟨List.mem_cons_of_mem _ e1, e2⟩

/-- Both sides at once, for the loop as a node of depth `1` starts it with the full window
on a list `l` with at least one move: the board and the search state come back, the window
ends on the best value, the best value is the value of the best move, which is a move of
`l`, and no move of `l` has a better value for the side to move. -/
theorem leaf_loop_full (z : ZobristKeys) (b : Board) (blueToPlay : Bool) (s : SearchState)
    (l : List Move) (m0 : Move) (hl : l ≠ []) :
    (minimax_loop (fun b a bt k s => minimax z 0 b a bt (!blueToPlay) k s) z blueToPlay l b
        ⟨-INF_SCORE, INF_SCORE, if blueToPlay then -INF_SCORE else INF_SCORE, m0, s⟩).1 = b ∧
      (minimax_loop (fun b a bt k s => minimax z 0 b a bt (!blueToPlay) k s) z blueToPlay l b
        ⟨-INF_SCORE, INF_SCORE, if blueToPlay then -INF_SCORE else INF_SCORE, m0, s⟩).2.s = s ∧
      (minimax_loop (fun b a bt k s => minimax z 0 b a bt (!blueToPlay) k s) z blueToPlay l b
        ⟨-INF_SCORE, INF_SCORE, if blueToPlay then -INF_SCORE else INF_SCORE, m0, s⟩).2.alpha =
        (if blueToPlay then
          (minimax_loop (fun b a bt k s => minimax z 0 b a bt (!blueToPlay) k s) z blueToPlay l b
            ⟨-INF_SCORE, INF_SCORE, if blueToPlay then -INF_SCORE else INF_SCORE, m0,
              s⟩).2.bestVal
        else -INF_SCORE) ∧
      (minimax_loop (fun b a bt k s => minimax z 0 b a bt (!blueToPlay) k s) z blueToPlay l b
        ⟨-INF_SCORE, INF_SCORE, if blueToPlay then -INF_SCORE else INF_SCORE, m0, s⟩).2.beta =
        (if blueToPlay then INF_SCORE else
          (minimax_loop (fun b a bt k s => minimax z 0 b a bt (!blueToPlay) k s) z blueToPlay l b
            ⟨-INF_SCORE, INF_SCORE, if blueToPlay then -INF_SCORE else INF_SCORE, m0,
              s⟩).2.bestVal) ∧
      (minimax_loop (fun b a bt k s => minimax z 0 b a bt (!blueToPlay) k s) z blueToPlay l b
        ⟨-INF_SCORE, INF_SCORE, if blueToPlay then -INF_SCORE else INF_SCORE, m0,
          s⟩).2.bestMove ∈ l ∧
      leaf_value (apply_move b
        (minimax_loop (fun b a bt k s => minimax z 0 b a bt (!blueToPlay) k s) z blueToPlay l b
          ⟨-INF_SCORE, INF_SCORE, if blueToPlay then -INF_SCORE else INF_SCORE, m0,
            s⟩).2.bestMove) =
        (minimax_loop (fun b a bt k s => minimax z 0 b a bt (!blueToPlay) k s) z blueToPlay l b
          ⟨-INF_SCORE, INF_SCORE, if blueToPlay then -INF_SCORE else INF_SCORE, m0,
            s⟩).2.bestVal ∧
      ∀ m ∈ l,
        if blueToPlay then
          leaf_value (apply_move b m) ≤
            (minimax_loop (fun b a bt k s => minimax z 0 b a bt (!blueToPlay) k s) z blueToPlay
              l b ⟨-INF_SCORE, INF_SCORE, if blueToPlay then -INF_SCORE else INF_SCORE, m0,
                s⟩).2.bestVal
        else
          (minimax_loop (fun b a bt k s => minimax z 0 b a bt (!blueToPlay) k s) z blueToPlay
              l b ⟨-INF_SCORE, INF_SCORE, if blueToPlay then -INF_SCORE else INF_SCORE, m0,
                s⟩).2.bestVal ≤ leaf_value (apply_move b m) := by
  obtain ⟨x, hx⟩ := List.exists_mem_of_ne_nil l hl
  have hxb := leaf_value_bound (apply_move b x)
  cases blueToPlay
  · obtain ⟨i1, i2, i3, i4, _, i6, i7⟩ := leaf_loop_red z b l
      ⟨-INF_SCORE, INF_SCORE, INF_SCORE, m0, s⟩ rfl rfl (by simp only [INF_SCORE]; omega)
    simp only [Bool.false_eq_true, if_false] at i1 i2 i3 i4 i6 i7 ⊢
    have hne := i6 x hx
    rcases i7 with ⟨e1, _⟩ | ⟨e1, e2⟩
    · rw [e1] at hne
      simp only [INF_SCORE] at hne
      omega
    · exact ⟨i1, i4, i2, i3, e1, e2, i6⟩
  · obtain ⟨i1, i2, i3, i4, _, i6, i7⟩ := leaf_loop_blue z b l
      ⟨-INF_SCORE, INF_SCORE, -INF_SCORE, m0, s⟩ rfl rfl (by simp only [INF_SCORE]; omega)
    simp only [if_true] at i1 i2 i3 i4 i6 i7 ⊢
    have hne := i6 x hx
    rcases i7 with ⟨e1, _⟩ | ⟨e1, e2⟩
    · rw [e1] at hne
      simp only [INF_SCORE] at hne
      omega
    · exact ⟨i1, i4, i3, i2, e1, e2, i6⟩

theorem leaf_node_loop_spec (z : ZobristKeys) (b : Board) (blueToPlay : Bool) (s : SearchState)
    (l : List Move) (hl : l ≠ []) :
    (leaf_node_loop z b blueToPlay s l).s = s ∧
      (leaf_node_loop z b blueToPlay s l).alpha =
        (if blueToPlay then (leaf_node_loop z b blueToPlay s l).bestVal else -INF_SCORE) ∧
      (leaf_node_loop z b blueToPlay s l).beta =
        (if blueToPlay then INF_SCORE else (leaf_node_loop z b blueToPlay s l).bestVal) ∧
      (leaf_node_loop z b blueToPlay s l).bestMove ∈ l ∧
      leaf_value (apply_move b (leaf_node_loop z b blueToPlay s l).bestMove) =
        (leaf_node_loop z b blueToPlay s l).bestVal ∧
      ∀ m ∈ l,
        if blueToPlay then
          leaf_value (apply_move b m) ≤ (leaf_node_loop z b blueToPlay s l).bestVal
        else (leaf_node_loop z b blueToPlay s l).bestVal ≤ leaf_value (apply_move b m) := by
  obtain ⟨_, h2, h3, h4, h5, h6, h7⟩ :=
    leaf_loop_full z b blueToPlay s l (l.getD 0 default) hl
  exact ⟨h2, h3, h4, h5, h6, h7⟩

/-- Two orders of the same moves give the loop the same best value, and the same best move
when a single move has that value. -/
theorem leaf_node_loop_perm (z : ZobristKeys) (b : Board) (blueToPlay : Bool) (s : SearchState)
    (l1 l2 : List Move) (hp : l1.Perm l2) (hl : l1 ≠ []) :
    (leaf_node_loop z b blueToPlay s l1).bestVal =
        (leaf_node_loop z b blueToPlay s l2).bestVal ∧
      ((∀ m ∈ l1, ∀ m' ∈ l1,
          leaf_value (apply_move b m) = (leaf_node_loop z b blueToPlay s l1).bestVal →
          leaf_value (apply_move b m') = (leaf_node_loop z b blueToPlay s l1).bestVal →
          m = m') →
        leaf_node_loop z b blueToPlay s l1 = leaf_node_loop z b blueToPlay s l2) := by
  have hl2 : l2 ≠ [] := fun h => hl (List.Perm.eq_nil (h ▸ hp))
  obtain ⟨a1, a2, a3, a4, a5, a6⟩ := leaf_node_loop_spec z b blueToPlay s l1 hl
  obtain ⟨b1, b2, b3, b4, b5, b6⟩ := leaf_node_loop_spec z b blueToPlay s l2 hl2
  have h12 := a6 _ (hp.symm.subset b4)
  have h21 := b6 _ (hp.subset a4)
  have hv : (leaf_node_loop z b blueToPlay s l1).bestVal =
      (leaf_node_loop z b blueToPlay s l2).bestVal := by
    cases blueToPlay
    · simp only [Bool.false_eq_true, if_false] at h12 h21
      omega
    · simp only [if_true] at h12 h21
      omega
  refine ⟨hv, ?_⟩
  intro huniq
  have hm : (leaf_node_loop z b blueToPlay s l1).bestMove =
      (leaf_node_loop z b blueToPlay s l2).bestMove :=
    huniq _ a4 _ (hp.symm.subset b4) a5 (b5.trans hv.symm)
  have hs : (leaf_node_loop z b blueToPlay s l1).s = (leaf_node_loop z b blueToPlay s l2).s :=
    a1.trans b1.symm
  have ha : (leaf_node_loop z b blueToPlay s l1).alpha =
      (leaf_node_loop z b blueToPlay s l2).alpha := by rw [a2, b2, hv]
  have hb : (leaf_node_loop z b blueToPlay s l1).beta =
      (leaf_node_loop z b blueToPlay s l2).beta := by rw [a3, b3, hv]
  cases h1 : leaf_node_loop z b blueToPlay s l1
  cases h2 : leaf_node_loop z b blueToPlay s l2
  rw [h1, h2] at hv hm hs ha hb
  simp only at hv hm hs ha hb
  rw [hv, hm, hs, ha, hb]

theorem minimax_moves_leaf (z : ZobristKeys) (b : Board) (blueToPlay : Bool) (key : Nat)
    (s : SearchState) (t : Move) (hm : generate_moves b blueToPlay MAX_MOVES ≠ []) :
    minimax_moves (minimax z 0) z 1 b (-INF_SCORE) INF_SCORE blueToPlay key s t =
      ((minimax_finish key 1 (leaf_node_loop z b blueToPlay s
          (sort_moves b blueToPlay (generate_moves b blueToPlay MAX_MOVES)
            (generate_moves b blueToPlay MAX_MOVES).length (some t)))).1, b,
        (minimax_finish key 1 (leaf_node_loop z b blueToPlay s
          (sort_moves b blueToPlay (generate_moves b blueToPlay MAX_MOVES)
            (generate_moves b blueToPlay MAX_MOVES).length (some t)))).2) := by
  have hn : (generate_moves b blueToPlay MAX_MOVES).length ≠ 0 := by
    rw [Ne, List.length_eq_zero]; exact hm
  have hne : sort_moves b blueToPlay (generate_moves b blueToPlay MAX_MOVES)
      (generate_moves b blueToPlay MAX_MOVES).length (some t) ≠ [] :=
    fun h => hm (List.Perm.eq_nil (h ▸ (sort_moves_perm _ _ _ _).symm))
  have hb := (leaf_loop_full z b blueToPlay s _
    ((sort_moves b blueToPlay (generate_moves b blueToPlay MAX_MOVES)
      (generate_moves b blueToPlay MAX_MOVES).length (some t)).getD 0 default) hne).1
  unfold minimax_moves
  simp only
  rw [if_neg hn, hb]
  rfl

theorem piece_codes (a : Int) (ha : is_piece a) : a = 1 ∨ a = 2 ∨ a = 3 ∨ a = 4 := by
  unfold is_piece at ha
  rw [is_blue_iff, is_red_iff] at ha
  omega

theorem valid_enemy (a v : Int) (ha : is_piece a) (hv : 0 ≤ v ∧ v ≤ 4) :
    (v ≠ EMPTY ∧ is_blue a ≠ is_blue v) ↔ enemy_of a v := by
  have hv' : v = 0 ∨ v = 1 ∨ v = 2 ∨ v = 3 ∨ v = 4 := by omega
  rcases piece_codes a ha with rfl | rfl | rfl | rfl <;>
    rcases hv' with rfl | rfl | rfl | rfl | rfl <;>
    simp [enemy_of, is_blue, is_red]

theorem valid_ally (a v : Int) (ha : is_piece a) (hv : 0 ≤ v ∧ v ≤ 4) :
    (v ≠ EMPTY ∧ is_blue a = is_blue v) ↔ ally_of a v := by
  have hv' : v = 0 ∨ v = 1 ∨ v = 2 ∨ v = 3 ∨ v = 4 := by omega
  rcases piece_codes a ha with rfl | rfl | rfl | rfl <;>
    rcases hv' with rfl | rfl | rfl | rfl | rfl <;>
    simp [ally_of, is_blue, is_red]

theorem enemy_of_piece (a v : Int) (h : enemy_of a v) : is_piece v := by
  unfold enemy_of at h
  unfold is_piece
  tauto

theorem ally_of_enemy (a v g : Int) (h : enemy_of a v) : ally_of v g ↔ enemy_of a g := by
  unfold enemy_of at h ⊢
  unfold ally_of
  simp only [is_blue_iff, is_red_iff] at h ⊢
  omega

theorem mouvement_dir_eq (mouvement : String) (dr dc : Int) (h : mouvement_dir mouvement dr dc) :
    (if mouvement = "haut" then ((-1 : Int), (0 : Int))
      else if mouvement = "bas" then (1, 0)
      else if mouvement = "gauche" then (0, -1)
      else if mouvement = "droite" then (0, 1)
      else (0, 0)) = (dr, dc) := by
  rcases h with ⟨rfl, rfl, rfl⟩ | ⟨rfl, rfl, rfl⟩ | ⟨rfl, rfl, rfl⟩ | ⟨rfl, rfl, rfl⟩
  · rfl
  · rw [if_neg (by decide), if_pos rfl]
  · rw [if_neg (by decide), if_neg (by decide), if_pos rfl]
  · rw [if_neg (by decide), if_neg (by decide), if_neg (by decide), if_pos rfl]

/-- What `logique_capture` does on a game in progress, in terms of the code's own tests; the
step `(dr,dc)` is the one the code derives from `mouvement` (`(0,0)` for any other string). -/
theorem logique_capture_eq (st : GameState) (r c : Int) (mouvement : String) (dr dc : Int)
    (hgo : st.game_over_status = 0)
    (hd : (if mouvement = "haut" then ((-1 : Int), (0 : Int))
      else if mouvement = "bas" then (1, 0)
      else if mouvement = "gauche" then (0, -1)
      else if mouvement = "droite" then (0, 1)
      else (0, 0)) = (dr, dc)) :
    logique_capture st r c mouvement =
      if in_bounds (r + dr) (c + dc) = true ∧
          (st.pion (r + dr) (c + dc) ≠ EMPTY ∧
            is_blue (st.pion r c) ≠ is_blue (st.pion (r + dr) (c + dc))) ∧
          ¬ (in_bounds (r + 2 * dr) (c + 2 * dc) = true ∧
            st.pion (r + 2 * dr) (c + 2 * dc) ≠ EMPTY ∧
            is_blue (st.pion r c) ≠ is_blue (st.pion (r + 2 * dr) (c + 2 * dc)))
      then capture_piece st (r + dr) (c + dc) else st := by
  unfold logique_capture capture_piece
  rw [if_neg (by rw [hgo]; exact fun h => h rfl), hd]
  by_cases a1 : in_bounds (r + dr) (c + dc) = true <;>
  by_cases a2 : st.pion (r + dr) (c + dc) = EMPTY <;>
  by_cases a3 : is_blue (st.pion r c) = is_blue (st.pion (r + dr) (c + dc)) <;>
  by_cases a4 : in_bounds (r + 2 * dr) (c + 2 * dc) = true <;>
  by_cases a5 : st.pion (r + 2 * dr) (c + 2 * dc) = EMPTY <;>
  by_cases a6 : is_blue (st.pion r c) = is_blue (st.pion (r + 2 * dr) (c + 2 * dc)) <;>
  simp [a1, a2, a3, a4, a5, a6]

/-- What `logique_internal_prise_check` does, in terms of the code's own tests. -/
theorem logique_internal_prise_check_eq (st : GameState) (a rn cn rf cf : Int) :
    logique_internal_prise_check st a rn cn rf cf =
      if (in_bounds rn cn = true ∧ in_bounds rf cf = true) ∧
          st.pion rn cn ≠ EMPTY ∧ st.pion rf cf ≠ EMPTY ∧ is_blue a = is_blue (st.pion rf cf) ∧
          is_blue a ≠ is_blue (st.pion rn cn)
      then capture_piece st rn cn else st := by
  unfold logique_internal_prise_check capture_piece
  by_cases a1 : in_bounds rn cn = true <;>
  by_cases a2 : in_bounds rf cf = true <;>
  by_cases a3 : st.pion rn cn = EMPTY <;>
  by_cases a4 : st.pion rf cf = EMPTY <;>
  by_cases a5 : is_blue a = is_blue (st.pion rf cf) <;>
  by_cases a6 : is_blue a = is_blue (st.pion rn cn) <;>
  simp [a1, a2, a3, a4, a5, a6]

theorem capture_piece_pion (st : GameState) (r c r' c' : Int) :
    (capture_piece st r c).pion r' c' = if r' = r ∧ c' = c then EMPTY else st.pion r' c' := by
  unfold capture_piece GameState.set_pion
  simp only [apply_ite GameState.pion, ite_self]

theorem valid_grid_capture (st : GameState) (r c : Int) (h : valid_grid st.pion) :
    valid_grid (capture_piece st r c).pion := by
  intro r' c' hin
  rw [capture_piece_pion]
  split_ifs
  · simp only [EMPTY]; omega
  · exact h r' c' hin

/-- C18: on a game in progress whose grid holds piece codes, for a piece on `(r,c)` and one
of the four directions, `logique_capture` empties the square one step ahead exactly when
that square is on the board, holds a piece of the colour opposite to the attacker's, and the
square two steps ahead is off the board or holds no piece of the victim's colour; the
square one step ahead is otherwise kept, and no other square changes. -/
theorem logique_capture_spec (st : GameState) (r c : Int) (mouvement : String) (dr dc : Int)
    (hgo : st.game_over_status = 0) (hgrid : valid_grid st.pion) (_hin : in_bounds r c = true)
    (hp : is_piece (st.pion r c)) (hdir : mouvement_dir mouvement dr dc) :
    ((((logique_capture st r c mouvement).pion (r + dr) (c + dc) = EMPTY ∧
          st.pion (r + dr) (c + dc) ≠ EMPTY) ↔
        (in_bounds (r + dr) (c + dc) = true ∧
          enemy_of (st.pion r c) (st.pion (r + dr) (c + dc)) ∧
          (in_bounds (r + 2 * dr) (c + 2 * dc) = false ∨
            ¬ ally_of (st.pion (r + dr) (c + dc)) (st.pion (r + 2 * dr) (c + 2 * dc))))) ∧
      ((logique_capture st r c mouvement).pion (r + dr) (c + dc) = EMPTY ∨
        (logique_capture st r c mouvement).pion (r + dr) (c + dc) = st.pion (r + dr) (c + dc)) ∧
      (∀ r' c' : Int, (r' ≠ r + dr ∨ c' ≠ c + dc) →
        (logique_capture st r c mouvement).pion r' c' = st.pion r' c')) := by
  rw [logique_capture_eq st r c mouvement dr dc hgo (mouvement_dir_eq _ _ _ hdir)]
  by_cases hc : in_bounds (r + dr) (c + dc) = true ∧
      (st.pion (r + dr) (c + dc) ≠ EMPTY ∧
        is_blue (st.pion r c) ≠ is_blue (st.pion (r + dr) (c + dc))) ∧
      ¬ (in_bounds (r + 2 * dr) (c + 2 * dc) = true ∧
        st.pion (r + 2 * dr) (c + 2 * dc) ≠ EMPTY ∧
        is_blue (st.pion r c) ≠ is_blue (st.pion (r + 2 * dr) (c + 2 * dc)))
  · rw [if_pos hc]
    obtain ⟨h1, h2, h3⟩ := hc
    have hen := (valid_enemy _ _ hp (hgrid _ _ h1)).1 h2
    refine ⟨⟨fun _ => ⟨h1, hen, ?_⟩, fun _ => ⟨?_, h2.1⟩⟩, Or.inl ?_, ?_⟩
    · by_cases hg : in_bounds (r + 2 * dr) (c + 2 * dc) = true
      · right
        intro hal
        have := (ally_of_enemy _ _ _ hen).1 hal
        exact h3 ⟨hg, (valid_enemy _ _ hp (hgrid _ _ hg)).2 this⟩
      · left
        cases h : in_bounds (r + 2 * dr) (c + 2 * dc)
        · rfl
        · exact absurd h hg
    · rw [capture_piece_pion, if_pos ⟨rfl, rfl⟩]
    · rw [capture_piece_pion, if_pos ⟨rfl, rfl⟩]
    · intro r' c' hne
      rw [capture_piece_pion, if_neg]
      rintro ⟨e1, e2⟩
      rcases hne with h | h
      · exact h e1
      · exact h e2
  · rw [if_neg hc]
    refine ⟨⟨fun h => absurd h.1 h.2, ?_⟩, Or.inr rfl, fun _ _ _ => rfl⟩
    rintro ⟨h1, hen, h3⟩
    exfalso
    apply hc
    refine ⟨h1, (valid_enemy _ _ hp (hgrid _ _ h1)).2 hen, ?_⟩
    rintro ⟨hg, hgn⟩
    rcases h3 with h3 | h3
    · rw [hg] at h3
      exact Bool.noConfusion h3
    · exact h3 ((ally_of_enemy _ _ _ hen).2 ((valid_enemy _ _ hp (hgrid _ _ hg)).1 hgn))

theorem Board.ext_pion (b1 b2 : Board) (h : b1.pion = b2.pion) : b1 = b2 := by
  cases b1
  cases b2
  simp only at h
  rw [h]

theorem valid_ally_enemy (a v : Int) (hv : 0 ≤ v ∧ v ≤ 4) :
    (enemy v (is_blue a) = true ↔ (v ≠ EMPTY ∧ is_blue a ≠ is_blue v)) ∧
      (ally v (is_blue a) = true ↔ (v ≠ EMPTY ∧ is_blue a = is_blue v)) := by
  have hv' : v = 0 ∨ v = 1 ∨ v = 2 ∨ v = 3 ∨ v = 4 := by omega
  cases h : is_blue a <;>
    rcases hv' with rfl | rfl | rfl | rfl | rfl <;>
    simp [enemy, ally, is_blue, is_red]

/-- One direction of `logique_prise` and one direction of the engine's `simulate_sandwich`
do the same to a grid of piece codes. -/
theorem logique_prise_step_board (a r c : Int) (st : GameState) (d : Nat)
    (hgrid : valid_grid st.pion) :
    (logique_prise_step a r c st d).board = simulate_sandwich_step (is_blue a) r c st.board d ∧
      valid_grid (logique_prise_step a r c st d).pion := by
  unfold logique_prise_step
  rw [logique_internal_prise_check_eq, simulate_sandwich_step_eq]
  have hiff : sandwich_fires st.board (is_blue a) r c d = true ↔
      ((in_bounds (r + DR4 d) (c + DC4 d) = true ∧
          in_bounds (r + 2 * DR4 d) (c + 2 * DC4 d) = true) ∧
        st.pion (r + DR4 d) (c + DC4 d) ≠ EMPTY ∧
        st.pion (r + 2 * DR4 d) (c + 2 * DC4 d) ≠ EMPTY ∧
        is_blue a = is_blue (st.pion (r + 2 * DR4 d) (c + 2 * DC4 d)) ∧
        is_blue a ≠ is_blue (st.pion (r + DR4 d) (c + DC4 d))) := by
    unfold sandwich_fires GameState.board
    simp only [Bool.and_eq_true]
    constructor
    · rintro ⟨⟨⟨h1, h2⟩, h3⟩, h4⟩
      have e := ((valid_ally_enemy a _ (hgrid _ _ h1)).1).1 h3
      have f := ((valid_ally_enemy a _ (hgrid _ _ h2)).2).1 h4
      exact ⟨⟨h1, h2⟩, e.1, f.1, f.2, e.2⟩
    · rintro ⟨⟨h1, h2⟩, h3, h4, h5, h6⟩
      exact ⟨⟨⟨h1, h2⟩, ((valid_ally_enemy a _ (hgrid _ _ h1)).1).2 ⟨h3, h6⟩⟩,
        ((valid_ally_enemy a _ (hgrid _ _ h2)).2).2 ⟨h4, h5⟩⟩
  by_cases hf : sandwich_fires st.board (is_blue a) r c d = true
  · rw [if_pos hf, if_pos (hiff.1 hf)]
    refine ⟨?_, valid_grid_capture st _ _ hgrid⟩
    apply Board.ext_pion
    funext r' c'
    unfold GameState.board Board.set
    simp only [capture_piece_pion]
  · rw [if_neg hf, if_neg (fun h => hf (hiff.2 h))]
    exact ⟨rfl, hgrid⟩

theorem logique_prise_fold_board (a r c : Int) (l : List Nat) :
    ∀ st : GameState, valid_grid st.pion →
      (l.foldl (logique_prise_step a r c) st).board =
        l.foldl (simulate_sandwich_step (is_blue a) r c) st.board := by
  induction l with
  | nil => intro st _; rfl
  | cons d rest ih =>
    intro st hgrid
    obtain ⟨h1, h2⟩ := logique_prise_step_board a r c st d hgrid
    rw [List.foldl_cons, List.foldl_cons, ih _ h2, h1]

theorem logique_prise_eq_fold (st : GameState) (r c : Int) (hgo : st.game_over_status = 0)
    (ha : st.pion r c ≠ EMPTY) :
    logique_prise st r c = [0, 1, 2, 3].foldl (logique_prise_step (st.pion r c) r c) st := by
  have e1 : r + DR4 0 = r - 1 := by simp only [DR4]; omega
  have e2 : r + 2 * DR4 0 = r - 2 := by simp only [DR4]; omega
  have e3 : r + DR4 1 = r + 1 := by simp only [DR4]
  have e4 : r + 2 * DR4 1 = r + 2 := by simp only [DR4]; omega
  have e5 : r + DR4 2 = r := by simp only [DR4]; omega
  have e6 : r + 2 * DR4 2 = r := by simp only [DR4]; omega
  have e7 : r + DR4 3 = r := by simp only [DR4]; omega
  have e8 : r + 2 * DR4 3 = r := by simp only [DR4]; omega
  have f1 : c + DC4 0 = c := by simp only [DC4]; omega
  have f2 : c + 2 * DC4 0 = c := by simp only [DC4]; omega
  have f3 : c + DC4 1 = c := by simp only [DC4]; omega
  have f4 : c + 2 * DC4 1 = c := by simp only [DC4]; omega
  have f5 : c + DC4 2 = c - 1 := by simp only [DC4]; omega
  have f6 : c + 2 * DC4 2 = c - 2 := by simp only [DC4]; omega
  have f7 : c + DC4 3 = c + 1 := by simp only [DC4]
  have f8 : c + 2 * DC4 3 = c + 2 := by simp only [DC4]; omega
  unfold logique_prise
  rw [if_neg (by rw [hgo]; exact fun h => h rfl), if_neg ha]
  simp only [List.foldl, logique_prise_step, e1, e2, e3, e4, e5, e6, e7, e8, f1, f2, f3, f4, f5,
    f6, f7, f8]

/-- On a game in progress whose grid holds piece codes, `logique_prise` for a piece on
`(r,c)` leaves the grid that the engine's `simulate_sandwich` leaves. -/
theorem logique_prise_board (st : GameState) (r c : Int) (hgo : st.game_over_status = 0)
    (hgrid : valid_grid st.pion) (ha : st.pion r c ≠ EMPTY) :
    (logique_prise st r c).board = simulate_sandwich st.board r c := by
  rw [logique_prise_eq_fold st r c hgo ha, logique_prise_fold_board _ _ _ _ _ hgrid]
  unfold simulate_sandwich
  have hr : List.range 4 = [0, 1, 2, 3] := by decide
  rw [hr]
  rfl

/-- The four directions of `simulate_sandwich`, square by square, in the words of the
specification. -/
theorem simulate_sandwich_dirs (b : Board) (r c : Int) (hp : is_piece (b.pion r c)) :
    (∀ dr dc : Int, unit_orthogonal dr dc →
      (((simulate_sandwich b r c).pion (r + dr) (c + dc) = EMPTY ∧
          b.pion (r + dr) (c + dc) ≠ EMPTY) ↔
        (in_bounds (r + dr) (c + dc) = true ∧ in_bounds (r + 2 * dr) (c + 2 * dc) = true ∧
          enemy_of (b.pion r c) (b.pion (r + dr) (c + dc)) ∧
          ally_of (b.pion r c) (b.pion (r + 2 * dr) (c + 2 * dc)))) ∧
      ((simulate_sandwich b r c).pion (r + dr) (c + dc) = EMPTY ∨
        (simulate_sandwich b r c).pion (r + dr) (c + dc) = b.pion (r + dr) (c + dc))) ∧
    (∀ r' c' : Int, (∀ dr dc : Int, unit_orthogonal dr dc → (r' ≠ r + dr ∨ c' ≠ c + dc)) →
      (simulate_sandwich b r c).pion r' c' = b.pion r' c') := by
  constructor
  · intro dr dc hd
    obtain ⟨d, hd4, rfl, rfl⟩ := (unit_orthogonal_iff dr dc).1 hd
    have hf : sandwich_fires b (is_blue (b.pion r c)) r c d = true ↔
        (in_bounds (r + DR4 d) (c + DC4 d) = true ∧
          in_bounds (r + 2 * DR4 d) (c + 2 * DC4 d) = true ∧
          enemy_of (b.pion r c) (b.pion (r + DR4 d) (c + DC4 d)) ∧
          ally_of (b.pion r c) (b.pion (r + 2 * DR4 d) (c + 2 * DC4 d))) := by
      unfold sandwich_fires
      simp only [Bool.and_eq_true, enemy_iff_enemy_of _ _ hp, ally_iff_ally_of _ _ hp, and_assoc]
    have hex : (∃ d', d' < 4 ∧ (r + DR4 d = r + DR4 d' ∧ c + DC4 d = c + DC4 d') ∧
        sandwich_fires b (is_blue (b.pion r c)) r c d' = true) ↔
        sandwich_fires b (is_blue (b.pion r c)) r c d = true := by
      constructor
      · rintro ⟨d', hd', ⟨h1, h2⟩, h3⟩
        have : d' = d := by
          interval_cases d <;> interval_cases d' <;> simp only [DR4, DC4] at h1 h2 <;> omega
        rw [← this]; exact h3
      · intro h; exact ⟨d, hd4, ⟨rfl, rfl⟩, h⟩
    have hpt := simulate_sandwich_pion b r c (r + DR4 d) (c + DC4 d)
    by_cases hfire : sandwich_fires b (is_blue (b.pion r c)) r c d = true
    · rw [hpt.1 (hex.2 hfire)]
      have hcond := hf.1 hfire
      have hne : b.pion (r + DR4 d) (c + DC4 d) ≠ EMPTY := by
        unfold sandwich_fires at hfire
        simp only [Bool.and_eq_true] at hfire
        exact enemy_ne_empty _ _ hfire.1.2
      exact ⟨⟨fun _ => hcond, fun _ => ⟨rfl, hne⟩⟩, Or.inl rfl⟩
    · rw [hpt.2 (fun h => hfire (hex.1 h))]
      refine ⟨⟨?_, ?_⟩, Or.inr rfl⟩
      · rintro ⟨h1, h2⟩; exact absurd h1 h2
      · intro h; exact absurd (hf.2 h) hfire
  · intro r' c' hfar
    apply (simulate_sandwich_pion b r c r' c').2
    rintro ⟨d, hd, ⟨h1, h2⟩, _⟩
    have := hfar (DR4 d) (DC4 d) ((unit_orthogonal_iff _ _).2 ⟨d, hd, rfl, rfl⟩)
    omega

/-- C19: on a game in progress whose grid holds piece codes, `logique_prise` for a piece on
`(r,c)` empties, for each of the four directions, the adjacent square exactly when the
adjacent square and the square two steps away are on the board, the adjacent one holds a
piece of the opposite colour and the far one a piece of the attacker's colour; an adjacent
square is otherwise kept and no other square changes; and when `(r,c)` is empty the state
is left as it is. -/
theorem logique_prise_spec (st : GameState) (r c : Int) (hgo : st.game_over_status = 0)
    (hgrid : valid_grid st.pion) (_hin : in_bounds r c = true) :
    (is_piece (st.pion r c) →
      (∀ dr dc : Int, unit_orthogonal dr dc →
        (((logique_prise st r c).pion (r + dr) (c + dc) = EMPTY ∧
            st.pion (r + dr) (c + dc) ≠ EMPTY) ↔
          (in_bounds (r + dr) (c + dc) = true ∧ in_bounds (r + 2 * dr) (c + 2 * dc) = true ∧
            enemy_of (st.pion r c) (st.pion (r + dr) (c + dc)) ∧
            ally_of (st.pion r c) (st.pion (r + 2 * dr) (c + 2 * dc)))) ∧
        ((logique_prise st r c).pion (r + dr) (c + dc) = EMPTY ∨
          (logique_prise st r c).pion (r + dr) (c + dc) = st.pion (r + dr) (c + dc))) ∧
      (∀ r' c' : Int, (∀ dr dc : Int, unit_orthogonal dr dc → (r' ≠ r + dr ∨ c' ≠ c + dc)) →
        (logique_prise st r c).pion r' c' = st.pion r' c')) ∧
    (st.pion r c = EMPTY → logique_prise st r c = st) := by
  constructor
  · intro hp
    have ha : st.pion r c ≠ EMPTY := by
      have := piece_codes _ hp
      simp only [EMPTY]
      omega
    have hb := logique_prise_board st r c hgo hgrid ha
    have hpion : (logique_prise st r c).pion = (simulate_sandwich st.board r c).pion := by
      rw [← hb]; rfl
    rw [hpion]
    exact simulate_sandwich_dirs st.board r c hp
  · intro he
    unfold logique_prise
    rw [if_neg (by rw [hgo]; exact fun h => h rfl), if_pos he]

/-! ### Counters and status -/

/-- A grid holds piece codes as soon as the 81 squares of the board do. -/
theorem valid_grid_of_cells (pion : Int → Int → Int)
    (h : ∀ rc ∈ cells, 0 ≤ pion rc.1 rc.2 ∧ pion rc.1 rc.2 ≤ 4) : valid_grid pion := by
  intro r c hin
  rw [in_bounds_iff] at hin
  exact h (r, c) ((mem_cells r c).2 ⟨⟨hin.1, hin.2.1⟩, hin.2.2.1, hin.2.2.2⟩)

/-! ## The theorems at concrete boards -/

set_option maxRecDepth 100000 in
theorem simulate_push_capture_spec_witness :
    (in_bounds 7 7 = true ∧ is_piece (board_block.pion 7 7) ∧ unit_orthogonal (-1) 0) ∧
    ((simulate_push_capture board_block 7 7 (-1) 0).pion (7 + -1) (7 + 0) = EMPTY ∧
        board_block.pion (7 + -1) (7 + 0) ≠ EMPTY) :=
  ⟨⟨by decide, Or.inr (by decide), Or.inl ⟨rfl, rfl⟩⟩,
    (simulate_push_capture_spec board_block 7 7 (-1) 0 (by decide) (Or.inr (by decide))
      (Or.inl ⟨rfl, rfl⟩)).1.2
      ⟨by decide, Or.inr ⟨by decide, by decide⟩, Or.inr (by
        rintro (⟨h, _⟩ | ⟨_, h⟩)
        · exact absurd h (by decide)
        · exact absurd h (by decide))⟩⟩

set_option maxRecDepth 100000 in
theorem simulate_sandwich_spec_witness :
    (in_bounds 8 7 = true ∧ is_piece (board_block.pion 8 7)) ∧
    ((simulate_sandwich board_block 8 7).pion (8 + -1) (7 + 0) = EMPTY ∧
        board_block.pion (8 + -1) (7 + 0) ≠ EMPTY) :=
  ⟨⟨by decide, Or.inl (by decide)⟩,
    ((simulate_sandwich_spec board_block 8 7 (by decide) (Or.inl (by decide))).1 (-1) 0
      (Or.inl ⟨rfl, rfl⟩)).1.2
      ⟨by decide, by decide, Or.inl ⟨by decide, by decide⟩, Or.inl ⟨by decide, by decide⟩⟩⟩

set_option maxRecDepth 100000 in
theorem apply_move_spec_witness :
    (⟨8, 7, 8, 8⟩ : Move) ∈ generate_moves board_direct_win true MAX_MOVES ∧
    (apply_move board_direct_win ⟨8, 7, 8, 8⟩).pion 8 7 = EMPTY ∧
    (apply_move board_direct_win ⟨8, 7, 8, 8⟩).pion 8 8 = board_direct_win.pion 8 7 := by
  have hm : (⟨8, 7, 8, 8⟩ : Move) ∈ generate_moves board_direct_win true MAX_MOVES := by decide
  exact ⟨hm, (apply_move_spec board_direct_win true ⟨8, 7, 8, 8⟩ hm).1,
    (apply_move_spec board_direct_win true ⟨8, 7, 8, 8⟩ hm).2.1⟩

set_option maxRecDepth 100000 in
theorem check_winner_spec_witness :
    (at_most_one board_direct_win ROI_BLEU ∧ at_most_one board_direct_win ROI_ROUGE) ∧
    check_winner board_direct_win = winner_spec board_direct_win := by
  have hb : at_most_one board_direct_win ROI_BLEU := by decide
  have hr : at_most_one board_direct_win ROI_ROUGE := by decide
  exact ⟨⟨hb, hr⟩, (check_winner_spec board_direct_win hb hr).1⟩

set_option maxRecDepth 100000 in
theorem search_best_move_forced_win_witness :
    ((ia_init_once none).TT = tt_zero ∧ check_winner board_direct_win = 0 ∧
      (⟨8, 7, 8, 8⟩ : Move) ∈ generate_moves board_direct_win true MAX_MOVES ∧
      check_winner (apply_move board_direct_win ⟨8, 7, 8, 8⟩) = 1 ∧
      (∀ m ∈ generate_moves board_direct_win true MAX_MOVES,
        check_winner (apply_move board_direct_win m) = 1 → m = ⟨8, 7, 8, 8⟩)) ∧
    (search_best_move (ia_init_once none) board_direct_win true).1 = ⟨8, 7, 8, 8⟩ := by
  have h0 : check_winner board_direct_win = 0 := by decide
  have hw : (⟨8, 7, 8, 8⟩ : Move) ∈ generate_moves board_direct_win true MAX_MOVES := by decide
  have hwin : check_winner (apply_move board_direct_win ⟨8, 7, 8, 8⟩) = 1 := by decide
  have huniq : ∀ m ∈ generate_moves board_direct_win true MAX_MOVES,
      check_winner (apply_move board_direct_win m) = 1 → m = ⟨8, 7, 8, 8⟩ := by decide
  exact ⟨⟨rfl, h0, hw, hwin, huniq⟩,
    search_best_move_forced_win (ia_init_once none) board_direct_win true ⟨8, 7, 8, 8⟩ rfl
      h0 hw hwin huniq⟩

set_option maxRecDepth 100000 in
theorem search_best_move_only_move_witness :
    ((ia_init_once none).TT = tt_zero ∧ check_winner board_capture = 0 ∧
      generate_moves board_capture false MAX_MOVES = [⟨5, 1, 5, 2⟩]) ∧
    (search_best_move (ia_init_once none) board_capture false).1 = ⟨5, 1, 5, 2⟩ := by
  have h0 : check_winner board_capture = 0 := by decide
  have hm : generate_moves board_capture false MAX_MOVES = [⟨5, 1, 5, 2⟩] := by decide
  exact ⟨⟨rfl, h0, hm⟩,
    search_best_move_only_move (ia_init_once none) board_capture false ⟨5, 1, 5, 2⟩ rfl h0 hm⟩

set_option maxRecDepth 100000 in
theorem search_best_move_generated_witness :
    ((ia_init_once none).TT = tt_zero ∧ check_winner board_exact_flag = 0 ∧
      generate_moves board_exact_flag true MAX_MOVES ≠ []) ∧
    (search_best_move (ia_init_once none) board_exact_flag true).1.r1 ≠ -1 := by
  have h0 : check_winner board_exact_flag = 0 := by decide
  have hm : generate_moves board_exact_flag true MAX_MOVES ≠ [] := by decide
  exact ⟨⟨rfl, h0, hm⟩,
    (search_best_move_generated (ia_init_once none) board_exact_flag true rfl h0 hm).1⟩

set_option maxRecDepth 100000 in
theorem search_best_move_no_move_witness :
    generate_moves board_shut_in true MAX_MOVES = [] ∧
    (search_best_move (ia_init_once none) board_shut_in true).1 = ⟨-1, -1, -1, -1⟩ := by
  have hm : generate_moves board_shut_in true MAX_MOVES = [] := by decide
  exact ⟨hm, search_best_move_no_move (ia_init_once none) board_shut_in true hm⟩

set_option maxHeartbeats 4000000 in
set_option maxRecDepth 1000000 in
/-- C6 as stated fails: on `board_win_or_block` with red to move, every move but the block
`(7,8) -> (8,8)` lets blue win at once and after the block blue cannot, yet the move
returned is not the block (it is the red king's own winning move `(0,1) -> (0,0)`). -/
theorem search_forced_block_counterexample :
    (check_winner board_win_or_block = 0 ∧
      (⟨7, 8, 8, 8⟩ : Move) ∈ generate_moves board_win_or_block false MAX_MOVES ∧
      (∀ x ∈ generate_moves board_win_or_block false MAX_MOVES, x ≠ ⟨7, 8, 8, 8⟩ →
        ∃ y ∈ generate_moves (apply_move board_win_or_block x) true MAX_MOVES,
          check_winner (apply_move (apply_move board_win_or_block x) y) = 1) ∧
      (∀ y ∈ generate_moves (apply_move board_win_or_block ⟨7, 8, 8, 8⟩) true MAX_MOVES,
        check_winner (apply_move (apply_move board_win_or_block ⟨7, 8, 8, 8⟩) y) ≠ 1)) ∧
    (search_best_move (ia_init_once none) board_win_or_block false).1 ≠ ⟨7, 8, 8, 8⟩ := by
  have h0 : check_winner board_win_or_block = 0 := by decide!
  have hking : ∀ x ∈ generate_moves board_win_or_block false MAX_MOVES, x ≠ ⟨7, 8, 8, 8⟩ →
      (⟨8, 7, 8, 8⟩ : Move) ∈ generate_moves (apply_move board_win_or_block x) true MAX_MOVES ∧
        check_winner (apply_move (apply_move board_win_or_block x) ⟨8, 7, 8, 8⟩) = 1 := by
    decide!
  refine ⟨⟨h0, by decide!, fun x hx hne => ⟨_, (hking x hx hne).1, (hking x hx hne).2⟩,
    by decide!⟩, ?_⟩
  rw [search_forced_win_core (ia_init_once none) board_win_or_block false ⟨0, 1, 0, 0⟩ rfl
    h0 (by decide!) (by decide!) (by decide!)]
  decide

set_option maxHeartbeats 4000000 in
set_option maxRecDepth 1000000 in
theorem search_best_move_forced_block_witness :
    ((ia_init_once none).TT = tt_zero ∧ check_winner board_block = 0 ∧
      (⟨7, 8, 8, 8⟩ : Move) ∈ generate_moves board_block false MAX_MOVES ∧
      (∀ x ∈ generate_moves board_block false MAX_MOVES, x ≠ ⟨7, 8, 8, 8⟩ →
        check_winner (apply_move board_block x) ≠ -1) ∧
      (∀ x ∈ generate_moves board_block false MAX_MOVES, x ≠ ⟨7, 8, 8, 8⟩ →
        ∃ y ∈ generate_moves (apply_move board_block x) true MAX_MOVES,
          check_winner (apply_move (apply_move board_block x) y) = 1) ∧
      check_winner (apply_move board_block ⟨7, 8, 8, 8⟩) ≠ 1 ∧
      (∀ y ∈ generate_moves (apply_move board_block ⟨7, 8, 8, 8⟩) true MAX_MOVES,
        check_winner (apply_move (apply_move board_block ⟨7, 8, 8, 8⟩) y) ≠ 1) ∧
      (∀ x ∈ generate_moves board_block false MAX_MOVES,
        zobrist_hash (ia_init_once none).keys (apply_move board_block x) true ≠
          zobrist_hash (ia_init_once none).keys board_block false) ∧
      (∀ x ∈ generate_moves board_block false MAX_MOVES,
        ∀ x' ∈ generate_moves board_block false MAX_MOVES,
          zobrist_hash (ia_init_once none).keys (apply_move board_block x) true =
            zobrist_hash (ia_init_once none).keys (apply_move board_block x') true → x = x')) ∧
    (search_best_move (ia_init_once none) board_block false).1 = ⟨7, 8, 8, 8⟩ := by
  have h0 : check_winner board_block = 0 := by decide!
  have hm : (⟨7, 8, 8, 8⟩ : Move) ∈ generate_moves board_block false MAX_MOVES := by decide!
  have hnowin : ∀ x ∈ generate_moves board_block false MAX_MOVES, x ≠ ⟨7, 8, 8, 8⟩ →
      check_winner (apply_move board_block x) ≠ -1 := by decide!
  have hking : ∀ x ∈ generate_moves board_block false MAX_MOVES, x ≠ ⟨7, 8, 8, 8⟩ →
      (⟨8, 7, 8, 8⟩ : Move) ∈ generate_moves (apply_move board_block x) true MAX_MOVES ∧
        check_winner (apply_move (apply_move board_block x) ⟨8, 7, 8, 8⟩) = 1 := by decide!
  have hthreat : ∀ x ∈ generate_moves board_block false MAX_MOVES, x ≠ ⟨7, 8, 8, 8⟩ →
      ∃ y ∈ generate_moves (apply_move board_block x) true MAX_MOVES,
        check_winner (apply_move (apply_move board_block x) y) = 1 :=
    fun x hx hne => ⟨_, (hking x hx hne).1, (hking x hx hne).2⟩
  have hsafe0 : check_winner (apply_move board_block ⟨7, 8, 8, 8⟩) ≠ 1 := by decide!
  have hsafe : ∀ y ∈ generate_moves (apply_move board_block ⟨7, 8, 8, 8⟩) true MAX_MOVES,
      check_winner (apply_move (apply_move board_block ⟨7, 8, 8, 8⟩) y) ≠ 1 := by decide!
  have hkey0 : ∀ x ∈ generate_moves board_block false MAX_MOVES,
      zobrist_hash (ia_init_once none).keys (apply_move board_block x) true ≠
        zobrist_hash (ia_init_once none).keys board_block false := by decide!
  have hinj : ∀ x ∈ generate_moves board_block false MAX_MOVES,
      ∀ x' ∈ generate_moves board_block false MAX_MOVES,
        zobrist_hash (ia_init_once none).keys (apply_move board_block x) true =
          zobrist_hash (ia_init_once none).keys (apply_move board_block x') true → x = x' := by
    decide!
  exact ⟨⟨rfl, h0, hm, hnowin, hthreat, hsafe0, hsafe, hkey0, hinj⟩,
    search_best_move_forced_block (ia_init_once none) board_block false ⟨7, 8, 8, 8⟩ rfl
      h0 hm hnowin hthreat hsafe0 hsafe hkey0 hinj⟩

/-! ## The theorems on the table, the search and the rule layer at concrete inputs -/

/-- C11 as stated fails: the empty board with red to move has the key `0`; in the table that
holds the entry of depth `3` stored for that key, a store request of depth `1` for the key
`131072`, which has the same slot, finds a stored depth strictly greater than the incoming
depth and overwrites the entry all the same, because `tt_store` takes the stored key `0`
for a free slot. -/
theorem tt_store_key_zero_counterexample :
    zobrist_hash zobrist_init board_zero false = 0 ∧
    tt_probe (tt_store tt_zero 0 3 12 TT_EXACT ⟨0, 1, 0, 0⟩) 131072 =
      ⟨0, 12, 3, TT_EXACT, ⟨0, 1, 0, 0⟩⟩ ∧
    (tt_probe (tt_store tt_zero 0 3 12 TT_EXACT ⟨0, 1, 0, 0⟩) 131072).depth > 1 ∧
    tt_probe (tt_store (tt_store tt_zero 0 3 12 TT_EXACT ⟨0, 1, 0, 0⟩) 131072 1 7 TT_UPPER
        ⟨1, 1, 1, 2⟩) 131072 = ⟨131072, 7, 1, TT_UPPER, ⟨1, 1, 1, 2⟩⟩ ∧
    tt_store (tt_store tt_zero 0 3 12 TT_EXACT ⟨0, 1, 0, 0⟩) 131072 1 7 TT_UPPER ⟨1, 1, 1, 2⟩ ≠
      tt_store tt_zero 0 3 12 TT_EXACT ⟨0, 1, 0, 0⟩ := by
  refine ⟨by decide, by decide, by decide, by decide, ?_⟩
  intro h
  have h0 := congrFun h 0
  exact absurd h0 (by decide)

theorem tt_store_keeps_deeper_witness :
    ((tt_one (131077 &&& TT_MASK)).key ≠ 0 ∧ (tt_one (131077 &&& TT_MASK)).depth > 2) ∧
    tt_store tt_one 131077 2 7 TT_UPPER ⟨1, 1, 1, 2⟩ = tt_one := by
  have h1 : (tt_one (131077 &&& TT_MASK)).key ≠ 0 := by decide
  have h2 : (tt_one (131077 &&& TT_MASK)).depth > 2 := by decide
  exact ⟨⟨h1, h2⟩, tt_store_keeps_deeper tt_one 131077 2 7 TT_UPPER ⟨1, 1, 1, 2⟩ h1 h2⟩

theorem tt_store_replaces_witness :
    (((0 : Int) ≤ 4 ∧ (4 : Int) ≤ 127) ∧ TT_LOWER ≤ 3 ∧
      ((tt_one (5 &&& TT_MASK)).key = 0 ∨ (tt_one (5 &&& TT_MASK)).depth ≤ 4)) ∧
    tt_probe (tt_store tt_one 5 4 40000 TT_LOWER ⟨1, 1, 1, 2⟩) 5 =
      ⟨5, clamp_spec 40000, 4, TT_LOWER, ⟨1, 1, 1, 2⟩⟩ := by
  have hd : (0 : Int) ≤ 4 ∧ (4 : Int) ≤ 127 := by decide
  have hf : TT_LOWER ≤ 3 := by decide
  have hs : (tt_one (5 &&& TT_MASK)).key = 0 ∨ (tt_one (5 &&& TT_MASK)).depth ≤ 4 :=
    Or.inr (by decide)
  exact ⟨⟨hd, hf, hs⟩, (tt_store_replaces tt_one 5 4 40000 TT_LOWER ⟨1, 1, 1, 2⟩ hd hf hs).1⟩

set_option maxRecDepth 100000 in
theorem minimax_collision_is_miss_witness :
    (check_winner board_exact_flag = 0 ∧ (tt_probe tt_one 131077).key ≠ 131077) ∧
    tt_lookup (tt_probe tt_one 131077) 131077 ((2 + 1 : Nat) : Int) (-50) 50 =
      Lookup.cont (-50) 50 ⟨-1, -1, -1, -1⟩ := by
  have h0 : check_winner board_exact_flag = 0 := by decide
  have hk : (tt_probe tt_one 131077).key ≠ 131077 := by decide
  exact ⟨⟨h0, hk⟩,
    (minimax_collision_is_miss zobrist_init 2 board_exact_flag (-50) 50 true 131077
      ⟨tt_one, none⟩ h0 hk).1⟩

set_option maxRecDepth 100000 in
theorem minimax_terminal_override_witness :
    (check_winner board_shut_in = 1 ∨ check_winner board_shut_in = -1) ∧
    minimax zobrist_init 3 board_shut_in (-50) 50 true 77 ⟨tt_one, none⟩ =
      (if check_winner board_shut_in = 1 then 100000 else -100000, board_shut_in,
        ⟨tt_one, none⟩) := by
  have hw : check_winner board_shut_in = 1 ∨ check_winner board_shut_in = -1 :=
    Or.inr (by decide)
  exact ⟨hw, minimax_terminal_override zobrist_init 3 board_shut_in (-50) 50 true 77
    ⟨tt_one, none⟩ hw⟩

set_option maxRecDepth 100000 in
/-- C15 as stated fails: `board_stalemate` is not decided and blue has no move, yet with a
table whose slot holds an exact entry for the key of the node, of the depth of the node,
`minimax` at depth `1` returns the stored value `30000`, which is not the static evaluation
of the board. -/
theorem minimax_stalemate_counterexample :
    check_winner board_stalemate = 0 ∧
    generate_moves board_stalemate true MAX_MOVES = [] ∧
    (minimax zobrist_init 1 board_stalemate (-INF_SCORE) INF_SCORE true
      (zobrist_hash zobrist_init board_stalemate true)
      ⟨tt_store tt_zero (zobrist_hash zobrist_init board_stalemate true) 1 30000 TT_EXACT
        ⟨0, 0, 0, 0⟩, none⟩).1 ≠ evaluate board_stalemate := by
  have h0 : check_winner board_stalemate = 0 := by decide
  refine ⟨h0, by decide, ?_⟩
  have hl : tt_lookup
      (tt_probe (tt_store tt_zero (zobrist_hash zobrist_init board_stalemate true) 1 30000
        TT_EXACT ⟨0, 0, 0, 0⟩) (zobrist_hash zobrist_init board_stalemate true))
      (zobrist_hash zobrist_init board_stalemate true) ((0 + 1 : Nat) : Int) (-INF_SCORE)
      INF_SCORE = Lookup.ret 30000 := by
    rw [tt_store_probe tt_zero (zobrist_hash zobrist_init board_stalemate true) 1 30000 TT_EXACT
      ⟨0, 0, 0, 0⟩ (Or.inl rfl)]
    unfold tt_lookup
    rw [if_pos rfl, if_pos (by decide), if_pos (by decide)]
    rfl
  rw [minimax_succ, if_neg (by omega), if_neg (by omega),
    minimax_node_ret _ _ _ _ _ _ _ _ _ _ hl]
  have := evaluate_bound board_stalemate
  simp only
  omega

set_option maxRecDepth 100000 in
theorem minimax_stalemate_witness :
    (check_winner board_stalemate = 0 ∧ generate_moves board_stalemate true MAX_MOVES = [] ∧
      ∀ v : Int,
        tt_lookup (tt_probe tt_zero (zobrist_hash zobrist_init board_stalemate true))
          (zobrist_hash zobrist_init board_stalemate true) ((0 + 1 : Nat) : Int) (-INF_SCORE)
          INF_SCORE ≠ Lookup.ret v) ∧
    minimax zobrist_init (0 + 1) board_stalemate (-INF_SCORE) INF_SCORE true
        (zobrist_hash zobrist_init board_stalemate true) ⟨tt_zero, none⟩ =
      (evaluate board_stalemate, board_stalemate, ⟨tt_zero, none⟩) := by
  have h0 : check_winner board_stalemate = 0 := by decide
  have hm : generate_moves board_stalemate true MAX_MOVES = [] := by decide
  have hl : ∀ v : Int,
      tt_lookup (tt_probe tt_zero (zobrist_hash zobrist_init board_stalemate true))
        (zobrist_hash zobrist_init board_stalemate true) ((0 + 1 : Nat) : Int) (-INF_SCORE)
        INF_SCORE ≠ Lookup.ret v :=
    fun v h => absurd (tt_lookup_ret _ _ _ _ _ _ h).2.2 (by decide)
  exact ⟨⟨h0, hm, hl⟩,
    minimax_stalemate zobrist_init 0 board_stalemate (-INF_SCORE) INF_SCORE true
      (zobrist_hash zobrist_init board_stalemate true) ⟨tt_zero, none⟩ h0 hm hl⟩

set_option maxRecDepth 100000 in
theorem logique_capture_spec_witness :
    (state_push.game_over_status = 0 ∧ valid_grid state_push.pion ∧ in_bounds 5 2 = true ∧
      is_piece (state_push.pion 5 2) ∧ mouvement_dir "droite" 0 1) ∧
    ((logique_capture state_push 5 2 "droite").pion (5 + 0) (2 + 1) = EMPTY ∧
      state_push.pion (5 + 0) (2 + 1) ≠ EMPTY) := by
  have hgrid : valid_grid state_push.pion := valid_grid_of_cells _ (by decide)
  have hp : is_piece (state_push.pion 5 2) := Or.inl (by decide)
  have hdir : mouvement_dir "droite" 0 1 := Or.inr (Or.inr (Or.inr ⟨rfl, rfl, rfl⟩))
  exact ⟨⟨rfl, hgrid, by decide, hp, hdir⟩,
    (logique_capture_spec state_push 5 2 "droite" 0 1 rfl hgrid (by decide) hp hdir).1.2
      ⟨by decide, Or.inl ⟨by decide, by decide⟩, Or.inr (by
        rintro (⟨h, _⟩ | ⟨_, h⟩)
        · exact absurd h (by decide)
        · exact absurd h (by decide))⟩⟩

set_option maxRecDepth 100000 in
theorem logique_prise_spec_witness :
    (state_sandwich.game_over_status = 0 ∧ valid_grid state_sandwich.pion ∧
      in_bounds 4 3 = true ∧ is_piece (state_sandwich.pion 4 3)) ∧
    ((logique_prise state_sandwich 4 3).pion (4 + 0) (3 + -1) = EMPTY ∧
      state_sandwich.pion (4 + 0) (3 + -1) ≠ EMPTY) := by
  have hgrid : valid_grid state_sandwich.pion := valid_grid_of_cells _ (by decide)
  have hp : is_piece (state_sandwich.pion 4 3) := Or.inr (by decide)
  exact ⟨⟨rfl, hgrid, by decide, hp⟩,
    (((logique_prise_spec state_sandwich 4 3 rfl hgrid (by decide)).1 hp).1 0 (-1)
      (Or.inr (Or.inr (Or.inl ⟨rfl, rfl⟩)))).1.2
      ⟨by decide, by decide, Or.inr ⟨by decide, by decide⟩, Or.inr ⟨by decide, by decide⟩⟩⟩

/-- One step of the double loop of `logique_calculer_scores`. -/
theorem calculer_scores_cell_eq (st : GameState) (i j a b : Int) :
    calculer_scores_cell st i j (a, b) =
      (a + (if st.couleur i j = 1 then 1 else 0) + (if st.pion i j = 1 then 1 else 0),
        b + (if st.couleur i j = 2 then 1 else 0) + (if st.pion i j = 2 then 1 else 0)) := by
  unfold calculer_scores_cell
  simp only [SOLDAT_ROUGE, SOLDAT_BLEU]
  by_cases h1 : st.couleur i j = 1 <;> by_cases h2 : st.couleur i j = 2 <;>
    by_cases h3 : st.pion i j = 1 <;> by_cases h4 : st.pion i j = 2 <;>
    first
      | omega
      | (refine Prod.ext ?_ ?_ <;> simp [h1, h2, h3, h4])

/-- The double loop of `logique_calculer_scores` over a list of squares adds to each score
the number of squares of the side's colour and the number of the side's soldiers. -/
theorem calculer_scores_fold (st : GameState) (l : List (Int × Int)) (a b : Int) :
    l.foldl (fun s rc => calculer_scores_cell st rc.1 rc.2 s) (a, b) =
      (a + ((l.filter (fun rc => decide (st.couleur rc.1 rc.2 = 1))).length : Int) +
          ((l.filter (fun rc => decide (st.pion rc.1 rc.2 = SOLDAT_ROUGE))).length : Int),
        b + ((l.filter (fun rc => decide (st.couleur rc.1 rc.2 = 2))).length : Int) +
          ((l.filter (fun rc => decide (st.pion rc.1 rc.2 = SOLDAT_BLEU))).length : Int)) := by
  induction l generalizing a b with
  | nil => simp
  | cons x l ih =>
    rw [List.foldl_cons, calculer_scores_cell_eq, ih]
    simp only [SOLDAT_ROUGE, SOLDAT_BLEU, List.filter_cons]
    by_cases h1 : st.couleur x.1 x.2 = 1 <;> by_cases h2 : st.couleur x.1 x.2 = 2 <;>
      by_cases h3 : st.pion x.1 x.2 = 1 <;> by_cases h4 : st.pion x.1 x.2 = 2 <;>
      first
        | omega
        | (refine Prod.ext ?_ ?_ <;> simp [h1, h2, h3, h4] <;> omega)

/-- The scores computed by `logique_calculer_scores` are the two totals of the
specification. -/
theorem calculer_scores_totals (st : GameState) :
    indices.foldl
        (fun sc i => indices.foldl (fun sc j => calculer_scores_cell st i j sc) sc)
        ((0 : Int), (0 : Int)) = (total_rouge st, total_bleu st) := by
  rw [scan_eq_foldl_cells (fun i j sc => calculer_scores_cell st i j sc), calculer_scores_fold]
  unfold total_rouge total_bleu count_code
  refine Prod.ext ?_ ?_ <;> simp only <;> omega

theorem calculer_scores_status (st : GameState) :
    (logique_calculer_scores st).game_over_status = score_verdict st := by
  unfold logique_calculer_scores score_verdict
  simp only [calculer_scores_totals]
  split_ifs <;> rfl

theorem calculer_scores_frame (st : GameState) :
    (logique_calculer_scores st).pion = st.pion ∧
      (logique_calculer_scores st).couleur = st.couleur ∧
      (logique_calculer_scores st).dead_red_count = st.dead_red_count ∧
      (logique_calculer_scores st).dead_blue_count = st.dead_blue_count ∧
      (logique_calculer_scores st).tour = st.tour := by
  unfold logique_calculer_scores
  simp only
  split_ifs <;> exact ⟨rfl, rfl, rfl, rfl, rfl⟩

/-- Giving the value `v` to a square adds one to the count of `v` and takes one off the count
of the value the square had, when the two differ. -/
theorem filter_length_assign (l : List (Int × Int)) (f : Int → Int → Int) (r c v p : Int)
    (hnd : l.Nodup) (hmem : (r, c) ∈ l) (hold : f r c ≠ v) :
    ((l.filter (fun rc =>
        decide ((if rc.1 = r ∧ rc.2 = c then v else f rc.1 rc.2) = p))).length : Int) =
      ((l.filter (fun rc => decide (f rc.1 rc.2 = p))).length : Int) +
        (if p = v then 1 else 0) - (if f r c = p then 1 else 0) := by
  induction l with
  | nil => simp at hmem
  | cons x xs ih =>
    obtain ⟨hx, hxs⟩ := List.nodup_cons.1 hnd
    by_cases hxe : x = (r, c)
    · subst hxe
      have hrest : ∀ ys : List (Int × Int), (r, c) ∉ ys →
          ys.filter (fun rc =>
            decide ((if rc.1 = r ∧ rc.2 = c then v else f rc.1 rc.2) = p)) =
          ys.filter (fun rc => decide (f rc.1 rc.2 = p)) := by
        intro ys hys
        apply List.filter_congr
        intro y hy
        have hne : ¬ (y.1 = r ∧ y.2 = c) := fun h => hys (by
          have : y = (r, c) := Prod.ext h.1 h.2
          rw [← this]; exact hy)
        simp only [hne, if_false]
      simp only [List.filter_cons, and_self, if_true, hrest xs hx]
      by_cases hpv : p = v
      · subst hpv
        have hfp : ¬ f r c = p := hold
        simp only [decide_True, if_true, hfp, decide_False, Bool.false_eq_true, if_false,
          List.length_cons, Nat.cast_add, Nat.cast_one]
        omega
      · have hvp : ¬ v = p := fun h => hpv h.symm
        by_cases hfp : f r c = p
        · simp only [hvp, hpv, hfp, decide_True, decide_False, Bool.false_eq_true, if_true,
            if_false, List.length_cons, Nat.cast_add, Nat.cast_one]
          omega
        · simp only [hvp, hpv, hfp, decide_False, Bool.false_eq_true, if_false]
          omega
    · have hne : ¬ (x.1 = r ∧ x.2 = c) := fun h => hxe (Prod.ext h.1 h.2)
      have hmem' : (r, c) ∈ xs := by
        rcases List.mem_cons.1 hmem with h | h
        · exact absurd h.symm hxe
        · exact h
      have ih' := ih hxs hmem'
      simp only [List.filter_cons, hne, if_false]
      by_cases hpx : f x.1 x.2 = p
      · simp only [hpx, decide_True, if_true, List.length_cons, Nat.cast_add, Nat.cast_one]
        omega
      · simp only [hpx, decide_False, Bool.false_eq_true, if_false]
        exact ih'

/-- Colouring a neutral square of the board adds one to the count of the new colour. -/
theorem count_code_set_couleur (st : GameState) (r c v p : Int) (hin : in_bounds r c = true)
    (hold : st.couleur r c ≠ v) :
    count_code (st.set_couleur r c v).couleur p =
      count_code st.couleur p + (if p = v then 1 else 0) -
        (if st.couleur r c = p then 1 else 0) := by
  have hmem : (r, c) ∈ cells := by
    rw [in_bounds_iff] at hin
    exact (mem_cells r c).2 ⟨⟨hin.1, hin.2.1⟩, hin.2.2.1, hin.2.2.2⟩
  unfold count_code GameState.set_couleur
  exact filter_length_assign cells st.couleur r c v p cells_nodup hmem hold

theorem init_totals : total_rouge logique_init_game = 19 ∧ total_bleu logique_init_game = 19 := by
  decide

/-- C21: in a game state whose `game_over_status` is not `0`, `logique_capture`,
`logique_prise` and `logique_verifier_conditions_fin` return the state unchanged: grid,
colours, both death counters, turn and status. -/
theorem no_action_after_game_over (st : GameState) (r c : Int) (mouvement : String)
    (h : st.game_over_status ≠ 0) :
    logique_capture st r c mouvement = st ∧ logique_prise st r c = st ∧
      logique_verifier_conditions_fin st = st := by
  refine ⟨?_, ?_, ?_⟩
  · unfold logique_capture
    rw [if_pos h]
  · unfold logique_prise
    rw [if_pos h]
  · unfold logique_verifier_conditions_fin
    rw [if_pos h]

/-- C22: on a game in progress `logique_verifier_conditions_fin` sets the status to the first
applicable of: `1` for a red king on `(0,0)`, `2` for a blue king on `(8,8)`, `2` for eight
dead red soldiers, `1` for eight dead blue soldiers, the verdict of the scores after turn 64,
and `0` otherwise; on every state it keeps the grid, the colours, the death counters and the
turn number. -/
theorem logique_verifier_conditions_fin_spec (st : GameState) :
    (st.game_over_status = 0 →
      (logique_verifier_conditions_fin st).game_over_status = fin_verdict st ∧
      (st.tour > 64 → st.pion 0 0 ≠ ROI_ROUGE → st.pion 8 8 ≠ ROI_BLEU →
        st.dead_red_count < 8 → st.dead_blue_count < 8 →
        logique_verifier_conditions_fin st = logique_calculer_scores st)) ∧
      (logique_verifier_conditions_fin st).pion = st.pion ∧
      (logique_verifier_conditions_fin st).couleur = st.couleur ∧
      (logique_verifier_conditions_fin st).dead_red_count = st.dead_red_count ∧
      (logique_verifier_conditions_fin st).dead_blue_count = st.dead_blue_count ∧
      (logique_verifier_conditions_fin st).tour = st.tour := by
  refine ⟨?_, ?_⟩
  · intro h0
    refine ⟨?_, ?_⟩
    · unfold logique_verifier_conditions_fin fin_verdict
      rw [if_neg (fun h => h h0)]
      split_ifs
      · rfl
      · rfl
      · rfl
      · rfl
      · exact calculer_scores_status st
      · exact h0
    · intro h1 h2 h3 h4 h5
      unfold logique_verifier_conditions_fin
      rw [if_neg (fun h => h h0), if_neg h2, if_neg h3, if_neg (by omega), if_neg (by omega),
        if_pos h1]
  · unfold logique_verifier_conditions_fin
    split_ifs
    · exact ⟨rfl, rfl, rfl, rfl, rfl⟩
    · exact ⟨rfl, rfl, rfl, rfl, rfl⟩
    · exact ⟨rfl, rfl, rfl, rfl, rfl⟩
    · exact ⟨rfl, rfl, rfl, rfl, rfl⟩
    · exact ⟨rfl, rfl, rfl, rfl, rfl⟩
    · exact calculer_scores_frame st
    · exact ⟨rfl, rfl, rfl, rfl, rfl⟩

/-- C23: `logique_calculer_scores` sets the status to `1` when red's total is the greater, to
`2` when blue's is, to `3` when they are equal, a total being the number of squares of the
side's colour plus the number of the side's soldiers, and changes nothing else; on the state
of `logique_init_game` the totals are equal and the verdict is `3`, and colouring one more
neutral square of the board for a side makes that side win. -/
theorem logique_calculer_scores_spec (st : GameState) :
    (logique_calculer_scores st).game_over_status =
        (if total_rouge st > total_bleu st then 1
         else if total_bleu st > total_rouge st then 2 else 3) ∧
      ((logique_calculer_scores st).pion = st.pion ∧
        (logique_calculer_scores st).couleur = st.couleur ∧
        (logique_calculer_scores st).dead_red_count = st.dead_red_count ∧
        (logique_calculer_scores st).dead_blue_count = st.dead_blue_count ∧
        (logique_calculer_scores st).tour = st.tour) ∧
      total_rouge logique_init_game = total_bleu logique_init_game ∧
      (logique_calculer_scores logique_init_game).game_over_status = 3 ∧
      (∀ r c : Int, in_bounds r c = true → logique_init_game.couleur r c = 0 →
        (logique_calculer_scores (logique_init_game.set_couleur r c 1)).game_over_status = 1 ∧
        (logique_calculer_scores (logique_init_game.set_couleur r c 2)).game_over_status = 2) := by
  obtain ⟨hr, hb⟩ := init_totals
  refine ⟨calculer_scores_status st, calculer_scores_frame st, by rw [hr, hb], ?_, ?_⟩
  · rw [calculer_scores_status]
    unfold score_verdict
    rw [hr, hb]
    rfl
  · intro r c hin hneutral
    have h1 := count_code_set_couleur logique_init_game r c 1 1 hin (by rw [hneutral]; decide)
    have h2 := count_code_set_couleur logique_init_game r c 1 2 hin (by rw [hneutral]; decide)
    have h3 := count_code_set_couleur logique_init_game r c 2 1 hin (by rw [hneutral]; decide)
    have h4 := count_code_set_couleur logique_init_game r c 2 2 hin (by rw [hneutral]; decide)
    rw [hneutral] at h1 h2 h3 h4
    simp only [if_true, if_false, show ¬ ((0 : Int) = 1) by decide,
      show ¬ ((0 : Int) = 2) by decide, show ¬ ((2 : Int) = 1) by decide,
      show ¬ ((1 : Int) = 2) by decide] at h1 h2 h3 h4
    unfold total_rouge at hr
    unfold total_bleu at hb
    refine ⟨?_, ?_⟩
    · rw [calculer_scores_status]
      unfold score_verdict total_rouge total_bleu
      have hp : (logique_init_game.set_couleur r c 1).pion = logique_init_game.pion := rfl
      rw [hp, h1, h2, if_pos (by omega)]
    · rw [calculer_scores_status]
      unfold score_verdict total_rouge total_bleu
      have hp : (logique_init_game.set_couleur r c 2).pion = logique_init_game.pion := rfl
      rw [hp, h3, h4, if_neg (by omega), if_pos (by omega)]


/-! ## The search: what the lookup does to the node, how the result is classified (C25, C26) -/

/-- The lookup on an entry of the key of the node, stored at least as deep as the node. -/
theorem tt_lookup_hit (e : TTEntry) (key : Nat) (depth alpha beta : Int) (hk : e.key = key)
    (hd : e.depth ≥ depth) :
    tt_lookup e key depth alpha beta =
      if e.flag = TT_EXACT then Lookup.ret e.value
      else if e.flag = TT_LOWER then
        (if max alpha e.value ≥ beta then Lookup.ret e.value
         else Lookup.cont (max alpha e.value) beta e.best)
      else if e.flag = TT_UPPER then
        (if alpha ≥ min beta e.value then Lookup.ret e.value
         else Lookup.cont alpha (min beta e.value) e.best)
      else (if alpha ≥ beta then Lookup.ret e.value else Lookup.cont alpha beta e.best) := by
  unfold tt_lookup
  rw [if_pos hk, if_pos hd]
  simp only [TT_EXACT, TT_LOWER, TT_UPPER]
  by_cases h1 : e.flag = 1
  · rw [if_pos h1, if_pos h1]
  · rw [if_neg h1, if_neg h1]
    by_cases h2 : e.flag = 2
    · have h3 : ¬ e.flag = 3 := by omega
      rw [if_pos h2]
      by_cases hv : e.value > alpha
      · have hmax : max alpha e.value = e.value := max_eq_right (by omega)
        simp only [h2, hv, and_self, if_true, hmax]
      · have hmax : max alpha e.value = alpha := max_eq_left (by omega)
        simp [h2, hv, hmax]
    · rw [if_neg h2]
      by_cases h3 : e.flag = 3
      · rw [if_pos h3]
        by_cases hv : e.value < beta
        · have hmin : min beta e.value = e.value := min_eq_right (by omega)
          simp [h3, hv, hmin]
        · have hmin : min beta e.value = beta := min_eq_left (by omega)
          simp [h3, hv, hmin]
      · rw [if_neg h3]
        simp only [h2, h3, false_and, if_false]

/-- After a move has been searched, the best value of a blue node is at most its `alpha` and
the best value of a red node is at least its `beta`. -/
theorem loop_update_window (blueToPlay : Bool) (m : Move) (val : Int) (st : LoopState)
    (s : SearchState) :
    if blueToPlay then
      (loop_update blueToPlay m val st s).bestVal ≤ (loop_update blueToPlay m val st s).alpha
    else
      (loop_update blueToPlay m val st s).beta ≤ (loop_update blueToPlay m val st s).bestVal := by
  unfold loop_update
  cases blueToPlay
  · simp only [Bool.false_eq_true, if_false]
    split_ifs <;> omega
  · simp only [if_true]
    split_ifs <;> omega

theorem minimax_loop_window
    (child : Board → Int → Int → Nat → SearchState → Int × Board × SearchState)
    (z : ZobristKeys) (blueToPlay : Bool) (l : List Move) (hl : l ≠ []) (b : Board)
    (st : LoopState) :
    (if blueToPlay then
      (minimax_loop child z blueToPlay l b st).2.bestVal ≤
        (minimax_loop child z blueToPlay l b st).2.alpha
    else
      (minimax_loop child z blueToPlay l b st).2.beta ≤
        (minimax_loop child z blueToPlay l b st).2.bestVal) ∧
      (minimax_loop child z blueToPlay l b st).1 = b := by
  cases l with
  | nil => exact absurd rfl hl
  | cons m rest =>
    exact minimax_loop_inv_first child z blueToPlay b (fun _ => True)
      (fun st => if blueToPlay then st.bestVal ≤ st.alpha else st.beta ≤ st.bestVal) m rest
      (fun st _ => loop_update_window blueToPlay m _ st _)
      (fun m' _ st _ => loop_update_window blueToPlay m' _ st _) st trivial

/-- The red node leaves `alpha` as the lookup gave it. -/
theorem minimax_loop_red_alpha
    (child : Board → Int → Int → Nat → SearchState → Int × Board × SearchState)
    (z : ZobristKeys) (l : List Move) (b : Board) (st : LoopState) :
    (minimax_loop child z false l b st).2.alpha = st.alpha :=
  (minimax_loop_inv child z false b (fun st' => st'.alpha = st.alpha) l
    (fun _ _ st' h => by
      unfold minimax_loop_body loop_update
      simp only [Bool.false_eq_true, if_false]
      exact h) st rfl).1

/-- The table a node leaves when a move exists: a blue node passes `TT_UPPER` to `tt_store`,
a red node `TT_UPPER` when its value is at most the `alpha` it went on with and `TT_LOWER`
otherwise; `TT_EXACT` is not passed. -/
theorem minimax_moves_store
    (child : Board → Int → Int → Bool → Nat → SearchState → Int × Board × SearchState)
    (z : ZobristKeys) (depth : Int) (b : Board) (alpha beta : Int) (blueToPlay : Bool) (key : Nat)
    (s : SearchState) (t : Move) (hm : generate_moves b blueToPlay MAX_MOVES ≠ []) :
    ∃ st : LoopState,
      minimax_moves child z depth b alpha beta blueToPlay key s t =
        (st.bestVal, b,
          ⟨tt_store st.s.TT key depth st.bestVal
              (if blueToPlay then TT_UPPER
               else if st.bestVal ≤ alpha then TT_UPPER else TT_LOWER) st.bestMove,
            st.s.outBest.map (fun _ => st.bestMove)⟩) := by
  have hn : (generate_moves b blueToPlay MAX_MOVES).length ≠ 0 := by
    rw [Ne, List.length_eq_zero]; exact hm
  have hne : sort_moves b blueToPlay (generate_moves b blueToPlay MAX_MOVES)
      (generate_moves b blueToPlay MAX_MOVES).length (some t) ≠ [] :=
    fun h => hm (List.Perm.eq_nil (h ▸ (sort_moves_perm _ _ _ _).symm))
  obtain ⟨hw, hb⟩ := minimax_loop_window
    (fun b a bt k s => child b a bt (!blueToPlay) k s) z blueToPlay _ hne b
    ⟨alpha, beta, if blueToPlay then -INF_SCORE else INF_SCORE,
      (sort_moves b blueToPlay (generate_moves b blueToPlay MAX_MOVES)
        (generate_moves b blueToPlay MAX_MOVES).length (some t)).getD 0 default, s⟩
  refine ⟨(minimax_loop (fun b a bt k s => child b a bt (!blueToPlay) k s) z blueToPlay
    (sort_moves b blueToPlay (generate_moves b blueToPlay MAX_MOVES)
      (generate_moves b blueToPlay MAX_MOVES).length (some t)) b
    ⟨alpha, beta, if blueToPlay then -INF_SCORE else INF_SCORE,
      (sort_moves b blueToPlay (generate_moves b blueToPlay MAX_MOVES)
        (generate_moves b blueToPlay MAX_MOVES).length (some t)).getD 0 default, s⟩).2, ?_⟩
  unfold minimax_moves
  simp only
  rw [if_neg hn, hb]
  unfold minimax_finish
  simp only
  cases blueToPlay
  · have ha := minimax_loop_red_alpha (fun b a bt k s => child b a bt (!false) k s) z
      (sort_moves b false (generate_moves b false MAX_MOVES)
        (generate_moves b false MAX_MOVES).length (some t)) b
      ⟨alpha, beta, INF_SCORE,
        (sort_moves b false (generate_moves b false MAX_MOVES)
          (generate_moves b false MAX_MOVES).length (some t)).getD 0 default, s⟩
    simp only [Bool.false_eq_true, if_false] at hw ha ⊢
    rw [ha]
    by_cases hle : (minimax_loop (fun b a bt k s => child b a bt (!false) k s) z false
        (sort_moves b false (generate_moves b false MAX_MOVES)
          (generate_moves b false MAX_MOVES).length (some t)) b
        ⟨alpha, beta, INF_SCORE,
          (sort_moves b false (generate_moves b false MAX_MOVES)
            (generate_moves b false MAX_MOVES).length (some t)).getD 0 default, s⟩).2.bestVal ≤
        alpha
    · rw [if_pos hle, if_pos hle]
    · rw [if_neg hle, if_neg hle, if_pos hw]
  · simp only [if_true] at hw ⊢
    rw [if_pos hw]

/-- C25, what the code does instead: a node of depth `1` with blue to move, a position
that is not decided and has a move, the full window and an empty table returns a value
strictly between the `alpha` and the `beta` it was called with, and the entry it stores
under its key has the bound type `TT_UPPER`, not `TT_EXACT`. -/
theorem minimax_classification_blue (z : ZobristKeys) (b : Board) (key : Nat)
    (h0 : check_winner b = 0) (hm : generate_moves b true MAX_MOVES ≠ []) :
    (-INF_SCORE < (minimax z 1 b (-INF_SCORE) INF_SCORE true key ⟨tt_zero, none⟩).1 ∧
      (minimax z 1 b (-INF_SCORE) INF_SCORE true key ⟨tt_zero, none⟩).1 < INF_SCORE) ∧
    (tt_probe (minimax z 1 b (-INF_SCORE) INF_SCORE true key ⟨tt_zero, none⟩).2.2.TT key).key =
      key ∧
    (tt_probe (minimax z 1 b (-INF_SCORE) INF_SCORE true key ⟨tt_zero, none⟩).2.2.TT key).depth =
      1 ∧
    (tt_probe (minimax z 1 b (-INF_SCORE) INF_SCORE true key ⟨tt_zero, none⟩).2.2.TT key).flag =
      TT_UPPER := by
  have hl : tt_lookup (tt_probe (⟨tt_zero, none⟩ : SearchState).TT key) key ((0 + 1 : Nat) : Int)
      (-INF_SCORE) INF_SCORE =
      Lookup.cont (-INF_SCORE) INF_SCORE
        (if (tt_probe tt_zero key).key = key then (tt_probe tt_zero key).best
         else ⟨-1, -1, -1, -1⟩) :=
    tt_lookup_miss _ _ _ _ _ (fun h => absurd h.2 (by
      show ¬ ((0 : Int) ≥ ((0 + 1 : Nat) : Int))
      omega))
  have hone : ((0 + 1 : Nat) : Int) = 1 := rfl
  have hspec := leaf_node_loop_spec z b true ⟨tt_zero, none⟩
    (sort_moves b true (generate_moves b true MAX_MOVES) (generate_moves b true MAX_MOVES).length
      (some (if (tt_probe tt_zero key).key = key then (tt_probe tt_zero key).best
        else ⟨-1, -1, -1, -1⟩)))
    (fun h => hm (List.Perm.eq_nil (h ▸ (sort_moves_perm _ _ _ _).symm)))
  have hbound := leaf_value_bound (apply_move b (leaf_node_loop z b true ⟨tt_zero, none⟩
    (sort_moves b true (generate_moves b true MAX_MOVES) (generate_moves b true MAX_MOVES).length
      (some (if (tt_probe tt_zero key).key = key then (tt_probe tt_zero key).best
        else ⟨-1, -1, -1, -1⟩)))).bestMove)
  rw [minimax_succ, if_neg (by omega), if_neg (by omega),
    minimax_node_cont _ _ _ _ _ _ _ _ _ _ _ _ hl, hone, minimax_moves_leaf z b true key _ _ hm]
  generalize leaf_node_loop z b true ⟨tt_zero, none⟩
    (sort_moves b true (generate_moves b true MAX_MOVES) (generate_moves b true MAX_MOVES).length
      (some (if (tt_probe tt_zero key).key = key then (tt_probe tt_zero key).best
        else ⟨-1, -1, -1, -1⟩))) = L at hspec hbound ⊢
  obtain ⟨hs, ha, _, _, hv, _⟩ := hspec
  rw [hv] at hbound
  simp only [if_true] at ha
  have hle : L.bestVal ≤ L.alpha := by omega
  have hp := tt_store_probe tt_zero key 1 L.bestVal TT_UPPER L.bestMove (Or.inl rfl)
  refine ⟨?_, ?_⟩
  · rw [minimax_finish_value]
    simp only [INF_SCORE]
    constructor <;> omega
  · unfold minimax_finish
    simp only
    rw [if_pos hle, hs]
    show (tt_probe (tt_store tt_zero key 1 L.bestVal TT_UPPER L.bestMove) key).key = key ∧
      (tt_probe (tt_store tt_zero key 1 L.bestVal TT_UPPER L.bestMove) key).depth = 1 ∧
      (tt_probe (tt_store tt_zero key 1 L.bestVal TT_UPPER L.bestMove) key).flag = TT_UPPER
    rw [hp]
    exact ⟨rfl, rfl, rfl⟩

/-- C26: at a node of depth `d+1` whose position is not decided and whose probed entry has
the key of the node: when the stored depth is at least `d+1`, an exact entry makes `minimax`
return the stored value with board and table untouched; a lower-bound entry puts
`max alpha value` in the place of `alpha`, an upper-bound entry `min beta value` in the place
of `beta`, and when the window is then empty (`alpha >= beta`) `minimax` returns the stored
value with board and table untouched, and otherwise goes on to the moves with the new window
and the best move of the entry as table move; when the stored depth is smaller, `minimax`
goes on to the moves with `alpha` and `beta` unchanged and the best move of the entry as
table move. -/
theorem minimax_lookup_spec (z : ZobristKeys) (d : Nat) (b : Board) (alpha beta : Int)
    (blueToPlay : Bool) (key : Nat) (s : SearchState) (h0 : check_winner b = 0)
    (hk : (tt_probe s.TT key).key = key) :
    ((tt_probe s.TT key).depth ≥ ((d + 1 : Nat) : Int) →
      ((tt_probe s.TT key).flag = TT_EXACT →
        minimax z (d + 1) b alpha beta blueToPlay key s = ((tt_probe s.TT key).value, b, s)) ∧
      ((tt_probe s.TT key).flag = TT_LOWER →
        minimax z (d + 1) b alpha beta blueToPlay key s =
          if max alpha (tt_probe s.TT key).value ≥ beta then ((tt_probe s.TT key).value, b, s)
          else minimax_moves (minimax z d) z ((d + 1 : Nat) : Int) b
            (max alpha (tt_probe s.TT key).value) beta blueToPlay key s (tt_probe s.TT key).best) ∧
      ((tt_probe s.TT key).flag = TT_UPPER →
        minimax z (d + 1) b alpha beta blueToPlay key s =
          if alpha ≥ min beta (tt_probe s.TT key).value then ((tt_probe s.TT key).value, b, s)
          else minimax_moves (minimax z d) z ((d + 1 : Nat) : Int) b alpha
            (min beta (tt_probe s.TT key).value) blueToPlay key s (tt_probe s.TT key).best)) ∧
    ((tt_probe s.TT key).depth < ((d + 1 : Nat) : Int) →
      minimax z (d + 1) b alpha beta blueToPlay key s =
        minimax_moves (minimax z d) z ((d + 1 : Nat) : Int) b alpha beta blueToPlay key s
          (tt_probe s.TT key).best) := by
  have hnode : minimax z (d + 1) b alpha beta blueToPlay key s =
      minimax_node (minimax z d) z ((d + 1 : Nat) : Int) b alpha beta blueToPlay key s := by
    rw [minimax_succ, if_neg (by omega), if_neg (by omega)]
  refine ⟨fun hd => ⟨fun hf => ?_, fun hf => ?_, fun hf => ?_⟩, fun hd => ?_⟩
  · rw [hnode, minimax_node_eq, tt_lookup_hit _ _ _ _ _ hk hd, if_pos hf]
  · have hf1 : ¬ (tt_probe s.TT key).flag = TT_EXACT := by
      rw [hf]; decide
    rw [hnode, minimax_node_eq, tt_lookup_hit _ _ _ _ _ hk hd, if_neg hf1, if_pos hf]
    split_ifs <;> rfl
  · have hf1 : ¬ (tt_probe s.TT key).flag = TT_EXACT := by
      rw [hf]; decide
    have hf2 : ¬ (tt_probe s.TT key).flag = TT_LOWER := by
      rw [hf]; decide
    rw [hnode, minimax_node_eq, tt_lookup_hit _ _ _ _ _ hk hd, if_neg hf1, if_neg hf2, if_pos hf]
    split_ifs <;> rfl
  · rw [hnode, minimax_node_eq,
      tt_lookup_miss _ _ _ _ _ (fun h => absurd h.2 (by omega)), if_pos hk]


/-! ## Move ordering: stability and priority tiers (C27, C28) -/

/-- Insertion puts the key behind the moves of its own score: among the moves of any one
score the key comes first in the reversed array. -/
theorem insert_rev_filter (score : Move → Int) (key : Move) (v : Int) (l : List Move) :
    (insert_rev score key (score key) l).filter (fun m => decide (score m = v)) =
      (if score key = v then [key] else []) ++ l.filter (fun m => decide (score m = v)) := by
  induction l with
  | nil =>
    unfold insert_rev
    by_cases hk : score key = v
    · simp [hk]
    · simp [hk]
  | cons x rest ih =>
    unfold insert_rev
    by_cases hx : score x ≥ score key
    · rw [if_pos hx]
      by_cases hk : score key = v
      · simp [hk]
      · simp [hk]
    · rw [if_neg hx, List.filter_cons, ih]
      by_cases hk : score key = v
      · have hxv : ¬ score x = v := by omega
        simp [hk, hxv]
      · simp [hk, List.filter_cons]

theorem insert_desc_filter (score : Move → Int) (key : Move) (v : Int) (pre : List Move) :
    (insert_desc score key pre).filter (fun m => decide (score m = v)) =
      pre.filter (fun m => decide (score m = v)) ++ (if score key = v then [key] else []) := by
  unfold insert_desc
  rw [List.filter_reverse, insert_rev_filter, List.reverse_append, List.filter_reverse,
    List.reverse_reverse]
  by_cases hk : score key = v
  · simp [hk]
  · simp [hk]

theorem sort_desc_fold_filter (score : Move → Int) (v : Int) (l : List Move) :
    ∀ pre : List Move,
      (l.foldl (fun pre x => insert_desc score x pre) pre).filter
          (fun m => decide (score m = v)) =
        pre.filter (fun m => decide (score m = v)) ++
          l.filter (fun m => decide (score m = v)) := by
  induction l with
  | nil => intro pre; simp
  | cons x l ih =>
    intro pre
    rw [List.foldl_cons, ih, insert_desc_filter, List.filter_cons, List.append_assoc]
    by_cases hk : score x = v
    · simp [hk]
    · simp [hk]

/-- The insertion sort is stable. -/
theorem sort_desc_stable (score : Move → Int) (l : List Move) :
    ties_keep_order score l (sort_desc score l) := by
  intro v
  unfold sort_desc
  rw [sort_desc_fold_filter]
  simp

/-- On a legal move the test of `move_score` for a push threat is the push threat of the
specification. -/
theorem push_threat_iff (b : Board) (m : Move) (hp : is_piece (b.pion m.r1 m.c1)) :
    push_threat b m ↔
      (in_bounds (m.r2 + (unit_dir m.r1 m.c1 m.r2 m.c2).1)
          (m.c2 + (unit_dir m.r1 m.c1 m.r2 m.c2).2) &&
        enemy (b.pion (m.r2 + (unit_dir m.r1 m.c1 m.r2 m.c2).1)
          (m.c2 + (unit_dir m.r1 m.c1 m.r2 m.c2).2)) (is_blue (b.pion m.r1 m.c1))) = true := by
  unfold push_threat enemy_of enemy
  rw [Bool.and_eq_true]
  have hbr : is_blue (b.pion m.r1 m.c1) = true → is_red (b.pion m.r1 m.c1) = false := by
    unfold is_blue is_red
    simp only [SOLDAT_BLEU, ROI_BLEU, SOLDAT_ROUGE, ROI_ROUGE, Bool.or_eq_true,
      decide_eq_true_eq, Bool.or_eq_false_iff, decide_eq_false_iff_not]
    omega
  rcases hp with hb | hr
  · have hr := hbr hb
    simp only [hb, hr, if_true, true_and, Bool.false_eq_true, false_and, or_false]
  · have hb : is_blue (b.pion m.r1 m.c1) = false := by
      cases h : is_blue (b.pion m.r1 m.c1)
      · rfl
      · rw [hbr h] at hr
        exact absurd hr (by decide)
    simp only [hb, hr, Bool.false_eq_true, if_false, true_and, false_and, false_or]

/-- The score of a move that is not the table move: at least `4184` for a push threat, at
most `800` otherwise, whatever king bonus and distance penalty. -/
theorem move_score_tiers (b : Board) (blueToPlay : Bool) (m : Move)
    (h1 : in_bounds m.r1 m.c1 = true) (h2 : in_bounds m.r2 m.c2 = true)
    (hp : is_piece (b.pion m.r1 m.c1)) :
    (push_threat b m → 4184 ≤ move_score b blueToPlay m none) ∧
      (¬ push_threat b m → move_score b blueToPlay m none ≤ 800) := by
  rw [push_threat_iff b m hp]
  rw [in_bounds_iff] at h1 h2
  unfold move_score c_abs
  simp only [SIZE]
  constructor
  · intro hc
    rw [if_pos hc]
    split_ifs <;> omega
  · intro hc
    rw [if_neg hc]
    split_ifs <;> omega

theorem legal_move_piece (b : Board) (blueSide : Bool) (m : Move)
    (h : legal_move b blueSide m) : is_piece (b.pion m.r1 m.c1) := by
  have ha := h.2.2.1
  unfold ally at ha
  unfold is_piece
  cases blueSide
  · simp only [Bool.false_eq_true, if_false] at ha
    exact Or.inr ha
  · simp only [if_true] at ha
    exact Or.inl ha

/-- C27: for every board, side, table move and list of moves, `sort_moves` returns a
permutation of the list, in non-increasing order of `move_score`, in which the moves of
equal score stand in the order they had in the input. -/
theorem sort_moves_stable (b : Board) (blueToPlay : Bool) (moves : List Move)
    (ttMove : Option Move) :
    (sort_moves b blueToPlay moves moves.length ttMove).Perm moves ∧
      (sort_moves b blueToPlay moves moves.length ttMove).Pairwise
        (fun x y => move_score b blueToPlay x ttMove ≥ move_score b blueToPlay y ttMove) ∧
      ties_keep_order (fun m => move_score b blueToPlay m ttMove) moves
        (sort_moves b blueToPlay moves moves.length ttMove) := by
  refine ⟨sort_moves_perm b blueToPlay moves ttMove, sort_moves_sorted b blueToPlay moves ttMove,
    ?_⟩
  rw [sort_moves_eq]
  exact sort_desc_stable _ _

/-- C28: for every board and every list of legal moves of it, after `sort_moves` (a) the
table move, if it occurs in the list, is at index `0`, and (b) among the moves other than
the table move every push threat stands before every move that is not a push threat,
whatever their king bonus and distance penalty. -/
theorem sort_moves_tiers (b : Board) (blueToPlay : Bool) (moves : List Move)
    (ttMove : Option Move) (hlegal : ∀ m ∈ moves, legal_move b blueToPlay m) :
    (∀ t : Move, ttMove = some t → t ∈ moves →
      (sort_moves b blueToPlay moves moves.length ttMove)[0]? = some t) ∧
    (∀ (i j : Nat) (x y : Move),
      (sort_moves b blueToPlay moves moves.length ttMove)[i]? = some x →
      (sort_moves b blueToPlay moves moves.length ttMove)[j]? = some y →
      some x ≠ ttMove → some y ≠ ttMove → push_threat b x → ¬ push_threat b y → i < j) := by
  have hperm := sort_moves_perm b blueToPlay moves ttMove
  have hsorted := sort_moves_sorted b blueToPlay moves ttMove
  constructor
  · intro t ht hmem
    subst ht
    obtain ⟨rest, hrest⟩ := sort_moves_head b blueToPlay moves (some t) t hmem
      (fun m hm hne => move_score_tt_lt b blueToPlay m t (hlegal m hm) (hlegal t hmem) hne)
    rw [hrest]
    exact List.getElem?_cons_zero
  · intro i j x y hi hj hx hy htx hty
    obtain ⟨hil, hix⟩ := List.getElem?_eq_some.1 hi
    obtain ⟨hjl, hjy⟩ := List.getElem?_eq_some.1 hj
    have hxm : x ∈ moves := hperm.subset (hix ▸ List.getElem_mem _)
    have hym : y ∈ moves := hperm.subset (hjy ▸ List.getElem_mem _)
    have hxl := hlegal x hxm
    have hyl := hlegal y hym
    have sx := (move_score_tiers b blueToPlay x hxl.1 hxl.2.1
      (legal_move_piece b blueToPlay x hxl)).1 htx
    have sy := (move_score_tiers b blueToPlay y hyl.1 hyl.2.1
      (legal_move_piece b blueToPlay y hyl)).2 hty
    have hsx : move_score b blueToPlay x ttMove = move_score b blueToPlay x none := by
      cases ttMove with
      | none => rfl
      | some t =>
        rw [move_score_some, if_neg (fun h => hx (by rw [h])), Int.add_zero]
    have hsy : move_score b blueToPlay y ttMove = move_score b blueToPlay y none := by
      cases ttMove with
      | none => rfl
      | some t =>
        rw [move_score_some, if_neg (fun h => hy (by rw [h])), Int.add_zero]
    rcases Nat.lt_trichotomy i j with hlt | heq | hgt
    · exact hlt
    · exfalso
      subst heq
      rw [hix] at hjy
      rw [hjy] at htx
      exact hty htx
    · exfalso
      have hrel := List.pairwise_iff_getElem.1 hsorted j i hjl hil hgt
      rw [hix, hjy] at hrel
      omega


/-! ## Zobrist hashing is an XOR fingerprint (C29) -/

/-- The step of `zobrist_hash` XORs the constant of the code on the square into the hash. -/
theorem zobrist_hash_cell_eq (z : ZobristKeys) (b : Board) (r c : Int) (h : Nat)
    (hv : 0 ≤ b.pion r c ∧ b.pion r c ≤ 4) :
    zobrist_hash_cell z b r c h = h ^^^ zobrist_K z (b.pion r c) r c := by
  unfold zobrist_hash_cell zobrist_K piece_index
  simp only [EMPTY, SOLDAT_ROUGE, SOLDAT_BLEU, ROI_ROUGE, ROI_BLEU]
  have hcases : b.pion r c = 0 ∨ b.pion r c = 1 ∨ b.pion r c = 2 ∨ b.pion r c = 3 ∨
      b.pion r c = 4 := by omega
  rcases hcases with h0 | h0 | h0 | h0 | h0 <;> rw [h0] <;> simp

/-- The step of `zobrist_hash` commutes with an XOR on the running hash. -/
theorem zobrist_hash_cell_xor (z : ZobristKeys) (b : Board) (r c : Int) (h k : Nat) :
    zobrist_hash_cell z b r c (h ^^^ k) = zobrist_hash_cell z b r c h ^^^ k := by
  unfold zobrist_hash_cell
  simp only
  split_ifs
  · rw [Nat.xor_assoc, Nat.xor_comm k, ← Nat.xor_assoc]
  · rfl

theorem zobrist_fold_xor (z : ZobristKeys) (b : Board) (l : List (Int × Int)) :
    ∀ h k : Nat,
      l.foldl (fun h rc => zobrist_hash_cell z b rc.1 rc.2 h) (h ^^^ k) =
        l.foldl (fun h rc => zobrist_hash_cell z b rc.1 rc.2 h) h ^^^ k := by
  induction l with
  | nil => intro h k; rfl
  | cons x l ih =>
    intro h k
    rw [List.foldl_cons, List.foldl_cons, zobrist_hash_cell_xor, ih]

/-- Two boards that agree on the squares of a list hash these squares alike. -/
theorem zobrist_fold_congr (z : ZobristKeys) (b b' : Board) (l : List (Int × Int))
    (hsame : ∀ rc ∈ l, b'.pion rc.1 rc.2 = b.pion rc.1 rc.2) :
    ∀ h : Nat,
      l.foldl (fun h rc => zobrist_hash_cell z b' rc.1 rc.2 h) h =
        l.foldl (fun h rc => zobrist_hash_cell z b rc.1 rc.2 h) h := by
  induction l with
  | nil => intro h; rfl
  | cons x l ih =>
    intro h
    rw [List.foldl_cons, List.foldl_cons, ih (fun rc hrc => hsame rc (List.mem_cons_of_mem _ hrc))]
    unfold zobrist_hash_cell
    rw [hsame x (List.mem_cons_self _ _)]

/-- Changing the code of one square of a list without repetition changes the hash of the
list by the XOR of the constants of the old and of the new code. -/
theorem zobrist_fold_update (z : ZobristKeys) (b b' : Board) (r c : Int)
    (hold : 0 ≤ b.pion r c ∧ b.pion r c ≤ 4) (hnew : 0 ≤ b'.pion r c ∧ b'.pion r c ≤ 4)
    (hsame : ∀ r' c' : Int, (r' ≠ r ∨ c' ≠ c) → b'.pion r' c' = b.pion r' c')
    (l : List (Int × Int)) (hnd : l.Nodup) (hmem : (r, c) ∈ l) :
    ∀ h : Nat,
      l.foldl (fun h rc => zobrist_hash_cell z b' rc.1 rc.2 h) h =
        l.foldl (fun h rc => zobrist_hash_cell z b rc.1 rc.2 h) h ^^^
          zobrist_K z (b.pion r c) r c ^^^ zobrist_K z (b'.pion r c) r c := by
  induction l with
  | nil => exact absurd hmem (List.not_mem_nil _)
  | cons x xs ih =>
    intro h
    obtain ⟨hx, hxs⟩ := List.nodup_cons.1 hnd
    rw [List.foldl_cons, List.foldl_cons]
    by_cases hxe : x = (r, c)
    · subst hxe
      have hrest : ∀ rc ∈ xs, b'.pion rc.1 rc.2 = b.pion rc.1 rc.2 := by
        intro rc hrc
        apply hsame
        by_contra hcon
        rw [not_or, not_not, not_not] at hcon
        exact hx ((Prod.ext hcon.1 hcon.2 : rc = (r, c)) ▸ hrc)
      rw [zobrist_fold_congr z b b' xs hrest, zobrist_hash_cell_eq z b' r c h hnew,
        zobrist_hash_cell_eq z b r c h hold, zobrist_fold_xor, zobrist_fold_xor]
      rw [Nat.xor_assoc _ (zobrist_K z (b.pion r c) r c) (zobrist_K z (b.pion r c) r c),
        Nat.xor_self, Nat.xor_zero]
    · have hmem' : (r, c) ∈ xs := by
        rcases List.mem_cons.1 hmem with h1 | h1
        · exact absurd h1.symm hxe
        · exact h1
      have hxsame : b'.pion x.1 x.2 = b.pion x.1 x.2 := by
        apply hsame
        by_contra hcon
        rw [not_or, not_not, not_not] at hcon
        exact hxe (Prod.ext hcon.1 hcon.2)
      have hcell : zobrist_hash_cell z b' x.1 x.2 h = zobrist_hash_cell z b x.1 x.2 h := by
        unfold zobrist_hash_cell
        rw [hxsame]
      rw [hcell]
      exact ih hxs hmem' _

/-- The hash of the squares of the board, before the side to move is mixed in. -/
theorem zobrist_hash_eq (z : ZobristKeys) (b : Board) (blueToPlay : Bool) :
    zobrist_hash z b blueToPlay =
      if blueToPlay then
        cells.foldl (fun h rc => zobrist_hash_cell z b rc.1 rc.2 h) 0 ^^^ z.Z_SIDE
      else cells.foldl (fun h rc => zobrist_hash_cell z b rc.1 rc.2 h) 0 := by
  unfold zobrist_hash
  rw [scan_eq_foldl_cells (fun r c h => zobrist_hash_cell z b r c h)]

theorem zobrist_fold_empty (z : ZobristKeys) (l : List (Int × Int)) (h : Nat) :
    l.foldl (fun h rc => zobrist_hash_cell z board_zero rc.1 rc.2 h) h = h := by
  induction l with
  | nil => rfl
  | cons x l ih =>
    rw [List.foldl_cons]
    have hcell : zobrist_hash_cell z board_zero x.1 x.2 h = h := by
      unfold zobrist_hash_cell board_zero piece_index
      simp
    rw [hcell, ih]

/-- C29: for every board `b`, side `s`, square `(r,c)` of the board and piece codes `p`, `q`
in `0..4`, a board `b'` that equals `b` except that `(r,c)` holds `q` where `b` holds `p`
has `zobrist_hash(b',s) = zobrist_hash(b,s) xor K(p,r,c) xor K(q,r,c)`, where `K(x,r,c)` is
`Zobrist[x][r][c]` for a piece and `0` for the empty code; the hash with blue to play is the
hash with red to play xor `Z_SIDE`; the empty board with red to play hashes to `0`. -/
theorem zobrist_hash_fingerprint (z : ZobristKeys) (b b' : Board) (s : Bool) (r c p q : Int)
    (hin : in_bounds r c = true) (hp : 0 ≤ p ∧ p ≤ 4) (hq : 0 ≤ q ∧ q ≤ 4)
    (hb : b.pion r c = p) (hb' : b'.pion r c = q)
    (hsame : ∀ r' c' : Int, (r' ≠ r ∨ c' ≠ c) → b'.pion r' c' = b.pion r' c') :
    zobrist_hash z b' s = zobrist_hash z b s ^^^ zobrist_K z p r c ^^^ zobrist_K z q r c ∧
      zobrist_hash z b true = zobrist_hash z b false ^^^ z.Z_SIDE ∧
      zobrist_hash z board_zero false = 0 := by
  have hmem : (r, c) ∈ cells := by
    rw [in_bounds_iff] at hin
    exact (mem_cells r c).2 ⟨⟨hin.1, hin.2.1⟩, hin.2.2.1, hin.2.2.2⟩
  have hupd := zobrist_fold_update z b b' r c (by rw [hb]; exact hp) (by rw [hb']; exact hq)
    hsame cells cells_nodup hmem 0
  rw [hb, hb'] at hupd
  refine ⟨?_, ?_, ?_⟩
  · rw [zobrist_hash_eq, zobrist_hash_eq, hupd]
    cases s
    · simp only [Bool.false_eq_true, if_false]
    · simp only [if_true]
      rw [Nat.xor_assoc _ _ z.Z_SIDE, Nat.xor_comm _ z.Z_SIDE, ← Nat.xor_assoc,
        Nat.xor_assoc _ _ z.Z_SIDE, Nat.xor_comm _ z.Z_SIDE, ← Nat.xor_assoc]
  · rw [zobrist_hash_eq, zobrist_hash_eq]
    simp only [if_true, Bool.false_eq_true, if_false]
  · rw [zobrist_hash_eq]
    simp only [Bool.false_eq_true, if_false]
    exact zobrist_fold_empty z cells 0


/-! ## The formula of the static evaluation (C30) -/

/-- The first loop of `evaluate` over a list of squares: 12 for a soldier, 300 for a king,
counted for blue and against red. -/
theorem evaluate_material_fold (b : Board) (l : List (Int × Int)) (s0 : Int) :
    l.foldl (fun s rc => evaluate_material (b.pion rc.1 rc.2) s) s0 =
      s0 + 12 * ((l.filter (fun rc => decide (b.pion rc.1 rc.2 = SOLDAT_BLEU))).length : Int) +
        300 * ((l.filter (fun rc => decide (b.pion rc.1 rc.2 = ROI_BLEU))).length : Int) -
        12 * ((l.filter (fun rc => decide (b.pion rc.1 rc.2 = SOLDAT_ROUGE))).length : Int) -
        300 * ((l.filter (fun rc => decide (b.pion rc.1 rc.2 = ROI_ROUGE))).length : Int) := by
  induction l generalizing s0 with
  | nil =>
    simp only [List.foldl_nil, List.filter_nil, List.length_nil]
    omega
  | cons x l ih =>
    rw [List.foldl_cons, ih]
    unfold evaluate_material
    simp only [SOLDAT_BLEU, ROI_BLEU, SOLDAT_ROUGE, ROI_ROUGE, List.filter_cons]
    by_cases h2 : b.pion x.1 x.2 = 2
    · simp [h2]; omega
    · by_cases h4 : b.pion x.1 x.2 = 4
      · simp [h4]; omega
      · by_cases h1 : b.pion x.1 x.2 = 1
        · simp [h1]; omega
        · by_cases h3 : b.pion x.1 x.2 = 3
          · simp [h3]; omega
          · simp [h1, h2, h3, h4]

/-- A code that one square of the board holds and that is counted once is on no other
square of the board. -/
theorem count_one_unique (pion : Int → Int → Int) (p r c : Int) (hcount : count_code pion p = 1)
    (hin : in_bounds r c = true) (hp : pion r c = p) :
    ∀ rc ∈ cells, pion rc.1 rc.2 = p → rc = (r, c) := by
  have hmem : (r, c) ∈ cells := by
    rw [in_bounds_iff] at hin
    exact (mem_cells r c).2 ⟨⟨hin.1, hin.2.1⟩, hin.2.2.1, hin.2.2.2⟩
  unfold count_code at hcount
  have hlen : (cells.filter (fun rc => decide (pion rc.1 rc.2 = p))).length = 1 := by
    exact_mod_cast hcount
  obtain ⟨a, ha⟩ := List.length_eq_one.1 hlen
  have hmemf : ∀ rc : Int × Int, rc ∈ cells → pion rc.1 rc.2 = p → rc = a := by
    intro rc hrc hrcp
    have : rc ∈ cells.filter (fun rc => decide (pion rc.1 rc.2 = p)) :=
      List.mem_filter.2 ⟨hrc, decide_eq_true hrcp⟩
    rw [ha] at this
    exact List.mem_singleton.1 this
  intro rc hrc hrcp
  rw [hmemf rc hrc hrcp, hmemf (r, c) hmem hp]

/-- The second loop of `evaluate` over a list of squares, on a board with one king of each
colour: the distance of a king is recorded when its square has been visited. -/
theorem evaluate_king_dist_fold (b : Board) (rb cb rr cr : Int)
    (hkb : b.pion rb cb = ROI_BLEU) (hkr : b.pion rr cr = ROI_ROUGE)
    (hdb : dist_blue rb cb < 100) (hdr : dist_red rr cr < 100)
    (l : List (Int × Int))
    (hub : ∀ rc ∈ l, b.pion rc.1 rc.2 = ROI_BLEU → rc = (rb, cb))
    (hur : ∀ rc ∈ l, b.pion rc.1 rc.2 = ROI_ROUGE → rc = (rr, cr)) :
    ∀ best : Int × Int, (best.1 = 100 ∨ best.1 = dist_blue rb cb) →
      (best.2 = 100 ∨ best.2 = dist_red rr cr) →
      (l.foldl (fun s rc => evaluate_king_dist b rc.1 rc.2 s) best).1 =
          (if (rb, cb) ∈ l then dist_blue rb cb else best.1) ∧
        (l.foldl (fun s rc => evaluate_king_dist b rc.1 rc.2 s) best).2 =
          (if (rr, cr) ∈ l then dist_red rr cr else best.2) := by
  induction l with
  | nil => intro best _ _; exact ⟨rfl, rfl⟩
  | cons x xs ih =>
    intro best h1 h2
    have ih' := ih (fun rc hrc => hub rc (List.mem_cons_of_mem _ hrc))
      (fun rc hrc => hur rc (List.mem_cons_of_mem _ hrc))
    rw [List.foldl_cons]
    unfold dist_blue at hdb h1 ih' ⊢
    unfold dist_red at hdr h2 ih' ⊢
    by_cases hxb : b.pion x.1 x.2 = ROI_BLEU
    · have hx := hub x (List.mem_cons_self _ _) hxb
      have hxr : ¬ (rr, cr) = x := by
        intro h
        rw [← h] at hxb
        simp only at hxb
        rw [hkr] at hxb
        exact absurd hxb (by decide)
      have hstep : evaluate_king_dist b x.1 x.2 best = ((8 - rb) + (8 - cb), best.2) := by
        unfold evaluate_king_dist
        rw [if_pos hxb, hx]
        simp only [SIZE]
        rcases h1 with h1 | h1
        · rw [if_pos (by omega)]
          exact Prod.ext (by simp only; omega) rfl
        · split_ifs <;> exact Prod.ext (by simp only; omega) rfl
      rw [hstep]
      obtain ⟨i1, i2⟩ := ih' ((8 - rb) + (8 - cb), best.2) (Or.inr rfl) h2
      rw [i1, i2]
      rw [hx] at hxr
      simp only [List.mem_cons, hx, true_or, if_true, hxr, false_or, ite_self, and_self]
    · by_cases hxr : b.pion x.1 x.2 = ROI_ROUGE
      · have hx := hur x (List.mem_cons_self _ _) hxr
        have hxb' : ¬ (rb, cb) = x := by
          intro h
          rw [← h] at hxb
          exact hxb hkb
        have hstep : evaluate_king_dist b x.1 x.2 best = (best.1, rr + cr) := by
          unfold evaluate_king_dist
          rw [if_neg hxb, if_pos hxr, hx]
          simp only
          rcases h2 with h2 | h2
          · rw [if_pos (by omega)]
          · split_ifs
            · rfl
            · exact Prod.ext rfl (by simp only; omega)
        rw [hstep]
        obtain ⟨i1, i2⟩ := ih' (best.1, rr + cr) h1 (Or.inr rfl)
        rw [i1, i2]
        rw [hx] at hxb'
        simp only [List.mem_cons, hx, true_or, if_true, hxb', false_or, ite_self, and_self]
      · have hxb' : ¬ (rb, cb) = x := by
          intro h
          rw [← h] at hxb
          exact hxb hkb
        have hxr' : ¬ (rr, cr) = x := by
          intro h
          rw [← h] at hxr
          exact hxr hkr
        have hstep : evaluate_king_dist b x.1 x.2 best = best := by
          unfold evaluate_king_dist
          rw [if_neg hxb, if_neg hxr]
        rw [hstep]
        obtain ⟨i1, i2⟩ := ih' best h1 h2
        rw [i1, i2]
        simp only [List.mem_cons, hxb', hxr', false_or, and_self]

/-- The absolute value of the C library is the absolute value. -/
theorem c_abs_eq (x : Int) : c_abs x = |x| := by
  unfold c_abs
  split_ifs with h
  · exact (abs_of_neg h).symm
  · exact (abs_of_nonneg (by omega)).symm

/-- The last loop of `evaluate` over a list of squares without repetition, on a board with
one king of each colour: the centrality of a king is counted when its square has been
visited. -/
theorem evaluate_centrality_fold (b : Board) (rb cb rr cr : Int)
    (hkb : b.pion rb cb = ROI_BLEU) (hkr : b.pion rr cr = ROI_ROUGE)
    (l : List (Int × Int)) (hnd : l.Nodup)
    (hub : ∀ rc ∈ l, b.pion rc.1 rc.2 = ROI_BLEU → rc = (rb, cb))
    (hur : ∀ rc ∈ l, b.pion rc.1 rc.2 = ROI_ROUGE → rc = (rr, cr)) :
    ∀ s : Int,
      l.foldl (fun s rc => evaluate_centrality b rc.1 rc.2 s) s =
        s + (if (rb, cb) ∈ l then centrality rb cb else 0) -
          (if (rr, cr) ∈ l then centrality rr cr else 0) := by
  induction l with
  | nil => intro s; simp
  | cons x xs ih =>
    intro s
    obtain ⟨hx, hxs⟩ := List.nodup_cons.1 hnd
    have ih' := ih hxs (fun rc hrc => hub rc (List.mem_cons_of_mem _ hrc))
      (fun rc hrc => hur rc (List.mem_cons_of_mem _ hrc))
    rw [List.foldl_cons, ih']
    unfold evaluate_centrality centrality
    rw [c_abs_eq, c_abs_eq]
    by_cases hxb : b.pion x.1 x.2 = ROI_BLEU
    · have hxe := hub x (List.mem_cons_self _ _) hxb
      have hxr : ¬ (rr, cr) = x := by
        intro h
        rw [← h] at hxb
        simp only at hxb
        rw [hkr] at hxb
        exact absurd hxb (by decide)
      rw [hxe] at hx hxr
      rw [if_pos hxb, hxe]
      simp only [List.mem_cons, true_or, if_true, hx, if_false, hxr, false_or]
      omega
    · by_cases hxr : b.pion x.1 x.2 = ROI_ROUGE
      · have hxe := hur x (List.mem_cons_self _ _) hxr
        have hxb' : ¬ (rb, cb) = x := by
          intro h
          rw [← h] at hxb
          exact hxb hkb
        rw [hxe] at hx hxb'
        rw [if_neg hxb, if_pos hxr, hxe]
        simp only [List.mem_cons, true_or, if_true, hx, if_false, hxb', false_or]
        omega
      · have hxb' : ¬ (rb, cb) = x := by
          intro h
          rw [← h] at hxb
          exact hxb hkb
        have hxr' : ¬ (rr, cr) = x := by
          intro h
          rw [← h] at hxr
          exact hxr hkr
        rw [if_neg hxb, if_neg hxr]
        simp only [List.mem_cons, hxb', hxr', false_or]

/-- C30: for every board with exactly one king per side, the blue king on `(rb,cb)` and the
red king on `(rr,cr)`, `evaluate(b) = 12 * (blue soldiers - red soldiers) + (Dred - Dblue) +
(mobility(blue) - mobility(red)) + (Cblue - Cred)` with `Dblue = (8 - rb) + (8 - cb)`,
`Dred = rr + cr`, the mobility of a side the number of moves `generate_moves` produces for
it, and `C = (4 - |r - 4|) + (4 - |c - 4|)` on the square of the king. -/
theorem evaluate_formula (b : Board) (rb cb rr cr : Int)
    (hinb : in_bounds rb cb = true) (hinr : in_bounds rr cr = true)
    (hkb : b.pion rb cb = ROI_BLEU) (hkr : b.pion rr cr = ROI_ROUGE)
    (h1b : count_code b.pion ROI_BLEU = 1) (h1r : count_code b.pion ROI_ROUGE = 1) :
    evaluate b =
      12 * (count_code b.pion SOLDAT_BLEU - count_code b.pion SOLDAT_ROUGE) +
        (dist_red rr cr - dist_blue rb cb) +
        (((generate_moves b true MAX_MOVES).length : Int) -
          ((generate_moves b false MAX_MOVES).length : Int)) +
        (centrality rb cb - centrality rr cr) := by
  have hmb : (rb, cb) ∈ cells := by
    rw [in_bounds_iff] at hinb
    exact (mem_cells rb cb).2 ⟨⟨hinb.1, hinb.2.1⟩, hinb.2.2.1, hinb.2.2.2⟩
  have hmr : (rr, cr) ∈ cells := by
    rw [in_bounds_iff] at hinr
    exact (mem_cells rr cr).2 ⟨⟨hinr.1, hinr.2.1⟩, hinr.2.2.1, hinr.2.2.2⟩
  have hub := count_one_unique b.pion ROI_BLEU rb cb h1b hinb hkb
  have hur := count_one_unique b.pion ROI_ROUGE rr cr h1r hinr hkr
  have hdb : dist_blue rb cb < 100 := by
    rw [in_bounds_iff] at hinb
    unfold dist_blue
    omega
  have hdr : dist_red rr cr < 100 := by
    rw [in_bounds_iff] at hinr
    unfold dist_red
    omega
  have hM := evaluate_material_fold b cells 0
  obtain ⟨hK1, hK2⟩ := evaluate_king_dist_fold b rb cb rr cr hkb hkr hdb hdr cells hub hur
    ((100 : Int), (100 : Int)) (Or.inl rfl) (Or.inl rfl)
  have hC := evaluate_centrality_fold b rb cb rr cr hkb hkr cells cells_nodup hub hur
  rw [if_pos hmb] at hK1
  rw [if_pos hmr] at hK2
  simp only [hmb, hmr, if_true] at hC
  unfold count_code at h1b h1r ⊢
  rw [h1b, h1r] at hM
  unfold evaluate mobility
  simp only
  rw [scan_eq_foldl_cells (fun r c s => evaluate_material (b.pion r c) s),
    scan_eq_foldl_cells (fun r c s => evaluate_king_dist b r c s),
    scan_eq_foldl_cells (fun r c s => evaluate_centrality b r c s), hC, hK1, hK2, hM,
    if_pos hdb, if_pos hdr]
  omega


/-! ## The centrality bonus of a king (C31) -/

theorem king_bonus_eq (r c : Int) : king_bonus r c = 8 - manhattan r c := by
  unfold king_bonus manhattan
  rw [c_abs_eq, c_abs_eq]
  omega

theorem evaluate_centrality_king (b : Board) (r c s : Int) :
    (b.pion r c = ROI_BLEU → evaluate_centrality b r c s = s + king_bonus r c) ∧
      (b.pion r c = ROI_ROUGE → evaluate_centrality b r c s = s - king_bonus r c) := by
  unfold evaluate_centrality king_bonus
  constructor
  · intro h
    rw [if_pos h]
  · intro h
    have h' : ¬ b.pion r c = ROI_BLEU := by rw [h]; decide
    rw [if_neg h', if_pos h]

/-- C31 as stated fails: a king on the corner `(0,0)` gets the bonus `0`, which is not
strictly positive, and the squares `(0,0)` and `(0,4)` have the same Chebyshev distance `4`
from the centre but the bonuses `0` and `4`. -/
theorem king_centrality_counterexample :
    (board_zero.set 0 0 ROI_BLEU).pion 0 0 = ROI_BLEU ∧
      evaluate_centrality (board_zero.set 0 0 ROI_BLEU) 0 0 0 = 0 + 0 ∧
      chebyshev 0 0 = chebyshev 0 4 ∧ king_bonus 0 0 = 0 ∧ king_bonus 0 4 = 4 := by
  refine ⟨by decide, by decide, ?_, by decide, by decide⟩
  unfold chebyshev
  norm_num

/-- C31, amended: the term that the last loop of `evaluate` adds for a blue king on a square
`(r,c)` of the board, and subtracts for a red king, is `8` minus the Manhattan distance
`|r-4| + |c-4|` of the square from the centre `(4,4)`: it is not negative, it is `0` exactly
on the four corners, two squares at the same Manhattan distance get the same bonus, and a
square further from the centre in that distance gets a smaller one. -/
theorem king_centrality_bonus (b : Board) (r c s : Int) (hin : in_bounds r c = true) :
    (b.pion r c = ROI_BLEU → evaluate_centrality b r c s = s + king_bonus r c) ∧
      (b.pion r c = ROI_ROUGE → evaluate_centrality b r c s = s - king_bonus r c) ∧
      king_bonus r c = 8 - manhattan r c ∧ 0 ≤ king_bonus r c ∧
      (king_bonus r c = 0 ↔ (r = 0 ∨ r = 8) ∧ (c = 0 ∨ c = 8)) ∧
      (∀ r' c' : Int, manhattan r c = manhattan r' c' → king_bonus r c = king_bonus r' c') ∧
      (∀ r' c' : Int, manhattan r c < manhattan r' c' → king_bonus r' c' < king_bonus r c) := by
  have hk := evaluate_centrality_king b r c s
  refine ⟨hk.1, hk.2, king_bonus_eq r c, ?_, ?_, ?_, ?_⟩
  · rw [in_bounds_iff] at hin
    unfold king_bonus c_abs
    split_ifs <;> omega
  · rw [in_bounds_iff] at hin
    unfold king_bonus c_abs
    split_ifs <;> omega
  · intro r' c' h
    rw [king_bonus_eq, king_bonus_eq, h]
  · intro r' c' h
    rw [king_bonus_eq, king_bonus_eq]
    omega

/-! ## The hint entry of `search_best_move` (C32) -/

theorem search_best_move_seed (g : Engine) (b : Board) (blueToPlay : Bool) :
    (search_best_move g b blueToPlay).1 =
      ((List.range' 1 MAX_DEPTH).foldl
        (search_iteration g.keys blueToPlay (zobrist_hash g.keys b blueToPlay))
        (⟨-1, -1, -1, -1⟩, search_seed_table g b blueToPlay, b)).1 := rfl

theorem search_seed_table_eq (g : Engine) (b : Board) (blueToPlay : Bool) :
    search_seed_table g b blueToPlay =
      if (if blueToPlay then g.g_last_best_move_blue else g.g_last_best_move_red).r1 ≥ 0 then
        tt_store g.TT (zobrist_hash g.keys b blueToPlay) 0 0 TT_EXACT
          (if blueToPlay then g.g_last_best_move_blue else g.g_last_best_move_red)
      else g.TT := rfl

/-- C32, what the code does instead: on the first call after initialisation, for either side
and any board, the remembered move is the zeroed move `{0,0,0,0}`, whose `r1 >= 0`, so
`search_best_move` enters its first iteration with the table in which the slot of the root
key holds the entry `{key, 0, 0, TT_EXACT, {0,0,0,0}}`; that table is not the zeroed table
of the initialisation. -/
theorem search_seed_first_call (b : Board) (blueToPlay : Bool) :
    search_seed_table (ia_init_once none) b blueToPlay =
        tt_store tt_zero (zobrist_hash zobrist_init b blueToPlay) 0 0 TT_EXACT ⟨0, 0, 0, 0⟩ ∧
      tt_probe (search_seed_table (ia_init_once none) b blueToPlay)
          (zobrist_hash zobrist_init b blueToPlay) =
        ⟨zobrist_hash zobrist_init b blueToPlay, 0, 0, TT_EXACT, ⟨0, 0, 0, 0⟩⟩ ∧
      search_seed_table (ia_init_once none) b blueToPlay ≠ tt_zero ∧
      (search_best_move (ia_init_once none) b blueToPlay).1 =
        ((List.range' 1 MAX_DEPTH).foldl
          (search_iteration zobrist_init blueToPlay (zobrist_hash zobrist_init b blueToPlay))
          (⟨-1, -1, -1, -1⟩,
            tt_store tt_zero (zobrist_hash zobrist_init b blueToPlay) 0 0 TT_EXACT ⟨0, 0, 0, 0⟩,
            b)).1 := by
  have hseed : search_seed_table (ia_init_once none) b blueToPlay =
      tt_store tt_zero (zobrist_hash zobrist_init b blueToPlay) 0 0 TT_EXACT ⟨0, 0, 0, 0⟩ := by
    rw [search_seed_table_eq]
    cases blueToPlay <;> rfl
  have hp := tt_store_probe tt_zero (zobrist_hash zobrist_init b blueToPlay) 0 0 TT_EXACT
    ⟨0, 0, 0, 0⟩ (Or.inl rfl)
  have hentry : tt_probe (search_seed_table (ia_init_once none) b blueToPlay)
      (zobrist_hash zobrist_init b blueToPlay) =
      ⟨zobrist_hash zobrist_init b blueToPlay, 0, 0, TT_EXACT, ⟨0, 0, 0, 0⟩⟩ := by
    rw [hseed, hp]
    rfl
  refine ⟨hseed, hentry, ?_, ?_⟩
  · intro h
    rw [h] at hentry
    have hflag : (0 : Nat) = TT_EXACT := congrArg TTEntry.flag hentry
    exact absurd hflag (by decide)
  · rw [search_best_move_seed, hseed]
    rfl

/-! ## A decided board at the root (C35) -/

theorem check_winner_values (b : Board) :
    check_winner b = 1 ∨ check_winner b = -1 ∨ check_winner b = 0 := by
  unfold check_winner
  simp only
  split_ifs <;> simp

theorem search_decided_fold (z : ZobristKeys) (b : Board) (blueToPlay : Bool) (key : Nat)
    (hw : check_winner b ≠ 0) (l : List Nat) :
    ∀ (best : Move) (tt : Table),
      l.foldl (search_iteration z blueToPlay key) (best, tt, b) = (best, tt, b) := by
  have hw' : check_winner b = 1 ∨ check_winner b = -1 := by
    rcases check_winner_values b with h | h | h
    · exact Or.inl h
    · exact Or.inr h
    · exact absurd h hw
  induction l with
  | nil => intro best tt; rfl
  | cons d l ih =>
    intro best tt
    rw [List.foldl_cons]
    have hstep : search_iteration z blueToPlay key (best, tt, b) d = (best, tt, b) := by
      unfold search_iteration
      simp only
      rcases hw' with h | h
      · rw [(minimax_terminal z d b (-INF_SCORE) INF_SCORE blueToPlay key ⟨tt, some best⟩).1 h]
        simp
      · rw [(minimax_terminal z d b (-INF_SCORE) INF_SCORE blueToPlay key ⟨tt, some best⟩).2 h]
        simp
    rw [hstep]
    exact ih best tt

/-- C35: for every board with `check_winner` different from `0`, whatever moves the side to
move has, `search_best_move` returns the sentinel move `(-1,-1,-1,-1)`, records it as the
remembered move of that side and leaves the remembered move of the other side as it was;
the iterations leave the table as it was after the hint. -/
theorem search_best_move_decided (g : Engine) (b : Board) (blueToPlay : Bool)
    (hw : check_winner b ≠ 0) :
    (search_best_move g b blueToPlay).1 = ⟨-1, -1, -1, -1⟩ ∧
      (if blueToPlay then
        (search_best_move g b blueToPlay).2.g_last_best_move_blue = ⟨-1, -1, -1, -1⟩ ∧
          (search_best_move g b blueToPlay).2.g_last_best_move_red = g.g_last_best_move_red
      else
        (search_best_move g b blueToPlay).2.g_last_best_move_red = ⟨-1, -1, -1, -1⟩ ∧
          (search_best_move g b blueToPlay).2.g_last_best_move_blue =
            g.g_last_best_move_blue) ∧
      (search_best_move g b blueToPlay).2.TT = search_seed_table g b blueToPlay := by
  have hfold := search_decided_fold g.keys b blueToPlay (zobrist_hash g.keys b blueToPlay) hw
    (List.range' 1 MAX_DEPTH) ⟨-1, -1, -1, -1⟩ (search_seed_table g b blueToPlay)
  have hsb : search_best_move g b blueToPlay =
      (((List.range' 1 MAX_DEPTH).foldl
          (search_iteration g.keys blueToPlay (zobrist_hash g.keys b blueToPlay))
          (⟨-1, -1, -1, -1⟩, search_seed_table g b blueToPlay, b)).1,
        if blueToPlay then
          { g with
            TT := ((List.range' 1 MAX_DEPTH).foldl
              (search_iteration g.keys blueToPlay (zobrist_hash g.keys b blueToPlay))
              (⟨-1, -1, -1, -1⟩, search_seed_table g b blueToPlay, b)).2.1,
            g_last_best_move_blue := ((List.range' 1 MAX_DEPTH).foldl
              (search_iteration g.keys blueToPlay (zobrist_hash g.keys b blueToPlay))
              (⟨-1, -1, -1, -1⟩, search_seed_table g b blueToPlay, b)).1 }
        else
          { g with
            TT := ((List.range' 1 MAX_DEPTH).foldl
              (search_iteration g.keys blueToPlay (zobrist_hash g.keys b blueToPlay))
              (⟨-1, -1, -1, -1⟩, search_seed_table g b blueToPlay, b)).2.1,
            g_last_best_move_red := ((List.range' 1 MAX_DEPTH).foldl
              (search_iteration g.keys blueToPlay (zobrist_hash g.keys b blueToPlay))
              (⟨-1, -1, -1, -1⟩, search_seed_table g b blueToPlay, b)).1 }) := rfl
  rw [hsb, hfold]
  cases blueToPlay
  · exact ⟨rfl, ⟨rfl, rfl⟩, rfl⟩
  · exact ⟨rfl, ⟨rfl, rfl⟩, rfl⟩


/-! ## The move buffer is large enough (C33) -/

/-- The slot of a legal move lies among the empty squares, each taken with the four travel
directions. -/
theorem move_slot_mem_empty (b : Board) (blueSide : Bool) (m : Move)
    (hm : legal_move b blueSide m) :
    move_slot m ∈ List.product (cells.filter (fun rc => decide (b.pion rc.1 rc.2 = EMPTY)))
      [((-1 : Int), (0 : Int)), (1, 0), (0, -1), (0, 1)] := by
  have hs := move_slot_mem b blueSide m hm
  have hdst := hm.2.2.2.2.2.1
  have hin := hm.2.1
  unfold slots at hs
  unfold move_slot at hs ⊢
  rw [List.pair_mem_product] at hs ⊢
  refine ⟨List.mem_filter.2 ⟨hs.1, decide_eq_true hdst⟩, hs.2⟩

theorem all_moves_length_le_empty (b : Board) (blueSide : Bool) :
    ((all_moves b blueSide).length : Int) ≤ 4 * count_code b.pion EMPTY := by
  have hnd : ((all_moves b blueSide).map move_slot).Nodup := by
    refine List.Nodup.map_on ?_ (all_moves_nodup b blueSide)
    intro x hx y hy h
    exact move_slot_inj b blueSide x y (legal_of_mem_all_moves _ _ _ hx)
      (legal_of_mem_all_moves _ _ _ hy) h
  have hsub : (all_moves b blueSide).map move_slot ⊆
      List.product (cells.filter (fun rc => decide (b.pion rc.1 rc.2 = EMPTY)))
        [((-1 : Int), (0 : Int)), (1, 0), (0, -1), (0, 1)] := by
    intro s hs
    obtain ⟨m, hm, rfl⟩ := List.mem_map.1 hs
    exact move_slot_mem_empty b blueSide m (legal_of_mem_all_moves _ _ _ hm)
  have hle := (List.subperm_of_subset hnd hsub).length_le
  have hprod := List.length_product (cells.filter (fun rc => decide (b.pion rc.1 rc.2 = EMPTY)))
    [((-1 : Int), (0 : Int)), (1, 0), (0, -1), (0, 1)]
  rw [List.length_map] at hle
  unfold count_code
  simp only [List.length_cons, List.length_nil] at hprod
  have hle' : (all_moves b blueSide).length ≤
      (cells.filter (fun rc => decide (b.pion rc.1 rc.2 = EMPTY))).length * 4 := by
    calc (all_moves b blueSide).length ≤ _ := hle
      _ = _ := hprod
  omega

theorem all_moves_length_le_320 (b : Board) (blueSide : Bool) :
    (all_moves b blueSide).length ≤ 320 := by
  have h4 := all_moves_length_le_empty b blueSide
  unfold count_code at h4
  by_cases hnil : all_moves b blueSide = []
  · rw [hnil]
    exact Nat.zero_le _
  · obtain ⟨m, hm⟩ := List.exists_mem_of_ne_nil _ hnil
    have hl := legal_of_mem_all_moves b blueSide m hm
    have hsrc : (m.r1, m.c1) ∈ cells := by
      have hin := hl.1
      rw [in_bounds_iff] at hin
      exact (mem_cells _ _).2 ⟨⟨hin.1, hin.2.1⟩, hin.2.2.1, hin.2.2.2⟩
    have hne := ally_ne_empty _ _ hl.2.2.1
    have hlt : (cells.filter (fun rc => decide (b.pion rc.1 rc.2 = EMPTY))).length <
        cells.length :=
      List.length_filter_lt_length_iff_exists.2 ⟨(m.r1, m.c1), hsrc, by
        simp only [decide_eq_true_eq]
        exact hne⟩
    rw [cells_length] at hlt
    omega

/-- C33: for every board and side, `generate_moves` with the capacity `MAX_MOVES` produces
at most four moves per empty square of the board, hence at most `320`, which is below
`MAX_MOVES = 512`: no move is dropped, the list holds exactly the legal moves, each once,
so that its length, the value returned, is the number of legal moves, and a call with any
capacity produces the first moves of this list. -/
theorem generate_moves_no_overflow (b : Board) (blueSide : Bool) :
    ((generate_moves b blueSide MAX_MOVES).length : Int) ≤ 4 * count_code b.pion EMPTY ∧
      (generate_moves b blueSide MAX_MOVES).length ≤ 320 ∧
      (generate_moves b blueSide MAX_MOVES).length < MAX_MOVES ∧
      (∀ m : Move, m ∈ generate_moves b blueSide MAX_MOVES ↔ legal_move b blueSide m) ∧
      (generate_moves b blueSide MAX_MOVES).Nodup ∧
      (∀ maxOut : Nat, generate_moves b blueSide maxOut =
        (generate_moves b blueSide MAX_MOVES).take maxOut) := by
  have h320 := all_moves_length_le_320 b blueSide
  rw [generate_moves_eq_all]
  refine ⟨all_moves_length_le_empty b blueSide, h320, ?_, ?_, all_moves_nodup b blueSide, ?_⟩
  · simp only [MAX_MOVES]
    omega
  · intro m
    exact mem_all_moves_iff_legal b blueSide m
  · intro maxOut
    exact generate_moves_eq_take b blueSide maxOut


/-! ## The bound types that `minimax` stores (C34) -/

theorem no_new_exact_refl (tt : Table) : no_new_exact tt tt := fun _ _ => rfl

theorem no_new_exact_trans (t1 t2 t3 : Table) (h12 : no_new_exact t1 t2)
    (h23 : no_new_exact t2 t3) : no_new_exact t1 t3 := by
  intro i hi
  have h := h23 i hi
  rw [h] at hi ⊢
  exact h12 i hi

theorem tt_store_no_new_exact (tt : Table) (key : Nat) (depth value : Int) (flag : Nat)
    (best : Move) (hf : flag = TT_UPPER ∨ flag = TT_LOWER) :
    no_new_exact tt (tt_store tt key depth value flag best) := by
  intro i hi
  rw [tt_store_eq] at hi ⊢
  split at hi
  · rename_i hc
    rw [if_pos hc]
    by_cases hslot : i = key &&& TT_MASK
    · exfalso
      simp only [hslot, if_true] at hi
      rcases hf with rfl | rfl
      · exact absurd hi (by decide)
      · exact absurd hi (by decide)
    · simp only [hslot, if_false]
  · rename_i hc
    rw [if_neg hc]

/-- The node when a move exists, with the state of its loop spelled out: the value
returned is the best value of the loop, and the table is the table of the loop after one
`tt_store` whose bound type is `TT_UPPER` at a blue node and, at a red node, `TT_UPPER` when
the value is at most `alpha` and `TT_LOWER` otherwise. -/
theorem minimax_moves_store_loop
    (child : Board → Int → Int → Bool → Nat → SearchState → Int × Board × SearchState)
    (z : ZobristKeys) (depth : Int) (b : Board) (alpha beta : Int) (blueToPlay : Bool) (key : Nat)
    (s : SearchState) (t : Move) (hm : generate_moves b blueToPlay MAX_MOVES ≠ []) :
    minimax_moves child z depth b alpha beta blueToPlay key s t =
      ((minimax_loop (fun b a bt k s => child b a bt (!blueToPlay) k s) z blueToPlay
          (sort_moves b blueToPlay (generate_moves b blueToPlay MAX_MOVES)
            (generate_moves b blueToPlay MAX_MOVES).length (some t)) b
          ⟨alpha, beta, if blueToPlay then -INF_SCORE else INF_SCORE,
            (sort_moves b blueToPlay (generate_moves b blueToPlay MAX_MOVES)
              (generate_moves b blueToPlay MAX_MOVES).length (some t)).getD 0 default,
            s⟩).2.bestVal, b,
        ⟨tt_store
            (minimax_loop (fun b a bt k s => child b a bt (!blueToPlay) k s) z blueToPlay
              (sort_moves b blueToPlay (generate_moves b blueToPlay MAX_MOVES)
                (generate_moves b blueToPlay MAX_MOVES).length (some t)) b
              ⟨alpha, beta, if blueToPlay then -INF_SCORE else INF_SCORE,
                (sort_moves b blueToPlay (generate_moves b blueToPlay MAX_MOVES)
                  (generate_moves b blueToPlay MAX_MOVES).length (some t)).getD 0 default,
                s⟩).2.s.TT key depth
            (minimax_loop (fun b a bt k s => child b a bt (!blueToPlay) k s) z blueToPlay
              (sort_moves b blueToPlay (generate_moves b blueToPlay MAX_MOVES)
                (generate_moves b blueToPlay MAX_MOVES).length (some t)) b
              ⟨alpha, beta, if blueToPlay then -INF_SCORE else INF_SCORE,
                (sort_moves b blueToPlay (generate_moves b blueToPlay MAX_MOVES)
                  (generate_moves b blueToPlay MAX_MOVES).length (some t)).getD 0 default,
                s⟩).2.bestVal
            (if blueToPlay then TT_UPPER
             else if (minimax_loop (fun b a bt k s => child b a bt (!blueToPlay) k s) z
                blueToPlay
                (sort_moves b blueToPlay (generate_moves b blueToPlay MAX_MOVES)
                  (generate_moves b blueToPlay MAX_MOVES).length (some t)) b
                ⟨alpha, beta, if blueToPlay then -INF_SCORE else INF_SCORE,
                  (sort_moves b blueToPlay (generate_moves b blueToPlay MAX_MOVES)
                    (generate_moves b blueToPlay MAX_MOVES).length (some t)).getD 0 default,
                  s⟩).2.bestVal ≤ alpha then TT_UPPER else TT_LOWER)
            (minimax_loop (fun b a bt k s => child b a bt (!blueToPlay) k s) z blueToPlay
              (sort_moves b blueToPlay (generate_moves b blueToPlay MAX_MOVES)
                (generate_moves b blueToPlay MAX_MOVES).length (some t)) b
              ⟨alpha, beta, if blueToPlay then -INF_SCORE else INF_SCORE,
                (sort_moves b blueToPlay (generate_moves b blueToPlay MAX_MOVES)
                  (generate_moves b blueToPlay MAX_MOVES).length (some t)).getD 0 default,
                s⟩).2.bestMove,
          (minimax_loop (fun b a bt k s => child b a bt (!blueToPlay) k s) z blueToPlay
              (sort_moves b blueToPlay (generate_moves b blueToPlay MAX_MOVES)
                (generate_moves b blueToPlay MAX_MOVES).length (some t)) b
              ⟨alpha, beta, if blueToPlay then -INF_SCORE else INF_SCORE,
                (sort_moves b blueToPlay (generate_moves b blueToPlay MAX_MOVES)
                  (generate_moves b blueToPlay MAX_MOVES).length (some t)).getD 0 default,
                s⟩).2.s.outBest.map
            (fun _ =>
              (minimax_loop (fun b a bt k s => child b a bt (!blueToPlay) k s) z blueToPlay
                (sort_moves b blueToPlay (generate_moves b blueToPlay MAX_MOVES)
                  (generate_moves b blueToPlay MAX_MOVES).length (some t)) b
                ⟨alpha, beta, if blueToPlay then -INF_SCORE else INF_SCORE,
                  (sort_moves b blueToPlay (generate_moves b blueToPlay MAX_MOVES)
                    (generate_moves b blueToPlay MAX_MOVES).length (some t)).getD 0 default,
                  s⟩).2.bestMove)⟩) := by
  have hn : (generate_moves b blueToPlay MAX_MOVES).length ≠ 0 := by
    rw [Ne, List.length_eq_zero]; exact hm
  have hne : sort_moves b blueToPlay (generate_moves b blueToPlay MAX_MOVES)
      (generate_moves b blueToPlay MAX_MOVES).length (some t) ≠ [] :=
    fun h => hm (List.Perm.eq_nil (h ▸ (sort_moves_perm _ _ _ _).symm))
  obtain ⟨hw, hb⟩ := minimax_loop_window
    (fun b a bt k s => child b a bt (!blueToPlay) k s) z blueToPlay _ hne b
    ⟨alpha, beta, if blueToPlay then -INF_SCORE else INF_SCORE,
      (sort_moves b blueToPlay (generate_moves b blueToPlay MAX_MOVES)
        (generate_moves b blueToPlay MAX_MOVES).length (some t)).getD 0 default, s⟩
  unfold minimax_moves
  simp only
  rw [if_neg hn, hb]
  unfold minimax_finish
  simp only
  cases blueToPlay
  · have ha := minimax_loop_red_alpha (fun b a bt k s => child b a bt (!false) k s) z
      (sort_moves b false (generate_moves b false MAX_MOVES)
        (generate_moves b false MAX_MOVES).length (some t)) b
      ⟨alpha, beta, INF_SCORE,
        (sort_moves b false (generate_moves b false MAX_MOVES)
          (generate_moves b false MAX_MOVES).length (some t)).getD 0 default, s⟩
    simp only [Bool.false_eq_true, if_false] at hw ha ⊢
    rw [ha]
    by_cases hle : (minimax_loop (fun b a bt k s => child b a bt (!false) k s) z false
        (sort_moves b false (generate_moves b false MAX_MOVES)
          (generate_moves b false MAX_MOVES).length (some t)) b
        ⟨alpha, beta, INF_SCORE,
          (sort_moves b false (generate_moves b false MAX_MOVES)
            (generate_moves b false MAX_MOVES).length (some t)).getD 0 default, s⟩).2.bestVal ≤
        alpha
    · rw [if_pos hle, if_pos hle]
    · rw [if_neg hle, if_neg hle, if_pos hw]
  · simp only [if_true] at hw ⊢
    rw [if_pos hw]

/-- The search writes no exact entry: every exact entry of the table after `minimax` was in
the table before. -/
theorem minimax_no_new_exact (z : ZobristKeys) (d : Nat) :
    ∀ (b : Board) (alpha beta : Int) (blueToPlay : Bool) (key : Nat) (s : SearchState),
      no_new_exact s.TT (minimax z d b alpha beta blueToPlay key s).2.2.TT := by
  induction d with
  | zero =>
    intro b alpha beta blueToPlay key s
    rw [minimax_zero]
    split_ifs <;> exact no_new_exact_refl _
  | succ d ih =>
    intro b alpha beta blueToPlay key s
    rw [minimax_succ]
    split_ifs
    · exact no_new_exact_refl _
    · exact no_new_exact_refl _
    · cases hl : tt_lookup (tt_probe s.TT key) key ((d + 1 : Nat) : Int) alpha beta with
      | ret v =>
        rw [minimax_node_ret _ _ _ _ _ _ _ _ _ _ hl]
        exact no_new_exact_refl _
      | cont a' b' t =>
        by_cases hm : generate_moves b blueToPlay MAX_MOVES = []
        · rw [minimax_node_nomove _ _ _ _ _ _ _ _ _ _ _ _ hl hm]
          exact no_new_exact_refl _
        · rw [minimax_node_cont _ _ _ _ _ _ _ _ _ _ _ _ hl,
            minimax_moves_store_loop _ _ _ _ _ _ _ _ _ _ hm]
          have hloop := minimax_loop_inv
            (fun b a bt k s => minimax z d b a bt (!blueToPlay) k s) z blueToPlay b
            (fun st => no_new_exact s.TT st.s.TT)
            (sort_moves b blueToPlay (generate_moves b blueToPlay MAX_MOVES)
              (generate_moves b blueToPlay MAX_MOVES).length (some t))
            (by
              intro m _ st hst
              unfold minimax_loop_body
              simp only [loop_update_s]
              exact no_new_exact_trans _ _ _ hst (ih _ _ _ _ _ _))
            ⟨a', b', if blueToPlay then -INF_SCORE else INF_SCORE,
              (sort_moves b blueToPlay (generate_moves b blueToPlay MAX_MOVES)
                (generate_moves b blueToPlay MAX_MOVES).length (some t)).getD 0 default, s⟩
            (no_new_exact_refl _)
          refine no_new_exact_trans _ _ _ hloop.1 ?_
          apply tt_store_no_new_exact
          cases blueToPlay
          · simp only [Bool.false_eq_true, if_false]
            split_ifs
            · exact Or.inl rfl
            · exact Or.inr rfl
          · exact Or.inl rfl

theorem search_iteration_no_new_exact (z : ZobristKeys) (blueToPlay : Bool) (key : Nat)
    (st : Move × Table × Board) (d : Nat) :
    no_new_exact st.2.1 (search_iteration z blueToPlay key st d).2.1 := by
  unfold search_iteration
  simp only
  exact minimax_no_new_exact z d _ _ _ _ _ _

theorem search_fold_no_new_exact (z : ZobristKeys) (blueToPlay : Bool) (key : Nat)
    (l : List Nat) :
    ∀ st : Move × Table × Board,
      no_new_exact st.2.1 (l.foldl (search_iteration z blueToPlay key) st).2.1 := by
  induction l with
  | nil => intro st; exact no_new_exact_refl _
  | cons d l ih =>
    intro st
    rw [List.foldl_cons]
    exact no_new_exact_trans _ _ _ (search_iteration_no_new_exact z blueToPlay key st d) (ih _)

theorem search_best_move_TT (g : Engine) (b : Board) (blueToPlay : Bool) :
    (search_best_move g b blueToPlay).2.TT =
      ((List.range' 1 MAX_DEPTH).foldl
        (search_iteration g.keys blueToPlay (zobrist_hash g.keys b blueToPlay))
        (⟨-1, -1, -1, -1⟩, search_seed_table g b blueToPlay, b)).2.1 := by
  unfold search_best_move
  cases blueToPlay <;> rfl

/-- C34: every entry that `minimax` stores has the bound type `TT_UPPER` or `TT_LOWER`: an
expanded node with blue to move passes `TT_UPPER` to `tt_store`, one with red to move
`TT_UPPER` when its value is at most `alpha` and `TT_LOWER` otherwise; a call of `minimax`
leaves no exact entry in the table that was not there before, so that after
`search_best_move` an exact entry of the table is an entry of the table before the call or
the hint entry `{key, 0, 0, TT_EXACT, hint}` of depth `0`. -/
theorem minimax_never_exact (z : ZobristKeys) (d : Nat) (b : Board) (alpha beta : Int)
    (blueToPlay : Bool) (key : Nat) (s : SearchState) (t : Move) (g : Engine) :
    no_new_exact s.TT (minimax z d b alpha beta blueToPlay key s).2.2.TT ∧
      (generate_moves b blueToPlay MAX_MOVES ≠ [] →
        ∃ st : LoopState,
          minimax_moves (minimax z d) z ((d + 1 : Nat) : Int) b alpha beta blueToPlay key s t =
            (st.bestVal, b,
              ⟨tt_store st.s.TT key ((d + 1 : Nat) : Int) st.bestVal
                  (if blueToPlay then TT_UPPER
                   else if st.bestVal ≤ alpha then TT_UPPER else TT_LOWER) st.bestMove,
                st.s.outBest.map (fun _ => st.bestMove)⟩)) ∧
      (∀ i : Nat, ((search_best_move g b blueToPlay).2.TT i).flag = TT_EXACT →
        (search_best_move g b blueToPlay).2.TT i = g.TT i ∨
          (search_best_move g b blueToPlay).2.TT i =
            ⟨zobrist_hash g.keys b blueToPlay, 0, 0, TT_EXACT,
              if blueToPlay then g.g_last_best_move_blue else g.g_last_best_move_red⟩) := by
  refine ⟨minimax_no_new_exact z d b alpha beta blueToPlay key s,
    fun hm => minimax_moves_store _ z _ b alpha beta blueToPlay key s t hm, ?_⟩
  intro i hi
  rw [search_best_move_TT] at hi ⊢
  have h := search_fold_no_new_exact g.keys blueToPlay (zobrist_hash g.keys b blueToPlay)
    (List.range' 1 MAX_DEPTH) (⟨-1, -1, -1, -1⟩, search_seed_table g b blueToPlay, b) i hi
  rw [h]
  simp only
  rw [search_seed_table_eq]
  generalize (if blueToPlay then g.g_last_best_move_blue else g.g_last_best_move_red) = hint
  by_cases hh : hint.r1 ≥ 0
  · rw [if_pos hh, tt_store_eq]
    by_cases hc : (g.TT (zobrist_hash g.keys b blueToPlay &&& TT_MASK)).key = 0 ∨
        (0 : Int) ≥ (g.TT (zobrist_hash g.keys b blueToPlay &&& TT_MASK)).depth
    · rw [if_pos hc]
      by_cases hslot : i = zobrist_hash g.keys b blueToPlay &&& TT_MASK
      · right
        simp only [hslot, if_true]
        rfl
      · left
        simp only [hslot, if_false]
    · rw [if_neg hc]
      left; rfl
  · rw [if_neg hh]
    left; rfl


/-! ## The range of the values of the search (C36) -/

theorem loop_update_search_value (blueToPlay : Bool) (m : Move) (val : Int) (st : LoopState)
    (s : SearchState) (hv : search_value val)
    (hst : search_value st.bestVal ∨
      st.bestVal = if blueToPlay then -INF_SCORE else INF_SCORE) :
    search_value (loop_update blueToPlay m val st s).bestVal := by
  unfold search_value at hv hst ⊢
  unfold loop_update
  cases blueToPlay
  · simp only [Bool.false_eq_true, if_false, INF_SCORE] at hst ⊢
    split_ifs <;> omega
  · simp only [if_true, INF_SCORE] at hst ⊢
    split_ifs <;> omega

/-- Inside a search of depth at most `D` on a table whose values lie in the clamp range,
every value returned is a value of the clamp range or a terminal score. -/
theorem minimax_search_value (z : ZobristKeys) (D : Int) (d : Nat) :
    (d : Int) ≤ D →
    ∀ (b : Board) (alpha beta : Int) (blueToPlay : Bool) (key : Nat) (s : SearchState),
      TTok D s.TT → search_value (minimax z d b alpha beta blueToPlay key s).1 := by
  induction d with
  | zero =>
    intro _ b alpha beta blueToPlay key s _
    rw [minimax_zero]
    have he := evaluate_bound b
    split_ifs
    · exact Or.inr (Or.inl rfl)
    · exact Or.inr (Or.inr rfl)
    · exact Or.inl ⟨by simp only; omega, by simp only; omega⟩
  | succ d ih =>
    intro hd b alpha beta blueToPlay key s hs
    have hd' : (d : Int) ≤ D := by push_cast at hd; omega
    rw [minimax_succ]
    have he := evaluate_bound b
    split_ifs
    · exact Or.inr (Or.inl rfl)
    · exact Or.inr (Or.inr rfl)
    · cases hl : tt_lookup (tt_probe s.TT key) key ((d + 1 : Nat) : Int) alpha beta with
      | ret v =>
        rw [minimax_node_ret _ _ _ _ _ _ _ _ _ _ hl]
        obtain ⟨hv, _, _⟩ := tt_lookup_ret _ _ _ _ _ _ hl
        have := hs (key &&& TT_MASK)
        unfold tt_probe at hv
        unfold search_value
        simp only
        omega
      | cont a' b' t =>
        by_cases hm : generate_moves b blueToPlay MAX_MOVES = []
        · rw [minimax_node_nomove _ _ _ _ _ _ _ _ _ _ _ _ hl hm]
          unfold search_value
          simp only
          omega
        · rw [minimax_node_cont _ _ _ _ _ _ _ _ _ _ _ _ hl,
            minimax_moves_store_loop _ _ _ _ _ _ _ _ _ _ hm]
          simp only
          have hLne : sort_moves b blueToPlay (generate_moves b blueToPlay MAX_MOVES)
              (generate_moves b blueToPlay MAX_MOVES).length (some t) ≠ [] :=
            fun h => hm (List.Perm.eq_nil (h ▸ (sort_moves_perm _ _ _ _).symm))
          have hbody : ∀ (m : Move) (st : LoopState),
              (TTok D st.s.TT ∧ (search_value st.bestVal ∨
                st.bestVal = if blueToPlay then -INF_SCORE else INF_SCORE)) →
              (TTok D (minimax_loop_body (fun b a bt k s => minimax z d b a bt (!blueToPlay) k s)
                  z blueToPlay m b st).2.s.TT ∧
                search_value (minimax_loop_body
                    (fun b a bt k s => minimax z d b a bt (!blueToPlay) k s)
                    z blueToPlay m b st).2.bestVal) := by
            intro m st hst
            unfold minimax_loop_body
            simp only [loop_update_s]
            have hc := minimax_ok z D d hd' (apply_move b m) st.alpha st.beta (!blueToPlay)
              (zobrist_hash z (apply_move b m) (!blueToPlay)) st.s hst.1
            have hv := ih hd' (apply_move b m) st.alpha st.beta (!blueToPlay)
              (zobrist_hash z (apply_move b m) (!blueToPlay)) st.s hst.1
            exact ⟨hc.1, loop_update_search_value _ _ _ _ _ hv hst.2⟩
          cases hLc : sort_moves b blueToPlay (generate_moves b blueToPlay MAX_MOVES)
              (generate_moves b blueToPlay MAX_MOVES).length (some t) with
          | nil => exact absurd hLc hLne
          | cons m rest =>
            exact ((minimax_loop_inv_first
              (fun b a bt k s => minimax z d b a bt (!blueToPlay) k s) z blueToPlay b
              (fun st => TTok D st.s.TT ∧ (search_value st.bestVal ∨
                st.bestVal = if blueToPlay then -INF_SCORE else INF_SCORE))
              (fun st => TTok D st.s.TT ∧ search_value st.bestVal)
              m rest (fun st hst => hbody m st hst)
              (fun m' _ st hst => hbody m' st ⟨hst.1, Or.inl hst.2⟩)
              ⟨a', b', if blueToPlay then -INF_SCORE else INF_SCORE,
                (m :: rest).getD 0 default, s⟩ ⟨hs, Or.inr rfl⟩).1).2

/-- What the table keeps of a value of the search: the terminal scores are clamped, every
other value is kept. -/
theorem stored_search_value (v : Int) (hv : search_value v) :
    to_int16 (EVAL_CLAMP v) =
      (if v = 100000 then 30000 else if v = -100000 then -30000 else v) := by
  unfold search_value at hv
  unfold to_int16 EVAL_CLAMP
  split_ifs <;> omega

/-- C36: the static evaluation of every board lies strictly between `-30000` and `30000`,
so that `EVAL_CLAMP` and the table keep it as it is; on a table whose values lie in
the clamp range (as the zeroed table and every table written by `tt_store` are) every value
that `minimax` returns lies between `-100000` and `100000`, is not plus or minus
`INF_SCORE`, and is a value of the clamp range or one of the terminal scores `100000`,
`-100000`, and the table it leaves has its values in the clamp range again; the value an expanded node hands to `tt_store` is the value it
returns, and storage keeps such a value unless it is a terminal score, which is stored as
`30000` or `-30000`. -/
theorem search_value_range (z : ZobristKeys) (D : Int) (d : Nat) (b : Board)
    (alpha beta : Int) (blueToPlay : Bool) (key : Nat) (s : SearchState) (t : Move)
    (hs : TTok D s.TT) :
    (-30000 < evaluate b ∧ evaluate b < 30000 ∧ EVAL_CLAMP (evaluate b) = evaluate b ∧
      to_int16 (EVAL_CLAMP (evaluate b)) = evaluate b) ∧
    (-100000 ≤ (minimax z d b alpha beta blueToPlay key s).1 ∧
      (minimax z d b alpha beta blueToPlay key s).1 ≤ 100000 ∧
      (minimax z d b alpha beta blueToPlay key s).1 ≠ INF_SCORE ∧
      (minimax z d b alpha beta blueToPlay key s).1 ≠ -INF_SCORE ∧
      search_value (minimax z d b alpha beta blueToPlay key s).1 ∧
      TTok (max D d) (minimax z d b alpha beta blueToPlay key s).2.2.TT) ∧
    (generate_moves b blueToPlay MAX_MOVES ≠ [] →
      ∃ (tt : Table) (flag : Nat) (best : Move),
        (minimax_moves (minimax z d) z ((d + 1 : Nat) : Int) b alpha beta blueToPlay key s
            t).2.2.TT =
          tt_store tt key ((d + 1 : Nat) : Int)
            (minimax_moves (minimax z d) z ((d + 1 : Nat) : Int) b alpha beta blueToPlay key s
              t).1 flag best) ∧
    (∀ v : Int, search_value v →
      to_int16 (EVAL_CLAMP v) =
          (if v = 100000 then 30000 else if v = -100000 then -30000 else v) ∧
        (to_int16 (EVAL_CLAMP v) ≠ v ↔ v = 100000 ∨ v = -100000)) := by
  have he := evaluate_bound b
  have hD : TTok (max D d) s.TT := TTok_mono D (max D d) s.TT hs (le_max_left _ _)
  have hv := minimax_search_value z (max D d) d (le_max_right _ _) b alpha beta blueToPlay key s
    hD
  have hok := (minimax_ok z (max D d) d (le_max_right _ _) b alpha beta blueToPlay key s hD).1
  refine ⟨⟨by omega, by omega, ?_, ?_⟩, ⟨?_, ?_, ?_, ?_, hv, hok⟩, ?_, ?_⟩
  · unfold EVAL_CLAMP
    split_ifs <;> omega
  · unfold to_int16 EVAL_CLAMP
    split_ifs <;> omega
  · unfold search_value at hv; omega
  · unfold search_value at hv; omega
  · unfold search_value at hv; simp only [INF_SCORE]; omega
  · unfold search_value at hv; simp only [INF_SCORE]; omega
  · intro hm
    obtain ⟨st, hst⟩ := minimax_moves_store (minimax z d) z ((d + 1 : Nat) : Int) b alpha beta
      blueToPlay key s t hm
    rw [hst]
    exact ⟨st.s.TT, _, st.bestMove, rfl⟩
  · intro v hv'
    have hst := stored_search_value v hv'
    refine ⟨hst, ?_⟩
    rw [hst]
    unfold search_value at hv'
    split_ifs <;> omega


/-! ## Colour symmetry of the evaluation (C37) -/

set_option maxRecDepth 100000 in
theorem cells_map_rot : cells.map (fun rc => (8 - rc.1, 8 - rc.2)) = cells.reverse := by
  decide

/-- A pass over the squares whose steps commute visits the rotated squares with the same
result. -/
theorem foldl_cells_rot {σ : Type} (f : σ → Int × Int → σ)
    (hcomm : ∀ (x y : Int × Int) (z : σ), f (f z x) y = f (f z y) x) (s : σ) :
    cells.foldl (fun s rc => f s (8 - rc.1, 8 - rc.2)) s = cells.foldl f s := by
  rw [← List.foldl_map (fun rc : Int × Int => (8 - rc.1, 8 - rc.2)) f cells s, cells_map_rot]
  exact (List.reverse_perm cells).foldl_eq' (fun x _ y _ z => hcomm x y z) s

theorem foldl_rel {σ τ α : Type} (R : σ → τ → Prop) (f : σ → α → σ) (g : τ → α → τ)
    (l : List α) (h : ∀ s t x, R s t → R (f s x) (g t x)) :
    ∀ s t, R s t → R (l.foldl f s) (l.foldl g t) := by
  induction l with
  | nil => intro s t hst; exact hst
  | cons x xs ih =>
    intro s t hst
    rw [List.foldl_cons, List.foldl_cons]
    exact ih _ _ (h s t x hst)

theorem flip_piece_codes (p : Int) :
    (flip_piece p = SOLDAT_ROUGE ↔ p = SOLDAT_BLEU) ∧
    (flip_piece p = SOLDAT_BLEU ↔ p = SOLDAT_ROUGE) ∧
    (flip_piece p = ROI_ROUGE ↔ p = ROI_BLEU) ∧
    (flip_piece p = ROI_BLEU ↔ p = ROI_ROUGE) ∧
    (flip_piece p = EMPTY ↔ p = EMPTY) := by
  unfold flip_piece
  simp only [SOLDAT_ROUGE, SOLDAT_BLEU, ROI_ROUGE, ROI_BLEU, EMPTY]
  split_ifs <;> omega

theorem Board.flip_pion (b : Board) (r c : Int) :
    b.flip.pion r c = flip_piece (b.pion (8 - r) (8 - c)) := rfl

theorem Board.flip_pion_rot (b : Board) (r c : Int) :
    b.flip.pion (8 - r) (8 - c) = flip_piece (b.pion r c) := by
  rw [Board.flip_pion]
  have h1 : 8 - (8 - r) = r := by omega
  have h2 : 8 - (8 - c) = c := by omega
  rw [h1, h2]

theorem evaluate_material_flip (p s : Int) :
    evaluate_material (flip_piece p) (-s) = -evaluate_material p s := by
  obtain ⟨h1, h2, h3, h4, _⟩ := flip_piece_codes p
  unfold evaluate_material
  simp only [h1, h2, h3, h4]
  simp only [SOLDAT_ROUGE, SOLDAT_BLEU, ROI_ROUGE, ROI_BLEU]
  split_ifs <;> omega

theorem evaluate_material_comm (p q z : Int) :
    evaluate_material q (evaluate_material p z) =
      evaluate_material p (evaluate_material q z) := by
  unfold evaluate_material
  split_ifs <;> omega

theorem material_flip (b : Board) :
    cells.foldl (fun s rc => evaluate_material (b.flip.pion rc.1 rc.2) s) 0 =
      -cells.foldl (fun s rc => evaluate_material (b.pion rc.1 rc.2) s) 0 := by
  rw [← foldl_cells_rot (fun s rc => evaluate_material (b.pion rc.1 rc.2) s)
    (fun x y z => evaluate_material_comm _ _ z) 0]
  exact foldl_rel (fun s t => t = -s) _ _ cells
    (fun s t x hst => by
      simp only [Board.flip_pion]
      rw [hst]
      exact evaluate_material_flip _ _) 0 0 rfl

theorem evaluate_king_dist_comm (b : Board) (x y : Int × Int) (z : Int × Int) :
    evaluate_king_dist b y.1 y.2 (evaluate_king_dist b x.1 x.2 z) =
      evaluate_king_dist b x.1 x.2 (evaluate_king_dist b y.1 y.2 z) := by
  obtain ⟨z1, z2⟩ := z
  unfold evaluate_king_dist
  simp only [SIZE]
  split_ifs <;> simp only [Prod.mk.injEq, and_true, true_and, and_self] <;> omega

theorem evaluate_king_dist_flip (b : Board) (r c : Int) (best : Int × Int) :
    evaluate_king_dist b.flip r c (best.2, best.1) =
      ((evaluate_king_dist b (8 - r) (8 - c) best).2,
        (evaluate_king_dist b (8 - r) (8 - c) best).1) := by
  obtain ⟨h1, h2, h3, h4, _⟩ := flip_piece_codes (b.pion (8 - r) (8 - c))
  unfold evaluate_king_dist
  simp only [Board.flip_pion, h3, h4, SIZE]
  simp only [ROI_ROUGE, ROI_BLEU]
  split_ifs <;> simp only [Prod.mk.injEq, and_true, true_and, and_self] <;> omega

theorem king_dist_flip (b : Board) :
    cells.foldl (fun s rc => evaluate_king_dist b.flip rc.1 rc.2 s) ((100 : Int), (100 : Int)) =
      ((cells.foldl (fun s rc => evaluate_king_dist b rc.1 rc.2 s) ((100 : Int), (100 : Int))).2,
        (cells.foldl (fun s rc => evaluate_king_dist b rc.1 rc.2 s)
          ((100 : Int), (100 : Int))).1) := by
  rw [← foldl_cells_rot (fun s rc => evaluate_king_dist b rc.1 rc.2 s)
    (fun x y z => evaluate_king_dist_comm b x y z) ((100 : Int), (100 : Int))]
  exact foldl_rel (fun (s t : Int × Int) => t = (s.2, s.1)) _ _ cells
    (fun s t x hst => by
      simp only
      rw [hst]
      exact evaluate_king_dist_flip b x.1 x.2 s) ((100 : Int), (100 : Int))
      ((100 : Int), (100 : Int)) rfl

theorem c_abs_rot (x : Int) : c_abs (8 - x - 4) = c_abs (x - 4) := by
  unfold c_abs
  split_ifs <;> omega

theorem evaluate_centrality_flip (b : Board) (r c s : Int) :
    evaluate_centrality b.flip r c (-s) = -evaluate_centrality b (8 - r) (8 - c) s := by
  obtain ⟨h1, h2, h3, h4, _⟩ := flip_piece_codes (b.pion (8 - r) (8 - c))
  unfold evaluate_centrality
  simp only [Board.flip_pion, h3, h4, c_abs_rot]
  simp only [ROI_ROUGE, ROI_BLEU]
  split_ifs <;> omega

theorem evaluate_centrality_comm (b : Board) (x y : Int × Int) (z : Int) :
    evaluate_centrality b y.1 y.2 (evaluate_centrality b x.1 x.2 z) =
      evaluate_centrality b x.1 x.2 (evaluate_centrality b y.1 y.2 z) := by
  unfold evaluate_centrality
  split_ifs <;> omega

theorem centrality_flip (b : Board) (s : Int) :
    cells.foldl (fun s rc => evaluate_centrality b.flip rc.1 rc.2 s) (-s) =
      -cells.foldl (fun s rc => evaluate_centrality b rc.1 rc.2 s) s := by
  rw [← foldl_cells_rot (fun s rc => evaluate_centrality b rc.1 rc.2 s)
    (fun x y z => evaluate_centrality_comm b x y z) s]
  exact foldl_rel (fun s t => t = -s) _ _ cells
    (fun s t x hst => by
      simp only
      rw [hst]
      exact evaluate_centrality_flip b x.1 x.2 s) s (-s) rfl

theorem ally_flip_piece (p : Int) (blueSide : Bool) :
    ally (flip_piece p) blueSide = ally p (!blueSide) := by
  obtain ⟨h1, h2, h3, h4, _⟩ := flip_piece_codes p
  cases blueSide
  · simp only [ally, Bool.false_eq_true, if_false, Bool.not_false, if_true]
    rw [Bool.eq_iff_iff, is_red_iff, is_blue_iff]
    simp only [SOLDAT_ROUGE, SOLDAT_BLEU, ROI_ROUGE, ROI_BLEU] at h1 h3 ⊢
    rw [h1, h3]
  · simp only [ally, if_true, Bool.not_true, Bool.false_eq_true, if_false]
    rw [Bool.eq_iff_iff, is_red_iff, is_blue_iff]
    simp only [SOLDAT_ROUGE, SOLDAT_BLEU, ROI_ROUGE, ROI_BLEU] at h2 h4 ⊢
    rw [h2, h4]

theorem in_bounds_rot (r c : Int) : in_bounds (8 - r) (8 - c) = in_bounds r c := by
  rw [Bool.eq_iff_iff, in_bounds_iff, in_bounds_iff]
  omega

theorem Move.flip_flip (m : Move) : m.flip.flip = m := by
  cases m
  unfold Move.flip
  simp only [Move.mk.injEq]
  omega

theorem strictly_between_flip (m : Move) (r c : Int) :
    strictly_between m.flip (8 - r) (8 - c) ↔ strictly_between m r c := by
  unfold strictly_between Move.flip
  simp only
  omega

/-- The legal moves of a side on the flipped board are the rotated legal moves of the other
side on the board. -/
theorem legal_move_flip (b : Board) (blueSide : Bool) (m : Move) :
    legal_move b.flip blueSide m.flip ↔ legal_move b (!blueSide) m := by
  have hE : ∀ r c : Int, b.flip.pion (8 - r) (8 - c) = EMPTY ↔ b.pion r c = EMPTY := by
    intro r c
    rw [Board.flip_pion_rot]
    exact (flip_piece_codes _).2.2.2.2
  have hpath : (∀ r c : Int, strictly_between m.flip r c → b.flip.pion r c = EMPTY) ↔
      (∀ r c : Int, strictly_between m r c → b.pion r c = EMPTY) := by
    constructor
    · intro h r c hb
      exact (hE r c).1 (h _ _ ((strictly_between_flip m r c).2 hb))
    · intro h r c hb
      have hr : r = 8 - (8 - r) := by omega
      have hc : c = 8 - (8 - c) := by omega
      rw [hr, hc] at hb ⊢
      exact (hE _ _).2 (h _ _ ((strictly_between_flip m _ _).1 hb))
  unfold legal_move
  rw [hpath]
  have e1 : m.flip.r1 = 8 - m.r1 := rfl
  have e2 : m.flip.c1 = 8 - m.c1 := rfl
  have e3 : m.flip.r2 = 8 - m.r2 := rfl
  have e4 : m.flip.c2 = 8 - m.c2 := rfl
  rw [e1, e2, e3, e4, in_bounds_rot, in_bounds_rot, Board.flip_pion_rot, hE, ally_flip_piece]
  have h1 : ((8 - m.r1 ≠ 8 - m.r2 ∨ 8 - m.c1 ≠ 8 - m.c2) ↔ (m.r1 ≠ m.r2 ∨ m.c1 ≠ m.c2)) := by
    omega
  have h2 : ((8 - m.r1 = 8 - m.r2 ∨ 8 - m.c1 = 8 - m.c2) ↔ (m.r1 = m.r2 ∨ m.c1 = m.c2)) := by
    omega
  rw [h1, h2]

theorem mobility_flip (b : Board) (blueSide : Bool) :
    mobility b.flip blueSide = mobility b (!blueSide) := by
  unfold mobility
  rw [generate_moves_eq_all, generate_moves_eq_all]
  have hinj : Function.Injective Move.flip := by
    intro m m' h
    rw [← Move.flip_flip m, ← Move.flip_flip m', h]
  have hperm : List.Perm (all_moves b.flip blueSide) ((all_moves b (!blueSide)).map Move.flip) := by
    rw [List.perm_ext_iff_of_nodup (all_moves_nodup _ _)
      (List.Nodup.map hinj (all_moves_nodup _ _))]
    intro m
    rw [mem_all_moves_iff_legal, List.mem_map]
    constructor
    · intro h
      refine ⟨m.flip, ?_, Move.flip_flip m⟩
      rw [mem_all_moves_iff_legal, ← legal_move_flip, Move.flip_flip]
      exact h
    · rintro ⟨m', h, rfl⟩
      rw [mem_all_moves_iff_legal] at h
      exact (legal_move_flip b blueSide m').2 h
  rw [hperm.length_eq, List.length_map]

/-- The evaluation of the flipped board is the opposite of the evaluation of the board. -/
theorem evaluate_flip_neg (b : Board) : evaluate b.flip = -evaluate b := by
  have hM := material_flip b
  have hK := king_dist_flip b
  have hmt := mobility_flip b true
  have hmf := mobility_flip b false
  simp only [Bool.not_true, Bool.not_false] at hmt hmf
  unfold evaluate
  simp only
  rw [scan_eq_foldl_cells (fun r c s => evaluate_material (b.pion r c) s),
    scan_eq_foldl_cells (fun r c s => evaluate_king_dist b r c s),
    scan_eq_foldl_cells (fun r c s => evaluate_centrality b r c s),
    scan_eq_foldl_cells (fun r c s => evaluate_material (b.flip.pion r c) s),
    scan_eq_foldl_cells (fun r c s => evaluate_king_dist b.flip r c s),
    scan_eq_foldl_cells (fun r c s => evaluate_centrality b.flip r c s),
    hM, hK, hmt, hmf, ← centrality_flip]
  congr 1
  simp only
  split_ifs <;> omega

set_option maxRecDepth 100000 in
theorem evaluate_init_game : evaluate logique_init_game.board = 0 := by
  decide

/-- C37: colour symmetry of the evaluator: for every board `b`, `evaluate(flip(b)) =
-evaluate(b)`, where `flip(b)` rotates the board by 180 degrees (square `(r,c)` goes to
`(8-r,8-c)`) and swaps the colour of every piece (red soldier with blue soldier, red king
with blue king); the initial position of the game evaluates to `0`. -/
theorem evaluate_flip (b : Board) :
    evaluate b.flip = -evaluate b ∧
    (∀ r c : Int, b.flip.pion r c = flip_piece (b.pion (8 - r) (8 - c))) ∧
    flip_piece SOLDAT_ROUGE = SOLDAT_BLEU ∧ flip_piece SOLDAT_BLEU = SOLDAT_ROUGE ∧
    flip_piece ROI_ROUGE = ROI_BLEU ∧ flip_piece ROI_BLEU = ROI_ROUGE ∧
    flip_piece EMPTY = EMPTY ∧
    evaluate logique_init_game.board = 0 :=
  ⟨evaluate_flip_neg b, fun _ _ => rfl, by decide, by decide, by decide, by decide, by decide,
    evaluate_init_game⟩


/-! ## The two capture rules commute (C38) -/

theorem enemy_empty (bs : Bool) : enemy EMPTY bs = false := by
  cases bs <;> decide

theorem sandwich_fires_congr (b b' : Board) (bs : Bool) (r c : Int) (d : Nat)
    (hn : b'.pion (r + DR4 d) (c + DC4 d) = b.pion (r + DR4 d) (c + DC4 d))
    (hf : b'.pion (r + 2 * DR4 d) (c + 2 * DC4 d) = b.pion (r + 2 * DR4 d) (c + 2 * DC4 d)) :
    sandwich_fires b' bs r c d = sandwich_fires b bs r c d := by
  unfold sandwich_fires
  rw [hn, hf]

/-- A square two steps away in one of the four directions is not the square one step away
in a direction whose components are at most `1` in absolute value. -/
theorem far_ne_step (r c dr dc : Int) (d : Nat) (hd : d < 4)
    (hdr : -1 ≤ dr ∧ dr ≤ 1) (hdc : -1 ≤ dc ∧ dc ≤ 1) :
    ¬ (r + 2 * DR4 d = r + dr ∧ c + 2 * DC4 d = c + dc) := by
  interval_cases d <;> simp only [DR4, DC4] <;> omega

/-- A square next to `(r,c)` in one of the four directions is not the square two steps away
in a direction whose components are at most `1` in absolute value. -/
theorem near_ne_guard (r c dr dc : Int) (d : Nat) (hd : d < 4) :
    ¬ (r + 2 * dr = r + DR4 d ∧ c + 2 * dc = c + DC4 d) := by
  interval_cases d <;> simp only [DR4, DC4] <;> omega

/-- The sandwich capture does not change the square of the guard of a push capture. -/
theorem simulate_sandwich_guard (b : Board) (r c dr dc : Int) :
    (simulate_sandwich b r c).pion (r + 2 * dr) (c + 2 * dc) =
      b.pion (r + 2 * dr) (c + 2 * dc) := by
  rcases simulate_sandwich_pion_cases b r c (r + 2 * dr) (c + 2 * dc) with
    h | ⟨⟨d, hd, h1, h2⟩, _⟩
  · exact h
  · exact absurd ⟨h1, h2⟩ (near_ne_guard r c dr dc d hd)

/-- Sandwich on a board whose square next to the attacker in direction `(dr,dc)` was
emptied: away from that square the result is the one of the sandwich on the board. -/
theorem simulate_sandwich_set (b : Board) (r c dr dc r' c' : Int)
    (hnz : dr ≠ 0 ∨ dc ≠ 0) (hdr : -1 ≤ dr ∧ dr ≤ 1) (hdc : -1 ≤ dc ∧ dc ≤ 1)
    (hne : ¬ (r' = r + dr ∧ c' = c + dc)) :
    (simulate_sandwich (b.set (r + dr) (c + dc) EMPTY) r c).pion r' c' =
      (simulate_sandwich b r c).pion r' c' := by
  have hself : (b.set (r + dr) (c + dc) EMPTY).pion r c = b.pion r c := by
    rw [Board.set_pion, if_neg]
    rintro ⟨h1, h2⟩
    omega
  have hx : (b.set (r + dr) (c + dc) EMPTY).pion r' c' = b.pion r' c' := by
    rw [Board.set_pion, if_neg hne]
  have hfires : ∀ d, d < 4 → (r' = r + DR4 d ∧ c' = c + DC4 d) →
      sandwich_fires (b.set (r + dr) (c + dc) EMPTY) (is_blue (b.pion r c)) r c d =
        sandwich_fires b (is_blue (b.pion r c)) r c d := by
    intro d hd hrc
    apply sandwich_fires_congr
    · rw [← hrc.1, ← hrc.2]; exact hx
    · rw [Board.set_pion, if_neg (far_ne_step r c dr dc d hd hdr hdc)]
  have h1 := simulate_sandwich_pion (b.set (r + dr) (c + dc) EMPTY) r c r' c'
  have h2 := simulate_sandwich_pion b r c r' c'
  rw [hself] at h1
  by_cases hF : ∃ d, d < 4 ∧ (r' = r + DR4 d ∧ c' = c + DC4 d) ∧
      sandwich_fires b (is_blue (b.pion r c)) r c d = true
  · rw [h2.1 hF]
    obtain ⟨d, hd, hrc, hf⟩ := hF
    exact h1.1 ⟨d, hd, hrc, by rw [hfires d hd hrc]; exact hf⟩
  · rw [h2.2 hF, ← hx]
    apply h1.2
    rintro ⟨d, hd, hrc, hf⟩
    exact hF ⟨d, hd, hrc, by rw [← hfires d hd hrc]; exact hf⟩

/-- The two capture rules commute for every direction whose components are at most `1` in
absolute value. -/
theorem captures_commute (b : Board) (r c dr dc : Int)
    (hdr : -1 ≤ dr ∧ dr ≤ 1) (hdc : -1 ≤ dc ∧ dc ≤ 1) :
    simulate_sandwich (simulate_push_capture b r c dr dc) r c =
      simulate_push_capture (simulate_sandwich b r c) r c dr dc := by
  have hg := simulate_sandwich_guard b r c dr dc
  have hs := simulate_sandwich_self b r c
  rw [simulate_push_capture_eq b, simulate_push_capture_eq (simulate_sandwich b r c), hg, hs]
  by_cases hA : (dr ≠ 0 ∨ dc ≠ 0) ∧ in_bounds (r + dr) (c + dc) = true ∧
      enemy (b.pion (r + dr) (c + dc)) (is_blue (b.pion r c)) = true ∧
      ¬ (in_bounds (r + 2 * dr) (c + 2 * dc) = true ∧
          enemy (b.pion (r + 2 * dr) (c + 2 * dc)) (is_blue (b.pion r c)) = true)
  · rw [if_pos hA]
    apply Board.ext_pion
    funext r' c'
    by_cases hv : r' = r + dr ∧ c' = c + dc
    · have hL : (simulate_sandwich (b.set (r + dr) (c + dc) EMPTY) r c).pion r' c' = EMPTY := by
        rcases simulate_sandwich_pion_cases (b.set (r + dr) (c + dc) EMPTY) r c r' c' with
          h | ⟨_, h⟩
        · rw [h, Board.set_pion, if_pos hv]
        · exact h
      rw [hL]
      split
      · rw [Board.set_pion, if_pos hv]
      · rename_i hA'
        rcases simulate_sandwich_pion_cases b r c r' c' with h | ⟨_, h⟩
        · exfalso
          apply hA'
          rw [hv.1, hv.2] at h
          rw [h]
          exact hA
        · exact h.symm
    · rw [simulate_sandwich_set b r c dr dc r' c' hA.1 hdr hdc hv]
      split
      · rw [Board.set_pion, if_neg hv]
      · rfl
  · rw [if_neg hA, if_neg]
    intro hA'
    apply hA
    refine ⟨hA'.1, hA'.2.1, ?_, hA'.2.2.2⟩
    rcases simulate_sandwich_pion_cases b r c (r + dr) (c + dc) with h | ⟨_, h⟩
    · rw [← h]; exact hA'.2.2.1
    · have := hA'.2.2.1
      rw [h, enemy_empty] at this
      exact absurd this (by decide)

theorem unit_dir_range (r1 c1 r2 c2 : Int) :
    (-1 ≤ (unit_dir r1 c1 r2 c2).1 ∧ (unit_dir r1 c1 r2 c2).1 ≤ 1) ∧
    (-1 ≤ (unit_dir r1 c1 r2 c2).2 ∧ (unit_dir r1 c1 r2 c2).2 ≤ 1) := by
  unfold unit_dir
  simp only
  refine ⟨⟨?_, ?_⟩, ⟨?_, ?_⟩⟩ <;> split_ifs <;> omega

/-- C38: the two capture rules commute: for every board, every square `(r,c)` and every
unit orthogonal direction `(dr,dc)`, the push capture followed by the sandwich capture
leaves the board that the sandwich capture followed by the push capture leaves; so the
board of `apply_move` is also the one obtained with the two captures in the other order. -/
theorem captures_commute_spec (b : Board) (r c dr dc : Int) (hd : unit_orthogonal dr dc) :
    simulate_sandwich (simulate_push_capture b r c dr dc) r c =
      simulate_push_capture (simulate_sandwich b r c) r c dr dc ∧
    (∀ m : Move,
      apply_move b m =
        simulate_push_capture
          (simulate_sandwich ((b.set m.r2 m.c2 (b.pion m.r1 m.c1)).set m.r1 m.c1 EMPTY)
            m.r2 m.c2)
          m.r2 m.c2 (unit_dir m.r1 m.c1 m.r2 m.c2).1 (unit_dir m.r1 m.c1 m.r2 m.c2).2) := by
  constructor
  · apply captures_commute
    · unfold unit_orthogonal at hd; omega
    · unfold unit_orthogonal at hd; omega
  · intro m
    unfold apply_move
    exact captures_commute _ _ _ _ _ (unit_dir_range _ _ _ _).1 (unit_dir_range _ _ _ _).2


/-! ## Rule layer and engine leave the same grid (C39) -/

theorem capture_piece_board (st : GameState) (r c : Int) :
    (capture_piece st r c).board = st.board.set r c EMPTY := by
  apply Board.ext_pion
  funext r' c'
  unfold GameState.board Board.set
  simp only [capture_piece_pion]

/-- On a game in progress whose grid holds piece codes, `logique_capture` in the direction
named by `mouvement` leaves the grid that the engine's `simulate_push_capture` leaves for
the step `(dr,dc)` of that direction. -/
theorem logique_capture_board (st : GameState) (r c : Int) (mouvement : String) (dr dc : Int)
    (hgo : st.game_over_status = 0) (hgrid : valid_grid st.pion)
    (hd : mouvement_dir mouvement dr dc) :
    (logique_capture st r c mouvement).board = simulate_push_capture st.board r c dr dc := by
  have hnz : dr ≠ 0 ∨ dc ≠ 0 := by
    rcases hd with ⟨_, rfl, rfl⟩ | ⟨_, rfl, rfl⟩ | ⟨_, rfl, rfl⟩ | ⟨_, rfl, rfl⟩ <;> decide
  rw [logique_capture_eq st r c mouvement dr dc hgo (mouvement_dir_eq mouvement dr dc hd),
    simulate_push_capture_eq]
  have hiff : ((dr ≠ 0 ∨ dc ≠ 0) ∧ in_bounds (r + dr) (c + dc) = true ∧
        enemy (st.board.pion (r + dr) (c + dc)) (is_blue (st.board.pion r c)) = true ∧
        ¬ (in_bounds (r + 2 * dr) (c + 2 * dc) = true ∧
          enemy (st.board.pion (r + 2 * dr) (c + 2 * dc)) (is_blue (st.board.pion r c)) =
            true)) ↔
      (in_bounds (r + dr) (c + dc) = true ∧
        (st.pion (r + dr) (c + dc) ≠ EMPTY ∧
          is_blue (st.pion r c) ≠ is_blue (st.pion (r + dr) (c + dc))) ∧
        ¬ (in_bounds (r + 2 * dr) (c + 2 * dc) = true ∧
          st.pion (r + 2 * dr) (c + 2 * dc) ≠ EMPTY ∧
          is_blue (st.pion r c) ≠ is_blue (st.pion (r + 2 * dr) (c + 2 * dc)))) := by
    unfold GameState.board
    simp only
    constructor
    · rintro ⟨_, h1, h2, h3⟩
      refine ⟨h1, ((valid_ally_enemy _ _ (hgrid _ _ h1)).1).1 h2, ?_⟩
      rintro ⟨g1, g2⟩
      exact h3 ⟨g1, ((valid_ally_enemy _ _ (hgrid _ _ g1)).1).2 g2⟩
    · rintro ⟨h1, h2, h3⟩
      refine ⟨hnz, h1, ((valid_ally_enemy _ _ (hgrid _ _ h1)).1).2 h2, ?_⟩
      rintro ⟨g1, g2⟩
      exact h3 ⟨g1, ((valid_ally_enemy _ _ (hgrid _ _ g1)).1).1 g2⟩
  split
  · rename_i h
    rw [if_pos (hiff.2 h), capture_piece_board]
  · rename_i h
    rw [if_neg (fun h' => h (hiff.1 h'))]

/-- C39: rule layer and engine agree: on a game in progress whose grid holds piece codes
in `0..4`, for a square `(r,c)` that holds a piece, the grid left by `logique_capture` in
each of the four directions is the board left by `simulate_push_capture` for the unit step
of that direction (`haut` `(-1,0)`, `bas` `(1,0)`, `gauche` `(0,-1)`, `droite` `(0,1)`), and
the grid left by `logique_prise` is the board left by `simulate_sandwich`. -/
theorem rule_layer_engine_agree (st : GameState) (r c : Int)
    (hgo : st.game_over_status = 0) (hgrid : valid_grid st.pion) (ha : st.pion r c ≠ EMPTY) :
    (∀ (mouvement : String) (dr dc : Int), mouvement_dir mouvement dr dc →
      (logique_capture st r c mouvement).board = simulate_push_capture st.board r c dr dc) ∧
    (logique_capture st r c "haut").board = simulate_push_capture st.board r c (-1) 0 ∧
    (logique_capture st r c "bas").board = simulate_push_capture st.board r c 1 0 ∧
    (logique_capture st r c "gauche").board = simulate_push_capture st.board r c 0 (-1) ∧
    (logique_capture st r c "droite").board = simulate_push_capture st.board r c 0 1 ∧
    (logique_prise st r c).board = simulate_sandwich st.board r c := by
  refine ⟨fun mouvement dr dc hd => logique_capture_board st r c mouvement dr dc hgo hgrid hd,
    ?_, ?_, ?_, ?_, logique_prise_board st r c hgo hgrid ha⟩
  · exact logique_capture_board st r c _ _ _ hgo hgrid (Or.inl ⟨rfl, rfl, rfl⟩)
  · exact logique_capture_board st r c _ _ _ hgo hgrid (Or.inr (Or.inl ⟨rfl, rfl, rfl⟩))
  · exact logique_capture_board st r c _ _ _ hgo hgrid
      (Or.inr (Or.inr (Or.inl ⟨rfl, rfl, rfl⟩)))
  · exact logique_capture_board st r c _ _ _ hgo hgrid
      (Or.inr (Or.inr (Or.inr ⟨rfl, rfl, rfl⟩)))


/-! ## The footprint of a move (C40) -/

theorem ally_not_enemy (p : Int) (bs : Bool) (h : ally p bs = true) : enemy p bs = false := by
  cases bs
  · simp only [ally, enemy, Bool.false_eq_true, if_false] at h ⊢
    rw [is_red_iff] at h
    cases hb : is_blue p
    · rfl
    · rw [is_blue_iff] at hb; omega
  · simp only [ally, enemy, if_true] at h ⊢
    rw [is_blue_iff] at h
    cases hb : is_red p
    · rfl
    · rw [is_red_iff] at hb; omega

theorem ally_is_blue (p : Int) (bs : Bool) (h : ally p bs = true) : is_blue p = bs := by
  cases bs
  · simp only [ally, Bool.false_eq_true, if_false] at h
    rw [is_red_iff] at h
    cases hb : is_blue p
    · rfl
    · rw [is_blue_iff] at hb; omega
  · simpa only [ally, if_true] using h

/-- A square other than source and destination that a move changes: it is emptied, it is
on the board, it held an enemy of the moved piece, and it is next to the destination in one
of the four directions or in the direction of travel. -/
theorem apply_move_changed (b : Board) (m : Move) (r c : Int)
    (hne : m.r1 ≠ m.r2 ∨ m.c1 ≠ m.c2)
    (hsrc : ¬ (r = m.r1 ∧ c = m.c1)) (hdst : ¬ (r = m.r2 ∧ c = m.c2))
    (hch : (apply_move b m).pion r c ≠ b.pion r c) :
    (apply_move b m).pion r c = EMPTY ∧ in_bounds r c = true ∧
      enemy (b.pion r c) (is_blue (b.pion m.r1 m.c1)) = true ∧
      ((∃ d, d < 4 ∧ r = m.r2 + DR4 d ∧ c = m.c2 + DC4 d) ∨
        (r = m.r2 + (unit_dir m.r1 m.c1 m.r2 m.c2).1 ∧
          c = m.c2 + (unit_dir m.r1 m.c1 m.r2 m.c2).2)) := by
  have hb2 : ((b.set m.r2 m.c2 (b.pion m.r1 m.c1)).set m.r1 m.c1 EMPTY).pion r c =
      b.pion r c := by
    rw [Board.set_pion, if_neg hsrc, Board.set_pion, if_neg hdst]
  have hme : ((b.set m.r2 m.c2 (b.pion m.r1 m.c1)).set m.r1 m.c1 EMPTY).pion m.r2 m.c2 =
      b.pion m.r1 m.c1 := by
    rw [Board.set_pion, if_neg (by rintro ⟨h1, h2⟩; omega), Board.set_pion,
      if_pos ⟨rfl, rfl⟩]
  unfold apply_move at hch ⊢
  simp only at hch ⊢
  generalize hb2' : (b.set m.r2 m.c2 (b.pion m.r1 m.c1)).set m.r1 m.c1 EMPTY = b2 at *
  generalize hud : unit_dir m.r1 m.c1 m.r2 m.c2 = ud at *
  have hP := simulate_push_capture_eq b2 m.r2 m.c2 ud.1 ud.2
  have hS := simulate_sandwich_pion (simulate_push_capture b2 m.r2 m.c2 ud.1 ud.2) m.r2 m.c2 r c
  rw [simulate_push_capture_self, hme] at hS
  by_cases hF : ∃ d, d < 4 ∧ (r = m.r2 + DR4 d ∧ c = m.c2 + DC4 d) ∧
      sandwich_fires (simulate_push_capture b2 m.r2 m.c2 ud.1 ud.2)
        (is_blue (b.pion m.r1 m.c1)) m.r2 m.c2 d = true
  · refine ⟨hS.1 hF, ?_⟩
    obtain ⟨d, hd, hrc, hf⟩ := hF
    unfold sandwich_fires at hf
    simp only [Bool.and_eq_true] at hf
    obtain ⟨⟨⟨h1, _⟩, h3⟩, _⟩ := hf
    rw [← hrc.1, ← hrc.2] at h1 h3
    refine ⟨h1, ?_, Or.inl ⟨d, hd, hrc⟩⟩
    rcases simulate_push_capture_pion b2 m.r2 m.c2 ud.1 ud.2 r c with h | ⟨_, _, h⟩
    · rw [h, hb2] at h3; exact h3
    · rw [h, enemy_empty] at h3
      exact absurd h3 (by decide)
  · have hS2 := hS.2 hF
    rw [hS2] at hch ⊢
    rw [hP] at hch ⊢
    rw [hme] at hch ⊢
    split at hch
    · rename_i hA
      by_cases hv : r = m.r2 + ud.1 ∧ c = m.c2 + ud.2
      · rw [if_pos hA, Board.set_pion, if_pos hv]
        refine ⟨rfl, ?_, ?_, Or.inr hv⟩
        · rw [hv.1, hv.2]; exact hA.2.1
        · have := hA.2.2.1
          rw [← hv.1, ← hv.2, hb2] at this
          exact this
      · rw [Board.set_pion, if_neg hv, hb2] at hch
        exact absurd rfl hch
    · rw [hb2] at hch
      exact absurd rfl hch

/-- The direction of travel of a legal move is one of the four unit directions, and the
square behind the destination is the source or a square strictly between source and
destination. -/
theorem legal_unit_dir (b : Board) (blueSide : Bool) (m : Move) (hl : legal_move b blueSide m) :
    unit_orthogonal (unit_dir m.r1 m.c1 m.r2 m.c2).1 (unit_dir m.r1 m.c1 m.r2 m.c2).2 ∧
    ((m.r2 - (unit_dir m.r1 m.c1 m.r2 m.c2).1 = m.r1 ∧
        m.c2 - (unit_dir m.r1 m.c1 m.r2 m.c2).2 = m.c1) ∨
      strictly_between m (m.r2 - (unit_dir m.r1 m.c1 m.r2 m.c2).1)
        (m.c2 - (unit_dir m.r1 m.c1 m.r2 m.c2).2)) := by
  obtain ⟨_, _, _, h4, h5, _, _⟩ := hl
  unfold unit_orthogonal strictly_between unit_dir
  simp only
  constructor <;> split_ifs <;> omega

/-- The square behind the destination of a legal move holds no enemy of the mover. -/
theorem legal_behind (b : Board) (blueSide : Bool) (m : Move) (hl : legal_move b blueSide m) :
    enemy (b.pion (m.r2 - (unit_dir m.r1 m.c1 m.r2 m.c2).1)
      (m.c2 - (unit_dir m.r1 m.c1 m.r2 m.c2).2)) blueSide = false := by
  rcases (legal_unit_dir b blueSide m hl).2 with ⟨h1, h2⟩ | h
  · rw [h1, h2]
    exact ally_not_enemy _ _ hl.2.2.1
  · rw [hl.2.2.2.2.2.2 _ _ h]
    exact enemy_empty blueSide

/-- The squares other than source and destination that a legal move changes. -/
theorem legal_move_changed (b : Board) (blueSide : Bool) (m : Move)
    (hl : legal_move b blueSide m) (r c : Int)
    (hsrc : ¬ (r = m.r1 ∧ c = m.c1)) (hdst : ¬ (r = m.r2 ∧ c = m.c2))
    (hch : (apply_move b m).pion r c ≠ b.pion r c) :
    (apply_move b m).pion r c = EMPTY ∧ in_bounds r c = true ∧
      enemy (b.pion r c) blueSide = true ∧
      ∃ dr dc : Int, unit_orthogonal dr dc ∧ r = m.r2 + dr ∧ c = m.c2 + dc ∧
        ¬ (dr = -(unit_dir m.r1 m.c1 m.r2 m.c2).1 ∧ dc = -(unit_dir m.r1 m.c1 m.r2 m.c2).2) := by
  obtain ⟨h1, h2, h3, h4⟩ := apply_move_changed b m r c hl.2.2.2.1 hsrc hdst hch
  rw [ally_is_blue _ _ hl.2.2.1] at h3
  refine ⟨h1, h2, h3, ?_⟩
  have hback := legal_behind b blueSide m hl
  have hnb : ∀ dr dc : Int, r = m.r2 + dr → c = m.c2 + dc →
      ¬ (dr = -(unit_dir m.r1 m.c1 m.r2 m.c2).1 ∧ dc = -(unit_dir m.r1 m.c1 m.r2 m.c2).2) := by
    rintro dr dc hr hc ⟨e1, e2⟩
    have e3 : m.r2 - (unit_dir m.r1 m.c1 m.r2 m.c2).1 = r := by omega
    have e4 : m.c2 - (unit_dir m.r1 m.c1 m.r2 m.c2).2 = c := by omega
    rw [e3, e4, h3] at hback
    exact absurd hback (by decide)
  rcases h4 with ⟨d, hd, hr, hc⟩ | ⟨hr, hc⟩
  · exact ⟨DR4 d, DC4 d, (unit_orthogonal_iff _ _).2 ⟨d, hd, rfl, rfl⟩, hr, hc, hnb _ _ hr hc⟩
  · exact ⟨_, _, (legal_unit_dir b blueSide m hl).1, hr, hc, hnb _ _ hr hc⟩

/-- A legal move removes at most three enemy pieces. -/
theorem removed_enemies_le (b : Board) (blueSide : Bool) (m : Move)
    (hl : legal_move b blueSide m) :
    (removed_enemies b (apply_move b m) blueSide).length ≤ 3 := by
  have hsub : removed_enemies b (apply_move b m) blueSide ⊆
      (([((-1 : Int), (0 : Int)), (1, 0), (0, -1), (0, 1)].erase
          (-(unit_dir m.r1 m.c1 m.r2 m.c2).1, -(unit_dir m.r1 m.c1 m.r2 m.c2).2)).map
        (fun d => (m.r2 + d.1, m.c2 + d.2))) := by
    intro rc hrc
    unfold removed_enemies at hrc
    rw [List.mem_filter] at hrc
    obtain ⟨_, hrc⟩ := hrc
    simp only [Bool.and_eq_true, decide_eq_true_eq] at hrc
    obtain ⟨hen, hch⟩ := hrc
    have hsrc : ¬ (rc.1 = m.r1 ∧ rc.2 = m.c1) := by
      rintro ⟨e1, e2⟩
      rw [e1, e2, ally_not_enemy _ _ hl.2.2.1] at hen
      exact absurd hen (by decide)
    have hdst : ¬ (rc.1 = m.r2 ∧ rc.2 = m.c2) := by
      rintro ⟨e1, e2⟩
      rw [e1, e2, hl.2.2.2.2.2.1, enemy_empty] at hen
      exact absurd hen (by decide)
    obtain ⟨_, _, _, dr, dc, hd, hr, hc, hnb⟩ :=
      legal_move_changed b blueSide m hl rc.1 rc.2 hsrc hdst hch
    rw [List.mem_map]
    refine ⟨(dr, dc), ?_, ?_⟩
    · rw [List.mem_erase_of_ne]
      · unfold unit_orthogonal at hd
        simp only [List.mem_cons, Prod.mk.injEq, List.mem_nil_iff, or_false]
        exact hd
      · intro h
        injection h with e1 e2
        exact hnb ⟨e1, e2⟩
    · exact Prod.ext hr.symm hc.symm
  have hnd : (removed_enemies b (apply_move b m) blueSide).Nodup :=
    cells_nodup.filter _
  have hlen := (List.subperm_of_subset hnd hsub).length_le
  rw [List.length_map] at hlen
  have hmem : (-(unit_dir m.r1 m.c1 m.r2 m.c2).1, -(unit_dir m.r1 m.c1 m.r2 m.c2).2) ∈
      [((-1 : Int), (0 : Int)), (1, 0), (0, -1), (0, 1)] := by
    have hu := (legal_unit_dir b blueSide m hl).1
    unfold unit_orthogonal at hu
    simp only [List.mem_cons, Prod.mk.injEq, List.mem_nil_iff, or_false]
    omega
  rw [List.length_erase_of_mem hmem] at hlen
  exact hlen

/-- C40: footprint of a legal move: `apply_move` empties the source square and puts the
moved piece on the destination square; every other square that it changes is on the board,
orthogonally adjacent to the destination in a direction other than the one back towards the
source, held an enemy of the moving side and is emptied; no square holding a piece of the
moving side other than the source is changed; the square behind the mover holds no enemy;
and at most three squares that held an enemy are changed. -/
theorem apply_move_footprint (b : Board) (blueSide : Bool) (m : Move)
    (hl : legal_move b blueSide m) :
    (apply_move b m).pion m.r1 m.c1 = EMPTY ∧
    (apply_move b m).pion m.r2 m.c2 = b.pion m.r1 m.c1 ∧
    (∀ r c : Int, ¬ (r = m.r1 ∧ c = m.c1) → ¬ (r = m.r2 ∧ c = m.c2) →
      (apply_move b m).pion r c ≠ b.pion r c →
      (apply_move b m).pion r c = EMPTY ∧ in_bounds r c = true ∧
        enemy (b.pion r c) blueSide = true ∧
        ∃ dr dc : Int, unit_orthogonal dr dc ∧ r = m.r2 + dr ∧ c = m.c2 + dc ∧
          ¬ (dr = -(unit_dir m.r1 m.c1 m.r2 m.c2).1 ∧
            dc = -(unit_dir m.r1 m.c1 m.r2 m.c2).2)) ∧
    (∀ r c : Int, ally (b.pion r c) blueSide = true → ¬ (r = m.r1 ∧ c = m.c1) →
      (apply_move b m).pion r c = b.pion r c) ∧
    enemy (b.pion (m.r2 - (unit_dir m.r1 m.c1 m.r2 m.c2).1)
      (m.c2 - (unit_dir m.r1 m.c1 m.r2 m.c2).2)) blueSide = false ∧
    (removed_enemies b (apply_move b m) blueSide).length ≤ 3 := by
  refine ⟨apply_move_source b m, apply_move_dest b m hl.2.2.2.1,
    fun r c hsrc hdst hch => legal_move_changed b blueSide m hl r c hsrc hdst hch, ?_,
    legal_behind b blueSide m hl, removed_enemies_le b blueSide m hl⟩
  intro r c ha hsrc
  by_contra hch
  have hdst : ¬ (r = m.r2 ∧ c = m.c2) := by
    rintro ⟨e1, e2⟩
    rw [e1, e2, hl.2.2.2.2.2.1] at ha
    exact ally_ne_empty _ _ ha rfl
  have h3 := (legal_move_changed b blueSide m hl r c hsrc hdst hch).2.2.1
  rw [ally_not_enemy _ _ ha] at h3
  exact absurd h3 (by decide)


/-! ## Instances on the states and boards of the examples: end of game, table, ordering,
hashing, evaluation -/

set_option maxRecDepth 100000 in
theorem no_action_after_game_over_witness :
    state_over.game_over_status ≠ 0 ∧
    (logique_capture state_over 4 3 "gauche" = state_over ∧
      logique_prise state_over 4 3 = state_over ∧
      logique_verifier_conditions_fin state_over = state_over) := by
  have h : state_over.game_over_status ≠ 0 := by decide
  exact ⟨h, no_action_after_game_over state_over 4 3 "gauche" h⟩

set_option maxRecDepth 100000 in
theorem logique_verifier_conditions_fin_spec_witness :
    state_tour65.game_over_status = 0 ∧
    (logique_verifier_conditions_fin state_tour65).game_over_status =
      fin_verdict state_tour65 ∧
    fin_verdict state_tour65 = 3 := by
  have h : state_tour65.game_over_status = 0 := rfl
  have hv : fin_verdict state_tour65 = 3 := by decide
  exact ⟨h, ((logique_verifier_conditions_fin_spec state_tour65).1 h).1, hv⟩

set_option maxRecDepth 100000 in
theorem logique_calculer_scores_spec_witness :
    (in_bounds 5 5 = true ∧ logique_init_game.couleur 5 5 = 0) ∧
    ((logique_calculer_scores (logique_init_game.set_couleur 5 5 1)).game_over_status = 1 ∧
      (logique_calculer_scores (logique_init_game.set_couleur 5 5 2)).game_over_status = 2) := by
  have h1 : in_bounds 5 5 = true := by decide
  have h2 : logique_init_game.couleur 5 5 = 0 := by decide
  exact ⟨⟨h1, h2⟩, (logique_calculer_scores_spec logique_init_game).2.2.2.2 5 5 h1 h2⟩

set_option maxRecDepth 100000 in
theorem minimax_classification_blue_witness :
    (check_winner board_mirror = 0 ∧ generate_moves board_mirror true MAX_MOVES ≠ []) ∧
    (-INF_SCORE <
        (minimax zobrist_init 1 board_mirror (-INF_SCORE) INF_SCORE true 77
          ⟨tt_zero, none⟩).1 ∧
      (minimax zobrist_init 1 board_mirror (-INF_SCORE) INF_SCORE true 77
          ⟨tt_zero, none⟩).1 < INF_SCORE) ∧
    (tt_probe (minimax zobrist_init 1 board_mirror (-INF_SCORE) INF_SCORE true 77
        ⟨tt_zero, none⟩).2.2.TT 77).flag = TT_UPPER := by
  have h0 : check_winner board_mirror = 0 := by decide
  have hm : generate_moves board_mirror true MAX_MOVES ≠ [] := by decide
  have h := minimax_classification_blue zobrist_init board_mirror 77 h0 hm
  exact ⟨⟨h0, hm⟩, h.1, h.2.2.2⟩

set_option maxRecDepth 100000 in
theorem minimax_lookup_spec_witness :
    (check_winner board_exact_flag = 0 ∧ (tt_probe tt_one 5).key = 5 ∧
      (tt_probe tt_one 5).depth ≥ ((1 + 1 : Nat) : Int) ∧ (tt_probe tt_one 5).flag = TT_EXACT) ∧
    minimax zobrist_init (1 + 1) board_exact_flag (-50) 50 true 5 ⟨tt_one, none⟩ =
      ((tt_probe tt_one 5).value, board_exact_flag, ⟨tt_one, none⟩) := by
  have h0 : check_winner board_exact_flag = 0 := by decide
  have hk : (tt_probe tt_one 5).key = 5 := by decide
  have hd : (tt_probe tt_one 5).depth ≥ ((1 + 1 : Nat) : Int) := by decide
  have hf : (tt_probe tt_one 5).flag = TT_EXACT := by decide
  exact ⟨⟨h0, hk, hd, hf⟩,
    ((minimax_lookup_spec zobrist_init 1 board_exact_flag (-50) 50 true 5 ⟨tt_one, none⟩ h0
      hk).1 hd).1 hf⟩

set_option maxRecDepth 100000 in
theorem sort_moves_tiers_witness :
    (∀ m ∈ generate_moves board_mirror true MAX_MOVES, legal_move board_mirror true m) ∧
    (sort_moves board_mirror true (generate_moves board_mirror true MAX_MOVES)
      (generate_moves board_mirror true MAX_MOVES).length (some ⟨0, 0, 0, 1⟩))[0]? =
        some ⟨0, 0, 0, 1⟩ := by
  have hl : ∀ m ∈ generate_moves board_mirror true MAX_MOVES, legal_move board_mirror true m := by
    intro m hm
    rw [generate_moves_eq_all] at hm
    exact legal_of_mem_all_moves _ _ _ hm
  have hmem : (⟨0, 0, 0, 1⟩ : Move) ∈ generate_moves board_mirror true MAX_MOVES := by decide
  exact ⟨hl,
    (sort_moves_tiers board_mirror true (generate_moves board_mirror true MAX_MOVES)
      (some ⟨0, 0, 0, 1⟩) hl).1 ⟨0, 0, 0, 1⟩ rfl hmem⟩

set_option maxRecDepth 100000 in
theorem zobrist_hash_fingerprint_witness :
    (in_bounds 3 4 = true ∧ ((0 : Int) ≤ 0 ∧ (0 : Int) ≤ 4) ∧ ((0 : Int) ≤ 4 ∧ (4 : Int) ≤ 4) ∧
      board_zero.pion 3 4 = 0 ∧ (board_zero.set 3 4 4).pion 3 4 = 4 ∧
      ∀ r' c' : Int, (r' ≠ 3 ∨ c' ≠ 4) →
        (board_zero.set 3 4 4).pion r' c' = board_zero.pion r' c') ∧
    zobrist_hash zobrist_init (board_zero.set 3 4 4) true =
      zobrist_hash zobrist_init board_zero true ^^^ zobrist_K zobrist_init 0 3 4 ^^^
        zobrist_K zobrist_init 4 3 4 := by
  have hin : in_bounds 3 4 = true := by decide
  have hp : (0 : Int) ≤ 0 ∧ (0 : Int) ≤ 4 := by decide
  have hq : (0 : Int) ≤ 4 ∧ (4 : Int) ≤ 4 := by decide
  have hb : board_zero.pion 3 4 = 0 := rfl
  have hb' : (board_zero.set 3 4 4).pion 3 4 = 4 := by decide
  have hsame : ∀ r' c' : Int, (r' ≠ 3 ∨ c' ≠ 4) →
      (board_zero.set 3 4 4).pion r' c' = board_zero.pion r' c' := by
    intro r' c' h
    unfold Board.set
    simp only
    rw [if_neg]
    intro hcon
    rcases h with h | h
    · exact h hcon.1
    · exact h hcon.2
  exact ⟨⟨hin, hp, hq, hb, hb', hsame⟩,
    (zobrist_hash_fingerprint zobrist_init board_zero (board_zero.set 3 4 4) true 3 4 0 4 hin hp
      hq hb hb' hsame).1⟩

set_option maxRecDepth 100000 in
theorem evaluate_formula_witness :
    (in_bounds 1 1 = true ∧ in_bounds 7 7 = true ∧ board_progress.pion 1 1 = ROI_BLEU ∧
      board_progress.pion 7 7 = ROI_ROUGE ∧ count_code board_progress.pion ROI_BLEU = 1 ∧
      count_code board_progress.pion ROI_ROUGE = 1) ∧
    evaluate board_progress =
      12 * (count_code board_progress.pion SOLDAT_BLEU -
          count_code board_progress.pion SOLDAT_ROUGE) +
        (dist_red 7 7 - dist_blue 1 1) +
        (((generate_moves board_progress true MAX_MOVES).length : Int) -
          ((generate_moves board_progress false MAX_MOVES).length : Int)) +
        (centrality 1 1 - centrality 7 7) := by
  have h1 : in_bounds 1 1 = true := by decide
  have h2 : in_bounds 7 7 = true := by decide
  have h3 : board_progress.pion 1 1 = ROI_BLEU := by decide
  have h4 : board_progress.pion 7 7 = ROI_ROUGE := by decide
  have h5 : count_code board_progress.pion ROI_BLEU = 1 := by decide
  have h6 : count_code board_progress.pion ROI_ROUGE = 1 := by decide
  exact ⟨⟨h1, h2, h3, h4, h5, h6⟩, evaluate_formula board_progress 1 1 7 7 h1 h2 h3 h4 h5 h6⟩


/-! ## Instances on the boards of the examples: evaluation, search, captures -/

set_option maxRecDepth 100000 in
theorem king_centrality_bonus_witness :
    (in_bounds 4 4 = true ∧ (board_zero.set 4 4 ROI_BLEU).pion 4 4 = ROI_BLEU) ∧
    evaluate_centrality (board_zero.set 4 4 ROI_BLEU) 4 4 0 = 0 + king_bonus 4 4 ∧
    king_bonus 4 4 = 8 - manhattan 4 4 := by
  have hin : in_bounds 4 4 = true := by decide
  have hk : (board_zero.set 4 4 ROI_BLEU).pion 4 4 = ROI_BLEU := by decide
  have h := king_centrality_bonus (board_zero.set 4 4 ROI_BLEU) 4 4 0 hin
  exact ⟨⟨hin, hk⟩, h.1 hk, h.2.2.1⟩

set_option maxRecDepth 100000 in
theorem minimax_never_exact_witness :
    generate_moves board_mirror true MAX_MOVES ≠ [] ∧
    no_new_exact tt_zero
      (minimax zobrist_init 0 board_mirror (-INF_SCORE) INF_SCORE true 77
        ⟨tt_zero, none⟩).2.2.TT ∧
    (∃ st : LoopState,
      minimax_moves (minimax zobrist_init 0) zobrist_init ((0 + 1 : Nat) : Int) board_mirror
          (-INF_SCORE) INF_SCORE true 77 ⟨tt_zero, none⟩ ⟨0, 0, 0, 0⟩ =
        (st.bestVal, board_mirror,
          ⟨tt_store st.s.TT 77 ((0 + 1 : Nat) : Int) st.bestVal
              (if true = true then TT_UPPER
               else if st.bestVal ≤ -INF_SCORE then TT_UPPER else TT_LOWER) st.bestMove,
            st.s.outBest.map (fun _ => st.bestMove)⟩)) := by
  have hm : generate_moves board_mirror true MAX_MOVES ≠ [] := by decide
  have h := minimax_never_exact zobrist_init 0 board_mirror (-INF_SCORE) INF_SCORE true 77
    ⟨tt_zero, none⟩ ⟨0, 0, 0, 0⟩ (ia_init_once none)
  exact ⟨hm, h.1, h.2.1 hm⟩

set_option maxRecDepth 100000 in
theorem search_best_move_decided_witness :
    (check_winner board_decided ≠ 0 ∧ generate_moves board_decided true MAX_MOVES ≠ []) ∧
    (search_best_move (ia_init_once none) board_decided true).1 = ⟨-1, -1, -1, -1⟩ := by
  have hw : check_winner board_decided ≠ 0 := by decide
  have hm : generate_moves board_decided true MAX_MOVES ≠ [] := by decide
  exact ⟨⟨hw, hm⟩, (search_best_move_decided (ia_init_once none) board_decided true hw).1⟩

set_option maxRecDepth 100000 in
theorem search_value_range_witness :
    TTok 0 tt_zero ∧
    (-30000 < evaluate board_mirror ∧ evaluate board_mirror < 30000) ∧
    search_value
      (minimax zobrist_init 0 board_mirror (-INF_SCORE) INF_SCORE true 77 ⟨tt_zero, none⟩).1 ∧
    to_int16 (EVAL_CLAMP 100000) = 30000 := by
  have hs : TTok 0 tt_zero := fun _ =>
    ⟨(by decide : (0 : Int) ≤ 0), (by decide : (-30000 : Int) ≤ 0),
      (by decide : (0 : Int) ≤ 30000)⟩
  have h := search_value_range zobrist_init 0 0 board_mirror (-INF_SCORE) INF_SCORE true 77
    ⟨tt_zero, none⟩ ⟨0, 0, 0, 0⟩ hs
  have hv := (h.2.2.2 100000 (Or.inr (Or.inl rfl))).1
  exact ⟨hs, ⟨h.1.1, h.1.2.1⟩, h.2.1.2.2.2.2.1, by rw [hv]; rfl⟩

set_option maxRecDepth 100000 in
theorem captures_commute_spec_witness :
    unit_orthogonal 0 1 ∧
    simulate_sandwich (simulate_push_capture board_two_captures 4 4 0 1) 4 4 =
      simulate_push_capture (simulate_sandwich board_two_captures 4 4) 4 4 0 1 ∧
    (simulate_push_capture board_two_captures 4 4 0 1).pion 4 5 = EMPTY ∧
    (simulate_sandwich board_two_captures 4 4).pion 3 4 = EMPTY := by
  have hd : unit_orthogonal 0 1 := Or.inr (Or.inr (Or.inr ⟨rfl, rfl⟩))
  exact ⟨hd, (captures_commute_spec board_two_captures 4 4 0 1 hd).1, by decide, by decide⟩

set_option maxRecDepth 100000 in
theorem rule_layer_engine_agree_witness :
    (state_push.game_over_status = 0 ∧ valid_grid state_push.pion ∧
      state_push.pion 5 2 ≠ EMPTY) ∧
    (logique_capture state_push 5 2 "droite").board =
      simulate_push_capture state_push.board 5 2 0 1 ∧
    (logique_prise state_push 5 2).board = simulate_sandwich state_push.board 5 2 ∧
    (simulate_push_capture state_push.board 5 2 0 1).pion 5 3 = EMPTY := by
  have hgrid : valid_grid state_push.pion := valid_grid_of_cells _ (by decide)
  have ha : state_push.pion 5 2 ≠ EMPTY := by decide
  have h := rule_layer_engine_agree state_push 5 2 rfl hgrid ha
  exact ⟨⟨rfl, hgrid, ha⟩, h.2.2.2.2.1, h.2.2.2.2.2, by decide⟩

set_option maxRecDepth 100000 in
theorem apply_move_footprint_witness :
    legal_move board_footprint true ⟨4, 2, 4, 4⟩ ∧
    (apply_move board_footprint ⟨4, 2, 4, 4⟩).pion 4 2 = EMPTY ∧
    (apply_move board_footprint ⟨4, 2, 4, 4⟩).pion 4 4 = board_footprint.pion 4 2 ∧
    (removed_enemies board_footprint (apply_move board_footprint ⟨4, 2, 4, 4⟩) true).length ≤ 3 ∧
    removed_enemies board_footprint (apply_move board_footprint ⟨4, 2, 4, 4⟩) true =
      [(3, 4), (4, 5)] := by
  have hl : legal_move board_footprint true ⟨4, 2, 4, 4⟩ :=
    legal_of_mem_all_moves _ _ _ (by decide)
  have h := apply_move_footprint board_footprint true ⟨4, 2, 4, 4⟩ hl
  exact ⟨hl, h.1, h.2.1, h.2.2.2.2.2, by decide⟩

end Krojanty
